import Mathlib

set_option maxHeartbeats 1000000

namespace Dex

/-- A byte buffer with a cursor position and the name-compression occurrence
map, mirroring `Bytes` in src/src/lib.rs. Bytes are modelled as natural
numbers below 256 and the buffer as a list; the `occs` HashMap is modelled
as an association list (the source only ever inserts keys that are absent,
so first-match lookup agrees with the HashMap). -/
structure Bytes where
  buf : List Nat
  pos : Nat
  occs : List (List Nat × Nat)
deriving Repr, DecidableEq

namespace Bytes

/-- `Bytes::new`. -/
def new : Bytes := ⟨[], 0, []⟩

/-- `Bytes::from_buf`. -/
def fromBuf (buf : List Nat) : Bytes := ⟨buf, 0, []⟩

/-- `Bytes::remainder`. -/
def remainder (b : Bytes) : List Nat := b.buf.drop b.pos

/-- `Bytes::read`: next byte, advancing the cursor; `none` at end of buffer. -/
def read (b : Bytes) : Option (Nat × Bytes) :=
  match b.remainder with
  | [] => none
  | x :: _ => some (x, { b with pos := b.pos + 1 })

/-- `Bytes::peek`: next byte without advancing. -/
def peek (b : Bytes) : Option Nat :=
  match b.remainder with
  | [] => none
  | x :: _ => some x

/-- `Bytes::read_exact`. -/
def readExact (b : Bytes) (n : Nat) : Option (List Nat × Bytes) :=
  if b.remainder.length < n then none
  else some (b.remainder.take n, { b with pos := b.pos + n })

/-- `Bytes::read_u16` (big endian). -/
def readU16 (b : Bytes) : Option (Nat × Bytes) :=
  match b.readExact 2 with
  | some ([x, y], b1) => some (x * 256 + y, b1)
  | _ => none

/-- `Bytes::read_u32` (big endian). -/
def readU32 (b : Bytes) : Option (Nat × Bytes) :=
  match b.readExact 4 with
  | some ([x, y, z, w], b1) =>
      some (((x * 256 + y) * 256 + z) * 256 + w, b1)
  | _ => none

/-- `Bytes::write`: push one byte and advance. -/
def write (b : Bytes) (byte : Nat) : Bytes :=
  { b with buf := b.buf ++ [byte], pos := b.pos + 1 }

/-- `Bytes::write_all`. -/
def writeAll (b : Bytes) (bytes : List Nat) : Bytes :=
  bytes.foldl write b

/-- `Bytes::write_u16` (big-endian `to_be_bytes`). -/
def writeU16 (b : Bytes) (num : Nat) : Bytes :=
  b.writeAll [num / 256 % 256, num % 256]

/-- `Bytes::write_u32` (big-endian `to_be_bytes`). -/
def writeU32 (b : Bytes) (num : Nat) : Bytes :=
  b.writeAll [num / 16777216 % 256, num / 65536 % 256, num / 256 % 256, num % 256]

/-- `Bytes::set`. -/
def set (b : Bytes) (p : Nat) (byte : Nat) : Bytes :=
  { b with buf := b.buf.set p byte }

/-- `Bytes::set_all`. -/
def setAll (b : Bytes) (p : Nat) (bytes : List Nat) : Bytes :=
  ((bytes.enum).foldl (fun acc e => acc.set (p + e.1) e.2) b)

/-- `Bytes::set_u16`. -/
def setU16 (b : Bytes) (p : Nat) (num : Nat) : Bytes :=
  b.setAll p [num / 256 % 256, num % 256]

/-- `Bytes::find_first_occ`, keyed by the textual form of a name. -/
def findFirstOcc (b : Bytes) (key : List Nat) : Option Nat :=
  b.occs.lookup key

/-- `Bytes::set_first_occ`. -/
def setFirstOcc (b : Bytes) (key : List Nat) (p : Nat) : Bytes :=
  { b with occs := (key, p) :: b.occs }

end Bytes

/-- A DNS label, as the UTF-8 byte content of its string. -/
abbrev Label := List Nat

/-- Validity of a byte sequence as UTF-8, mirroring the success of Rust
`String::from_utf8` (RFC 3629 ranges, surrogates and overlong forms
excluded). -/
def utf8Cont (b : Nat) : Bool := 128 ≤ b && b < 192

/-- UTF-8 validity checker for a byte list. -/
def utf8Valid : List Nat → Bool
  | [] => true
  | b :: rest =>
    if b < 128 then utf8Valid rest
    else if 194 ≤ b && b ≤ 223 then
      match rest with
      | c1 :: r => utf8Cont c1 && utf8Valid r
      | _ => false
    else if b == 224 then
      match rest with
      | c1 :: c2 :: r => (160 ≤ c1 && c1 < 192) && utf8Cont c2 && utf8Valid r
      | _ => false
    else if 225 ≤ b && b ≤ 236 then
      match rest with
      | c1 :: c2 :: r => utf8Cont c1 && utf8Cont c2 && utf8Valid r
      | _ => false
    else if b == 237 then
      match rest with
      | c1 :: c2 :: r => (128 ≤ c1 && c1 < 160) && utf8Cont c2 && utf8Valid r
      | _ => false
    else if 238 ≤ b && b ≤ 239 then
      match rest with
      | c1 :: c2 :: r => utf8Cont c1 && utf8Cont c2 && utf8Valid r
      | _ => false
    else if b == 240 then
      match rest with
      | c1 :: c2 :: c3 :: r =>
          (144 ≤ c1 && c1 < 192) && utf8Cont c2 && utf8Cont c3 && utf8Valid r
      | _ => false
    else if 241 ≤ b && b ≤ 243 then
      match rest with
      | c1 :: c2 :: c3 :: r =>
          utf8Cont c1 && utf8Cont c2 && utf8Cont c3 && utf8Valid r
      | _ => false
    else if b == 244 then
      match rest with
      | c1 :: c2 :: c3 :: r =>
          (128 ≤ c1 && c1 < 144) && utf8Cont c2 && utf8Cont c3 && utf8Valid r
      | _ => false
    else false

/-- The regex `^*|[[:alpha:]]([[:alpha:]0-9-]*[[:alpha:]0-9])?$` from
`Label::from_str` in src/src/lib.rs, as used through `Regex::is_match`.
The first alternative is a repetition of the start anchor; it matches
the empty substring at the start of every haystack, so the unanchored
`is_match` search succeeds on every input string. -/
def labelRegexMatch (_text : List Nat) : Bool := true

namespace Label

/-- `Label::from_str` in src/src/lib.rs: asserts length below 63 and that
the text is empty or matches the regex; an assertion failure (a panic) is
modelled as `none`. -/
def fromStr (text : List Nat) : Option Label :=
  if text.length < 63 && (text.isEmpty || labelRegexMatch text) then some text
  else none

/-- `Label::from_bytes`: one length byte, then that many content bytes,
decoded through `String::from_utf8`; any panic is `none`. -/
def fromBytes (b : Bytes) : Option (Label × Bytes) :=
  match b.read with
  | none => none
  | some (len, b1) =>
    match b1.readExact len with
    | none => none
    | some (bytez, b2) =>
      if utf8Valid bytez then
        match fromStr bytez with
        | none => none
        | some l => some (l, b2)
      else none

/-- `Label::to_bytes`. -/
def toBytes (l : Label) (b : Bytes) : Bytes :=
  (b.write (l.length % 256)).writeAll l

end Label

/-- A fully qualified DNS domain name: a list of labels. -/
structure Name where
  labels : List (List Nat)
deriving Repr, DecidableEq

/-- Total wire length of a label sequence as computed by
`Name::from_labels`: one length byte per label plus the content bytes. -/
def labelsWireLen (ls : List (List Nat)) : Nat :=
  ls.length + (ls.map List.length).sum

namespace Name

/-- `Name::from_labels` in src/src/lib.rs: asserts the label list is
non-empty, the wire length is below 255, the last label is the root label,
all other labels are non-empty, and no label beyond the leftmost is the
wildcard label; a panic is `none`. -/
def fromLabels (ls : List (List Nat)) : Option Name :=
  if ls.isEmpty then none
  else if 255 ≤ labelsWireLen ls then none
  else
    match ls.getLast? with
    | none => none
    | some last =>
      if last == ([] : List Nat) then
        if ls.dropLast.any (fun l => l == ([] : List Nat)) then none
        else if (ls.dropLast.drop 1).any (fun l => l == [42]) then none
        else some ⟨ls⟩
      else none

/-- `Name::is_root`. -/
def isRoot (n : Name) : Bool := n.labels.length == 1

end Name

/-- The `Display` rendering of a name (`name.to_string()`): each label
followed by a dot when the label is non-empty. Byte 46 is the dot. -/
def nameText (n : Name) : List Nat :=
  n.labels.foldl (fun acc l => acc ++ l ++ (if l == ([] : List Nat) then [] else [46])) []

namespace Name

/-- `FromStr for Name`: append a trailing dot if absent, special-case the
root, otherwise split on dots, build labels, and run `from_labels`. -/
def fromStr (s : List Nat) : Option Name :=
  let s1 := if s.getLast? == some 46 then s else s ++ [46]
  if s1 == [46] then fromLabels [[]]
  else
    match (s1.splitOn 46).mapM Label.fromStr with
    | none => none
    | some ls => fromLabels ls

/-- `Name::to_wildcard`: replace the leftmost label with the wildcard
label and re-parse; uses `from_str`, so a panic inside is `none`. -/
def toWildcard (n : Name) : Option Name :=
  fromStr (List.intercalate [46] (([42] : List Nat) :: n.labels.drop 1))

end Name

/-- Outcome of a decoder: `fmt` models every panic or unwrap failure while
parsing (a format error fatal to the request); `fuel` marks exhaustion of
the explicit fuel used to express the source's unbounded loop. -/
inductive DecErr where
  | fmt
  | fuel
deriving Repr, DecidableEq

namespace Name

/-- The loop of `Name::from_bytes`: reads labels, follows compression
pointers, tracking `restore` (the cursor after the first pointer) and
`mx` (the offset of the most recent hop); a pointer whose target is not
strictly below `mx` is a format error. The source loop is expressed with
explicit fuel. -/
def fromBytesLoop : Nat → Bytes → List (List Nat) → Option Nat → Nat →
    Except DecErr (Name × Bytes)
  | 0, _, _, _, _ => .error .fuel
  | fuel + 1, b, labels, restore, mx =>
    match b.peek with
    | none => .error .fmt
    | some signal =>
      if (signal >>> 6) &&& 3 == 3 then
        match b.readU16 with
        | none => .error .fmt
        | some (ptr, b1) =>
          let off := ptr &&& 16383
          if mx ≤ off then .error .fmt
          else
            let restore1 := match restore with
              | none => some b1.pos
              | some r => some r
            fromBytesLoop fuel { b1 with pos := off } labels restore1 off
      else
        match Label.fromBytes b with
        | none => .error .fmt
        | some (l, b1) =>
          if l.length == 0 then
            match fromLabels (labels ++ [l]) with
            | none => .error .fmt
            | some n =>
              match restore with
              | none => .ok (n, b1)
              | some r => .ok (n, { b1 with pos := r })
          else fromBytesLoop fuel b1 (labels ++ [l]) restore mx

/-- Fuel that provably suffices for `fromBytesLoop` (each step either
advances the cursor within the buffer or strictly decreases `mx`). -/
def loopFuel (b : Bytes) : Nat :=
  (b.pos + 1) * (b.buf.length + 2) + 1

/-- `Name::from_bytes`. -/
def fromBytes (b : Bytes) : Except DecErr (Name × Bytes) :=
  fromBytesLoop (loopFuel b) b [] none b.pos

/-- The loop of `Name::to_bytes` over the suffixes of the name, from the
full name down: emit the root byte at the root, emit a back-pointer when
the suffix has occurred, otherwise record the occurrence and emit the
suffix's leading label. The iterator's `from_labels` panic is `none`. -/
def toBytesLoop (labels : List (List Nat)) (i : Nat) (b : Bytes) : Option Bytes :=
  if _h : labels.length + 1 ≤ i then some b
  else
    match fromLabels (labels.drop i) with
    | none => none
    | some sfx =>
      let startPos := b.pos
      if sfx.isRoot then
        some (Label.toBytes sfx.labels.headI b)
      else
        match b.findFirstOcc (nameText sfx) with
        | some off => some (b.writeU16 (49152 ||| off % 65536))
        | none =>
          toBytesLoop labels (i + 1)
            (Label.toBytes sfx.labels.headI (b.setFirstOcc (nameText sfx) startPos))
termination_by labels.length + 1 - i

/-- `Name::to_bytes`. -/
def toBytes (n : Name) (b : Bytes) : Option Bytes :=
  toBytesLoop n.labels 0 b

end Name

/-- One step of the `Suffixes` / `Ancestors` iterators: a yielded name with
the successor state, exhaustion, or a panic inside `from_labels`. -/
inductive IterStep where
  | yield (n : Name) (pos : Nat)
  | done
  | fault
deriving Repr, DecidableEq

/-- `Suffixes::next` (src/src/lib.rs): starting at `pos = 0`, while
`pos ≤ len` build a name from `labels[pos..]` and advance. -/
def suffixesNext (nm : Name) (pos : Nat) : IterStep :=
  let len := nm.labels.length
  if len < pos then .done
  else
    match Name.fromLabels (nm.labels.drop pos) with
    | none => .fault
    | some n => .yield n (pos + 1)

/-- `Ancestors::next` (src/src/lib.rs): starting at `pos = 1`, while
`pos ≤ len` build a name from `labels[len-pos..]` and advance. -/
def ancestorsNext (nm : Name) (pos : Nat) : IterStep :=
  let len := nm.labels.length
  if len < pos then .done
  else
    match Name.fromLabels (nm.labels.drop (len - pos)) with
    | none => .fault
    | some n => .yield n (pos + 1)

/-- How an iterator run ended. -/
inductive IterEnd where
  | done
  | fault
  | fuel
deriving Repr, DecidableEq

/-- Drive an iterator `step` function from state `pos`, collecting yielded
names, with explicit fuel. -/
def iterRun (step : Nat → IterStep) : Nat → Nat → List Name × IterEnd
  | _, 0 => ([], .fuel)
  | pos, fuel + 1 =>
    match step pos with
    | .done => ([], .done)
    | .fault => ([], .fault)
    | .yield n pos1 =>
      let (ns, e) := iterRun step pos1 fuel
      (n :: ns, e)

/-- Collect the whole `Suffixes` iteration of a name. -/
def suffixesRun (nm : Name) : List Name × IterEnd :=
  iterRun (suffixesNext nm) 0 (nm.labels.length + 2)

/-- Collect the whole `Ancestors` iteration of a name. -/
def ancestorsRun (nm : Name) : List Name × IterEnd :=
  iterRun (ancestorsNext nm) 1 (nm.labels.length + 2)

/-- DNS record class (`Class` in src/src/lib.rs). The Rust field `class`
is rendered `cls` here because `class` is a Lean keyword. -/
inductive RClass where
  | inn
  | cs
  | ch
  | hs
deriving Repr, DecidableEq

namespace RClass

/-- `From<u16> for Class`; unknown values panic, modelled as `none`. -/
def fromU16 : Nat → Option RClass
  | 1 => some .inn
  | 2 => some .cs
  | 3 => some .ch
  | 4 => some .hs
  | _ => none

/-- `From<Class> for u16`. -/
def toU16 : RClass → Nat
  | .inn => 1
  | .cs => 2
  | .ch => 3
  | .hs => 4

end RClass

/-- A DNS resource record (`Record` in src/src/lib.rs): a tagged variant
over the seventeen supported kinds. IPv4 addresses are their `u32` value,
IPv6 addresses their sixteen octets, strings their UTF-8 bytes. -/
inductive Record where
  | a (name : Name) (cls : RClass) (ttl : Nat) (addr : Nat)
  | ns (name : Name) (cls : RClass) (ttl : Nat) (host : Name)
  | md (name : Name) (cls : RClass) (ttl : Nat) (host : Name)
  | mf (name : Name) (cls : RClass) (ttl : Nat) (host : Name)
  | cname (name : Name) (cls : RClass) (ttl : Nat) (host : Name)
  | soa (name : Name) (cls : RClass) (ttl : Nat) (origin : Name)
      (mailbox : Name) (version : Nat) (refresh : Nat) (retry : Nat)
      (expire : Nat) (minimum : Nat)
  | mb (name : Name) (cls : RClass) (ttl : Nat) (host : Name)
  | mg (name : Name) (cls : RClass) (ttl : Nat) (host : Name)
  | mr (name : Name) (cls : RClass) (ttl : Nat) (host : Name)
  | null (name : Name) (cls : RClass) (ttl : Nat) (data : List Nat)
  | wks (name : Name) (cls : RClass) (ttl : Nat) (addr : Nat)
      (protocol : Nat) (data : List Nat)
  | ptr (name : Name) (cls : RClass) (ttl : Nat) (host : Name)
  | hinfo (name : Name) (cls : RClass) (ttl : Nat) (cpu : List Nat) (os : List Nat)
  | minfo (name : Name) (cls : RClass) (ttl : Nat) (rMailbox : Name) (eMailbox : Name)
  | mx (name : Name) (cls : RClass) (ttl : Nat) (priority : Nat) (host : Name)
  | txt (name : Name) (cls : RClass) (ttl : Nat) (content : List Nat)
  | aaaa (name : Name) (cls : RClass) (ttl : Nat) (addr16 : List Nat)
deriving Repr, DecidableEq

namespace Record

/-- `Record::name`. -/
def name : Record → Name
  | .a n _ _ _ => n
  | .ns n _ _ _ => n
  | .md n _ _ _ => n
  | .mf n _ _ _ => n
  | .cname n _ _ _ => n
  | .soa n _ _ _ _ _ _ _ _ _ => n
  | .mb n _ _ _ => n
  | .mg n _ _ _ => n
  | .mr n _ _ _ => n
  | .null n _ _ _ => n
  | .wks n _ _ _ _ _ => n
  | .ptr n _ _ _ => n
  | .hinfo n _ _ _ _ => n
  | .minfo n _ _ _ _ => n
  | .mx n _ _ _ _ => n
  | .txt n _ _ _ => n
  | .aaaa n _ _ _ => n

/-- `Record::class`. -/
def cls : Record → RClass
  | .a _ c _ _ => c
  | .ns _ c _ _ => c
  | .md _ c _ _ => c
  | .mf _ c _ _ => c
  | .cname _ c _ _ => c
  | .soa _ c _ _ _ _ _ _ _ _ => c
  | .mb _ c _ _ => c
  | .mg _ c _ _ => c
  | .mr _ c _ _ => c
  | .null _ c _ _ => c
  | .wks _ c _ _ _ _ => c
  | .ptr _ c _ _ => c
  | .hinfo _ c _ _ _ => c
  | .minfo _ c _ _ _ => c
  | .mx _ c _ _ _ => c
  | .txt _ c _ _ => c
  | .aaaa _ c _ _ => c

/-- `Record::ttl`. -/
def ttl : Record → Nat
  | .a _ _ t _ => t
  | .ns _ _ t _ => t
  | .md _ _ t _ => t
  | .mf _ _ t _ => t
  | .cname _ _ t _ => t
  | .soa _ _ t _ _ _ _ _ _ _ => t
  | .mb _ _ t _ => t
  | .mg _ _ t _ => t
  | .mr _ _ t _ => t
  | .null _ _ t _ => t
  | .wks _ _ t _ _ _ => t
  | .ptr _ _ t _ => t
  | .hinfo _ _ t _ _ => t
  | .minfo _ _ t _ _ => t
  | .mx _ _ t _ _ => t
  | .txt _ _ t _ => t
  | .aaaa _ _ t _ => t

/-- `Record::code`. -/
def code : Record → Nat
  | .a .. => 1
  | .ns .. => 2
  | .md .. => 3
  | .mf .. => 4
  | .cname .. => 5
  | .soa .. => 6
  | .mb .. => 7
  | .mg .. => 8
  | .mr .. => 9
  | .null .. => 10
  | .wks .. => 11
  | .ptr .. => 12
  | .hinfo .. => 13
  | .minfo .. => 14
  | .mx .. => 15
  | .txt .. => 16
  | .aaaa .. => 28

/-- `Record::with_name`: a copy of the record with its owner name replaced. -/
def withName (r : Record) (n : Name) : Record :=
  match r with
  | .a _ c t ad => .a n c t ad
  | .ns _ c t h => .ns n c t h
  | .md _ c t h => .md n c t h
  | .mf _ c t h => .mf n c t h
  | .cname _ c t h => .cname n c t h
  | .soa _ c t o m v rf rt e mi => .soa n c t o m v rf rt e mi
  | .mb _ c t h => .mb n c t h
  | .mg _ c t h => .mg n c t h
  | .mr _ c t h => .mr n c t h
  | .null _ c t d => .null n c t d
  | .wks _ c t ad p d => .wks n c t ad p d
  | .ptr _ c t h => .ptr n c t h
  | .hinfo _ c t cp o => .hinfo n c t cp o
  | .minfo _ c t r e => .minfo n c t r e
  | .mx _ c t p h => .mx n c t p h
  | .txt _ c t ct => .txt n c t ct
  | .aaaa _ c t ad => .aaaa n c t ad

/-- Whether the record is a CNAME (`matches!(r, Record::Cname { .. })`). -/
def isCname : Record → Bool
  | .cname .. => true
  | _ => false

/-- Whether the record is an NS (`matches!(r, Record::Ns { .. })`). -/
def isNs : Record → Bool
  | .ns .. => true
  | _ => false

end Record

/-- A zone: its name and its records in declaration order
(`Zone` in src/src/lib.rs). -/
structure Zone where
  zname : Name
  records : List Record

/-- `Zone::find_with_name`: all records whose name equals `n`, in
declaration order. -/
def Zone.findWithName (z : Zone) (n : Name) : List Record :=
  z.records.filter (fun r => r.name == n)

/-- The four IPv4 octets of a `u32` value, as produced by
`Ipv4Addr::octets` after `Ipv4Addr::from(u32)`. -/
def ipv4Octets (addr : Nat) : List Nat :=
  [addr / 16777216 % 256, addr / 65536 % 256, addr / 256 % 256, addr % 256]

/-- Rust `slice::chunks(255)`, used by the TXT encoder. -/
def chunks255 (l : List Nat) : List (List Nat) :=
  if l.isEmpty then [] else l.take 255 :: chunks255 (l.drop 255)
termination_by l.length
decreasing_by
  rename_i h
  simp only [List.isEmpty_iff] at h
  simp only [List.length_drop]
  have : l.length ≠ 0 := fun hl => h (List.length_eq_zero.mp hl)
  omega

/-- The character-string loop of the TXT decoder in `Record::from_bytes`:
read length-prefixed strings until `rd_len` bytes are consumed; the running
count is `u16` arithmetic, hence the modulus. Fuel expresses the source's
`while` loop. -/
def txtLoop : Nat → Bytes → Nat → Nat → Except DecErr (List Nat × Bytes)
  | 0, _, _, _ => .error .fuel
  | fuel + 1, b, readCount, rdLen =>
    if readCount < rdLen then
      match b.read with
      | none => .error .fmt
      | some (len, b1) =>
        match b1.readExact len with
        | none => .error .fmt
        | some (bytez, b2) =>
          (txtLoop fuel b2 ((readCount + len + 1) % 65536) rdLen).map
            (fun p => (bytez ++ p.1, p.2))
    else .ok ([], b)

namespace Record

/-- `Record::from_bytes`: owner name, type, class, ttl and rdlength, then
the per-kind rdata; every panic (unknown type or class, short buffer,
invalid UTF-8) is a format error. The WKS arm guards the `rd_len - 5`
subtraction, which faults in the source when `rd_len < 5`. -/
def fromBytes (b : Bytes) : Except DecErr (Record × Bytes) := do
  let (nm, b) ← Name.fromBytes b
  let some (rType, b) := b.readU16 | .error .fmt
  let some (clsRaw, b) := b.readU16 | .error .fmt
  let some cls := RClass.fromU16 clsRaw | .error .fmt
  let some (ttl, b) := b.readU32 | .error .fmt
  let some (rdLen, b) := b.readU16 | .error .fmt
  match rType with
  | 1 => do
    let some (addr, b) := b.readU32 | .error .fmt
    .ok (.a nm cls ttl addr, b)
  | 2 => do
    let (host, b) ← Name.fromBytes b
    .ok (.ns nm cls ttl host, b)
  | 3 => do
    let (host, b) ← Name.fromBytes b
    .ok (.md nm cls ttl host, b)
  | 4 => do
    let (host, b) ← Name.fromBytes b
    .ok (.mf nm cls ttl host, b)
  | 5 => do
    let (host, b) ← Name.fromBytes b
    .ok (.cname nm cls ttl host, b)
  | 6 => do
    let (origin, b) ← Name.fromBytes b
    let (mailbox, b) ← Name.fromBytes b
    let some (version, b) := b.readU32 | .error .fmt
    let some (refresh, b) := b.readU32 | .error .fmt
    let some (retry, b) := b.readU32 | .error .fmt
    let some (expire, b) := b.readU32 | .error .fmt
    let some (minimum, b) := b.readU32 | .error .fmt
    .ok (.soa nm cls ttl origin mailbox version refresh retry expire minimum, b)
  | 7 => do
    let (host, b) ← Name.fromBytes b
    .ok (.mb nm cls ttl host, b)
  | 8 => do
    let (host, b) ← Name.fromBytes b
    .ok (.mg nm cls ttl host, b)
  | 9 => do
    let (host, b) ← Name.fromBytes b
    .ok (.mr nm cls ttl host, b)
  | 10 => do
    let some (data, b) := b.readExact rdLen | .error .fmt
    .ok (.null nm cls ttl data, b)
  | 11 => do
    let some (addr, b) := b.readU32 | .error .fmt
    let some (protocol, b) := b.read | .error .fmt
    if rdLen < 5 then .error .fmt
    else do
      let some (data, b) := b.readExact (rdLen - 5) | .error .fmt
      .ok (.wks nm cls ttl addr protocol data, b)
  | 12 => do
    let (host, b) ← Name.fromBytes b
    .ok (.ptr nm cls ttl host, b)
  | 13 => do
    let some (cpuLen, b) := b.read | .error .fmt
    let some (cpu, b) := b.readExact cpuLen | .error .fmt
    if utf8Valid cpu then do
      let some (osLen, b) := b.read | .error .fmt
      let some (os, b) := b.readExact osLen | .error .fmt
      if utf8Valid os then .ok (.hinfo nm cls ttl cpu os, b)
      else .error .fmt
    else .error .fmt
  | 14 => do
    let (rMailbox, b) ← Name.fromBytes b
    let (eMailbox, b) ← Name.fromBytes b
    .ok (.minfo nm cls ttl rMailbox eMailbox, b)
  | 15 => do
    let some (priority, b) := b.readU16 | .error .fmt
    let (host, b) ← Name.fromBytes b
    .ok (.mx nm cls ttl priority host, b)
  | 16 => do
    let (content, b) ← txtLoop (b.buf.length + 2) b 0 rdLen
    if utf8Valid content then .ok (.txt nm cls ttl content, b)
    else .error .fmt
  | 28 => do
    let some (addr16, b) := b.readExact 16 | .error .fmt
    .ok (.aaaa nm cls ttl addr16, b)
  | _ => .error .fmt

/-- `Record::to_bytes`: owner name, type code, class, ttl, then rdata;
variable-length kinds reserve a two-byte length slot and back-patch it
with the written size (`size as u16`). A name-encoding panic is `none`. -/
def toBytes (r : Record) (b : Bytes) : Option Bytes := do
  let b ← r.name.toBytes b
  let b := (((b.writeU16 r.code).writeU16 (RClass.toU16 r.cls)).writeU32 r.ttl)
  match r with
  | .a _ _ _ addr => some ((b.writeU16 4).writeAll (ipv4Octets addr))
  | .ns _ _ _ host => do
    let pos := b.pos
    let b := b.writeU16 0
    let b ← host.toBytes b
    some (b.setU16 pos ((b.pos - (pos + 2)) % 65536))
  | .md _ _ _ host => do
    let pos := b.pos
    let b := b.writeU16 0
    let b ← host.toBytes b
    some (b.setU16 pos ((b.pos - (pos + 2)) % 65536))
  | .mf _ _ _ host => do
    let pos := b.pos
    let b := b.writeU16 0
    let b ← host.toBytes b
    some (b.setU16 pos ((b.pos - (pos + 2)) % 65536))
  | .cname _ _ _ host => do
    let pos := b.pos
    let b := b.writeU16 0
    let b ← host.toBytes b
    some (b.setU16 pos ((b.pos - (pos + 2)) % 65536))
  | .soa _ _ _ origin mailbox version refresh retry expire minimum => do
    let pos := b.pos
    let b := b.writeU16 0
    let b ← origin.toBytes b
    let b ← mailbox.toBytes b
    let b := (((b.writeU32 version).writeU32 refresh).writeU32 retry)
    let b := ((b.writeU32 expire).writeU32 minimum)
    some (b.setU16 pos ((b.pos - (pos + 2)) % 65536))
  | .mb _ _ _ host => do
    let pos := b.pos
    let b := b.writeU16 0
    let b ← host.toBytes b
    some (b.setU16 pos ((b.pos - (pos + 2)) % 65536))
  | .mg _ _ _ host => do
    let pos := b.pos
    let b := b.writeU16 0
    let b ← host.toBytes b
    some (b.setU16 pos ((b.pos - (pos + 2)) % 65536))
  | .mr _ _ _ host => do
    let pos := b.pos
    let b := b.writeU16 0
    let b ← host.toBytes b
    some (b.setU16 pos ((b.pos - (pos + 2)) % 65536))
  | .null _ _ _ data =>
    some ((b.writeU16 (data.length % 65536)).writeAll data)
  | .wks _ _ _ addr protocol data => do
    let pos := b.pos
    let b := b.writeU16 0
    let b := ((b.writeAll (ipv4Octets addr)).write protocol).writeAll data
    some (b.setU16 pos ((b.pos - (pos + 2)) % 65536))
  | .ptr _ _ _ host => do
    let pos := b.pos
    let b := b.writeU16 0
    let b ← host.toBytes b
    some (b.setU16 pos ((b.pos - (pos + 2)) % 65536))
  | .hinfo _ _ _ cpu os => do
    let pos := b.pos
    let b := b.writeU16 0
    let b := (b.write (cpu.length % 256)).writeAll cpu
    let b := (b.write (os.length % 256)).writeAll os
    some (b.setU16 pos ((b.pos - (pos + 2)) % 65536))
  | .minfo _ _ _ rMailbox eMailbox => do
    let pos := b.pos
    let b := b.writeU16 0
    let b ← rMailbox.toBytes b
    let b ← eMailbox.toBytes b
    some (b.setU16 pos ((b.pos - (pos + 2)) % 65536))
  | .mx _ _ _ priority host => do
    let pos := b.pos
    let b := b.writeU16 0
    let b := b.writeU16 priority
    let b ← host.toBytes b
    some (b.setU16 pos ((b.pos - (pos + 2)) % 65536))
  | .txt _ _ _ content => do
    let pos := b.pos
    let b := b.writeU16 0
    let b := (chunks255 content).foldl
      (fun acc chunk => (acc.write (chunk.length % 256)).writeAll chunk) b
    some (b.setU16 pos ((b.pos - (pos + 2)) % 65536))
  | .aaaa _ _ _ addr16 =>
    some ((b.writeU16 16).writeAll addr16)

end Record

/-- `OperationCode`. -/
inductive OperationCode where
  | query
  | inverseQuery
  | status
deriving Repr, DecidableEq

namespace OperationCode

/-- `From<u8> for OperationCode`; unknown values panic, modelled `none`. -/
def fromU8 : Nat → Option OperationCode
  | 0 => some .query
  | 1 => some .inverseQuery
  | 2 => some .status
  | _ => none

/-- `From<OperationCode> for u8`. -/
def toU8 : OperationCode → Nat
  | .query => 0
  | .inverseQuery => 1
  | .status => 2

end OperationCode

/-- `ResponseCode`. -/
inductive ResponseCode where
  | success
  | formatError
  | serverFailure
  | nameError
  | notImplemented
  | refused
deriving Repr, DecidableEq

namespace ResponseCode

/-- `From<u8> for ResponseCode`; unknown values panic, modelled `none`. -/
def fromU8 : Nat → Option ResponseCode
  | 0 => some .success
  | 1 => some .formatError
  | 2 => some .serverFailure
  | 3 => some .nameError
  | 4 => some .notImplemented
  | 5 => some .refused
  | _ => none

/-- `From<ResponseCode> for u8`. -/
def toU8 : ResponseCode → Nat
  | .success => 0
  | .formatError => 1
  | .serverFailure => 2
  | .nameError => 3
  | .notImplemented => 4
  | .refused => 5

end ResponseCode

/-- Message header (`Header` in src/src/lib.rs). -/
structure Header where
  id : Nat
  isResponse : Bool
  opCode : OperationCode
  isAuthority : Bool
  isTruncated : Bool
  recursionDesired : Bool
  recursionAvailable : Bool
  respCode : ResponseCode
  questionCount : Nat
  answerCount : Nat
  authorityCount : Nat
  additionalCount : Nat
deriving Repr, DecidableEq

/-- The numeric value of a flag bit. -/
def boolBit (x : Bool) : Nat := if x then 1 else 0

namespace Header

/-- `Header::from_bytes`: id, two flag bytes, four counts; unknown
operation or response codes panic, modelled as a format error. -/
def fromBytes (b : Bytes) : Except DecErr (Header × Bytes) := do
  let some (id, b) := b.readU16 | .error .fmt
  let some (byte1, b) := b.read | .error .fmt
  let isResponse := ((byte1 >>> 7) &&& 1) == 1
  let some opCode := OperationCode.fromU8 ((byte1 &&& (15 <<< 3)) >>> 3) | .error .fmt
  let isAuthority := ((byte1 >>> 2) &&& 1) == 1
  let isTruncated := ((byte1 >>> 1) &&& 1) == 1
  let recursionDesired := (byte1 &&& 1) == 1
  let some (byte2, b) := b.read | .error .fmt
  let recursionAvailable := ((byte2 >>> 7) &&& 1) == 1
  let some respCode := ResponseCode.fromU8 (byte2 &&& 15) | .error .fmt
  let some (questionCount, b) := b.readU16 | .error .fmt
  let some (answerCount, b) := b.readU16 | .error .fmt
  let some (authorityCount, b) := b.readU16 | .error .fmt
  let some (additionalCount, b) := b.readU16 | .error .fmt
  .ok ({ id, isResponse, opCode, isAuthority, isTruncated, recursionDesired,
         recursionAvailable, respCode, questionCount, answerCount,
         authorityCount, additionalCount }, b)

/-- `Header::to_bytes`. -/
def toBytes (h : Header) (b : Bytes) : Bytes :=
  let codes1 := (boolBit h.isResponse <<< 7) ||| (OperationCode.toU8 h.opCode <<< 3) |||
    (boolBit h.isAuthority <<< 2) ||| (boolBit h.isTruncated <<< 1) |||
    boolBit h.recursionDesired
  let codes2 := (boolBit h.recursionAvailable <<< 7) ||| ResponseCode.toU8 h.respCode
  (((((((b.writeU16 h.id).write codes1).write codes2).writeU16
    h.questionCount).writeU16 h.answerCount).writeU16
    h.authorityCount).writeU16 h.additionalCount)

end Header

/-- `QuestionType`. -/
inductive QuestionType where
  | a
  | ns
  | md
  | mf
  | cname
  | soa
  | mb
  | mg
  | mr
  | null
  | wks
  | ptr
  | hinfo
  | minfo
  | mx
  | txt
  | axfr
  | mailb
  | maila
  | all
deriving Repr, DecidableEq

namespace QuestionType

/-- `From<u16> for QuestionType`; unknown values panic, modelled `none`. -/
def fromU16 : Nat → Option QuestionType
  | 1 => some .a
  | 2 => some .ns
  | 3 => some .md
  | 4 => some .mf
  | 5 => some .cname
  | 6 => some .soa
  | 7 => some .mb
  | 8 => some .mg
  | 9 => some .mr
  | 10 => some .null
  | 11 => some .wks
  | 12 => some .ptr
  | 13 => some .hinfo
  | 14 => some .minfo
  | 15 => some .mx
  | 16 => some .txt
  | 252 => some .axfr
  | 253 => some .mailb
  | 254 => some .maila
  | 255 => some .all
  | _ => none

/-- `From<QuestionType> for u16`. -/
def toU16 : QuestionType → Nat
  | .a => 1
  | .ns => 2
  | .md => 3
  | .mf => 4
  | .cname => 5
  | .soa => 6
  | .mb => 7
  | .mg => 8
  | .mr => 9
  | .null => 10
  | .wks => 11
  | .ptr => 12
  | .hinfo => 13
  | .minfo => 14
  | .mx => 15
  | .txt => 16
  | .axfr => 252
  | .mailb => 253
  | .maila => 254
  | .all => 255

/-- `QuestionType::code`. -/
def code (t : QuestionType) : Nat := toU16 t

end QuestionType

/-- `QuestionClass`. -/
inductive QuestionClass where
  | inn
  | cs
  | ch
  | hs
  | any
deriving Repr, DecidableEq

namespace QuestionClass

/-- `From<u16> for QuestionClass`; unknown values panic, modelled `none`. -/
def fromU16 : Nat → Option QuestionClass
  | 1 => some .inn
  | 2 => some .cs
  | 3 => some .ch
  | 4 => some .hs
  | 255 => some .any
  | _ => none

/-- `From<QuestionClass> for u16`. -/
def toU16 : QuestionClass → Nat
  | .inn => 1
  | .cs => 2
  | .ch => 3
  | .hs => 4
  | .any => 255

end QuestionClass

/-- A DNS question (`Question` in src/src/lib.rs). -/
structure Question where
  name : Name
  qType : QuestionType
  qClass : QuestionClass
deriving Repr, DecidableEq

namespace Question

/-- `Question::from_bytes`. -/
def fromBytes (b : Bytes) : Except DecErr (Question × Bytes) := do
  let (name, b) ← Name.fromBytes b
  let some (typeRaw, b) := b.readU16 | .error .fmt
  let some qType := QuestionType.fromU16 typeRaw | .error .fmt
  let some (clsRaw, b) := b.readU16 | .error .fmt
  let some qClass := QuestionClass.fromU16 clsRaw | .error .fmt
  .ok ({ name, qType, qClass }, b)

/-- `Question::to_bytes`. -/
def toBytes (q : Question) (b : Bytes) : Option Bytes := do
  let b ← q.name.toBytes b
  some ((b.writeU16 (QuestionType.toU16 q.qType)).writeU16
    (QuestionClass.toU16 q.qClass))

end Question

/-- A DNS message (`Message` in src/src/lib.rs). -/
structure Message where
  header : Header
  questions : List Question
  answerRecords : List Record
  authorityRecords : List Record
  additionalRecords : List Record
deriving Repr, DecidableEq

/-- Decode `n` consecutive items with decoder `dec`. -/
def decodeN (dec : Bytes → Except DecErr (α × Bytes)) :
    Nat → Bytes → Except DecErr (List α × Bytes)
  | 0, b => .ok ([], b)
  | n + 1, b => do
    let (x, b1) ← dec b
    let (xs, b2) ← decodeN dec n b1
    .ok (x :: xs, b2)

/-- Encode every item of `xs` in order with encoder `enc`. -/
def encodeAll (enc : α → Bytes → Option Bytes) (xs : List α) (b : Bytes) :
    Option Bytes :=
  match xs with
  | [] => some b
  | x :: rest => do
    let b1 ← enc x b
    encodeAll enc rest b1

namespace Message

/-- `Message::from_bytes`: header, then the header counts drive the
question, answer, authority and additional sections. -/
def fromBytes (b : Bytes) : Except DecErr (Message × Bytes) := do
  let (header, b) ← Header.fromBytes b
  let (questions, b) ← decodeN Question.fromBytes header.questionCount b
  let (answerRecords, b) ← decodeN Record.fromBytes header.answerCount b
  let (authorityRecords, b) ← decodeN Record.fromBytes header.authorityCount b
  let (additionalRecords, b) ← decodeN Record.fromBytes header.additionalCount b
  .ok ({ header, questions, answerRecords, authorityRecords,
         additionalRecords }, b)

/-- `Message::to_bytes`: header, then each section in order, sharing one
occurrence map for name compression. -/
def toBytes (m : Message) (b : Bytes) : Option Bytes := do
  let b := m.header.toBytes b
  let b ← encodeAll Question.toBytes m.questions b
  let b ← encodeAll Record.toBytes m.answerRecords b
  let b ← encodeAll Record.toBytes m.authorityRecords b
  encodeAll Record.toBytes m.additionalRecords b

end Message

/-- Outcome of the ancestor walk inside `Server::serve`: the source's
early returns become constructors, the fall-through with or without
captured wildcard answers becomes `wild` / `nomatch`, a panic inside
`to_wildcard` or the iterator becomes `fault`, and `fuelOut` marks
exhaustion of the explicit fuel used to express the source's `for` loop
(provably unreachable for the fuel `serve` passes). -/
inductive WalkOut where
  | cnameHit (r : Record)
  | exact (rs : List Record)
  | deleg (rs : List Record)
  | wild (rs : List Record)
  | nomatch
  | fault
  | fuelOut
deriving Repr, DecidableEq

/-- The `for qname in question.name.ancestors()` loop of `Server::serve`
(src/src/server.rs lines 60-142), driven over the iterator state `pos`
and carrying `wildcard_answers`; the loop is expressed with explicit
fuel. -/
def serveWalk (z : Zone) (qn : Name) (qt : QuestionType) :
    Nat → Nat → Option (List Record) → WalkOut
  | 0, _, _ => .fuelOut
  | fuel + 1, pos, wc =>
    match ancestorsNext qn pos with
    | .done =>
      match wc with
      | some rs => .wild rs
      | none => .nomatch
    | .fault => .fault
    | .yield qname pos1 =>
      let nameRecords := z.findWithName qname
      let wc1 := if nameRecords.isEmpty then wc else none
      let leaf : Option WalkOut :=
        if qname == qn then
          match nameRecords.find? Record.isCname with
          | some r => some (.cnameHit r)
          | none =>
            let matched := nameRecords.filter
              (fun r => r.code == qt.code || qt == QuestionType.all)
            if matched.isEmpty then none else some (.exact matched)
        else none
      match leaf with
      | some out => out
      | none =>
        let delegation := nameRecords.filter Record.isNs
        if !delegation.isEmpty then .deleg delegation
        else if qname.isRoot then serveWalk z qn qt fuel pos1 wc1
        else if !nameRecords.isEmpty then serveWalk z qn qt fuel pos1 wc1
        else
          match qname.toWildcard with
          | none => .fault
          | some w =>
            let wildcardRecords :=
              (z.findWithName w).filter (fun r => r.code == qt.code)
            serveWalk z qn qt fuel pos1
              (if wildcardRecords.isEmpty then wc1 else some wildcardRecords)

/-- `Server::serve` (src/src/server.rs): turn the query message into the
response message. Panics (an empty question section, or a name
construction failure during the walk) are `none`. -/
def serve (z : Zone) (query : Message) : Option Message :=
  match query.questions with
  | [] => none
  | question :: _ =>
    let response : Message :=
      { query with header := { query.header with isResponse := true } }
    if response.header.opCode ≠ OperationCode.query then
      some { response with
             header := { response.header with respCode := .notImplemented } }
    else
      match serveWalk z question.name question.qType
          (question.name.labels.length + 2) 1 none with
      | .fault => none
      | .fuelOut => none
      | .cnameHit r =>
        some { response with
               header := { response.header with
                           isAuthority := true, respCode := .success,
                           answerCount := 1 },
               answerRecords := response.answerRecords ++ [r] }
      | .exact rs =>
        some { response with
               header := { response.header with
                           isAuthority := true, respCode := .success,
                           answerCount := rs.length % 65536 },
               answerRecords := response.answerRecords ++ rs }
      | .deleg rs =>
        some { response with
               header := { response.header with
                           isAuthority := false, respCode := .success,
                           authorityCount := rs.length % 65536 },
               authorityRecords := response.authorityRecords ++ rs }
      | .wild rs =>
        some { response with
               header := { response.header with
                           isAuthority := true, respCode := .success,
                           answerCount := rs.length % 65536 },
               answerRecords := response.answerRecords ++
                 rs.map (fun r => r.withName question.name) }
      | .nomatch =>
        some { response with
               header := { response.header with respCode := .nameError } }

/-- ASCII letter. -/
def isAlpha (b : Nat) : Bool := (65 ≤ b && b ≤ 90) || (97 ≤ b && b ≤ 122)

/-- ASCII digit. -/
def isDigit (b : Nat) : Bool := 48 ≤ b && b ≤ 57

/-- Letter, digit or hyphen. -/
def isLdhB (b : Nat) : Bool := isAlpha b || isDigit b || b == 45

/-- The spec's LDH grammar for a label:
`letter (letter|digit|'-')* (letter|digit)`. -/
def ldhGrammar (l : List Nat) : Bool :=
  match l with
  | [] => false
  | [b] => isAlpha b
  | b :: rest =>
    isAlpha b && rest.dropLast.all isLdhB &&
      (match rest.getLast? with
       | some c => isAlpha c || isDigit c
       | none => false)

/-- The label validity stated by the spec (and by claim C9): length below
63 and either empty, the wildcard label, or matching the LDH grammar. -/
def specLabelOk (l : List Nat) : Bool :=
  decide (l.length < 63) && (l.isEmpty || l == [42] || ldhGrammar l)

/-- Modelled from the spec: the OPT pseudo-record of §3. It is absent from
src/src/lib.rs (the `Record` enum there has no `Opt` variant; only its
callers in cli.rs and minimal.rs reference one), so its payload is taken
from the spec: `{ name=root, max_response_size, extended_rcode, version,
dnssec_ok, data }`. -/
structure OptRecord where
  maxResponseSize : Nat
  extendedRcode : Nat
  version : Nat
  dnssecOk : Bool
  data : List Nat
deriving Repr, DecidableEq

namespace OptRecord

/-- Modelled from the spec: §3 and §4.3 describe the OPT wire layout —
root name (a single zero length byte), the OPT type code (41), the
`max_response_size` in the big-endian class slot,
`extended_rcode<<24 | version<<16 | dnssec_ok<<15` in the big-endian ttl
slot, then rdlength and the option bytes. -/
def toWire (r : OptRecord) : List Nat :=
  let ttlWord := r.extendedRcode * 16777216 + r.version * 65536 +
    (if r.dnssecOk then 32768 else 0)
  [0] ++ [41 / 256 % 256, 41 % 256] ++
  [r.maxResponseSize / 256 % 256, r.maxResponseSize % 256] ++
  [ttlWord / 16777216 % 256, ttlWord / 65536 % 256, ttlWord / 256 % 256,
    ttlWord % 256] ++
  [r.data.length % 65536 / 256 % 256, r.data.length % 65536 % 256] ++ r.data

/-- Modelled from the spec: decoding an OPT record — root name, type 41,
`max_response_size` from the class slot, the extended rcode, version and
DNSSEC-OK flag unpacked from the ttl slot, and `rdlength` bytes of option
data; anything short or mismatched is a format error. -/
def fromWire (w : List Nat) : Except DecErr OptRecord :=
  match w with
  | z :: t1 :: t2 :: c1 :: c2 :: w1 :: w2 :: w3 :: w4 :: l1 :: l2 :: rest =>
    if z ≠ 0 then .error .fmt
    else if t1 * 256 + t2 ≠ 41 then .error .fmt
    else
      let ttlWord := ((w1 * 256 + w2) * 256 + w3) * 256 + w4
      let rdLen := l1 * 256 + l2
      if rest.length < rdLen then .error .fmt
      else .ok { maxResponseSize := c1 * 256 + c2,
                 extendedRcode := ttlWord >>> 24,
                 version := (ttlWord >>> 16) &&& 255,
                 dnssecOk := ((ttlWord >>> 15) &&& 1) == 1,
                 data := rest.take rdLen }
  | _ => .error .fmt

end OptRecord

/-! ## Toolbox: byte-cursor lemmas -/

namespace Bytes

theorem write_buf (b : Bytes) (x : Nat) : (b.write x).buf = b.buf ++ [x] := rfl

theorem write_pos (b : Bytes) (x : Nat) : (b.write x).pos = b.pos + 1 := rfl

theorem write_occs (b : Bytes) (x : Nat) : (b.write x).occs = b.occs := rfl

theorem writeAll_buf (b : Bytes) (l : List Nat) :
    (b.writeAll l).buf = b.buf ++ l := by
  induction l generalizing b with
  | nil => simp [writeAll]
  | cons x xs ih =>
    simp only [writeAll, List.foldl_cons] at *
    rw [ih (b.write x)]
    simp [write]

theorem writeAll_pos (b : Bytes) (l : List Nat) :
    (b.writeAll l).pos = b.pos + l.length := by
  induction l generalizing b with
  | nil => simp [writeAll]
  | cons x xs ih =>
    simp only [writeAll, List.foldl_cons] at *
    rw [ih (b.write x)]
    simp [write]
    omega

theorem writeAll_occs (b : Bytes) (l : List Nat) :
    (b.writeAll l).occs = b.occs := by
  induction l generalizing b with
  | nil => simp [writeAll]
  | cons x xs ih =>
    simp only [writeAll, List.foldl_cons] at *
    rw [ih (b.write x)]
    rfl

/-- The two bytes appended by `writeU16`. -/
def be2 (v : Nat) : List Nat := [v / 256 % 256, v % 256]

/-- The four bytes appended by `writeU32`. -/
def be4 (v : Nat) : List Nat :=
  [v / 16777216 % 256, v / 65536 % 256, v / 256 % 256, v % 256]

theorem writeU16_buf (b : Bytes) (v : Nat) :
    (b.writeU16 v).buf = b.buf ++ be2 v := writeAll_buf b _

theorem writeU16_pos (b : Bytes) (v : Nat) :
    (b.writeU16 v).pos = b.pos + 2 := writeAll_pos b _

theorem writeU16_occs (b : Bytes) (v : Nat) :
    (b.writeU16 v).occs = b.occs := writeAll_occs b _

theorem writeU32_buf (b : Bytes) (v : Nat) :
    (b.writeU32 v).buf = b.buf ++ be4 v := writeAll_buf b _

theorem writeU32_pos (b : Bytes) (v : Nat) :
    (b.writeU32 v).pos = b.pos + 4 := writeAll_pos b _

theorem writeU32_occs (b : Bytes) (v : Nat) :
    (b.writeU32 v).occs = b.occs := writeAll_occs b _

theorem read_eq (P T : List Nat) (x : Nat) (O : List (List Nat × Nat)) :
    Bytes.read ⟨P ++ x :: T, P.length, O⟩ = some (x, ⟨P ++ x :: T, P.length + 1, O⟩) := by
  simp [read, remainder, List.drop_left]

theorem peek_eq (P T : List Nat) (x : Nat) (O : List (List Nat × Nat)) :
    Bytes.peek ⟨P ++ x :: T, P.length, O⟩ = some x := by
  simp [peek, remainder, List.drop_left]

theorem readExact_eq (P xs T : List Nat) (O : List (List Nat × Nat)) :
    Bytes.readExact ⟨P ++ xs ++ T, P.length, O⟩ xs.length =
      some (xs, ⟨P ++ xs ++ T, P.length + xs.length, O⟩) := by
  simp only [readExact, remainder]
  rw [List.append_assoc, List.drop_left]
  have h1 : (xs ++ T).length = xs.length + T.length := List.length_append xs T
  rw [if_neg (by omega)]
  simp [List.take_left]

theorem readU16_eq (P T : List Nat) (x y : Nat) (O : List (List Nat × Nat)) :
    Bytes.readU16 ⟨P ++ [x, y] ++ T, P.length, O⟩ =
      some (x * 256 + y, ⟨P ++ [x, y] ++ T, P.length + 2, O⟩) := by
  have h := readExact_eq P [x, y] T O
  norm_num at h
  simp [readU16, h]

theorem readU32_eq (P T : List Nat) (x y z w : Nat) (O : List (List Nat × Nat)) :
    Bytes.readU32 ⟨P ++ [x, y, z, w] ++ T, P.length, O⟩ =
      some (((x * 256 + y) * 256 + z) * 256 + w,
        ⟨P ++ [x, y, z, w] ++ T, P.length + 4, O⟩) := by
  have h := readExact_eq P [x, y, z, w] T O
  norm_num at h
  simp [readU32, h]

theorem be2_readU16 (v : Nat) (hv : v < 65536) (P T : List Nat)
    (O : List (List Nat × Nat)) :
    Bytes.readU16 ⟨P ++ be2 v ++ T, P.length, O⟩ =
      some (v, ⟨P ++ be2 v ++ T, P.length + 2, O⟩) := by
  have h := readU16_eq P T (v / 256 % 256) (v % 256) O
  simp only [be2]
  rw [h]
  congr 2
  omega

theorem be4_readU32 (v : Nat) (hv : v < 4294967296) (P T : List Nat)
    (O : List (List Nat × Nat)) :
    Bytes.readU32 ⟨P ++ be4 v ++ T, P.length, O⟩ =
      some (v, ⟨P ++ be4 v ++ T, P.length + 4, O⟩) := by
  have h := readU32_eq P T (v / 16777216 % 256) (v / 65536 % 256)
    (v / 256 % 256) (v % 256) O
  simp only [be4]
  rw [h]
  congr 2
  omega

end Bytes

/-! ## Claim C9: label construction -/

/-- C9, counterexample: the claim says `Label::from_str` accepts exactly
the strings of length below 63 that are empty, the wildcard, or LDH. The
string `"!"` (byte 33) is none of these, yet `from_str` accepts it: the
regex's first alternative `^*` matches the empty substring of every
haystack, so the unanchored `is_match` always succeeds. -/
theorem claim_c9_counterexample :
    (Label.fromStr [33]).isSome = true ∧ specLabelOk [33] = false := by
  constructor <;> rfl

/-- C9, amended: `Label::from_str` accepts exactly the strings whose byte
length is below 63; the regex never rejects anything because its first
alternative `^*` matches the empty substring at the start of every string. -/
theorem claim_c9 (text : List Nat) :
    (Label.fromStr text).isSome ↔ text.length < 63 := by
  simp [Label.fromStr, labelRegexMatch]

/-! ## Claim C8: unknown codes are format errors -/

/-- C8: decoding an unknown record type is a format error fatal to the
request, as is an unknown class, operation code, or response code: the
conversions return no value, and `Record::from_bytes` fails on a type code
outside the supported set after the fixed fields parse. -/
theorem claim_c8 :
    (∀ v : Nat, ¬(v = 1 ∨ v = 2 ∨ v = 3 ∨ v = 4) → RClass.fromU16 v = none) ∧
    (∀ v : Nat, ¬(v = 0 ∨ v = 1 ∨ v = 2) → OperationCode.fromU8 v = none) ∧
    (∀ v : Nat, ¬(v ≤ 5) → ResponseCode.fromU8 v = none) ∧
    (∀ v : Nat, ¬((1 ≤ v ∧ v ≤ 16) ∨ (252 ≤ v ∧ v ≤ 255)) →
      QuestionType.fromU16 v = none) ∧
    (∀ (b b1 b2 b3 b4 b5 : Bytes) (nm : Name) (rT clsRaw ttl rdLen : Nat)
      (cls : RClass),
      Name.fromBytes b = .ok (nm, b1) → b1.readU16 = some (rT, b2) →
      b2.readU16 = some (clsRaw, b3) → RClass.fromU16 clsRaw = some cls →
      b3.readU32 = some (ttl, b4) → b4.readU16 = some (rdLen, b5) →
      ¬((1 ≤ rT ∧ rT ≤ 16) ∨ rT = 28) →
      Record.fromBytes b = .error .fmt) := by
  refine ⟨?_, ?_, ?_, ?_, ?_⟩
  · intro v hv
    unfold RClass.fromU16
    split <;> simp_all
  · intro v hv
    unfold OperationCode.fromU8
    split <;> simp_all
  · intro v hv
    unfold ResponseCode.fromU8
    split <;> simp_all
  · intro v hv
    unfold QuestionType.fromU16
    split <;> simp_all
  · intro b b1 b2 b3 b4 b5 nm rT clsRaw ttl rdLen cls h1 h2 h3 h4 h5 h6 hT
    unfold Record.fromBytes
    rw [h1]
    simp only [bind, Except.bind]
    rw [h2]
    simp only
    rw [h3]
    simp only
    rw [h4]
    simp only
    rw [h5]
    simp only
    rw [h6]
    simp only
    split <;> simp_all

/-- Witness for C8 at concrete inputs: class 5, opcode 3, response code 6,
question type 17, and a record whose wire type field is 17. -/
theorem claim_c8_witness :
    RClass.fromU16 5 = none ∧ OperationCode.fromU8 3 = none ∧
    ResponseCode.fromU8 6 = none ∧ QuestionType.fromU16 17 = none ∧
    Record.fromBytes (Bytes.fromBuf [0, 0, 17, 0, 1, 0, 0, 0, 0, 0, 0]) =
      .error .fmt := by
  refine ⟨?_, ?_, ?_, ?_, ?_⟩
  · exact claim_c8.1 5 (by decide)
  · exact claim_c8.2.1 3 (by decide)
  · exact claim_c8.2.2.1 6 (by decide)
  · exact claim_c8.2.2.2.1 17 (by decide)
  · exact claim_c8.2.2.2.2
      (Bytes.fromBuf [0, 0, 17, 0, 1, 0, 0, 0, 0, 0, 0])
      ⟨[0, 0, 17, 0, 1, 0, 0, 0, 0, 0, 0], 1, []⟩
      ⟨[0, 0, 17, 0, 1, 0, 0, 0, 0, 0, 0], 3, []⟩
      ⟨[0, 0, 17, 0, 1, 0, 0, 0, 0, 0, 0], 5, []⟩
      ⟨[0, 0, 17, 0, 1, 0, 0, 0, 0, 0, 0], 9, []⟩
      ⟨[0, 0, 17, 0, 1, 0, 0, 0, 0, 0, 0], 11, []⟩
      ⟨[[]]⟩ 17 1 0 0 .inn rfl rfl rfl rfl rfl rfl (by decide)

/-! ## Claim C4: the OPT pseudo-record codec -/

/-- C4: the OPT codec places `max_response_size` in the on-wire class slot
and `dnssec_ok` in bit 15 of the ttl slot (see `OptRecord.toWire`), and
decoding the encoded bytes yields the same OPT record — in particular the
DNSSEC-OK flag survives the round trip. -/
theorem claim_c4 (r : OptRecord) (h1 : r.maxResponseSize < 65536)
    (h2 : r.extendedRcode < 256) (h3 : r.version < 256)
    (h4 : r.data.length < 65536) :
    OptRecord.fromWire (OptRecord.toWire r) = .ok r := by
  set tw := r.extendedRcode * 16777216 + r.version * 65536 +
    (if r.dnssecOk then 32768 else 0) with htw
  have herc : tw >>> 24 = r.extendedRcode := by
    rw [Nat.shiftRight_eq_div_pow, htw]
    split <;> omega
  have hver : (tw >>> 16) &&& 255 = r.version := by
    have h255 : (255 : Nat) = 2 ^ 8 - 1 := by norm_num
    rw [Nat.shiftRight_eq_div_pow, h255, Nat.and_pow_two_sub_one_eq_mod, htw]
    split <;> omega
  have hdns : (((tw >>> 15) &&& 1) == 1) = r.dnssecOk := by
    have h1' : (1 : Nat) = 2 ^ 1 - 1 := by norm_num
    rw [Nat.shiftRight_eq_div_pow, h1', Nat.and_pow_two_sub_one_eq_mod, htw]
    cases hd : r.dnssecOk <;> simp [hd] at htw ⊢ <;> omega
  have hmod : r.data.length % 65536 = r.data.length := Nat.mod_eq_of_lt h4
  unfold OptRecord.toWire OptRecord.fromWire
  rw [← htw]
  simp only [List.cons_append, List.nil_append, hmod]
  have hz : ¬((0 : Nat) ≠ 0) := by omega
  rw [if_neg hz]
  have ht : ¬(41 / 256 % 256 * 256 + 41 % 256 ≠ 41) := by omega
  rw [if_neg ht]
  have hrd : r.data.length / 256 % 256 * 256 + r.data.length % 256 =
      r.data.length := by omega
  rw [hrd]
  rw [if_neg (by omega)]
  have htt : ((tw / 16777216 % 256 * 256 + tw / 65536 % 256) * 256 +
      tw / 256 % 256) * 256 + tw % 256 = tw := by
    have : tw < 4294967296 := by
      rw [htw]
      split <;> omega
    omega
  rw [htt, herc, hver, hdns]
  have hmrs : r.maxResponseSize / 256 % 256 * 256 + r.maxResponseSize % 256 =
      r.maxResponseSize := by omega
  rw [hmrs, List.take_length]

/-- Witness for C4: a concrete OPT record with the DNSSEC-OK flag set. -/
theorem claim_c4_witness :
    OptRecord.fromWire (OptRecord.toWire ⟨4096, 0, 0, true, [1, 2]⟩) =
      .ok ⟨4096, 0, 0, true, [1, 2]⟩ :=
  claim_c4 ⟨4096, 0, 0, true, [1, 2]⟩ (by decide) (by decide) (by decide)
    (by decide)

/-! ## Toolbox: list and name well-formedness lemmas -/

theorem dropLast_drop_comm (l : List α) (k : Nat) :
    (l.drop k).dropLast = l.dropLast.drop k := by
  rw [List.dropLast_eq_take, List.dropLast_eq_take, List.drop_take,
    List.length_drop]
  congr 1
  omega

theorem getLast?_drop_of_lt (l : List α) (k : Nat) (h : k < l.length) :
    (l.drop k).getLast? = l.getLast? := by
  rw [List.getLast?_eq_getElem?, List.getLast?_eq_getElem?,
    List.getElem?_drop, List.length_drop]
  congr 1
  omega

theorem labelsWireLen_append (a b : List (List Nat)) :
    labelsWireLen (a ++ b) = labelsWireLen a + labelsWireLen b := by
  simp [labelsWireLen]
  omega

theorem labelsWireLen_drop_le (ls : List (List Nat)) (k : Nat) :
    labelsWireLen (ls.drop k) ≤ labelsWireLen ls := by
  conv_rhs => rw [← List.take_append_drop k ls]
  rw [labelsWireLen_append]
  omega

/-- Inversion of `Name.fromLabels`: what success says about the labels. -/
theorem Name.fromLabels_inv {ls : List (List Nat)} {n : Name}
    (h : Name.fromLabels ls = some n) :
    n = ⟨ls⟩ ∧ ls ≠ [] ∧ labelsWireLen ls < 255 ∧ ls.getLast? = some [] ∧
    (∀ l ∈ ls.dropLast, l ≠ []) ∧ (∀ l ∈ ls.dropLast.drop 1, l ≠ [42]) := by
  unfold Name.fromLabels at h
  split at h
  · exact absurd h (by simp)
  rename_i hne
  split at h
  · exact absurd h (by simp)
  rename_i hlen
  split at h
  · exact absurd h (by simp)
  rename_i last hlast
  split at h
  · split at h
    · exact absurd h (by simp)
    split at h
    · exact absurd h (by simp)
    rename_i hroot hemp hstar
    injection h with h
    subst h
    refine ⟨rfl, by simpa using hne, by omega, ?_, ?_, ?_⟩
    · rw [hlast]
      simpa using hroot
    · intro l hl hc
      subst hc
      simp at hemp
      exact absurd hl hemp
    · intro l hl hc
      subst hc
      simp at hstar
      rw [List.drop_one] at hl
      exact absurd hl hstar
  · exact absurd h (by simp)

/-- Conversely, the conditions rebuild `from_labels` success. -/
theorem Name.fromLabels_intro (ls : List (List Nat))
    (h1 : ls ≠ []) (h2 : labelsWireLen ls < 255) (h3 : ls.getLast? = some [])
    (h4 : ∀ l ∈ ls.dropLast, l ≠ []) (h5 : ∀ l ∈ ls.dropLast.drop 1, l ≠ [42]) :
    Name.fromLabels ls = some ⟨ls⟩ := by
  have hA : ¬(ls.dropLast.any (fun l => l == ([] : List Nat)) = true) := by
    simp only [List.any_eq_true, beq_iff_eq, not_exists, not_and]
    exact h4
  have hB : ¬((ls.dropLast.drop 1).any (fun l => l == [42]) = true) := by
    simp only [List.any_eq_true, beq_iff_eq, not_exists, not_and]
    exact h5
  unfold Name.fromLabels
  rw [if_neg (by simpa using h1), if_neg (by omega), h3]
  dsimp only
  rw [if_pos (by rfl), if_neg hA, if_neg hB]

theorem mem_drop_mono {x : α} {l : List α} {i j : Nat} (hij : i ≤ j)
    (h : x ∈ l.drop j) : x ∈ l.drop i := by
  have heq : l.drop j = (l.drop i).drop (j - i) := by
    rw [List.drop_drop]
    congr 1
    omega
  rw [heq] at h
  exact List.mem_of_mem_drop h

/-- A suffix of a well-formed label sequence is well formed. -/
theorem Name.fromLabels_drop {ls : List (List Nat)} {n : Name} (k : Nat)
    (h : Name.fromLabels ls = some n) (hk : k < ls.length) :
    Name.fromLabels (ls.drop k) = some ⟨ls.drop k⟩ := by
  obtain ⟨-, h1, h2, h3, h4, h5⟩ := Name.fromLabels_inv h
  apply Name.fromLabels_intro
  · intro hc
    have := congrArg List.length hc
    simp at this
    omega
  · exact Nat.lt_of_le_of_lt (labelsWireLen_drop_le ls k) h2
  · rw [getLast?_drop_of_lt ls k hk]
    exact h3
  · intro l hl
    rw [dropLast_drop_comm] at hl
    exact h4 l (List.mem_of_mem_drop hl)
  · intro l hl
    rw [dropLast_drop_comm] at hl
    have h1k : (ls.dropLast.drop k).drop 1 = ls.dropLast.drop (k + 1) := by
      rw [List.drop_drop]
    rw [h1k] at hl
    exact h5 l (mem_drop_mono (by omega) hl)

theorem intercalate_cons_cons (x y : List Nat) (L : List (List Nat)) :
    List.intercalate [46] (x :: y :: L) =
      x ++ [46] ++ List.intercalate [46] (y :: L) := by
  simp [List.intercalate, List.intersperse]

theorem getLast?_cons_ne (x : α) (t : List α) (h : t ≠ []) :
    (x :: t).getLast? = t.getLast? := by
  match t with
  | [] => exact absurd rfl h
  | y :: t1 => exact List.getLast?_cons_cons

theorem intercalate_getLast (L : List (List Nat)) (hl : L.getLast? = some [])
    (h2 : 2 ≤ L.length) :
    (List.intercalate [46] L).getLast? = some 46 := by
  induction L with
  | nil => simp at h2
  | cons x rest ih =>
    match rest with
    | [] => simp at h2
    | y :: L' =>
      rw [intercalate_cons_cons]
      by_cases hy : 2 ≤ (y :: L').length
      · have hl' : (y :: L').getLast? = some [] := by
          have hcopy := hl
          rw [List.getLast?_cons_cons] at hcopy
          exact hcopy
        have := ih hl' hy
        rw [List.getLast?_append_of_ne_nil]
        · exact this
        · intro hc
          rw [hc] at this
          simp at this
      · have hL' : L' = [] := by
          apply List.length_eq_zero.mp
          simp only [List.length_cons, not_le] at hy
          omega
        subst hL'
        have hy0 : y = [] := by
          have := hl
          simp [List.getLast?] at this ⊢
          simpa using this
        subst hy0
        simp [List.intercalate]

/-- Well-formed names with dot-free labels of length below 63 (every name
obtained from `Name::from_bytes` satisfies this). -/
def Name.wfd (n : Name) : Prop :=
  Name.fromLabels n.labels = some n ∧
  ∀ l ∈ n.labels, l.length < 63 ∧ 46 ∉ l

/-- `Ancestors::next` yields the suffix of the right length while
`pos ≤ len`. -/
theorem ancestorsNext_yield {n : Name}
    (h : Name.fromLabels n.labels = some n) (pos : Nat) (h1 : 1 ≤ pos)
    (h2 : pos ≤ n.labels.length) :
    ancestorsNext n pos =
      .yield ⟨n.labels.drop (n.labels.length - pos)⟩ (pos + 1) := by
  unfold ancestorsNext
  rw [if_neg (by omega)]
  rw [Name.fromLabels_drop (n.labels.length - pos) h (by omega)]

theorem ancestorsNext_done (n : Name) (pos : Nat)
    (h : n.labels.length < pos) : ancestorsNext n pos = .done := by
  unfold ancestorsNext
  rw [if_pos h]

theorem mapM_fromStr (L : List (List Nat)) (h : ∀ l ∈ L, l.length < 63) :
    L.mapM Label.fromStr = some L := by
  induction L with
  | nil => rfl
  | cons x rest ih =>
    rw [List.mapM_cons]
    have hx : Label.fromStr x = some x := by
      simp only [Label.fromStr, labelRegexMatch]
      rw [if_pos]
      simp [h x (by simp)]
    rw [hx, ih (fun l hl => h l (by simp [hl]))]
    rfl

theorem labelsWireLen_cons (x : List Nat) (t : List (List Nat)) :
    labelsWireLen (x :: t) = 1 + x.length + labelsWireLen t := by
  simp [labelsWireLen]
  omega

/-- `Name::to_wildcard` on a well-formed non-root name replaces the
leftmost label with the wildcard label. -/
theorem toWildcard_eq {n : Name} (hwfd : n.wfd) (hk : 2 ≤ n.labels.length) :
    n.toWildcard = some ⟨([42] : List Nat) :: n.labels.drop 1⟩ := by
  obtain ⟨h, hlab⟩ := hwfd
  obtain ⟨-, h1, h2, h3, h4, h5⟩ := Name.fromLabels_inv h
  have hd1 : n.labels.drop 1 ≠ [] := by
    intro hc
    have := congrArg List.length hc
    simp at this
    omega
  have hL2 : 2 ≤ (([42] : List Nat) :: n.labels.drop 1).length := by
    simp
    have := List.length_pos.mpr hd1
    omega
  have hLlast : (([42] : List Nat) :: n.labels.drop 1).getLast? = some [] := by
    rw [getLast?_cons_ne _ _ hd1]
    rw [getLast?_drop_of_lt _ 1 (by omega)]
    exact h3
  have hs : (List.intercalate [46]
      (([42] : List Nat) :: n.labels.drop 1)).getLast? = some 46 :=
    intercalate_getLast _ hLlast hL2
  unfold Name.toWildcard Name.fromStr
  rw [hs]
  simp only [beq_self_eq_true, if_true]
  obtain ⟨y, L2, hyL⟩ : ∃ y L2, n.labels.drop 1 = y :: L2 := by
    match hd : n.labels.drop 1 with
    | [] => exact absurd hd hd1
    | y :: L2 => exact ⟨y, L2, rfl⟩
  rw [if_neg ?_]
  · rw [List.splitOn_intercalate _ 46 ?_ (by simp)]
    · rw [mapM_fromStr _ ?_]
      · simp only
        apply Name.fromLabels_intro
        · intro hc
          exact List.noConfusion hc
        · rw [labelsWireLen_cons]
          have hmono : labelsWireLen (n.labels.drop 1) ≤ labelsWireLen n.labels :=
            labelsWireLen_drop_le _ 1
          obtain ⟨l0, t, hnl⟩ : ∃ l0 t, n.labels = l0 :: t := by
            match hnl : n.labels with
            | [] => exact absurd hnl h1
            | l0 :: t => exact ⟨l0, t, rfl⟩
          have hl0 : l0 ≠ [] := by
            apply h4
            rw [hnl]
            rw [List.dropLast_cons_of_ne_nil]
            · simp
            · intro hc
              rw [hnl, hc] at hd1
              simp at hd1
          have hl0len : 1 ≤ l0.length := by
            have := List.length_pos.mpr hl0
            omega
          rw [hnl] at h2 ⊢
          rw [labelsWireLen_cons] at h2
          simp only [List.drop_one, List.tail_cons] at *
          have hg : ([42] : List Nat).length = 1 := rfl
          omega
        · exact hLlast
        · intro l hl
          rw [List.dropLast_cons_of_ne_nil hd1] at hl
          rcases List.mem_cons.mp hl with h42 | hrest
          · subst h42
            simp
          · rw [dropLast_drop_comm] at hrest
            exact h4 l (List.mem_of_mem_drop hrest)
        · intro l hl
          rw [List.dropLast_cons_of_ne_nil hd1] at hl
          simp only [List.drop_one, List.tail_cons] at hl
          rw [← List.drop_one, dropLast_drop_comm] at hl
          exact h5 l hl
      · intro l hl
        rcases List.mem_cons.mp hl with h42 | hrest
        · subst h42
          simp
        · exact (hlab l (List.mem_of_mem_drop hrest)).1
    · intro l hl
      rcases List.mem_cons.mp hl with h42 | hrest
      · subst h42
        simp
      · exact (hlab l (List.mem_of_mem_drop hrest)).2
  · rw [hyL, intercalate_cons_cons]
    simp

/-- Unfolding of one fuel step of the walk. -/
theorem serveWalk_succ (z : Zone) (qn : Name) (qt : QuestionType)
    (fuel pos : Nat) (wc : Option (List Record)) :
    serveWalk z qn qt (fuel + 1) pos wc =
      (match ancestorsNext qn pos with
       | .done =>
         match wc with
         | some rs => .wild rs
         | none => .nomatch
       | .fault => .fault
       | .yield qname pos1 =>
         let nameRecords := z.findWithName qname
         let wc1 := if nameRecords.isEmpty then wc else none
         let leaf : Option WalkOut :=
           if qname == qn then
             match nameRecords.find? Record.isCname with
             | some r => some (.cnameHit r)
             | none =>
               let matched := nameRecords.filter
                 (fun r => r.code == qt.code || qt == QuestionType.all)
               if matched.isEmpty then none else some (.exact matched)
           else none
         match leaf with
         | some out => out
         | none =>
           let delegation := nameRecords.filter Record.isNs
           if !delegation.isEmpty then .deleg delegation
           else if qname.isRoot then serveWalk z qn qt fuel pos1 wc1
           else if !nameRecords.isEmpty then serveWalk z qn qt fuel pos1 wc1
           else
             match qname.toWildcard with
             | none => .fault
             | some w =>
               let wildcardRecords :=
                 (z.findWithName w).filter (fun r => r.code == qt.code)
               serveWalk z qn qt fuel pos1
                 (if wildcardRecords.isEmpty then wc1
                  else some wildcardRecords)) := rfl

/-- One step of the ancestor walk while the iterator yields. -/
theorem serveWalk_eq_step (z : Zone) (qn : Name) (qt : QuestionType)
    (fuel pos : Nat) (wc : Option (List Record))
    (hwf : Name.fromLabels qn.labels = some qn) (h1 : 1 ≤ pos)
    (hpos : pos ≤ qn.labels.length) :
    serveWalk z qn qt (fuel + 1) pos wc =
      (let qname : Name := ⟨qn.labels.drop (qn.labels.length - pos)⟩
       let nameRecords := z.findWithName qname
       let wc1 := if nameRecords.isEmpty then wc else none
       let leaf : Option WalkOut :=
         if qname == qn then
           match nameRecords.find? Record.isCname with
           | some r => some (.cnameHit r)
           | none =>
             let matched := nameRecords.filter
               (fun r => r.code == qt.code || qt == QuestionType.all)
             if matched.isEmpty then none else some (.exact matched)
         else none
       match leaf with
       | some out => out
       | none =>
         let delegation := nameRecords.filter Record.isNs
         if !delegation.isEmpty then .deleg delegation
         else if qname.isRoot then serveWalk z qn qt fuel (pos + 1) wc1
         else if !nameRecords.isEmpty then serveWalk z qn qt fuel (pos + 1) wc1
         else
           match qname.toWildcard with
           | none => .fault
           | some w =>
             let wildcardRecords :=
               (z.findWithName w).filter (fun r => r.code == qt.code)
             serveWalk z qn qt fuel (pos + 1)
               (if wildcardRecords.isEmpty then wc1
                else some wildcardRecords)) := by
  rw [serveWalk_succ, ancestorsNext_yield hwf pos h1 hpos]

/-- The walk after the iterator is exhausted. -/
theorem serveWalk_eq_done (z : Zone) (qn : Name) (qt : QuestionType)
    (fuel pos : Nat) (wc : Option (List Record))
    (hpos : qn.labels.length < pos) :
    serveWalk z qn qt (fuel + 1) pos wc =
      (match wc with
       | some rs => .wild rs
       | none => .nomatch) := by
  rw [serveWalk_succ, ancestorsNext_done qn pos hpos]

/-- The ancestor walk of `serve` never reaches a panic, nor runs out of
fuel, when the question name is well formed with dot-free labels. -/
theorem serveWalk_ne_fault (z : Zone) (qn : Name) (qt : QuestionType)
    (hwfd : qn.wfd) (fuel : Nat) :
    ∀ pos wc, 1 ≤ pos → pos ≤ qn.labels.length + 1 →
      qn.labels.length + 2 - pos ≤ fuel →
      serveWalk z qn qt fuel pos wc ≠ .fault ∧
      serveWalk z qn qt fuel pos wc ≠ .fuelOut := by
  induction fuel with
  | zero =>
    intro pos wc h1 hple h2
    omega
  | succ fuel ih =>
    intro pos wc h1 hple h2
    by_cases hpos : qn.labels.length < pos
    · rw [serveWalk_eq_done z qn qt fuel pos wc hpos]
      cases wc <;> simp
    · push_neg at hpos
      rw [serveWalk_eq_step z qn qt fuel pos wc hwfd.1 h1 hpos]
      simp only
      split
      · rename_i out heq
        split at heq
        · split at heq
          · injection heq with heq
            subst heq
            simp
          · split at heq
            · exact absurd heq (by simp)
            · injection heq with heq
              subst heq
              simp
        · exact absurd heq (by simp)
      · split
        · simp
        · split
          · exact ih (pos + 1) _ (by omega) (by omega) (by omega)
          · rename_i hroot
            split
            · exact ih (pos + 1) _ (by omega) (by omega) (by omega)
            · split
              · rename_i hwild
                exfalso
                set A : Name := ⟨qn.labels.drop (qn.labels.length - pos)⟩
                  with hA
                have hAlen : A.labels.length = pos := by
                  rw [hA]
                  simp
                  omega
                have hAwfd : A.wfd := by
                  constructor
                  · exact Name.fromLabels_drop _ hwfd.1 (by omega)
                  · intro l hl
                    exact hwfd.2 l (List.mem_of_mem_drop hl)
                have hA2 : 2 ≤ A.labels.length := by
                  rw [hAlen]
                  by_contra hlt
                  push_neg at hlt
                  apply hroot
                  simp only [Name.isRoot, beq_iff_eq]
                  rw [hAlen]
                  omega
                rw [toWildcard_eq hAwfd hA2] at hwild
                exact Option.noConfusion hwild
              · exact ih (pos + 1) _ (by omega) (by omega) (by omega)

/-! ## Claim C10: the additional section is untouched -/

/-- C10: whatever the outcome, `Server::serve` returns the incoming
query's additional records and additional count unchanged. -/
theorem claim_c10 (z : Zone) (q r : Message) (h : serve z q = some r) :
    r.additionalRecords = q.additionalRecords ∧
    r.header.additionalCount = q.header.additionalCount := by
  unfold serve at h
  cases hqs : q.questions with
  | nil =>
    rw [hqs] at h
    exact absurd h (by simp)
  | cons question rest =>
    rw [hqs] at h
    simp only at h
    split at h
    · injection h with h
      subst h
      exact ⟨rfl, rfl⟩
    · split at h
      · exact absurd h (by simp)
      · exact absurd h (by simp)
      · injection h with h
        subst h
        exact ⟨rfl, rfl⟩
      · injection h with h
        subst h
        exact ⟨rfl, rfl⟩
      · injection h with h
        subst h
        exact ⟨rfl, rfl⟩
      · injection h with h
        subst h
        exact ⟨rfl, rfl⟩
      · injection h with h
        subst h
        exact ⟨rfl, rfl⟩

/-- Witness for C10 at a concrete zone and query. -/
theorem claim_c10_witness :
    ∃ r, serve ⟨⟨[[]]⟩, []⟩
      { header := ⟨0, false, .query, false, false, false, false, .success,
          1, 0, 0, 0⟩,
        questions := [⟨⟨[[99, 111, 109], []]⟩, .a, .inn⟩],
        answerRecords := [], authorityRecords := [],
        additionalRecords := [.a ⟨[[99, 111, 109], []]⟩ .inn 1 7] } = some r ∧
      r.additionalRecords = [.a ⟨[[99, 111, 109], []]⟩ .inn 1 7] ∧
      r.header.additionalCount = 0 := by
  refine ⟨_, rfl, ?_⟩
  have := claim_c10 ⟨⟨[[]]⟩, []⟩
    { header := ⟨0, false, .query, false, false, false, false, .success,
        1, 0, 0, 0⟩,
      questions := [⟨⟨[[99, 111, 109], []]⟩, .a, .inn⟩],
      answerRecords := [], authorityRecords := [],
      additionalRecords := [.a ⟨[[99, 111, 109], []]⟩ .inn 1 7] } _ rfl
  exact this

/-! ## Claim C6: serve never faults -/

/-- C6, counterexample: a well-formed decoded query with zero questions
makes `Server::serve` panic (`&response.questions[0]` indexes an empty
vector), modelled as `none`. -/
theorem claim_c6_counterexample :
    serve ⟨⟨[[]]⟩, []⟩
      { header := ⟨0, false, .query, false, false, false, false, .success,
          0, 0, 0, 0⟩,
        questions := [], answerRecords := [], authorityRecords := [],
        additionalRecords := [] } = none := rfl

/-- C6, amended: `Server::serve` produces a response without faulting for
every query that has at least one question whose name is well formed with
dot-free labels (names decoded by `Name::from_bytes` are well formed, and
hostname-shaped names have dot-free labels); the zero-question case panics
in the source. -/
theorem claim_c6 (z : Zone) (q : Message) (question : Question)
    (rest : List Question) (hq : q.questions = question :: rest)
    (hwfd : question.name.wfd) :
    (serve z q).isSome := by
  unfold serve
  rw [hq]
  simp only
  split
  · simp
  · have hnf := serveWalk_ne_fault z question.name question.qType hwfd
      (question.name.labels.length + 2) 1 none (by omega) (by omega)
      (by omega)
    split
    · rename_i hfault
      exact absurd hfault hnf.1
    · rename_i hfault
      exact absurd hfault hnf.2
    all_goals simp

/-- Witness for C6 at a concrete zone and query. -/
theorem claim_c6_witness :
    (serve ⟨⟨[[]]⟩, []⟩
      { header := ⟨0, false, .query, false, false, false, false, .success,
          1, 0, 0, 0⟩,
        questions := [⟨⟨[[99, 111, 109], []]⟩, .a, .inn⟩],
        answerRecords := [], authorityRecords := [],
        additionalRecords := [] }).isSome :=
  claim_c6 ⟨⟨[[]]⟩, []⟩ _ ⟨⟨[[99, 111, 109], []]⟩, .a, .inn⟩ [] rfl
    ⟨by decide, by decide⟩

theorem suffixesNext_yield {n : Name}
    (h : Name.fromLabels n.labels = some n) (pos : Nat)
    (h2 : pos < n.labels.length) :
    suffixesNext n pos = .yield ⟨n.labels.drop pos⟩ (pos + 1) := by
  unfold suffixesNext
  rw [if_neg (by omega)]
  rw [Name.fromLabels_drop pos h h2]

theorem suffixesNext_fault (n : Name) :
    suffixesNext n n.labels.length = .fault := by
  unfold suffixesNext
  rw [if_neg (by omega), List.drop_length]
  rfl

theorem drop_length_sub_one {α : Type} (l : List α) (x : α)
    (h : l.getLast? = some x) : l.drop (l.length - 1) = [x] := by
  induction l with
  | nil => cases h
  | cons a t ih =>
    cases t with
    | nil =>
      rw [List.getLast?_singleton] at h
      cases h
      rfl
    | cons b t2 =>
      rw [List.getLast?_cons_cons] at h
      have h2 := ih h
      simp only [List.length_cons, Nat.add_sub_cancel] at h2 ⊢
      rw [List.drop_succ_cons]
      exact h2

theorem iterRun_suffixes {n : Name}
    (h : Name.fromLabels n.labels = some n) :
    ∀ d pos fuel, pos + d = n.labels.length → d < fuel →
    iterRun (suffixesNext n) pos fuel =
      ((List.range d).map (fun i => ⟨n.labels.drop (pos + i)⟩), .fault) := by
  intro d
  induction d with
  | zero =>
    intro pos fuel hpd hf
    match fuel, hf with
    | fuel + 1, _ =>
      have hp : pos = n.labels.length := by omega
      subst hp
      unfold iterRun
      rw [suffixesNext_fault]
      rfl
  | succ d ih =>
    intro pos fuel hpd hf
    match fuel, hf with
    | fuel + 1, _ =>
      unfold iterRun
      rw [suffixesNext_yield h pos (by omega)]
      dsimp only
      rw [ih (pos + 1) fuel (by omega) (by omega)]
      have hfe : ((fun i => (⟨n.labels.drop (pos + i)⟩ : Name)) ∘ Nat.succ)
          = fun i => (⟨n.labels.drop (pos + 1 + i)⟩ : Name) := by
        funext i
        simp only [Function.comp]
        congr 2
        omega
      simp only [List.range_succ_eq_map, List.map_cons, List.map_map, hfe,
        Nat.add_zero]

theorem iterRun_ancestors {n : Name}
    (h : Name.fromLabels n.labels = some n) :
    ∀ d pos fuel, pos + d = n.labels.length + 1 → 1 ≤ pos → d < fuel →
    iterRun (ancestorsNext n) pos fuel =
      ((List.range d).map
        (fun i => ⟨n.labels.drop (n.labels.length - pos - i)⟩), .done) := by
  intro d
  induction d with
  | zero =>
    intro pos fuel hpd hp1 hf
    match fuel, hf with
    | fuel + 1, _ =>
      unfold iterRun
      rw [ancestorsNext_done n pos (by omega)]
      rfl
  | succ d ih =>
    intro pos fuel hpd hp1 hf
    match fuel, hf with
    | fuel + 1, _ =>
      unfold iterRun
      rw [ancestorsNext_yield h pos hp1 (by omega)]
      dsimp only
      rw [ih (pos + 1) fuel (by omega) (by omega) (by omega)]
      have hfe : ((fun i =>
            (⟨n.labels.drop (n.labels.length - pos - i)⟩ : Name)) ∘ Nat.succ)
          = fun i =>
            (⟨n.labels.drop (n.labels.length - (pos + 1) - i)⟩ : Name) := by
        funext i
        simp only [Function.comp]
        congr 2
        omega
      simp only [List.range_succ_eq_map, List.map_cons, List.map_map, hfe,
        Nat.sub_zero]

theorem get?_map_range {α : Type} (g : Nat → α) (k i : Nat) (x : α)
    (h : ((List.range k).map g).get? i = some x) : i < k ∧ x = g i := by
  by_cases hik : i < k
  · rw [List.get?_map, List.get?_range hik, Option.map_some'] at h
    exact ⟨hik, (Option.some_inj.mp h).symm⟩
  · exfalso
    rw [List.get?_eq_none.mpr
      (by rw [List.length_map, List.length_range]; omega)] at h
    cases h

/-- C7 counterexample: on the two-label name "com." the `Suffixes` iterator
yields the full name and then the root, but the next call runs
`Name::from_labels` on the empty slice `labels[2..]` and panics on the
non-emptiness assertion, so the iteration ends in a fault rather than
yielding nothing. -/
theorem claim_c7_counterexample :
    suffixesRun ⟨[[99, 111, 109], []]⟩ =
      ([⟨[[99, 111, 109], []]⟩, ⟨[([] : List Nat)]⟩], IterEnd.fault) ∧
    IterEnd.fault ≠ IterEnd.done := by
  exact ⟨rfl, by decide⟩

/-- C7: for a well-formed name with k labels, `Ancestors` yields exactly the
k names `labels[k-1-i..]` for i = 0..k-1 — root first, each successive name
one label longer, the full name last — and then reports exhaustion; and
`Suffixes` yields exactly the k names `labels[i..]` — the full name first,
each successive name one label shorter, the root last — but its run then ends
in a panic of `from_labels` on the empty slice instead of clean exhaustion. -/
theorem claim_c7 (n : Name) (h : Name.fromLabels n.labels = some n) :
    ancestorsRun n =
      ((List.range n.labels.length).map
        (fun i => ⟨n.labels.drop (n.labels.length - 1 - i)⟩), IterEnd.done) ∧
    suffixesRun n =
      ((List.range n.labels.length).map
        (fun i => ⟨n.labels.drop i⟩), IterEnd.fault) ∧
    (ancestorsRun n).1.length = n.labels.length ∧
    (suffixesRun n).1.length = n.labels.length ∧
    (ancestorsRun n).1.get? 0 = some ⟨[([] : List Nat)]⟩ ∧
    (ancestorsRun n).1.get? (n.labels.length - 1) = some n ∧
    (suffixesRun n).1.get? 0 = some n ∧
    (suffixesRun n).1.get? (n.labels.length - 1) = some ⟨[([] : List Nat)]⟩ ∧
    (∀ i m, (ancestorsRun n).1.get? i = some m →
      m.labels.length = i + 1) ∧
    (∀ i m, (suffixesRun n).1.get? i = some m →
      m.labels.length = n.labels.length - i) := by
  obtain ⟨-, hne, -, hlast, -, -⟩ := Name.fromLabels_inv h
  have hk1 : 1 ≤ n.labels.length := List.length_pos.mpr hne
  have ha : ancestorsRun n =
      ((List.range n.labels.length).map
        (fun i => ⟨n.labels.drop (n.labels.length - 1 - i)⟩), IterEnd.done) := by
    unfold ancestorsRun
    exact iterRun_ancestors h n.labels.length 1 (n.labels.length + 2)
      (by omega) (by omega) (by omega)
  have hs : suffixesRun n =
      ((List.range n.labels.length).map
        (fun i => ⟨n.labels.drop i⟩), IterEnd.fault) := by
    unfold suffixesRun
    rw [iterRun_suffixes h n.labels.length 0 (n.labels.length + 2)
      (by omega) (by omega)]
    refine congrArg (fun l => (l, IterEnd.fault)) ?_
    apply List.map_congr_left
    intro i _
    rw [Nat.zero_add]
  have hroot : n.labels.drop (n.labels.length - 1) = [[]] :=
    drop_length_sub_one _ _ hlast
  refine ⟨ha, hs, ?_, ?_, ?_, ?_, ?_, ?_, ?_, ?_⟩
  · rw [ha]
    simp
  · rw [hs]
    simp
  · rw [ha]
    dsimp only
    rw [List.get?_map, List.get?_range hk1, Option.map_some', Nat.sub_zero,
      hroot]
  · rw [ha]
    dsimp only
    rw [List.get?_map, List.get?_range (by omega), Option.map_some',
      Nat.sub_self, List.drop_zero]
  · rw [hs]
    dsimp only
    rw [List.get?_map, List.get?_range hk1, Option.map_some', List.drop_zero]
  · rw [hs]
    dsimp only
    rw [List.get?_map, List.get?_range (by omega), Option.map_some', hroot]
  · intro i m hm
    rw [ha] at hm
    dsimp only at hm
    obtain ⟨hik, hmx⟩ := get?_map_range _ _ _ _ hm
    subst hmx
    simp only [List.length_drop]
    omega
  · intro i m hm
    rw [hs] at hm
    dsimp only at hm
    obtain ⟨hik, hmx⟩ := get?_map_range _ _ _ _ hm
    subst hmx
    simp only [List.length_drop]

/-- Witness for C7 at the concrete two-label name "com.". -/
theorem claim_c7_witness :
    (ancestorsRun ⟨[[99, 111, 109], []]⟩).2 = IterEnd.done ∧
    (suffixesRun ⟨[[99, 111, 109], []]⟩).2 = IterEnd.fault := by
  have h := claim_c7 ⟨[[99, 111, 109], []]⟩ (by decide)
  exact ⟨by rw [h.1], by rw [h.2.1]⟩

theorem Bytes.read_bounds {b : Bytes} {x : Nat} {b1 : Bytes}
    (h : b.read = some (x, b1)) :
    b1.buf = b.buf ∧ b1.occs = b.occs ∧ b1.pos = b.pos + 1 ∧
      b.pos < b.buf.length := by
  unfold Bytes.read at h
  split at h
  · cases h
  · rename_i y t hrem
    simp only [Option.some.injEq, Prod.mk.injEq] at h
    obtain ⟨-, rfl⟩ := h
    refine ⟨rfl, rfl, rfl, ?_⟩
    by_contra hc
    have : b.remainder = [] := by
      simp only [Bytes.remainder]
      rw [List.drop_eq_nil_iff_le.mpr (by omega)]
    rw [this] at hrem
    cases hrem

theorem Bytes.readExact_bounds {b : Bytes} {n : Nat} {xs : List Nat}
    {b1 : Bytes} (h : b.readExact n = some (xs, b1)) :
    b1.buf = b.buf ∧ b1.occs = b.occs ∧ b1.pos = b.pos + n ∧
      n ≤ b.buf.length - b.pos := by
  unfold Bytes.readExact at h
  split at h
  · cases h
  · rename_i hlen
    simp only [Option.some.injEq, Prod.mk.injEq] at h
    obtain ⟨-, rfl⟩ := h
    refine ⟨rfl, rfl, rfl, ?_⟩
    simp only [Bytes.remainder, List.length_drop] at hlen
    omega

theorem Bytes.readU16_bounds {b : Bytes} {x : Nat} {b1 : Bytes}
    (h : b.readU16 = some (x, b1)) :
    b1.buf = b.buf ∧ b1.occs = b.occs ∧ b1.pos = b.pos + 2 := by
  unfold Bytes.readU16 at h
  split at h
  · rename_i y z b2 hex
    simp only [Option.some.injEq, Prod.mk.injEq] at h
    obtain ⟨-, rfl⟩ := h
    obtain ⟨h1, h2, h3, -⟩ := Bytes.readExact_bounds hex
    exact ⟨h1, h2, h3⟩
  · cases h

theorem Label.fromBytes_bounds {b : Bytes} {l : Label} {b2 : Bytes}
    (h : Label.fromBytes b = some (l, b2)) :
    b2.buf = b.buf ∧ b2.occs = b.occs ∧ b.pos < b2.pos ∧
      b2.pos ≤ b.buf.length := by
  unfold Label.fromBytes at h
  split at h
  · cases h
  rename_i len b1 hread
  split at h
  · cases h
  rename_i bytez b2x hexact
  split at h
  · split at h
    · cases h
    rename_i l1 hstr
    simp only [Option.some.injEq, Prod.mk.injEq] at h
    obtain ⟨-, rfl⟩ := h
    obtain ⟨hb1, ho1, hp1, hlt⟩ := Bytes.read_bounds hread
    obtain ⟨hb2, ho2, hp2, hle⟩ := Bytes.readExact_bounds hexact
    rw [hb1, hp1] at hle
    refine ⟨hb2.trans hb1, ho2.trans ho1, ?_, ?_⟩ <;> omega
  · cases h

/-- Fuel sufficiency for the name-decoding loop: each step either advances
the cursor inside the buffer or strictly decreases the pointer bound `mx`,
so `mx * (|buf| + 2) + (|buf| + 1 - pos) + 1` steps always suffice. -/
theorem fromBytesLoop_fuel (fuel : Nat) :
    ∀ (b : Bytes) (labels : List (List Nat)) (restore : Option Nat) (mx : Nat),
    mx * (b.buf.length + 2) + (b.buf.length + 1 - b.pos) + 1 ≤ fuel →
    Name.fromBytesLoop fuel b labels restore mx ≠ .error .fuel := by
  induction fuel with
  | zero =>
    intro b labels restore mx hf
    intro hc
    omega
  | succ fuel ih =>
    intro b labels restore mx hf
    unfold Name.fromBytesLoop
    split
    · simp
    rename_i signal hpeek
    split
    · -- pointer branch
      rename_i hsig
      split
      · simp
      rename_i ptr b1 hread
      dsimp only
      by_cases hoff : mx ≤ ptr &&& 16383
      · rw [if_pos hoff]
        simp
      · rw [if_neg hoff]
        obtain ⟨hb1, -, -⟩ := Bytes.readU16_bounds hread
        apply ih
        dsimp only
        rw [hb1]
        have hmul : (ptr &&& 16383) * (b.buf.length + 2) + (b.buf.length + 2)
            ≤ mx * (b.buf.length + 2) := by
          have h1 : (ptr &&& 16383) + 1 ≤ mx := by omega
          have h2 := Nat.mul_le_mul_right (b.buf.length + 2) h1
          rw [Nat.add_one_mul] at h2
          exact h2
        omega
    · -- label branch
      split
      · simp
      rename_i hsig l b1 hlb
      split
      · split
        · simp
        · split <;> simp
      · obtain ⟨hb1, -, hlt, hle⟩ := Label.fromBytes_bounds hlb
        apply ih
        simp only [hb1]
        omega

/-- C5: the name-decoding loop rejects, as a format error, any compression
pointer whose target offset is not strictly below the offset of the most
recent hop (`max` in the source), `Name::from_bytes` seeds that bound with
the start position of the name, and as a consequence decoding terminates
(never exhausts its step budget) on every input buffer. -/
theorem claim_c5 :
    (∀ b labels restore mx fuel signal ptr b1,
      Bytes.peek b = some signal →
      ((signal >>> 6) &&& 3 == 3) = true →
      Bytes.readU16 b = some (ptr, b1) →
      mx ≤ ptr &&& 16383 →
      Name.fromBytesLoop (fuel + 1) b labels restore mx = .error .fmt) ∧
    (∀ b, Name.fromBytes b =
      Name.fromBytesLoop (Name.loopFuel b) b [] none b.pos) ∧
    (∀ b, Name.fromBytes b ≠ .error .fuel) := by
  refine ⟨?_, fun b => rfl, ?_⟩
  · intro b labels restore mx fuel signal ptr b1 hpeek hsig hread hoff
    unfold Name.fromBytesLoop
    rw [hpeek]
    dsimp only
    rw [if_pos hsig, hread]
    dsimp only
    rw [if_pos hoff]
  · intro b
    unfold Name.fromBytes Name.loopFuel
    apply fromBytesLoop_fuel
    have h : (b.pos + 1) * (b.buf.length + 2)
        = b.pos * (b.buf.length + 2) + (b.buf.length + 2) := by
      rw [Nat.add_one_mul]
    omega

/-- Witness for C5: the buffer `[0xC0, 0x00]` starts with a pointer to
offset 0, which is not below the initial bound 0, so one loop step reports
a format error; and the full decoder on that buffer never runs out of
fuel. -/
theorem claim_c5_witness :
    Name.fromBytesLoop 1 (Bytes.fromBuf [192, 0]) [] none 0 = .error .fmt ∧
    Name.fromBytes (Bytes.fromBuf [192, 0]) ≠ .error .fuel := by
  refine ⟨?_, claim_c5.2.2 (Bytes.fromBuf [192, 0])⟩
  exact claim_c5.1 (Bytes.fromBuf [192, 0]) [] none 0 0 192 49152
    ⟨[192, 0], 2, []⟩ (by decide) (by decide) (by decide) (by decide)

theorem beq_name_false {n m : Name} (h : n.labels.length ≠ m.labels.length) :
    (n == m) = false := by
  rw [beq_eq_false_iff_ne]
  intro hc
  subst hc
  exact h rfl

theorem ancestor_wfd {qn : Name} (hwfd : qn.wfd) (pos : Nat)
    (h1 : 1 ≤ pos) (hpos : pos ≤ qn.labels.length) :
    Name.wfd ⟨qn.labels.drop (qn.labels.length - pos)⟩ := by
  constructor
  · exact Name.fromLabels_drop _ hwfd.1 (by omega)
  · intro l hl
    exact hwfd.2 l (List.mem_of_mem_drop hl)

/-- One walk step at a level where the leaf checks do not fire: the step
reduces to the delegation check, then the root / populated / wildcard
continuation. -/
theorem serveWalk_leaf_none (z : Zone) (qn : Name) (qt : QuestionType)
    (fuel pos : Nat) (wc : Option (List Record)) (hwfd : qn.wfd)
    (h1 : 1 ≤ pos) (hpos : pos ≤ qn.labels.length)
    (hleaf : pos = qn.labels.length →
      (z.findWithName ⟨qn.labels.drop (qn.labels.length - pos)⟩).find?
        Record.isCname = none ∧
      ((z.findWithName ⟨qn.labels.drop (qn.labels.length - pos)⟩).filter
        (fun r => r.code == qt.code ||
          qt == QuestionType.all)).isEmpty = true) :
    serveWalk z qn qt (fuel + 1) pos wc =
      (let nr := z.findWithName ⟨qn.labels.drop (qn.labels.length - pos)⟩
       let wc1 := if nr.isEmpty then wc else none
       let delegation := nr.filter Record.isNs
       if !delegation.isEmpty then .deleg delegation
       else if pos = 1 then serveWalk z qn qt fuel (pos + 1) wc1
       else if !nr.isEmpty then serveWalk z qn qt fuel (pos + 1) wc1
       else
         serveWalk z qn qt fuel (pos + 1)
           (let wrs := (z.findWithName ⟨([42] : List Nat) ::
               (qn.labels.drop (qn.labels.length - pos)).drop 1⟩).filter
               (fun r => r.code == qt.code)
            if wrs.isEmpty then wc1 else some wrs)) := by
  have hAlen : (qn.labels.drop (qn.labels.length - pos)).length = pos := by
    simp
    omega
  rw [serveWalk_eq_step z qn qt fuel pos wc hwfd.1 h1 hpos]
  simp only
  split
  · rename_i out heq
    exfalso
    split at heq
    · rename_i hbeq
      have hk : pos = qn.labels.length := by
        have hEq : (⟨qn.labels.drop (qn.labels.length - pos)⟩ : Name) = qn :=
          eq_of_beq hbeq
        have := congrArg (fun nm => nm.labels.length) hEq
        simp only at this
        rw [hAlen] at this
        exact this
      obtain ⟨hcn, hmt⟩ := hleaf hk
      rw [hcn] at heq
      simp only at heq
      rw [if_pos hmt] at heq
      cases heq
    · cases heq
  · rename_i heq
    clear heq
    by_cases hd : ((z.findWithName
        (⟨qn.labels.drop (qn.labels.length - pos)⟩ : Name)).filter
        Record.isNs).isEmpty
    · rw [hd]
      simp only [Bool.not_true, Bool.false_eq_true, if_false]
      have hroot : (⟨qn.labels.drop (qn.labels.length - pos)⟩ : Name).isRoot
          = (pos == 1) := by
        simp only [Name.isRoot]
        rw [hAlen]
      rw [hroot]
      by_cases hp1 : pos = 1
      · rw [hp1]
        simp
      · rw [if_neg (by simp [hp1]), if_neg hp1]
        by_cases hnr : (z.findWithName
            (⟨qn.labels.drop (qn.labels.length - pos)⟩ : Name)).isEmpty
        · rw [hnr]
          simp only [Bool.not_true, Bool.false_eq_true, if_false]
          rw [toWildcard_eq (ancestor_wfd hwfd pos h1 hpos) (by rw [hAlen]; omega)]
        · rw [Bool.not_eq_true] at hnr
          rw [hnr]
          simp
    · rw [Bool.not_eq_true] at hd
      rw [hd]
      simp

/-- A delegation level ends the walk with exactly the NS records found
there. -/
theorem serveWalk_deleg_at (z : Zone) (qn : Name) (qt : QuestionType)
    (fuel i : Nat) (wc : Option (List Record)) (hwfd : qn.wfd)
    (h1 : 1 ≤ i) (hik : i ≤ qn.labels.length)
    (hD : ((z.findWithName ⟨qn.labels.drop (qn.labels.length - i)⟩).filter
      Record.isNs).isEmpty = false)
    (hleafi : i = qn.labels.length →
      (z.findWithName ⟨qn.labels.drop (qn.labels.length - i)⟩).find?
        Record.isCname = none ∧
      ((z.findWithName ⟨qn.labels.drop (qn.labels.length - i)⟩).filter
        (fun r => r.code == qt.code ||
          qt == QuestionType.all)).isEmpty = true) :
    serveWalk z qn qt (fuel + 1) i wc =
      .deleg ((z.findWithName ⟨qn.labels.drop (qn.labels.length - i)⟩).filter
        Record.isNs) := by
  rw [serveWalk_leaf_none z qn qt fuel i wc hwfd h1 hik hleafi]
  simp only [hD, Bool.not_false, if_true]

/-- Walking up to a delegation-free prefix only changes the carried
wildcard state. -/
theorem serveWalk_advance (z : Zone) (qn : Name) (qt : QuestionType)
    (hwfd : qn.wfd) (i : Nat) (hik : i ≤ qn.labels.length) :
    ∀ d pos wc fuel, pos + d = i → 1 ≤ pos →
      (∀ p, pos ≤ p → p < i →
        ((z.findWithName ⟨qn.labels.drop (qn.labels.length - p)⟩).filter
          Record.isNs).isEmpty = true) →
      ∃ wc1, serveWalk z qn qt (fuel + d) pos wc
        = serveWalk z qn qt fuel i wc1 := by
  intro d
  induction d with
  | zero =>
    intro pos wc fuel hpd h1 hdel
    exact ⟨wc, by rw [show pos = i from by omega, Nat.add_zero]⟩
  | succ d ih =>
    intro pos wc fuel hpd h1 hdel
    rw [show fuel + (d + 1) = (fuel + d) + 1 from rfl,
      serveWalk_leaf_none z qn qt (fuel + d) pos wc hwfd h1 (by omega)
        (fun hk => absurd hk (by omega))]
    simp only
    rw [hdel pos (by omega) (by omega)]
    simp only [Bool.not_true, Bool.false_eq_true, if_false]
    by_cases hp1 : pos = 1
    · rw [if_pos hp1]
      exact ih (pos + 1) _ fuel (by omega) (by omega)
        (fun p hp hpi => hdel p (by omega) hpi)
    · rw [if_neg hp1]
      by_cases hnr : (z.findWithName
          (⟨qn.labels.drop (qn.labels.length - pos)⟩ : Name)).isEmpty
      · rw [hnr]
        simp only [Bool.not_true, Bool.false_eq_true, if_false]
        exact ih (pos + 1) _ fuel (by omega) (by omega)
          (fun p hp hpi => hdel p (by omega) hpi)
      · rw [Bool.not_eq_true] at hnr
        rw [hnr]
        simp only [Bool.not_false, if_true]
        exact ih (pos + 1) _ fuel (by omega) (by omega)
          (fun p hp hpi => hdel p (by omega) hpi)

/-- When every level is free of delegations, the leaf matches nothing, and
no empty level has wildcard records of the query type, the walk falls
through to `nomatch`. -/
theorem serveWalk_nomatch (z : Zone) (qn : Name) (qt : QuestionType)
    (hwfd : qn.wfd)
    (hdel : ∀ p, 1 ≤ p → p ≤ qn.labels.length →
      ((z.findWithName ⟨qn.labels.drop (qn.labels.length - p)⟩).filter
        Record.isNs).isEmpty = true)
    (hleafk : (z.findWithName qn).find? Record.isCname = none ∧
      ((z.findWithName qn).filter (fun r => r.code == qt.code ||
        qt == QuestionType.all)).isEmpty = true)
    (hnowild : ∀ p, 2 ≤ p → p ≤ qn.labels.length →
      (z.findWithName ⟨qn.labels.drop (qn.labels.length - p)⟩).isEmpty = true →
      ((z.findWithName ⟨([42] : List Nat) ::
        (qn.labels.drop (qn.labels.length - p)).drop 1⟩).filter
        (fun r => r.code == qt.code)).isEmpty = true) :
    ∀ fuel pos, 1 ≤ pos → pos ≤ qn.labels.length + 1 →
      qn.labels.length + 2 - pos ≤ fuel →
      serveWalk z qn qt fuel pos none = .nomatch := by
  intro fuel
  induction fuel with
  | zero =>
    intro pos h1 h2 h3
    omega
  | succ fuel ih =>
    intro pos h1 h2 h3
    by_cases hpos : qn.labels.length < pos
    · rw [serveWalk_eq_done z qn qt fuel pos none hpos]
    · push_neg at hpos
      rw [serveWalk_leaf_none z qn qt fuel pos none hwfd h1 hpos ?hlf]
      case hlf =>
        intro hk
        rw [hk, Nat.sub_self, List.drop_zero]
        exact hleafk
      simp only
      rw [hdel pos h1 hpos]
      simp only [Bool.not_true, Bool.false_eq_true, if_false, ite_self]
      by_cases hp1 : pos = 1
      · rw [if_pos hp1]
        exact ih (pos + 1) (by omega) (by omega) (by omega)
      · rw [if_neg hp1]
        by_cases hnr : (z.findWithName
            (⟨qn.labels.drop (qn.labels.length - pos)⟩ : Name)).isEmpty
        · rw [hnr]
          simp only [Bool.not_true, Bool.false_eq_true, if_false]
          rw [if_pos (hnowild pos (by omega) hpos hnr)]
          exact ih (pos + 1) (by omega) (by omega) (by omega)
        · rw [Bool.not_eq_true] at hnr
          rw [hnr]
          simp only [Bool.not_false, if_true]
          exact ih (pos + 1) (by omega) (by omega) (by omega)

/-- Once wildcard answers are captured, a tail of record-free levels with
no further wildcard matches preserves them to the `wild` outcome. -/
theorem serveWalk_wild_tail (z : Zone) (qn : Name) (qt : QuestionType)
    (hwfd : qn.wfd) (W : List Record) :
    ∀ fuel pos, 2 ≤ pos → pos ≤ qn.labels.length + 1 →
      qn.labels.length + 2 - pos ≤ fuel →
      (∀ p, pos ≤ p → p ≤ qn.labels.length →
        z.findWithName ⟨qn.labels.drop (qn.labels.length - p)⟩ = [] ∧
        ((z.findWithName ⟨([42] : List Nat) ::
          (qn.labels.drop (qn.labels.length - p)).drop 1⟩).filter
          (fun r => r.code == qt.code)).isEmpty = true) →
      serveWalk z qn qt fuel pos (some W) = .wild W := by
  intro fuel
  induction fuel with
  | zero =>
    intro pos h2 hp hf hlev
    omega
  | succ fuel ih =>
    intro pos h2 hp hf hlev
    by_cases hpos : qn.labels.length < pos
    · rw [serveWalk_eq_done z qn qt fuel pos _ hpos]
    · push_neg at hpos
      obtain ⟨hnr, hwl⟩ := hlev pos (by omega) hpos
      rw [serveWalk_leaf_none z qn qt fuel pos _ hwfd (by omega) hpos ?hlf]
      case hlf =>
        intro hk
        rw [hnr]
        exact ⟨rfl, rfl⟩
      simp only
      rw [hnr]
      rw [if_neg (by simp), if_neg (by omega), if_neg (by simp),
        if_pos hwl]
      exact ih (pos + 1) (by omega) (by omega) (by omega)
        (fun p hpp hpk => hlev p (by omega) hpk)

/-- An empty non-root level with wildcard records of the query type
replaces the carried wildcard answers. -/
theorem serveWalk_capture (z : Zone) (qn : Name) (qt : QuestionType)
    (fuel i : Nat) (wc : Option (List Record)) (hwfd : qn.wfd)
    (h2 : 2 ≤ i) (hik : i ≤ qn.labels.length)
    (hnr : z.findWithName ⟨qn.labels.drop (qn.labels.length - i)⟩ = [])
    (hW : ((z.findWithName ⟨([42] : List Nat) ::
      (qn.labels.drop (qn.labels.length - i)).drop 1⟩).filter
      (fun r => r.code == qt.code)).isEmpty = false) :
    serveWalk z qn qt (fuel + 1) i wc =
      serveWalk z qn qt fuel (i + 1)
        (some ((z.findWithName ⟨([42] : List Nat) ::
          (qn.labels.drop (qn.labels.length - i)).drop 1⟩).filter
          (fun r => r.code == qt.code))) := by
  rw [serveWalk_leaf_none z qn qt fuel i wc hwfd (by omega) hik ?hlf]
  case hlf =>
    intro hk
    rw [hnr]
    exact ⟨rfl, rfl⟩
  simp only
  rw [hnr]
  rw [if_neg (by simp), if_neg (by omega), if_neg (by simp),
    if_neg (by rw [hW]; simp)]

/-- C3: if, during the ancestor walk from the root toward the question
name, level `i` is the first one holding NS records (no delegation at the
levels before it, and if `i` is the leaf no CNAME or exact match fires
first), then `serve` answers with is_authority=false, resp_code=Success,
exactly those NS records, in declaration order, in the authority section,
and no answer records; captured wildcard answers are never consulted. -/
theorem claim_c3 (z : Zone) (q : Message) (question : Question)
    (rest : List Question) (hq : q.questions = question :: rest)
    (hop : q.header.opCode = OperationCode.query)
    (hqa : q.answerRecords = []) (hqauth : q.authorityRecords = [])
    (hwfd : question.name.wfd)
    (i : Nat) (hi1 : 1 ≤ i) (hik : i ≤ question.name.labels.length)
    (hD : ((z.findWithName ⟨question.name.labels.drop
      (question.name.labels.length - i)⟩).filter
      Record.isNs).isEmpty = false)
    (hup : ∀ p, 1 ≤ p → p < i →
      ((z.findWithName ⟨question.name.labels.drop
        (question.name.labels.length - p)⟩).filter
        Record.isNs).isEmpty = true)
    (hleafi : i = question.name.labels.length →
      (z.findWithName ⟨question.name.labels.drop
        (question.name.labels.length - i)⟩).find? Record.isCname = none ∧
      ((z.findWithName ⟨question.name.labels.drop
        (question.name.labels.length - i)⟩).filter
        (fun r => r.code == question.qType.code ||
          question.qType == QuestionType.all)).isEmpty = true) :
    serve z q = some
      { q with
        header := { q.header with
                    isResponse := true, isAuthority := false,
                    respCode := .success,
                    authorityCount := ((z.findWithName
                      ⟨question.name.labels.drop
                        (question.name.labels.length - i)⟩).filter
                      Record.isNs).length % 65536 },
        answerRecords := [],
        authorityRecords := (z.findWithName ⟨question.name.labels.drop
          (question.name.labels.length - i)⟩).filter Record.isNs } := by
  have hwalk : serveWalk z question.name question.qType
      (question.name.labels.length + 2) 1 none =
      .deleg ((z.findWithName ⟨question.name.labels.drop
        (question.name.labels.length - i)⟩).filter Record.isNs) := by
    obtain ⟨wc1, hadv⟩ := serveWalk_advance z question.name question.qType
      hwfd i hik (i - 1) 1 none (question.name.labels.length + 3 - i)
      (by omega) (by omega) (fun p hp hpi => hup p hp hpi)
    rw [show question.name.labels.length + 2
        = (question.name.labels.length + 3 - i) + (i - 1) from by omega,
      hadv,
      show question.name.labels.length + 3 - i
        = (question.name.labels.length + 2 - i) + 1 from by omega,
      serveWalk_deleg_at z question.name question.qType
        (question.name.labels.length + 2 - i) i wc1 hwfd hi1 hik hD hleafi]
  unfold serve
  rw [hq]
  simp only
  rw [if_neg (by simp [hop]), hwalk]
  simp only [hqa, hqauth, List.nil_append]

/-- Witness for C3: a zone with an NS record at the root delegates the
query for "com." with that record in the authority section. -/
theorem claim_c3_witness :
    serve ⟨⟨[[]]⟩, [Record.ns ⟨[[]]⟩ RClass.inn 300 ⟨[[110, 115], []]⟩]⟩
      { header := ⟨7, false, .query, false, false, false, false, .success,
          1, 0, 0, 0⟩,
        questions := [⟨⟨[[99, 111, 109], []]⟩, .a, .inn⟩],
        answerRecords := [], authorityRecords := [],
        additionalRecords := [] } = some
      { header := ⟨7, true, .query, false, false, false, false, .success,
          1, 0, 1, 0⟩,
        questions := [⟨⟨[[99, 111, 109], []]⟩, .a, .inn⟩],
        answerRecords := [],
        authorityRecords := [Record.ns ⟨[[]]⟩ RClass.inn 300 ⟨[[110, 115], []]⟩],
        additionalRecords := [] } := by
  rw [claim_c3 ⟨⟨[[]]⟩, [Record.ns ⟨[[]]⟩ RClass.inn 300 ⟨[[110, 115], []]⟩]⟩
    _ ⟨⟨[[99, 111, 109], []]⟩, .a, .inn⟩ [] rfl rfl rfl rfl
    ⟨by decide, by decide⟩ 1 (by decide) (by decide) (by decide)
    (fun p hp hpi => absurd hpi (by omega))
    (fun hik => absurd hik (by decide))]
  rfl

/-- C2: for a Query-opcode query, (1) if the deepest record-free non-root
level `i` of the ancestor walk has wildcard records of the question's type
(no delegation above it, every level from `i` to the leaf record-free, no
deeper wildcard match), serve answers with those records renamed to the
question name, is_authority=true and Success; (2) if no delegation, no
leaf CNAME or exact match, and no wildcard capture exists anywhere, serve
reports NameError. -/
theorem claim_c2 (z : Zone) (q : Message) (question : Question)
    (rest : List Question) (hq : q.questions = question :: rest)
    (hop : q.header.opCode = OperationCode.query)
    (hqa : q.answerRecords = [])
    (hwfd : question.name.wfd) :
    (∀ i, 2 ≤ i → i ≤ question.name.labels.length →
      ((z.findWithName ⟨([42] : List Nat) ::
        (question.name.labels.drop
          (question.name.labels.length - i)).drop 1⟩).filter
        (fun r => r.code == question.qType.code)).isEmpty = false →
      (∀ p, 1 ≤ p → p < i →
        ((z.findWithName ⟨question.name.labels.drop
          (question.name.labels.length - p)⟩).filter
          Record.isNs).isEmpty = true) →
      (∀ p, i ≤ p → p ≤ question.name.labels.length →
        z.findWithName ⟨question.name.labels.drop
          (question.name.labels.length - p)⟩ = []) →
      (∀ p, i < p → p ≤ question.name.labels.length →
        ((z.findWithName ⟨([42] : List Nat) ::
          (question.name.labels.drop
            (question.name.labels.length - p)).drop 1⟩).filter
          (fun r => r.code == question.qType.code)).isEmpty = true) →
      serve z q = some
        { q with
          header := { q.header with
                      isResponse := true, isAuthority := true,
                      respCode := .success,
                      answerCount := ((z.findWithName ⟨([42] : List Nat) ::
                        (question.name.labels.drop
                          (question.name.labels.length - i)).drop 1⟩).filter
                        (fun r => r.code == question.qType.code)).length
                        % 65536 },
          answerRecords := ((z.findWithName ⟨([42] : List Nat) ::
            (question.name.labels.drop
              (question.name.labels.length - i)).drop 1⟩).filter
            (fun r => r.code == question.qType.code)).map
            (fun r => r.withName question.name) }) ∧
    ((∀ p, 1 ≤ p → p ≤ question.name.labels.length →
        ((z.findWithName ⟨question.name.labels.drop
          (question.name.labels.length - p)⟩).filter
          Record.isNs).isEmpty = true) →
      (z.findWithName question.name).find? Record.isCname = none →
      ((z.findWithName question.name).filter
        (fun r => r.code == question.qType.code ||
          question.qType == QuestionType.all)).isEmpty = true →
      (∀ p, 2 ≤ p → p ≤ question.name.labels.length →
        (z.findWithName ⟨question.name.labels.drop
          (question.name.labels.length - p)⟩).isEmpty = true →
        ((z.findWithName ⟨([42] : List Nat) ::
          (question.name.labels.drop
            (question.name.labels.length - p)).drop 1⟩).filter
          (fun r => r.code == question.qType.code)).isEmpty = true) →
      serve z q = some
        { q with
          header := { q.header with
                      isResponse := true, respCode := .nameError } }) := by
  constructor
  · intro i hi2 hik hW hup hempty hnolater
    have htail := serveWalk_wild_tail z question.name question.qType hwfd
      ((z.findWithName ⟨([42] : List Nat) ::
        (question.name.labels.drop
          (question.name.labels.length - i)).drop 1⟩).filter
        (fun r => r.code == question.qType.code))
      (question.name.labels.length + 2 - i) (i + 1) (by omega) (by omega)
      (by omega)
      (fun p hp1 hpk => ⟨hempty p (by omega) hpk, hnolater p (by omega) hpk⟩)
    have hwalk : serveWalk z question.name question.qType
        (question.name.labels.length + 2) 1 none =
        .wild ((z.findWithName ⟨([42] : List Nat) ::
          (question.name.labels.drop
            (question.name.labels.length - i)).drop 1⟩).filter
          (fun r => r.code == question.qType.code)) := by
      obtain ⟨wc1, hadv⟩ := serveWalk_advance z question.name question.qType
        hwfd i (by omega) (i - 1) 1 none
        (question.name.labels.length + 3 - i) (by omega) (by omega)
        (fun p hp hpi => hup p hp hpi)
      rw [show question.name.labels.length + 2
          = (question.name.labels.length + 3 - i) + (i - 1) from by omega,
        hadv,
        show question.name.labels.length + 3 - i
          = (question.name.labels.length + 2 - i) + 1 from by omega,
        serveWalk_capture z question.name question.qType
          (question.name.labels.length + 2 - i) i wc1 hwfd hi2 hik
          (hempty i (by omega) hik) hW,
        htail]
    unfold serve
    rw [hq]
    simp only
    rw [if_neg (by simp [hop]), hwalk]
    simp only [hqa, List.nil_append]
  · intro hdel hcn hmt hnowild
    have hwalk : serveWalk z question.name question.qType
        (question.name.labels.length + 2) 1 none = .nomatch :=
      serveWalk_nomatch z question.name question.qType hwfd hdel ⟨hcn, hmt⟩
        hnowild (question.name.labels.length + 2) 1 (by omega) (by omega)
        (by omega)
    unfold serve
    rw [hq]
    simp only
    rw [if_neg (by simp [hop]), hwalk]

/-- Witness for C2: a zone holding only an A record at "*." answers the
query for "www." with that record renamed to "www.". -/
theorem claim_c2_witness :
    serve ⟨⟨[[]]⟩, [Record.a ⟨[[42], []]⟩ RClass.inn 300 1]⟩
      { header := ⟨9, false, .query, false, false, false, false, .success,
          1, 0, 0, 0⟩,
        questions := [⟨⟨[[119, 119, 119], []]⟩, .a, .inn⟩],
        answerRecords := [], authorityRecords := [],
        additionalRecords := [] } = some
      { header := ⟨9, true, .query, true, false, false, false, .success,
          1, 1, 0, 0⟩,
        questions := [⟨⟨[[119, 119, 119], []]⟩, .a, .inn⟩],
        answerRecords := [Record.a ⟨[[119, 119, 119], []]⟩ RClass.inn 300 1],
        authorityRecords := [], additionalRecords := [] } := by
  rw [(claim_c2 ⟨⟨[[]]⟩, [Record.a ⟨[[42], []]⟩ RClass.inn 300 1]⟩
    _ ⟨⟨[[119, 119, 119], []]⟩, .a, .inn⟩ [] rfl rfl rfl
    ⟨by decide, by decide⟩).1 2 (by decide) (by decide) (by decide)
    (fun p hp hpi => by
      have hp1 : p = 1 := by omega
      subst hp1
      decide)
    (fun p hp hpk => by
      simp only [List.length_cons, List.length_nil] at hpk
      have hp2 : p = 2 := by omega
      subst hp2
      decide)
    (fun p hp hpk => by
      simp only [List.length_cons, List.length_nil] at hpk
      omega)]
  rfl

/-! ## Claim C1: encode/decode round trip. Decode side: spines. -/

theorem drop_eq_cons_of_get {B : List Nat} {p x : Nat}
    (h : B.get? p = some x) : B.drop p = x :: B.drop (p + 1) := by
  induction B generalizing p with
  | nil => cases h
  | cons a t ih =>
    cases p with
    | zero =>
      injection h with h
      subst h
      rfl
    | succ p =>
      simp only [List.get?_cons_succ] at h
      rw [List.drop_succ_cons, ih h]
      rfl

theorem get_lt_length {B : List Nat} {p x : Nat} (h : B.get? p = some x) :
    p < B.length :=
  (List.get?_eq_some.mp h).1

theorem peek_get {B : List Nat} {p x : Nat} {O : List (List Nat × Nat)}
    (h : B.get? p = some x) : Bytes.peek ⟨B, p, O⟩ = some x := by
  unfold Bytes.peek Bytes.remainder
  simp only
  rw [drop_eq_cons_of_get h]

theorem read_get {B : List Nat} {p x : Nat} {O : List (List Nat × Nat)}
    (h : B.get? p = some x) :
    Bytes.read ⟨B, p, O⟩ = some (x, ⟨B, p + 1, O⟩) := by
  unfold Bytes.read Bytes.remainder
  simp only
  rw [drop_eq_cons_of_get h]

theorem readExact_get {B : List Nat} {p n : Nat} {xs : List Nat}
    {O : List (List Nat × Nat)} (h : (B.drop p).take n = xs)
    (hn : xs.length = n) :
    Bytes.readExact ⟨B, p, O⟩ n = some (xs, ⟨B, p + n, O⟩) := by
  unfold Bytes.readExact Bytes.remainder
  simp only
  rw [if_neg ?_, h]
  have := congrArg List.length h
  rw [List.length_take] at this
  omega

theorem readU16_get {B : List Nat} {p x y : Nat} {O : List (List Nat × Nat)}
    (hx : B.get? p = some x) (hy : B.get? (p + 1) = some y) :
    Bytes.readU16 ⟨B, p, O⟩ = some (x * 256 + y, ⟨B, p + 2, O⟩) := by
  unfold Bytes.readU16
  have h2 : (B.drop p).take 2 = [x, y] := by
    rw [drop_eq_cons_of_get hx, drop_eq_cons_of_get hy]
    rfl
  rw [readExact_get h2 rfl]

theorem labelFromBytes_get {B : List Nat} {p : Nat} {l : List Nat}
    {O : List (List Nat × Nat)} (hlen : B.get? p = some l.length)
    (hcontent : (B.drop (p + 1)).take l.length = l) (hlt : l.length < 63)
    (hutf : utf8Valid l = true) :
    Label.fromBytes ⟨B, p, O⟩ = some (l, ⟨B, p + 1 + l.length, O⟩) := by
  unfold Label.fromBytes
  rw [read_get hlen]
  dsimp only
  rw [readExact_get hcontent rfl]
  dsimp only
  rw [hutf]
  simp only [if_true]
  unfold Label.fromStr
  rw [if_pos (by simp [labelRegexMatch, hlt])]

/-- A well-formed wire encoding of the label sequence `ls` at position `p`
of buffer `B`: labels in place, at most one compression pointer, every
pointer target strictly below the bound `mx` and below 16384. `e` is the
cursor position after the first segment (the restore point), and `R` is
the set of buffer positions the decoding reads before any pointer
restore. -/
inductive SpineR (B : List Nat) :
    List (List Nat) → Nat → Nat → Nat → Set Nat → Prop
  | root (p mx : Nat) (h0 : B.get? p = some 0) :
      SpineR B [[]] p mx (p + 1) {x | x = p}
  | label (l : List Nat) (ls : List (List Nat)) (p mx e : Nat) (R : Set Nat)
      (hne : l ≠ []) (hlt : l.length < 63) (hutf : utf8Valid l = true)
      (hlen : B.get? p = some l.length)
      (hcontent : (B.drop (p + 1)).take l.length = l)
      (hrest : SpineR B ls (p + 1 + l.length) mx e R) :
      SpineR B (l :: ls) p mx e ({x | p ≤ x ∧ x < p + 1 + l.length} ∪ R)
  | ptr (ls : List (List Nat)) (p mx off e2 : Nat) (R : Set Nat)
      (hhi : B.get? p = some (192 + off / 256))
      (hlo : B.get? (p + 1) = some (off % 256))
      (hoff : off < mx) (h14 : off < 16384)
      (htail : SpineR B ls off off e2 R) :
      SpineR B ls p mx (p + 2) ({x | x = p ∨ x = p + 1} ∪ R)

/-- Every position a spine reads lies inside the buffer. -/
theorem SpineR.refs_lt {B : List Nat} {ls : List (List Nat)}
    {p mx e : Nat} {R : Set Nat} (h : SpineR B ls p mx e R) :
    ∀ x ∈ R, x < B.length := by
  induction h with
  | root p mx h0 =>
    intro x hx
    cases hx
    exact get_lt_length h0
  | label l ls p mx e R hne hlt hutf hlen hcontent hrest ih =>
    intro x hx
    cases hx with
    | inl hx =>
      have hcl := congrArg List.length hcontent
      rw [List.length_take, List.length_drop] at hcl
      have hm2 := Nat.min_le_right l.length (B.length - (p + 1))
      have hp := get_lt_length hlen
      obtain ⟨h1, h2⟩ := hx
      omega
    | inr hx => exact ih x hx
  | ptr ls p mx off e2 R hhi hlo hoff h14 htail ih =>
    intro x hx
    cases hx with
    | inl hx =>
      cases hx with
      | inl hx =>
        subst hx
        exact get_lt_length hhi
      | inr hx =>
        subst hx
        exact get_lt_length hlo
    | inr hx => exact ih x hx

/-- Spines survive appending bytes to the buffer. -/
theorem SpineR.append {B : List Nat} {ls : List (List Nat)}
    {p mx e : Nat} {R : Set Nat} (h : SpineR B ls p mx e R) (T : List Nat) :
    SpineR (B ++ T) ls p mx e R := by
  induction h with
  | root p mx h0 =>
    exact .root p mx (by rw [List.get?_append (get_lt_length h0)]; exact h0)
  | label l ls p mx e R hne hlt hutf hlen hcontent hrest ih =>
    refine .label l ls p mx e R hne hlt hutf ?_ ?_ ih
    · rw [List.get?_append (get_lt_length hlen)]
      exact hlen
    · have hcl := congrArg List.length hcontent
      rw [List.length_take, List.length_drop] at hcl
      have hm2 := Nat.min_le_right l.length (B.length - (p + 1))
      have hp := get_lt_length hlen
      rw [List.drop_append_of_le_length (by omega),
        List.take_append_of_le_length (by rw [List.length_drop]; omega),
        hcontent]
  | ptr ls p mx off e2 R hhi hlo hoff h14 htail ih =>
    refine .ptr ls p mx off e2 R ?_ ?_ hoff h14 ih
    · rw [List.get?_append (get_lt_length hhi)]
      exact hhi
    · rw [List.get?_append (get_lt_length hlo)]
      exact hlo

theorem take_drop_set_ne (B : List Nat) (q v m n : Nat)
    (hq : q < m ∨ m + n ≤ q) :
    ((B.set q v).drop m).take n = (B.drop m).take n := by
  apply List.ext_get?
  intro j
  rcases Nat.lt_or_ge j n with hj | hj
  · rw [List.get?_take hj, List.get?_take hj, List.get?_drop, List.get?_drop,
      List.get?_set_ne _ _ (by omega)]
  · rw [List.get?_eq_none.mpr (by rw [List.length_take]; omega),
      List.get?_eq_none.mpr (by rw [List.length_take]; omega)]

/-- Spines survive patching a byte at a position they do not read. -/
theorem SpineR.patchByte {B : List Nat} {ls : List (List Nat)}
    {p mx e : Nat} {R : Set Nat} (h : SpineR B ls p mx e R)
    (q v : Nat) (hq : q ∉ R) : SpineR (B.set q v) ls p mx e R := by
  induction h with
  | root p mx h0 =>
    refine .root p mx ?_
    rw [List.get?_set_ne _ _ (show q ≠ p from fun hc => hq hc)]
    exact h0
  | label l ls p mx e R hne hlt hutf hlen hcontent hrest ih =>
    refine .label l ls p mx e R hne hlt hutf ?_ ?_
      (ih (fun hc => hq (Set.mem_union_right _ hc)))
    · rw [List.get?_set_ne _ _
        (show q ≠ p from fun hc => hq (Set.mem_union_left _ ⟨by omega, by omega⟩))]
      exact hlen
    · rw [take_drop_set_ne]
      · exact hcontent
      · by_cases hqp : q < p + 1
        · exact Or.inl hqp
        · refine Or.inr ?_
          by_contra hc
          exact hq (Set.mem_union_left _ ⟨by omega, by omega⟩)
  | ptr ls p mx off e2 R hhi hlo hoff h14 htail ih =>
    refine .ptr ls p mx off e2 R ?_ ?_ hoff h14
      (ih (fun hc => hq (Set.mem_union_right _ hc)))
    · rw [List.get?_set_ne _ _
        (show q ≠ p from fun hc => hq (Set.mem_union_left _ (Or.inl hc)))]
      exact hhi
    · rw [List.get?_set_ne _ _
        (show q ≠ p + 1 from fun hc => hq (Set.mem_union_left _ (Or.inr hc)))]
      exact hlo

/-- A non-fuel result of the decoding loop is stable under one more unit
of fuel. -/
theorem fromBytesLoop_succ_stable :
    ∀ fuel (b : Bytes) labels restore mx res, res ≠ .error .fuel →
    Name.fromBytesLoop fuel b labels restore mx = res →
    Name.fromBytesLoop (fuel + 1) b labels restore mx = res := by
  intro fuel
  induction fuel with
  | zero =>
    intro b l r mx res hres h
    exact absurd h.symm hres
  | succ fuel ih =>
    intro b l r mx res hres h
    unfold Name.fromBytesLoop at h ⊢
    split at h
    · exact h
    · rename_i signal heq
      split at h
      · rename_i hsig
        rw [if_pos hsig]
        split at h
        · exact h
        · rename_i ptr b1 hread
          by_cases hoff : mx ≤ ptr &&& 16383
          · rw [if_pos hoff] at h ⊢
            exact h
          · rw [if_neg hoff] at h ⊢
            exact ih _ _ _ _ _ hres h
      · rename_i hsig
        rw [if_neg hsig]
        split at h
        · exact h
        · rename_i lab b1 hlb
          by_cases hz : (lab.length == 0) = true
          · rw [if_pos hz] at h ⊢
            exact h
          · rw [if_neg hz] at h ⊢
            exact ih _ _ _ _ _ hres h

/-- A non-fuel result of the decoding loop is stable under extra fuel. -/
theorem fromBytesLoop_mono :
    ∀ d fuel (b : Bytes) labels restore mx res, res ≠ .error .fuel →
    Name.fromBytesLoop fuel b labels restore mx = res →
    Name.fromBytesLoop (fuel + d) b labels restore mx = res := by
  intro d
  induction d with
  | zero =>
    intro fuel b l r mx res hres h
    exact h
  | succ d ih =>
    intro fuel b l r mx res hres h
    exact fromBytesLoop_succ_stable (fuel + d) b l r mx res hres
      (ih fuel b l r mx res hres h)

/-- Decoding along a spine returns the spine's labels appended to the
accumulator, leaving the cursor at the restore point. -/
theorem spine_decode {B : List Nat} {ls : List (List Nat)}
    {p mx e : Nat} {R : Set Nat} (hs : SpineR B ls p mx e R) :
    ∀ acc restore O,
    Name.fromLabels (acc ++ ls) = some ⟨acc ++ ls⟩ →
    ∃ f0, ∀ fuel, f0 ≤ fuel →
      Name.fromBytesLoop fuel ⟨B, p, O⟩ acc restore mx =
        .ok (⟨acc ++ ls⟩, ⟨B, restore.getD e, O⟩) := by
  induction hs with
  | root p mx h0 =>
    intro acc restore O hv
    refine ⟨1, ?_⟩
    intro fuel hf
    match fuel, hf with
    | fuel + 1, _ =>
      unfold Name.fromBytesLoop
      rw [peek_get h0]
      dsimp only
      rw [if_neg (by decide)]
      rw [@labelFromBytes_get B p [] O h0 (by simp) (by decide) (by decide)]
      dsimp only
      have hz : ((List.length ([] : List Nat)) == 0) = true := rfl
      rw [if_pos hz, hv]
      cases restore <;> rfl
  | label l ls p mx e R hne hlt hutf hlen hcontent hrest ih =>
    intro acc restore O hv
    obtain ⟨f0, hrec⟩ := ih (acc ++ [l]) restore O
      (by rw [List.append_assoc]; exact hv)
    refine ⟨f0 + 1, ?_⟩
    intro fuel hf
    match fuel, hf with
    | fuel + 1, _ =>
      unfold Name.fromBytesLoop
      rw [peek_get hlen]
      dsimp only
      rw [if_neg ?_]
      · rw [labelFromBytes_get hlen hcontent hlt hutf]
        dsimp only
        rw [if_neg (by simpa using hne)]
        have := hrec fuel (by omega)
        rw [this]
        rw [List.append_assoc]
        rfl
      · have hl64 : l.length >>> 6 = 0 := by
          rw [Nat.shiftRight_eq_div_pow]
          omega
        rw [hl64]
        decide
  | ptr ls p mx off e2 R hhi hlo hoff h14 htail ih =>
    intro acc restore O hv
    obtain ⟨f0, hrec⟩ := ih acc (some (restore.getD (p + 2))) O hv
    refine ⟨f0 + 1, ?_⟩
    intro fuel hf
    match fuel, hf with
    | fuel + 1, _ =>
      unfold Name.fromBytesLoop
      rw [peek_get hhi]
      dsimp only
      rw [if_pos ?_]
      · rw [readU16_get hhi hlo]
        dsimp only
        have hval : ((192 + off / 256) * 256 + off % 256) &&& 16383 = off := by
          rw [Nat.and_pow_two_sub_one_eq_mod _ 14]
          have : (192 + off / 256) * 256 + off % 256 = 49152 + off := by
            omega
          rw [this]
          omega
        rw [hval]
        rw [if_neg (by omega)]
        cases restore with
        | none =>
          have hgoal := hrec fuel (by omega)
          dsimp only at hgoal ⊢
          exact hgoal
        | some r =>
          have hgoal := hrec fuel (by omega)
          dsimp only at hgoal ⊢
          exact hgoal
      · have h192 : 192 + off / 256 < 256 := by omega
        have hsh : (192 + off / 256) >>> 6 = 3 := by
          rw [Nat.shiftRight_eq_div_pow]
          omega
        rw [hsh]
        decide

/-- `Name::from_bytes` succeeds along a spine whose bound is its own
start position. -/
theorem spine_fromBytes {B : List Nat} {ls : List (List Nat)} {p e : Nat}
    {R : Set Nat} (hs : SpineR B ls p p e R)
    (hv : Name.fromLabels ls = some ⟨ls⟩) (O : List (List Nat × Nat)) :
    Name.fromBytes ⟨B, p, O⟩ = .ok (⟨ls⟩, ⟨B, e, O⟩) := by
  obtain ⟨f0, hrec⟩ := spine_decode hs [] none O hv
  unfold Name.fromBytes
  dsimp only
  have hne := fromBytesLoop_fuel (Name.loopFuel ⟨B, p, O⟩) ⟨B, p, O⟩ [] none p
    (by
      unfold Name.loopFuel
      dsimp only
      rw [Nat.add_one_mul]
      omega)
  have hmono := fromBytesLoop_mono f0 (Name.loopFuel ⟨B, p, O⟩) ⟨B, p, O⟩ []
    none p (Name.fromBytesLoop (Name.loopFuel ⟨B, p, O⟩) ⟨B, p, O⟩ [] none p)
    hne rfl
  have h1 := hrec (Name.loopFuel ⟨B, p, O⟩ + f0) (by omega)
  rw [hmono] at h1
  exact h1

/-! Injectivity of the textual form of names over dot-free labels. -/

theorem nameText_fold (ls : List (List Nat)) :
    ∀ acc, ls.foldl
      (fun acc l => acc ++ l ++ (if l == ([] : List Nat) then [] else [46]))
      acc = acc ++ ls.foldl
        (fun acc l => acc ++ l ++ (if l == ([] : List Nat) then [] else [46]))
        [] := by
  induction ls with
  | nil =>
    intro acc
    simp
  | cons x t ih =>
    intro acc
    rw [List.foldl_cons, List.foldl_cons, ih, ih ([] ++ x ++ _)]
    simp

theorem nameText_cons (l : List Nat) (t : List (List Nat)) (hne : l ≠ []) :
    nameText ⟨l :: t⟩ = l ++ [46] ++ nameText ⟨t⟩ := by
  unfold nameText
  dsimp only
  rw [List.foldl_cons, nameText_fold]
  simp [hne]

theorem nameText_root : nameText ⟨[[]]⟩ = [] := rfl

/-- A dot-free chunk before a dot is determined by the whole string. -/
theorem dotfree_prefix_inj :
    ∀ (l1 l2 t1 t2 : List Nat), 46 ∉ l1 → 46 ∉ l2 →
    l1 ++ [46] ++ t1 = l2 ++ [46] ++ t2 → l1 = l2 ∧ t1 = t2 := by
  intro l1
  induction l1 with
  | nil =>
    intro l2 t1 t2 h1 h2 heq
    cases l2 with
    | nil =>
      simp at heq
      exact ⟨rfl, heq⟩
    | cons y t =>
      simp at heq
      obtain ⟨hy, -⟩ := heq
      exact absurd (by rw [hy]; exact List.mem_cons_self _ _) h2
  | cons x l1 ih =>
    intro l2 t1 t2 h1 h2 heq
    cases l2 with
    | nil =>
      simp at heq
      obtain ⟨hx, -⟩ := heq
      exact absurd (by rw [hx]; exact List.mem_cons_self _ _) h1
    | cons y l2 =>
      simp only [List.cons_append, List.cons.injEq] at heq
      obtain ⟨hxy, heq⟩ := heq
      obtain ⟨ha, hb⟩ := ih l2 t1 t2
        (fun hc => h1 (List.mem_cons_of_mem _ hc))
        (fun hc => h2 (List.mem_cons_of_mem _ hc)) heq
      exact ⟨by rw [hxy, ha], hb⟩

/-- Valid names with dot-free labels have distinct `Display` strings. -/
theorem nameText_inj :
    ∀ (ls1 ls2 : List (List Nat)),
    ls1.getLast? = some [] → ls2.getLast? = some [] →
    (∀ l ∈ ls1.dropLast, l ≠ []) → (∀ l ∈ ls2.dropLast, l ≠ []) →
    (∀ l ∈ ls1, 46 ∉ l) → (∀ l ∈ ls2, 46 ∉ l) →
    nameText ⟨ls1⟩ = nameText ⟨ls2⟩ → ls1 = ls2 := by
  intro ls1
  induction ls1 with
  | nil =>
    intro ls2 hl1 hl2 hd1 hd2 hf1 hf2 ht
    cases hl1
  | cons x t ih =>
    intro ls2 hl1 hl2 hd1 hd2 hf1 hf2 ht
    cases ls2 with
    | nil => cases hl2
    | cons y u =>
      by_cases hx : x = []
      · subst hx
        have htnil : t = [] := by
          cases t with
          | nil => rfl
          | cons a s =>
            refine absurd rfl (hd1 [] ?_)
            rw [List.dropLast_cons_of_ne_nil (by simp)]
            exact List.mem_cons_self _ _
        subst htnil
        by_cases hy : y = []
        · subst hy
          have hunil : u = [] := by
            cases u with
            | nil => rfl
            | cons a s =>
              refine absurd rfl (hd2 [] ?_)
              rw [List.dropLast_cons_of_ne_nil (by simp)]
              exact List.mem_cons_self _ _
          subst hunil
          rfl
        · rw [nameText_root, nameText_cons y u hy] at ht
          exfalso
          have hlen := congrArg List.length ht
          simp at hlen
          omega
      · by_cases hy : y = []
        · subst hy
          have hunil : u = [] := by
            cases u with
            | nil => rfl
            | cons a s =>
              refine absurd rfl (hd2 [] ?_)
              rw [List.dropLast_cons_of_ne_nil (by simp)]
              exact List.mem_cons_self _ _
          subst hunil
          rw [nameText_cons x t hx, nameText_root] at ht
          exfalso
          have hlen := congrArg List.length ht
          simp at hlen
        · rw [nameText_cons x t hx, nameText_cons y u hy] at ht
          obtain ⟨hxy, htu⟩ := dotfree_prefix_inj x y (nameText ⟨t⟩)
            (nameText ⟨u⟩) (hf1 x (by simp)) (hf2 y (by simp)) ht
          have htne : t ≠ [] := by
            intro hc
            subst hc
            simp only [List.getLast?_singleton, Option.some.injEq] at hl1
            exact hx hl1
          have hune : u ≠ [] := by
            intro hc
            subst hc
            simp only [List.getLast?_singleton, Option.some.injEq] at hl2
            exact hy hl2
          have hrec := ih u (by rwa [getLast?_cons_ne x t htne] at hl1)
            (by rwa [getLast?_cons_ne y u hune] at hl2)
            (fun l hl => hd1 l (by
              rw [List.dropLast_cons_of_ne_nil htne]
              exact List.mem_cons_of_mem _ hl))
            (fun l hl => hd2 l (by
              rw [List.dropLast_cons_of_ne_nil hune]
              exact List.mem_cons_of_mem _ hl))
            (fun l hl => hf1 l (List.mem_cons_of_mem _ hl))
            (fun l hl => hf2 l (List.mem_cons_of_mem _ hl)) htu
          rw [hxy, hrec]

theorem mul_pow_lor_eq_add (a n m : Nat) (hm : m < 2 ^ n) :
    (2 ^ n * a) ||| m = 2 ^ n * a + m := by
  apply Nat.eq_of_testBit_eq
  intro j
  rw [Nat.testBit_lor, Nat.testBit_mul_pow_two,
    Nat.testBit_mul_pow_two_add a hm]
  by_cases hj : j < n
  · rw [if_pos hj]
    simp [show ¬(j ≥ n) from by omega]
  · rw [if_neg hj]
    have hmb : m.testBit j = false :=
      Nat.testBit_lt_two_pow
        (lt_of_lt_of_le hm (Nat.pow_le_pow_right (by norm_num) (by omega)))
    simp [hmb, show j ≥ n from by omega]

theorem ptr_word_eq (off : Nat) (h : off < 16384) :
    49152 ||| off % 65536 = 49152 + off := by
  rw [Nat.mod_eq_of_lt (by omega)]
  have h1 : (49152 : Nat) = 2 ^ 14 * 3 := by norm_num
  rw [h1, mul_pow_lor_eq_add 3 14 off (by omega)]

theorem drop_eq_cons_of_get2 {α : Type} {B : List α} {p : Nat} {x : α}
    (h : B.get? p = some x) : B.drop p = x :: B.drop (p + 1) := by
  induction B generalizing p with
  | nil => cases h
  | cons a t ih =>
    cases p with
    | zero =>
      injection h with h
      subst h
      rfl
    | succ p =>
      simp only [List.get?_cons_succ] at h
      rw [List.drop_succ_cons, ih h]
      rfl

/-- Full validity of a name for the encode/decode round trip: built by
`from_labels`, labels short, dot-free and UTF-8 valid. -/
def NameOK (n : Name) : Prop :=
  Name.fromLabels n.labels = some n ∧
  ∀ l ∈ n.labels, l.length < 63 ∧ 46 ∉ l ∧ utf8Valid l = true

theorem NameOK.drop {n : Name} (h : NameOK n) (i : Nat)
    (hi : i < n.labels.length) : NameOK ⟨n.labels.drop i⟩ := by
  refine ⟨Name.fromLabels_drop i h.1 hi, ?_⟩
  intro l hl
  exact h.2 l (List.mem_of_mem_drop hl)

/-- Distinct suffixes of a valid name have distinct `Display` strings. -/
theorem suffix_text_ne {n : Name} (hok : NameOK n) {j i : Nat}
    (hj : j < n.labels.length) (hi : i < n.labels.length) (hne : j ≠ i) :
    nameText ⟨n.labels.drop j⟩ ≠ nameText ⟨n.labels.drop i⟩ := by
  intro ht
  obtain ⟨-, h1, h2, h3, h4, h5⟩ := Name.fromLabels_inv hok.1
  have hd : n.labels.drop j = n.labels.drop i := by
    apply nameText_inj
    · rw [getLast?_drop_of_lt _ j hj]
      exact h3
    · rw [getLast?_drop_of_lt _ i hi]
      exact h3
    · intro l hl
      rw [dropLast_drop_comm] at hl
      exact h4 l (List.mem_of_mem_drop hl)
    · intro l hl
      rw [dropLast_drop_comm] at hl
      exact h4 l (List.mem_of_mem_drop hl)
    · intro l hl
      exact (hok.2 l (List.mem_of_mem_drop hl)).2.1
    · intro l hl
      exact (hok.2 l (List.mem_of_mem_drop hl)).2.1
    · exact ht
  have := congrArg List.length hd
  simp only [List.length_drop] at this
  omega

/-- The start position of a spine is among its read positions. -/
theorem SpineR.start_mem {B : List Nat} {ls : List (List Nat)}
    {p mx e : Nat} {R : Set Nat} (h : SpineR B ls p mx e R) : p ∈ R := by
  cases h with
  | root p mx h0 => rfl
  | label l ls p mx e R hne hlt hutf hlen hcontent hrest =>
    exact Set.mem_union_left _ ⟨le_refl p, by omega⟩
  | ptr ls p mx off e2 R hhi hlo hoff h14 htail =>
    exact Set.mem_union_left _ (Or.inl rfl)

/-- The occurrence-map invariant: every occurrence points at a completed
wire encoding (with its own position as pointer bound) of the name whose
`Display` string is its key, read entirely inside the region `G`. -/
def GoodOccs (B : List Nat) (occs : List (List Nat × Nat)) (G : Set Nat) :
    Prop :=
  (∀ x ∈ G, x < B.length) ∧
  ∀ ko ∈ occs, ∃ ls e R, SpineR B ls ko.2 ko.2 e R ∧ R ⊆ G ∧
    NameOK ⟨ls⟩ ∧ ko.1 = nameText ⟨ls⟩

theorem lookup_append_of_ne {news O0 : List (List Nat × Nat)}
    {key : List Nat} (h : ∀ ko ∈ news, ko.1 ≠ key) :
    (news ++ O0).lookup key = O0.lookup key := by
  induction news with
  | nil => rfl
  | cons e t ih =>
    rw [List.cons_append]
    match e with
    | (k, v) =>
      rw [List.lookup_cons]
      have hkk : (key == k) = false := by
        simp only [beq_eq_false_iff_ne]
        intro hc
        exact h (k, v) (List.mem_cons_self _ _) (by simp [hc])
      rw [hkk]
      exact ih (fun ko hko => h ko (List.mem_cons_of_mem _ hko))

theorem mem_of_lookup_eq_some {l : List (List Nat × Nat)} {key : List Nat}
    {v : Nat} (h : l.lookup key = some v) : (key, v) ∈ l := by
  induction l with
  | nil => cases h
  | cons e t ih =>
    match e with
    | (k, w) =>
      rw [List.lookup_cons] at h
      split at h
      · rename_i hkv
        injection h with h
        subst h
        simp only [beq_iff_eq] at hkv
        subst hkv
        exact List.mem_cons_self _ _
      · exact List.mem_cons_of_mem _ (ih h)

theorem get?_append_len {B t : List Nat} (x : Nat) :
    (B ++ x :: t).get? B.length = some x := by
  rw [List.get?_append_right (le_refl _)]
  simp

theorem get?_append_len1 {B t : List Nat} (x y : Nat) :
    (B ++ x :: y :: t).get? (B.length + 1) = some y := by
  rw [List.get?_append_right (by omega)]
  simp

theorem nameText_inj_ok {ls1 ls2 : List (List Nat)}
    (h1 : NameOK ⟨ls1⟩) (h2 : NameOK ⟨ls2⟩)
    (ht : nameText ⟨ls1⟩ = nameText ⟨ls2⟩) : ls1 = ls2 := by
  obtain ⟨-, -, -, hl1, hd1, -⟩ := Name.fromLabels_inv h1.1
  obtain ⟨-, -, -, hl2, hd2, -⟩ := Name.fromLabels_inv h2.1
  exact nameText_inj ls1 ls2 hl1 hl2 hd1 hd2
    (fun l hl => (h1.2 l hl).2.1) (fun l hl => (h2.2 l hl).2.1) ht

/-- The encoding loop of `Name::to_bytes`: it succeeds, appends to the
buffer, registers occurrences for the fresh suffixes, and leaves behind a
decodable spine for the encoded suffix. -/
theorem toBytesLoop_spec (n : Name) (hok : NameOK n)
    (B0 : List Nat) (O0 : List (List Nat × Nat)) (G : Set Nat)
    (hG : GoodOccs B0 O0 G) (h16 : B0.length ≤ 16384) :
    ∀ d i b, i + d + 1 = n.labels.length →
      b.pos = b.buf.length →
      B0.length ≤ b.pos →
      (∃ ext, b.buf = B0 ++ ext) →
      (∃ news, b.occs = news ++ O0 ∧
        ∀ ko ∈ news, ∃ j, j < i ∧ ko.1 = nameText ⟨n.labels.drop j⟩) →
      ∃ b' news',
        Name.toBytesLoop n.labels i b = some b' ∧
        (∃ code, b'.buf = b.buf ++ code) ∧
        b'.pos = b'.buf.length ∧
        b.pos < b'.pos ∧
        b'.occs = news' ++ b.occs ∧
        (∀ ko ∈ news', ∃ j, i ≤ j ∧ j < n.labels.length ∧
          ko.1 = nameText ⟨n.labels.drop j⟩) ∧
        (∀ ko ∈ news', ∃ ls2 e2 R2, SpineR b'.buf ls2 ko.2 ko.2 e2 R2 ∧
          (∀ x ∈ R2, x ∈ G ∨ (b.pos ≤ x ∧ x < b'.pos)) ∧ NameOK ⟨ls2⟩ ∧
          ko.1 = nameText ⟨ls2⟩) ∧
        (∃ R, (∀ x ∈ R, x ∈ G ∨ (b.pos ≤ x ∧ x < b'.pos)) ∧
          ∀ mx, B0.length ≤ mx →
            SpineR b'.buf (n.labels.drop i) b.pos mx b'.pos R) := by
  intro d
  induction d with
  | zero =>
    intro i b hd halign hstart hbufx hoccsx
    obtain ⟨-, hne0, -, hlast, -, -⟩ := Name.fromLabels_inv hok.1
    have hi : i < n.labels.length := by omega
    have hdropi : n.labels.drop i = [[]] := by
      rw [show i = n.labels.length - 1 from by omega]
      exact drop_length_sub_one n.labels [] hlast
    refine ⟨⟨b.buf ++ [0], b.pos + 1, b.occs⟩, [], ?_, ⟨[0], rfl⟩, ?_, ?_,
      rfl, ?_, ?_, ?_⟩
    · rw [Name.toBytesLoop, dif_neg (by omega),
        Name.fromLabels_drop i hok.1 hi]
      dsimp only
      rw [if_pos (by simp [Name.isRoot, hdropi])]
      rw [show (⟨n.labels.drop i⟩ : Name).labels.headI = [] from by
        rw [show (⟨n.labels.drop i⟩ : Name).labels = n.labels.drop i from rfl,
          hdropi]
        rfl]
      rfl
    · simp [halign]
    · show b.pos < b.pos + 1
      omega
    · intro ko hko
      cases hko
    · intro ko hko
      cases hko
    · refine ⟨{x | x = b.pos}, ?_, ?_⟩
      · intro x hx
        refine Or.inr ⟨le_of_eq hx.symm, ?_⟩
        show x < b.pos + 1
        rw [show x = b.pos from hx]
        omega
      · intro mx hmx
        rw [hdropi]
        refine SpineR.root b.pos mx ?_
        rw [show b.pos = b.buf.length from halign]
        exact get?_append_len 0
  | succ d ih =>
    intro i b hd halign hstart hbufx hoccsx
    obtain ⟨ext, hbuf⟩ := hbufx
    obtain ⟨news, hoccs, hnews⟩ := hoccsx
    have hi : i < n.labels.length := by omega
    have hi1 : i < n.labels.length - 1 := by omega
    have hget : n.labels.get? i = some (n.labels.get ⟨i, hi⟩) :=
      List.get?_eq_get hi
    have hdropi : n.labels.drop i
        = n.labels.get ⟨i, hi⟩ :: n.labels.drop (i + 1) :=
      drop_eq_cons_of_get2 hget
    obtain ⟨-, hne0, -, hlast, hdl4, -⟩ := Name.fromLabels_inv hok.1
    have hlmem : n.labels.get ⟨i, hi⟩ ∈ n.labels := List.get?_mem hget
    obtain ⟨hl63, hl46, hlutf⟩ := hok.2 _ hlmem
    have hlne : n.labels.get ⟨i, hi⟩ ≠ [] := by
      apply hdl4
      have hgd : n.labels.dropLast.get? i
          = some (n.labels.get ⟨i, hi⟩) := by
        rw [List.dropLast_eq_take, List.get?_take (by omega)]
        exact hget
      exact List.get?_mem hgd
    have hroot : (⟨n.labels.drop i⟩ : Name).isRoot = false := by
      simp only [Name.isRoot, List.length_drop, beq_eq_false_iff_ne]
      omega
    have hlookup : Bytes.findFirstOcc b (nameText ⟨n.labels.drop i⟩)
        = O0.lookup (nameText ⟨n.labels.drop i⟩) := by
      unfold Bytes.findFirstOcc
      rw [hoccs]
      apply lookup_append_of_ne
      intro ko hko hkey
      obtain ⟨j, hj, hjkey⟩ := hnews ko hko
      exact suffix_text_ne hok (show j < n.labels.length from by omega) hi
        (by omega) (hjkey ▸ hkey)
    cases hlk : O0.lookup (nameText ⟨n.labels.drop i⟩) with
    | some off =>
      obtain ⟨ls2, e2, R2, hsp2, hR2, hok2, hkey2⟩ :=
        hG.2 _ (mem_of_lookup_eq_some hlk)
      have hls2 : ls2 = n.labels.drop i :=
        nameText_inj_ok hok2 (hok.drop i hi) hkey2.symm
      subst hls2
      have hoffG : off ∈ G := hR2 hsp2.start_mem
      have hoffB : off < B0.length := hG.1 off hoffG
      have hbe : Bytes.be2 (49152 ||| off % 65536)
          = [192 + off / 256, off % 256] := by
        rw [ptr_word_eq off (by omega)]
        simp only [Bytes.be2]
        have e1 : (49152 + off) / 256 % 256 = 192 + off / 256 := by omega
        have e3 : (49152 + off) % 256 = off % 256 := by omega
        rw [e1, e3]
      refine ⟨b.writeU16 (49152 ||| off % 65536), [], ?_, ?_, ?_, ?_, ?_,
        ?_, ?_, ?_⟩
      · rw [Name.toBytesLoop, dif_neg (by omega),
          Name.fromLabels_drop i hok.1 hi]
        dsimp only
        rw [hroot]
        simp only [Bool.false_eq_true, if_false]
        rw [hlookup, hlk]
      · exact ⟨Bytes.be2 (49152 ||| off % 65536), Bytes.writeU16_buf b _⟩
      · rw [Bytes.writeU16_buf, Bytes.writeU16_pos, halign, hbe]
        simp
      · rw [Bytes.writeU16_pos]
        omega
      · rw [Bytes.writeU16_occs]
        rfl
      · intro ko hko
        cases hko
      · intro ko hko
        cases hko
      · refine ⟨{x | x = b.pos ∨ x = b.pos + 1} ∪ R2, ?_, ?_⟩
        · intro x hx
          cases hx with
          | inl hx =>
            refine Or.inr ?_
            rw [Bytes.writeU16_pos]
            cases hx with
            | inl hx => omega
            | inr hx => omega
          | inr hx => exact Or.inl (hR2 hx)
        · intro mx hmx
          rw [show (b.writeU16 (49152 ||| off % 65536)).pos = b.pos + 2 from
            Bytes.writeU16_pos b _]
          refine SpineR.ptr (n.labels.drop i) b.pos mx off e2 R2 ?_ ?_
            (by omega) (by omega) ?_
          · rw [Bytes.writeU16_buf, hbe, show b.pos = b.buf.length from halign]
            exact get?_append_len _
          · rw [Bytes.writeU16_buf, hbe, show b.pos = b.buf.length from halign]
            exact get?_append_len1 _ _
          · rw [Bytes.writeU16_buf, hbe, hbuf, List.append_assoc]
            exact hsp2.append _
    | none =>
      have hb1occs : (Label.toBytes (n.labels.get ⟨i, hi⟩)
          (b.setFirstOcc (nameText ⟨n.labels.drop i⟩) b.pos)).occs
          = (nameText ⟨n.labels.drop i⟩, b.pos) :: b.occs := by
        unfold Label.toBytes
        rw [Bytes.writeAll_occs, Bytes.write_occs]
        rfl
      have hb1buf : (Label.toBytes (n.labels.get ⟨i, hi⟩)
          (b.setFirstOcc (nameText ⟨n.labels.drop i⟩) b.pos)).buf
          = b.buf ++ [(n.labels.get ⟨i, hi⟩).length]
              ++ n.labels.get ⟨i, hi⟩ := by
        unfold Label.toBytes
        rw [Bytes.writeAll_buf, Bytes.write_buf]
        rw [Nat.mod_eq_of_lt (by omega)]
        rfl
      have hb1pos : (Label.toBytes (n.labels.get ⟨i, hi⟩)
          (b.setFirstOcc (nameText ⟨n.labels.drop i⟩) b.pos)).pos
          = b.pos + 1 + (n.labels.get ⟨i, hi⟩).length := by
        unfold Label.toBytes
        rw [Bytes.writeAll_pos, Bytes.write_pos]
        rfl
      obtain ⟨b', news', hrun, ⟨code, hcode⟩, halign', hposlt, hoccs',
          hnewsf, hnewsp, R, hRb, hspine⟩ :=
        ih (i + 1) (Label.toBytes (n.labels.get ⟨i, hi⟩)
          (b.setFirstOcc (nameText ⟨n.labels.drop i⟩) b.pos))
          (by omega)
          (by
            rw [hb1pos, hb1buf, halign]
            simp
            omega)
          (by rw [hb1pos]; omega)
          (by
            rw [hb1buf, hbuf, List.append_assoc, List.append_assoc]
            exact ⟨_, rfl⟩)
          (by
            rw [hb1occs]
            refine ⟨(nameText ⟨n.labels.drop i⟩, b.pos) :: news, ?_, ?_⟩
            · rw [hoccs]
              rfl
            · intro ko hko
              cases hko with
              | head => exact ⟨i, by omega, rfl⟩
              | tail _ hko =>
                obtain ⟨j, hj, hk⟩ := hnews ko hko
                exact ⟨j, by omega, hk⟩)
      have hb1len : (n.labels.get ⟨i, hi⟩).length < 63 := hl63
      have hspineAt : ∀ mx, B0.length ≤ mx →
          SpineR b'.buf (n.labels.drop i) b.pos mx b'.pos
            ({x | b.pos ≤ x ∧ x < b.pos + 1
              + (n.labels.get ⟨i, hi⟩).length} ∪ R) := by
        intro mx hmx
        rw [hdropi]
        refine SpineR.label _ _ b.pos mx b'.pos R hlne hl63 hlutf ?_ ?_ ?_
        · rw [hcode, hb1buf, halign, List.append_assoc, List.append_assoc]
          exact get?_append_len _
        · rw [hcode, hb1buf, halign]
          rw [show (b.buf ++ [(n.labels.get ⟨i, hi⟩).length]
              ++ n.labels.get ⟨i, hi⟩) ++ code
            = (b.buf ++ [(n.labels.get ⟨i, hi⟩).length])
              ++ (n.labels.get ⟨i, hi⟩ ++ code) from by
            simp [List.append_assoc]]
          rw [show b.buf.length + 1
              = (b.buf ++ [(n.labels.get ⟨i, hi⟩).length]).length from by
            simp]
          rw [List.drop_left, List.take_append_of_le_length (le_refl _),
            List.take_length]
        · have hsp := hspine mx hmx
          rw [hb1pos] at hsp
          exact hsp
      refine ⟨b', news' ++ [(nameText ⟨n.labels.drop i⟩, b.pos)], ?_, ?_,
        halign', ?_, ?_, ?_, ?_, ?_⟩
      · rw [Name.toBytesLoop, dif_neg (by omega),
          Name.fromLabels_drop i hok.1 hi]
        dsimp only
        rw [hroot]
        simp only [Bool.false_eq_true, if_false]
        rw [hlookup, hlk]
        dsimp only
        rw [show (⟨n.labels.drop i⟩ : Name).labels.headI
            = n.labels.get ⟨i, hi⟩ from by
          rw [show (⟨n.labels.drop i⟩ : Name).labels = n.labels.drop i
            from rfl, hdropi]
          rfl]
        exact hrun
      · rw [hcode, hb1buf, List.append_assoc, List.append_assoc]
        exact ⟨_, rfl⟩
      · rw [hb1pos] at hposlt
        omega
      · rw [hoccs', hb1occs, List.append_cons, List.append_assoc]
      · intro ko hko
        rcases List.mem_append.mp hko with hko | hko
        · obtain ⟨j, hj1, hj2, hk⟩ := hnewsf ko hko
          exact ⟨j, by omega, hj2, hk⟩
        · rw [List.mem_singleton.mp hko]
          exact ⟨i, le_refl i, hi, rfl⟩
      · intro ko hko
        rcases List.mem_append.mp hko with hko | hko
        · obtain ⟨ls2, e2, R2, hsp2, hR2, hok2, hkey2⟩ := hnewsp ko hko
          refine ⟨ls2, e2, R2, hsp2, ?_, hok2, hkey2⟩
          intro x hx
          rcases hR2 x hx with hx1 | hx1
          · exact Or.inl hx1
          · obtain ⟨hxa, hxb⟩ := hx1
            refine Or.inr ⟨?_, hxb⟩
            rw [hb1pos] at hxa
            omega
        · rw [List.mem_singleton.mp hko]
          refine ⟨n.labels.drop i, b'.pos, _,
            hspineAt b.pos hstart, ?_, hok.drop i hi, rfl⟩
          intro x hx
          rcases hx with hx | hx
          · obtain ⟨hxa, hxb⟩ := hx
            refine Or.inr ⟨hxa, ?_⟩
            rw [hb1pos] at hposlt
            omega
          · rcases hRb x hx with hx1 | hx1
            · exact Or.inl hx1
            · obtain ⟨hxa, hxb⟩ := hx1
              refine Or.inr ⟨?_, hxb⟩
              rw [hb1pos] at hxa
              omega
      · refine ⟨_, ?_, hspineAt⟩
        intro x hx
        rcases hx with hx | hx
        · obtain ⟨hxa, hxb⟩ := hx
          refine Or.inr ⟨hxa, ?_⟩
          rw [hb1pos] at hposlt
          omega
        · rcases hRb x hx with hx1 | hx1
          · exact Or.inl hx1
          · obtain ⟨hxa, hxb⟩ := hx1
            refine Or.inr ⟨?_, hxb⟩
            rw [hb1pos] at hxa
            omega

theorem GoodOccs.extend {B : List Nat} {occs : List (List Nat × Nat)}
    {G : Set Nat} (h : GoodOccs B occs G) (T : List Nat) :
    GoodOccs (B ++ T) occs G := by
  refine ⟨?_, ?_⟩
  · intro x hx
    have := h.1 x hx
    rw [List.length_append]
    omega
  · intro ko hko
    obtain ⟨ls, e, R, hsp, hR, hok, hk⟩ := h.2 ko hko
    exact ⟨ls, e, R, hsp.append T, hR, hok, hk⟩

theorem GoodOccs.patchOcc {B : List Nat} {occs : List (List Nat × Nat)}
    {G : Set Nat} (h : GoodOccs B occs G) (q v : Nat) (hq : q ∉ G) :
    GoodOccs (B.set q v) occs G := by
  refine ⟨?_, ?_⟩
  · intro x hx
    have := h.1 x hx
    rw [List.length_set]
    exact this
  · intro ko hko
    obtain ⟨ls, e, R, hsp, hR, hok, hk⟩ := h.2 ko hko
    exact ⟨ls, e, R, hsp.patchByte q v (fun hc => hq (hR hc)), hR, hok, hk⟩

theorem GoodOccs.mono {B : List Nat} {occs : List (List Nat × Nat)}
    {G G2 : Set Nat} (h : GoodOccs B occs G) (hsub : G ⊆ G2)
    (hb : ∀ x ∈ G2, x < B.length) : GoodOccs B occs G2 := by
  refine ⟨hb, ?_⟩
  intro ko hko
  obtain ⟨ls, e, R, hsp, hR, hok, hk⟩ := h.2 ko hko
  exact ⟨ls, e, R, hsp, hR.trans hsub, hok, hk⟩

/-- `Name::to_bytes`: success, append-only buffer growth, preservation of
the occurrence invariant, and a decodable spine for the written name. -/
theorem nameToBytes_spec (n : Name) (hok : NameOK n) (b : Bytes)
    (G : Set Nat) (hG : GoodOccs b.buf b.occs G)
    (halign : b.pos = b.buf.length) (h16 : b.buf.length ≤ 16384) :
    ∃ b', Name.toBytes n b = some b' ∧
      (∃ code, b'.buf = b.buf ++ code) ∧
      b'.pos = b'.buf.length ∧ b.pos < b'.pos ∧
      GoodOccs b'.buf b'.occs (G ∪ {x | b.pos ≤ x ∧ x < b'.pos}) ∧
      (∃ R, (∀ x ∈ R, x ∈ G ∨ (b.pos ≤ x ∧ x < b'.pos)) ∧
        ∀ mx, b.buf.length ≤ mx →
          SpineR b'.buf n.labels b.pos mx b'.pos R) := by
  obtain ⟨-, hne0, -, -, -, -⟩ := Name.fromLabels_inv hok.1
  have hlen1 : 1 ≤ n.labels.length := List.length_pos.mpr hne0
  obtain ⟨b', news', hrun, ⟨code, hcode⟩, halign', hposlt, hoccs', hnewsf,
      hnewsp, R, hRb, hspine⟩ :=
    toBytesLoop_spec n hok b.buf b.occs G hG h16 (n.labels.length - 1) 0 b
      (by omega) halign (le_of_eq halign.symm)
      ⟨[], (List.append_nil _).symm⟩
      ⟨[], rfl, fun ko hko => absurd hko (List.not_mem_nil ko)⟩
  refine ⟨b', hrun, ⟨code, hcode⟩, halign', hposlt, ?_, ?_⟩
  · refine ⟨?_, ?_⟩
    · intro x hx
      rcases hx with hx | hx
      · have := hG.1 x hx
        rw [hcode, List.length_append]
        omega
      · rw [← halign']
        exact hx.2
    · intro ko hko
      rw [hoccs'] at hko
      rcases List.mem_append.mp hko with hko | hko
      · obtain ⟨ls2, e2, R2, hsp2, hR2, hok2, hk2⟩ := hnewsp ko hko
        refine ⟨ls2, e2, R2, hsp2, ?_, hok2, hk2⟩
        intro x hx
        rcases hR2 x hx with h1 | h1
        · exact Set.mem_union_left _ h1
        · exact Set.mem_union_right _ h1
      · obtain ⟨ls2, e2, R2, hsp2, hR2, hok2, hk2⟩ := hG.2 ko hko
        refine ⟨ls2, e2, R2, ?_, hR2.trans Set.subset_union_left,
          hok2, hk2⟩
        rw [hcode]
        exact hsp2.append code
  · refine ⟨R, hRb, ?_⟩
    intro mx hmx
    have := hspine mx hmx
    rwa [List.drop_zero] at this

theorem QuestionType.fromU16_toU16Q (t : QuestionType) :
    QuestionType.fromU16 (QuestionType.toU16 t) = some t := by
  cases t <;> rfl

theorem QuestionClass.fromU16_toU16C (c : QuestionClass) :
    QuestionClass.fromU16 (QuestionClass.toU16 c) = some c := by
  cases c <;> rfl

theorem RClass.fromU16_toU16R (c : RClass) :
    RClass.fromU16 (RClass.toU16 c) = some c := by
  cases c <;> rfl

theorem OperationCode.fromU8_toU8O (c : OperationCode) :
    OperationCode.fromU8 (OperationCode.toU8 c) = some c := by
  cases c <;> rfl

theorem ResponseCode.fromU8_toU8R (c : ResponseCode) :
    ResponseCode.fromU8 (ResponseCode.toU8 c) = some c := by
  cases c <;> rfl

theorem QuestionType.toU16_ltQ (t : QuestionType) :
    QuestionType.toU16 t < 65536 := by
  cases t <;> decide

theorem QuestionClass.toU16_ltC (c : QuestionClass) :
    QuestionClass.toU16 c < 65536 := by
  cases c <;> decide

theorem RClass.toU16_ltR (c : RClass) : RClass.toU16 c < 65536 := by
  cases c <;> decide

/-- `Question::to_bytes` followed by `Question::from_bytes` on any
extension of the written buffer. -/
theorem questionToBytes_spec (q : Question) (hok : NameOK q.name)
    (b : Bytes) (G : Set Nat) (hG : GoodOccs b.buf b.occs G)
    (halign : b.pos = b.buf.length) (h16 : b.buf.length ≤ 16384) :
    ∃ b', Question.toBytes q b = some b' ∧
      (∃ code, b'.buf = b.buf ++ code) ∧
      b'.pos = b'.buf.length ∧ b.pos < b'.pos ∧
      GoodOccs b'.buf b'.occs (G ∪ {x | b.pos ≤ x ∧ x < b'.pos}) ∧
      ∀ T O, Question.fromBytes ⟨b'.buf ++ T, b.pos, O⟩
        = .ok (q, ⟨b'.buf ++ T, b'.pos, O⟩) := by
  obtain ⟨bN, hrunN, ⟨codeN, hcodeN⟩, halignN, hposN, hGN, RN, hRN, hspN⟩ :=
    nameToBytes_spec q.name hok b G hG halign h16
  refine ⟨(bN.writeU16 (QuestionType.toU16 q.qType)).writeU16
      (QuestionClass.toU16 q.qClass), ?_, ?_, ?_, ?_, ?_, ?_⟩
  · unfold Question.toBytes
    rw [hrunN]
    rfl
  · rw [Bytes.writeU16_buf, Bytes.writeU16_buf, hcodeN, List.append_assoc,
      List.append_assoc]
    exact ⟨_, rfl⟩
  · rw [Bytes.writeU16_buf, Bytes.writeU16_buf, Bytes.writeU16_pos,
      Bytes.writeU16_pos, halignN]
    simp [Bytes.be2]
  · rw [Bytes.writeU16_pos, Bytes.writeU16_pos]
    omega
  · rw [Bytes.writeU16_buf, Bytes.writeU16_buf, Bytes.writeU16_occs,
      Bytes.writeU16_occs, Bytes.writeU16_pos, Bytes.writeU16_pos,
      List.append_assoc]
    have hbl4 : (Bytes.be2 (QuestionType.toU16 q.qType)
        ++ Bytes.be2 (QuestionClass.toU16 q.qClass)).length = 4 := by
      simp [Bytes.be2]
    have hlenN : b.buf.length ≤ bN.buf.length := by
      rw [hcodeN, List.length_append]
      omega
    refine (hGN.extend _).mono ?_ ?_
    · intro x hx
      rcases hx with hx | hx
      · exact Or.inl hx
      · exact Or.inr ⟨hx.1, by
          have := hx.2
          omega⟩
    · intro x hx
      rw [List.length_append, hbl4]
      rcases hx with hx | hx
      · have h1 := hG.1 x hx
        omega
      · have h2 := hx.2
        rw [halignN] at h2
        omega
  · intro T O
    unfold Question.fromBytes
    have hspine := (hspN b.pos (le_of_eq halign.symm)).append
      (Bytes.be2 (QuestionType.toU16 q.qType)
        ++ (Bytes.be2 (QuestionClass.toU16 q.qClass) ++ T))
    have hname : Name.fromBytes
        ⟨((bN.writeU16 (QuestionType.toU16 q.qType)).writeU16
          (QuestionClass.toU16 q.qClass)).buf ++ T, b.pos, O⟩
        = .ok (q.name, ⟨((bN.writeU16 (QuestionType.toU16 q.qType)).writeU16
          (QuestionClass.toU16 q.qClass)).buf ++ T, bN.pos, O⟩) := by
      rw [Bytes.writeU16_buf, Bytes.writeU16_buf]
      have hfb := @spine_fromBytes _ q.name.labels b.pos bN.pos _
        hspine hok.1 O
      simpa only [List.append_assoc] using hfb
    rw [hname]
    simp only [bind, Except.bind]
    have hread1 : Bytes.readU16
        ⟨((bN.writeU16 (QuestionType.toU16 q.qType)).writeU16
          (QuestionClass.toU16 q.qClass)).buf ++ T, bN.pos, O⟩
        = some (QuestionType.toU16 q.qType,
          ⟨((bN.writeU16 (QuestionType.toU16 q.qType)).writeU16
            (QuestionClass.toU16 q.qClass)).buf ++ T, bN.pos + 2, O⟩) := by
      rw [Bytes.writeU16_buf, Bytes.writeU16_buf, halignN]
      have hx := Bytes.be2_readU16 (QuestionType.toU16 q.qType)
        (QuestionType.toU16_ltQ q.qType) bN.buf
        (Bytes.be2 (QuestionClass.toU16 q.qClass) ++ T) O
      simpa only [List.append_assoc] using hx
    rw [hread1]
    dsimp only
    rw [QuestionType.fromU16_toU16Q]
    dsimp only
    have hread2 : Bytes.readU16
        ⟨((bN.writeU16 (QuestionType.toU16 q.qType)).writeU16
          (QuestionClass.toU16 q.qClass)).buf ++ T, bN.pos + 2, O⟩
        = some (QuestionClass.toU16 q.qClass,
          ⟨((bN.writeU16 (QuestionType.toU16 q.qType)).writeU16
            (QuestionClass.toU16 q.qClass)).buf ++ T, bN.pos + 2 + 2, O⟩) := by
      rw [Bytes.writeU16_buf, Bytes.writeU16_buf, halignN]
      have hx := Bytes.be2_readU16 (QuestionClass.toU16 q.qClass)
        (QuestionClass.toU16_ltC q.qClass)
        (bN.buf ++ Bytes.be2 (QuestionType.toU16 q.qType)) T O
      have hlen2 : (bN.buf ++ Bytes.be2 (QuestionType.toU16 q.qType)).length
          = bN.buf.length + 2 := by
        simp [Bytes.be2]
      rw [hlen2] at hx
      simpa only [List.append_assoc] using hx
    rw [hread2]
    dsimp only
    rw [QuestionClass.fromU16_toU16C]
    dsimp only
    rw [Bytes.writeU16_pos, Bytes.writeU16_pos]

/-! Weak shape facts about the encoders: append-only growth and cursor
alignment, independent of validity. -/

theorem setU16_buf_len (b : Bytes) (q v : Nat) :
    (b.setU16 q v).buf.length = b.buf.length := by
  unfold Bytes.setU16 Bytes.setAll Bytes.set
  simp [List.enum]

theorem setU16_pos (b : Bytes) (q v : Nat) : (b.setU16 q v).pos = b.pos := by
  unfold Bytes.setU16 Bytes.setAll Bytes.set
  simp [List.enum]

theorem setU16_occs (b : Bytes) (q v : Nat) :
    (b.setU16 q v).occs = b.occs := by
  unfold Bytes.setU16 Bytes.setAll Bytes.set
  simp [List.enum]

theorem setU16_buf (b : Bytes) (q v : Nat) :
    (b.setU16 q v).buf = (b.buf.set q (v / 256 % 256)).set (q + 1) (v % 256) := by
  unfold Bytes.setU16 Bytes.setAll Bytes.set
  simp [List.enum]

theorem setU16_prefix (A : List Nat) (b : Bytes) (q v : Nat)
    (hq : A.length ≤ q) (hpre : ∃ c, b.buf = A ++ c) :
    ∃ c, (b.setU16 q v).buf = A ++ c := by
  obtain ⟨c, hc⟩ := hpre
  rw [setU16_buf, hc, List.set_append_right _ _ hq,
    List.set_append_right _ _ (by omega)]
  exact ⟨_, rfl⟩

theorem set_append_len (A D : List Nat) (x v : Nat) :
    (A ++ x :: D).set A.length v = A ++ v :: D := by
  rw [List.set_append_right _ _ (le_refl _), Nat.sub_self]
  rfl

/-- Patching the two-byte slot written as `[x, y]` right after `A`. -/
theorem setU16_patch (A D : List Nat) (x y v p : Nat)
    (O : List (List Nat × Nat)) :
    Bytes.setU16 ⟨A ++ x :: y :: D, p, O⟩ A.length v
      = ⟨A ++ (v / 256 % 256) :: (v % 256) :: D, p, O⟩ := by
  rw [Bytes.mk.injEq]
  refine ⟨?_, setU16_pos _ _ _, setU16_occs _ _ _⟩
  rw [setU16_buf]
  show ((A ++ x :: y :: D).set A.length (v / 256 % 256)).set (A.length + 1)
    (v % 256) = _
  rw [set_append_len]
  rw [show A.length + 1 = (A ++ [v / 256 % 256]).length from by simp,
    show A ++ (v / 256 % 256) :: y :: D
      = (A ++ [v / 256 % 256]) ++ y :: D from by simp,
    set_append_len]
  simp

theorem setFirstOcc_buf (b : Bytes) (k : List Nat) (p : Nat) :
    (b.setFirstOcc k p).buf = b.buf := rfl

theorem setFirstOcc_pos (b : Bytes) (k : List Nat) (p : Nat) :
    (b.setFirstOcc k p).pos = b.pos := rfl

theorem label_toBytes_shape (l : Label) (b : Bytes) :
    (Label.toBytes l b).buf = b.buf ++ [l.length % 256] ++ l ∧
    (Label.toBytes l b).pos = b.pos + 1 + l.length ∧
    (Label.toBytes l b).occs = b.occs := by
  unfold Label.toBytes
  exact ⟨by rw [Bytes.writeAll_buf, Bytes.write_buf],
    by rw [Bytes.writeAll_pos, Bytes.write_pos],
    by rw [Bytes.writeAll_occs, Bytes.write_occs]⟩

theorem toBytesLoop_shape (ls : List (List Nat)) :
    ∀ d i (b b' : Bytes), ls.length + 1 - i ≤ d →
    Name.toBytesLoop ls i b = some b' → b.pos = b.buf.length →
    (∃ code, b'.buf = b.buf ++ code) ∧ b'.pos = b'.buf.length := by
  intro d
  induction d with
  | zero =>
    intro i b b' hd hrun halign
    rw [Name.toBytesLoop, dif_pos (by omega)] at hrun
    injection hrun with hrun
    subst hrun
    exact ⟨⟨[], (List.append_nil _).symm⟩, halign⟩
  | succ d ih =>
    intro i b b' hd hrun halign
    by_cases hi : ls.length + 1 ≤ i
    · rw [Name.toBytesLoop, dif_pos hi] at hrun
      injection hrun with hrun
      subst hrun
      exact ⟨⟨[], (List.append_nil _).symm⟩, halign⟩
    · rw [Name.toBytesLoop, dif_neg hi] at hrun
      split at hrun
      · cases hrun
      · rename_i sfx hsfx
        dsimp only at hrun
        split at hrun
        · injection hrun with hrun
          subst hrun
          obtain ⟨h1, h2, h3⟩ := label_toBytes_shape sfx.labels.headI b
          refine ⟨⟨_, by rw [h1, List.append_assoc]⟩, ?_⟩
          rw [h1, h2, halign]
          simp
          omega
        · split at hrun
          · injection hrun with hrun
            subst hrun
            refine ⟨⟨_, Bytes.writeU16_buf b _⟩, ?_⟩
            rw [Bytes.writeU16_buf, Bytes.writeU16_pos, halign]
            simp [Bytes.be2]
          · obtain ⟨⟨code, hc⟩, ha⟩ := ih (i + 1)
              (Label.toBytes sfx.labels.headI
                (b.setFirstOcc (nameText sfx) b.pos)) b' (by omega) hrun
              (by
                obtain ⟨h1, h2, h3⟩ := label_toBytes_shape sfx.labels.headI
                  (b.setFirstOcc (nameText sfx) b.pos)
                rw [h1, h2, setFirstOcc_buf, setFirstOcc_pos, halign]
                simp
                omega)
            obtain ⟨h1, -, -⟩ := label_toBytes_shape sfx.labels.headI
              (b.setFirstOcc (nameText sfx) b.pos)
            rw [setFirstOcc_buf] at h1
            refine ⟨⟨[sfx.labels.headI.length % 256] ++ sfx.labels.headI
              ++ code, ?_⟩, ha⟩
            rw [hc, h1]
            simp only [List.append_assoc]

theorem nameToBytes_shape {n : Name} {b b' : Bytes}
    (hrun : Name.toBytes n b = some b') (halign : b.pos = b.buf.length) :
    (∃ code, b'.buf = b.buf ++ code) ∧ b'.pos = b'.buf.length :=
  toBytesLoop_shape n.labels (n.labels.length + 1) 0 b b' (by omega) hrun
    halign

/-- Validity of a record for the round trip: well-formed names, and
machine-width payload fields. -/
def RecordOK : Record → Prop
  | .a nm _ ttl addr => NameOK nm ∧ ttl < 4294967296 ∧ addr < 4294967296
  | .ns nm _ ttl host => NameOK nm ∧ ttl < 4294967296 ∧ NameOK host
  | .md nm _ ttl host => NameOK nm ∧ ttl < 4294967296 ∧ NameOK host
  | .mf nm _ ttl host => NameOK nm ∧ ttl < 4294967296 ∧ NameOK host
  | .cname nm _ ttl host => NameOK nm ∧ ttl < 4294967296 ∧ NameOK host
  | .soa nm _ ttl origin mailbox version refresh retry expire minimum =>
      NameOK nm ∧ ttl < 4294967296 ∧ NameOK origin ∧ NameOK mailbox ∧
      version < 4294967296 ∧ refresh < 4294967296 ∧ retry < 4294967296 ∧
      expire < 4294967296 ∧ minimum < 4294967296
  | .mb nm _ ttl host => NameOK nm ∧ ttl < 4294967296 ∧ NameOK host
  | .mg nm _ ttl host => NameOK nm ∧ ttl < 4294967296 ∧ NameOK host
  | .mr nm _ ttl host => NameOK nm ∧ ttl < 4294967296 ∧ NameOK host
  | .null nm _ ttl data =>
      NameOK nm ∧ ttl < 4294967296 ∧ data.length < 65536
  | .wks nm _ ttl addr protocol data =>
      NameOK nm ∧ ttl < 4294967296 ∧ addr < 4294967296 ∧ protocol < 256 ∧
      data.length + 5 < 65536
  | .ptr nm _ ttl host => NameOK nm ∧ ttl < 4294967296 ∧ NameOK host
  | .hinfo nm _ ttl cpu os =>
      NameOK nm ∧ ttl < 4294967296 ∧ cpu.length < 256 ∧ os.length < 256 ∧
      utf8Valid cpu = true ∧ utf8Valid os = true
  | .minfo nm _ ttl rM eM =>
      NameOK nm ∧ ttl < 4294967296 ∧ NameOK rM ∧ NameOK eM
  | .mx nm _ ttl priority host =>
      NameOK nm ∧ ttl < 4294967296 ∧ priority < 65536 ∧ NameOK host
  | .txt nm _ ttl content =>
      NameOK nm ∧ ttl < 4294967296 ∧ utf8Valid content = true ∧
      (chunks255 content).length + content.length < 65536
  | .aaaa nm _ ttl addr16 =>
      NameOK nm ∧ ttl < 4294967296 ∧ addr16.length = 16

theorem Record.code_lt (r : Record) : r.code < 65536 := by
  cases r <;> simp [Record.code]

/-- Shape of the fixed fields written after the owner name. -/
theorem writeFixed_shape (bN : Bytes) (c : Nat) (cl : RClass) (t : Nat) :
    (((bN.writeU16 c).writeU16 (RClass.toU16 cl)).writeU32 t).buf
      = bN.buf ++ (Bytes.be2 c ++ Bytes.be2 (RClass.toU16 cl)
        ++ Bytes.be4 t) ∧
    (((bN.writeU16 c).writeU16 (RClass.toU16 cl)).writeU32 t).pos
      = bN.pos + 8 ∧
    (((bN.writeU16 c).writeU16 (RClass.toU16 cl)).writeU32 t).occs
      = bN.occs := by
  refine ⟨?_, ?_, ?_⟩
  · rw [Bytes.writeU32_buf, Bytes.writeU16_buf, Bytes.writeU16_buf]
    simp [List.append_assoc]
  · rw [Bytes.writeU32_pos, Bytes.writeU16_pos, Bytes.writeU16_pos]
  · rw [Bytes.writeU32_occs, Bytes.writeU16_occs, Bytes.writeU16_occs]

/-- Reading back the fixed record fields from their layout. -/
theorem fixed_decode (P Drest : List Nat) (tcode : Nat) (cls : RClass)
    (ttl rdlen : Nat) (O : List (List Nat × Nat))
    (htc : tcode < 65536) (httl : ttl < 4294967296) (hrd : rdlen < 65536) :
    (Bytes.readU16 ⟨P ++ Bytes.be2 tcode ++ Bytes.be2 (RClass.toU16 cls)
        ++ Bytes.be4 ttl ++ Bytes.be2 rdlen ++ Drest, P.length, O⟩
      = some (tcode, ⟨P ++ Bytes.be2 tcode ++ Bytes.be2 (RClass.toU16 cls)
        ++ Bytes.be4 ttl ++ Bytes.be2 rdlen ++ Drest, P.length + 2, O⟩)) ∧
    (Bytes.readU16 ⟨P ++ Bytes.be2 tcode ++ Bytes.be2 (RClass.toU16 cls)
        ++ Bytes.be4 ttl ++ Bytes.be2 rdlen ++ Drest, P.length + 2, O⟩
      = some (RClass.toU16 cls, ⟨P ++ Bytes.be2 tcode
        ++ Bytes.be2 (RClass.toU16 cls) ++ Bytes.be4 ttl
        ++ Bytes.be2 rdlen ++ Drest, P.length + 4, O⟩)) ∧
    (Bytes.readU32 ⟨P ++ Bytes.be2 tcode ++ Bytes.be2 (RClass.toU16 cls)
        ++ Bytes.be4 ttl ++ Bytes.be2 rdlen ++ Drest, P.length + 4, O⟩
      = some (ttl, ⟨P ++ Bytes.be2 tcode ++ Bytes.be2 (RClass.toU16 cls)
        ++ Bytes.be4 ttl ++ Bytes.be2 rdlen ++ Drest, P.length + 8, O⟩)) ∧
    (Bytes.readU16 ⟨P ++ Bytes.be2 tcode ++ Bytes.be2 (RClass.toU16 cls)
        ++ Bytes.be4 ttl ++ Bytes.be2 rdlen ++ Drest, P.length + 8, O⟩
      = some (rdlen, ⟨P ++ Bytes.be2 tcode ++ Bytes.be2 (RClass.toU16 cls)
        ++ Bytes.be4 ttl ++ Bytes.be2 rdlen ++ Drest,
        P.length + 10, O⟩)) := by
  have hl2 : ∀ v : Nat, (Bytes.be2 v).length = 2 := by
    intro v
    simp [Bytes.be2]
  have hl4 : ∀ v : Nat, (Bytes.be4 v).length = 4 := by
    intro v
    simp [Bytes.be4]
  refine ⟨?_, ?_, ?_, ?_⟩
  · have hx := Bytes.be2_readU16 tcode htc P
      (Bytes.be2 (RClass.toU16 cls) ++ Bytes.be4 ttl ++ Bytes.be2 rdlen
        ++ Drest) O
    simpa only [List.append_assoc] using hx
  · have hx := Bytes.be2_readU16 (RClass.toU16 cls) (RClass.toU16_ltR cls)
      (P ++ Bytes.be2 tcode)
      (Bytes.be4 ttl ++ Bytes.be2 rdlen ++ Drest) O
    rw [show (P ++ Bytes.be2 tcode).length = P.length + 2 from by
      simp [hl2]] at hx
    simpa only [List.append_assoc] using hx
  · have hx := Bytes.be4_readU32 ttl httl
      (P ++ Bytes.be2 tcode ++ Bytes.be2 (RClass.toU16 cls))
      (Bytes.be2 rdlen ++ Drest) O
    rw [show (P ++ Bytes.be2 tcode
        ++ Bytes.be2 (RClass.toU16 cls)).length = P.length + 4 from by
      simp [hl2]] at hx
    simpa only [List.append_assoc] using hx
  · have hx := Bytes.be2_readU16 rdlen hrd
      (P ++ Bytes.be2 tcode ++ Bytes.be2 (RClass.toU16 cls)
        ++ Bytes.be4 ttl) Drest O
    rw [show (P ++ Bytes.be2 tcode ++ Bytes.be2 (RClass.toU16 cls)
        ++ Bytes.be4 ttl).length = P.length + 8 from by
      simp [hl2, hl4]] at hx
    simpa only [List.append_assoc] using hx

/-- The owner-name stage of a record encoding, with its decode fact. -/
theorem record_name_part {nm : Name} {b bN : Bytes} (hok : NameOK nm)
    (hrunN : Name.toBytes nm b = some bN) (G : Set Nat)
    (hG : GoodOccs b.buf b.occs G) (halign : b.pos = b.buf.length)
    (h16 : b.buf.length ≤ 16384) :
    (∃ code, bN.buf = b.buf ++ code) ∧ bN.pos = bN.buf.length ∧
    b.pos < bN.pos ∧
    GoodOccs bN.buf bN.occs (G ∪ {x | b.pos ≤ x ∧ x < bN.pos}) ∧
    ∀ T O, Name.fromBytes ⟨bN.buf ++ T, b.pos, O⟩
      = .ok (nm, ⟨bN.buf ++ T, bN.pos, O⟩) := by
  obtain ⟨b2, hrun2, hshape, halign2, hpos2, hG2, R2, hR2, hsp2⟩ :=
    nameToBytes_spec nm hok b G hG halign h16
  rw [hrunN] at hrun2
  injection hrun2 with hrun2
  subst hrun2
  refine ⟨hshape, halign2, hpos2, hG2, ?_⟩
  intro T O
  have hspine := (hsp2 b.pos (le_of_eq halign.symm)).append T
  exact spine_fromBytes hspine hok.1 O

/-- Conclusion bundle shared by every record kind. -/
def RecordSpecOut (r : Record) (b b' : Bytes) (G : Set Nat) : Prop :=
  (∃ code, b'.buf = b.buf ++ code) ∧
  b'.pos = b'.buf.length ∧ b.pos < b'.pos ∧
  GoodOccs b'.buf b'.occs (G ∪ {x | b.pos ≤ x ∧ x < b'.pos}) ∧
  ∀ T O, Record.fromBytes ⟨b'.buf ++ T, b.pos, O⟩
    = .ok (r, ⟨b'.buf ++ T, b'.pos, O⟩)

theorem record_a_spec (nm : Name) (cls : RClass) (ttl addr : Nat)
    (b b' : Bytes)
    (hrun : Record.toBytes (.a nm cls ttl addr) b = some b')
    (hok : RecordOK (.a nm cls ttl addr)) (G : Set Nat)
    (hG : GoodOccs b.buf b.occs G) (halign : b.pos = b.buf.length)
    (hfits : b'.buf.length ≤ 16384) :
    RecordSpecOut (.a nm cls ttl addr) b b' G := by
  obtain ⟨hoknm, httl, haddr⟩ := hok
  unfold Record.toBytes at hrun
  simp only [bind, Option.bind] at hrun
  split at hrun
  · cases hrun
  rename_i bN hrunN
  dsimp only at hrun
  injection hrun with hrun
  simp only [Record.code, Record.cls, Record.ttl] at hrun
  simp only [Record.name] at hrunN
  obtain ⟨hNs, hNa, hNp, hNG, hNdec⟩ := record_name_part hoknm hrunN G hG
    halign (by
      obtain ⟨cN, hcN⟩ := (nameToBytes_shape hrunN halign).1
      have hb := (nameToBytes_shape hrunN halign).2
      have : b'.buf.length = bN.buf.length + 14 := by
        rw [← hrun, Bytes.writeAll_buf, Bytes.writeU16_buf]
        obtain ⟨hfb, hfp, hfo⟩ := writeFixed_shape bN
          1 cls ttl
        rw [hfb]
        simp [Bytes.be2, Bytes.be4, ipv4Octets]
      have hbb : b.buf.length ≤ bN.buf.length := by
        rw [hcN]
        simp
      omega)
  obtain ⟨hfb, hfp, hfo⟩ := writeFixed_shape bN
    1 cls ttl
  have hlay : b'.buf = bN.buf ++ (Bytes.be2 1
      ++ Bytes.be2 (RClass.toU16 cls) ++ Bytes.be4 ttl ++ Bytes.be2 4
      ++ Bytes.be4 addr) := by
    rw [← hrun, Bytes.writeAll_buf, Bytes.writeU16_buf, hfb]
    show _ = bN.buf ++ _
    simp only [List.append_assoc]
    rfl
  have hpos' : b'.pos = bN.pos + 14 := by
    rw [← hrun, Bytes.writeAll_pos, Bytes.writeU16_pos, hfp]
    simp [ipv4Octets]
  have hoccs' : b'.occs = bN.occs := by
    rw [← hrun, Bytes.writeAll_occs, Bytes.writeU16_occs, hfo]
  have hlaylen : b'.buf.length = bN.buf.length + 14 := by
    rw [hlay]
    simp [Bytes.be2, Bytes.be4]
  refine ⟨?_, ?_, ?_, ?_, ?_⟩
  · obtain ⟨cN, hcN⟩ := hNs
    rw [hlay, hcN, List.append_assoc]
    exact ⟨_, rfl⟩
  · rw [hpos', hlaylen, hNa]
  · omega
  · rw [hlay, hoccs']
    refine (hNG.extend _).mono ?_ ?_
    · intro x hx
      rcases hx with hx | hx
      · exact Or.inl hx
      · obtain ⟨hxa, hxb⟩ := hx
        exact Or.inr ⟨hxa, by omega⟩
    · intro x hx
      rw [← hlay, hlaylen]
      rcases hx with hx | hx
      · have := hG.1 x hx
        have hbb : b.buf.length ≤ bN.buf.length := by
          obtain ⟨cN, hcN⟩ := hNs
          rw [hcN]
          simp
        omega
      · obtain ⟨hxa, hxb⟩ := hx
        rw [hpos', hNa] at hxb
        omega
  · intro T O
    unfold Record.fromBytes
    have hdec := hNdec ((Bytes.be2 1
      ++ Bytes.be2 (RClass.toU16 cls) ++ Bytes.be4 ttl ++ Bytes.be2 4
      ++ Bytes.be4 addr) ++ T) O
    rw [show b'.buf ++ T = bN.buf ++ ((Bytes.be2 1 ++ Bytes.be2 (RClass.toU16 cls)
      ++ Bytes.be4 ttl ++ Bytes.be2 4 ++ Bytes.be4 addr) ++ T) from by
      rw [hlay, List.append_assoc]]
    rw [hdec]
    simp only [bind, Except.bind]
    obtain ⟨hr1, hr2, hr3, hr4⟩ := fixed_decode bN.buf (Bytes.be4 addr ++ T)
      1 cls ttl 4 O
      (by omega) httl (by omega)
    rw [hNa]
    rw [show bN.buf ++ ((Bytes.be2 1
        ++ Bytes.be2 (RClass.toU16 cls) ++ Bytes.be4 ttl ++ Bytes.be2 4
        ++ Bytes.be4 addr) ++ T)
      = bN.buf ++ Bytes.be2 1
        ++ Bytes.be2 (RClass.toU16 cls) ++ Bytes.be4 ttl ++ Bytes.be2 4
        ++ (Bytes.be4 addr ++ T) from by simp only [List.append_assoc]]
    rw [hr1]
    dsimp only
    rw [hr2]
    dsimp only
    rw [RClass.fromU16_toU16R]
    dsimp only
    rw [hr3]
    dsimp only
    rw [hr4]
    dsimp only
    rw [← List.append_assoc]
    have hr5 := Bytes.be4_readU32 addr haddr
      (bN.buf ++ Bytes.be2 1
        ++ Bytes.be2 (RClass.toU16 cls) ++ Bytes.be4 ttl ++ Bytes.be2 4) T O
    rw [show (bN.buf ++ Bytes.be2 1
        ++ Bytes.be2 (RClass.toU16 cls) ++ Bytes.be4 ttl
        ++ Bytes.be2 4).length = bN.buf.length + 10 from by
      simp [Bytes.be2, Bytes.be4]] at hr5
    rw [hr5]
    dsimp only
    rw [hpos', hNa]

/-- The reserved two-byte length slot followed by one encoded name and the
back-patch of the slot, as used by the NS/MD/MF/CNAME/MB/MG/MR/PTR rdata
encoders. -/
theorem slot_host_part (host : Name) (hokh : NameOK host)
    (bF bH : Bytes) (hrunH : Name.toBytes host (bF.writeU16 0) = some bH)
    (GF : Set Nat) (hGF : GoodOccs bF.buf bF.occs GF)
    (halignF : bF.pos = bF.buf.length)
    (hfit : bH.buf.length ≤ 16384) :
    ∃ hostCode : List Nat,
      (bH.setU16 bF.pos ((bH.pos - (bF.pos + 2)) % 65536)).buf
        = bF.buf ++ (Bytes.be2 hostCode.length ++ hostCode) ∧
      (bH.setU16 bF.pos ((bH.pos - (bF.pos + 2)) % 65536)).pos = bH.pos ∧
      (bH.setU16 bF.pos ((bH.pos - (bF.pos + 2)) % 65536)).occs = bH.occs ∧
      bH.pos = bF.pos + 2 + hostCode.length ∧
      bH.pos = bH.buf.length ∧
      GoodOccs (bH.setU16 bF.pos ((bH.pos - (bF.pos + 2)) % 65536)).buf
        bH.occs (GF ∪ {x | bF.pos ≤ x ∧ x < bH.pos}) ∧
      ∀ T O, Name.fromBytes
        ⟨(bH.setU16 bF.pos ((bH.pos - (bF.pos + 2)) % 65536)).buf ++ T,
          bF.pos + 2, O⟩
        = .ok (host, ⟨(bH.setU16 bF.pos
            ((bH.pos - (bF.pos + 2)) % 65536)).buf ++ T, bH.pos, O⟩) := by
  have hSbuf : (bF.writeU16 0).buf = bF.buf ++ [0, 0] := by
    rw [Bytes.writeU16_buf]
    rfl
  have hSpos : (bF.writeU16 0).pos = bF.pos + 2 := Bytes.writeU16_pos bF 0
  have hSocc : (bF.writeU16 0).occs = bF.occs := Bytes.writeU16_occs bF 0
  have hSalign : (bF.writeU16 0).pos = (bF.writeU16 0).buf.length := by
    rw [hSpos, hSbuf, halignF]
    simp
  have hSG : GoodOccs (bF.writeU16 0).buf (bF.writeU16 0).occs GF := by
    rw [hSbuf, hSocc]
    exact hGF.extend _
  have hS16 : (bF.writeU16 0).buf.length ≤ 16384 := by
    obtain ⟨⟨cH, hcH⟩, -⟩ := nameToBytes_shape hrunH hSalign
    have := congrArg List.length hcH
    rw [List.length_append] at this
    omega
  obtain ⟨bH2, hrun2, ⟨codeH, hcodeH⟩, halignH, hposH, hGH, RH, hRH, hspH⟩ :=
    nameToBytes_spec host hokh (bF.writeU16 0) GF hSG hSalign hS16
  rw [hrunH] at hrun2
  injection hrun2 with hrun2
  subst hrun2
  have hlenH : bH.pos = bF.pos + 2 + codeH.length := by
    rw [halignH, hcodeH, hSbuf, halignF]
    simp
    omega
  have hv : (bH.pos - (bF.pos + 2)) % 65536 = codeH.length := by
    rw [hlenH]
    have : bF.pos + 2 + codeH.length - (bF.pos + 2) = codeH.length := by
      omega
    rw [this]
    apply Nat.mod_eq_of_lt
    have : bH.buf.length = bF.buf.length + 2 + codeH.length := by
      rw [hcodeH, hSbuf]
      simp
      omega
    omega
  have hbHbuf : bH.buf = bF.buf ++ 0 :: 0 :: codeH := by
    rw [hcodeH, hSbuf, List.append_assoc]
    rfl
  have hpatch : (bH.setU16 bF.pos ((bH.pos - (bF.pos + 2)) % 65536)).buf
      = bF.buf ++ (Bytes.be2 codeH.length ++ codeH) := by
    have h0 := setU16_patch bF.buf codeH 0 0 codeH.length bH.pos bH.occs
    have h2 := congrArg Bytes.buf h0
    rw [setU16_buf] at h2
    dsimp only at h2
    rw [setU16_buf, hv, hbHbuf, halignF, h2]
    rfl
  have hqG : ∀ q2, q2 < bF.pos + 2 → bF.buf.length ≤ q2 →
      q2 ∉ GF ∪ {x | (bF.writeU16 0).pos ≤ x ∧ x < bH.pos} := by
    intro q2 hq2 hq2b hc
    rcases hc with hc | hc
    · have := hGF.1 q2 hc
      omega
    · obtain ⟨hca, hcb⟩ := hc
      rw [hSpos] at hca
      omega
  have hGpatch : GoodOccs (bH.setU16 bF.pos
      ((bH.pos - (bF.pos + 2)) % 65536)).buf bH.occs
      (GF ∪ {x | bF.pos ≤ x ∧ x < bH.pos}) := by
    have hg1 : GoodOccs ((bH.buf.set bF.pos
        (((bH.pos - (bF.pos + 2)) % 65536) / 256 % 256)).set (bF.pos + 1)
        ((bH.pos - (bF.pos + 2)) % 65536 % 256)) bH.occs
        (GF ∪ {x | (bF.writeU16 0).pos ≤ x ∧ x < bH.pos}) := by
      refine GoodOccs.patchOcc ?_ _ _ ?_
      · refine GoodOccs.patchOcc hGH _ _ ?_
        exact hqG bF.pos (by omega) (le_of_eq halignF.symm)
      · exact hqG (bF.pos + 1) (by omega) (by rw [← halignF]; omega)
    rw [setU16_buf]
    refine hg1.mono ?_ ?_
    · intro x hx
      rcases hx with hx | hx
      · exact Or.inl hx
      · obtain ⟨hxa, hxb⟩ := hx
        rw [hSpos] at hxa
        exact Or.inr ⟨by omega, hxb⟩
    · intro x hx
      simp only [List.length_set]
      have hbl : bH.buf.length = bF.buf.length + 2 + codeH.length := by
        rw [hbHbuf]
        simp
        omega
      rcases hx with hx | hx
      · have := hGF.1 x hx
        omega
      · obtain ⟨hxa, hxb⟩ := hx
        omega
  refine ⟨codeH, hpatch, setU16_pos _ _ _, setU16_occs _ _ _, hlenH,
    halignH, hGpatch, ?_⟩
  intro T O
  have hsp := hspH (bF.pos + 2) (by rw [hSbuf, halignF]; simp)
  rw [hSpos] at hsp
  have hq1 : bF.pos ∉ RH := by
    intro hc
    rcases hRH _ hc with hc1 | hc1
    · have := hGF.1 _ hc1
      rw [← halignF] at this
      omega
    · rw [hSpos] at hc1
      omega
  have hq2 : bF.pos + 1 ∉ RH := by
    intro hc
    rcases hRH _ hc with hc1 | hc1
    · have := hGF.1 _ hc1
      rw [← halignF] at this
      omega
    · rw [hSpos] at hc1
      omega
  have hsp2 := (hsp.patchByte bF.pos
      (((bH.pos - (bF.pos + 2)) % 65536) / 256 % 256) hq1).patchByte
      (bF.pos + 1) ((bH.pos - (bF.pos + 2)) % 65536 % 256) hq2
  have hsp3 := hsp2.append T
  rw [show ((bH.buf.set bF.pos (((bH.pos - (bF.pos + 2)) % 65536) / 256
      % 256)).set (bF.pos + 1) ((bH.pos - (bF.pos + 2)) % 65536 % 256)) ++ T
    = (bH.setU16 bF.pos ((bH.pos - (bF.pos + 2)) % 65536)).buf ++ T from by
    rw [setU16_buf]] at hsp3
  exact spine_fromBytes hsp3 hokh.1 O

theorem record_ns_spec (nm : Name) (cls : RClass) (ttl : Nat) (host : Name)
    (b b' : Bytes)
    (hrun : Record.toBytes (.ns nm cls ttl host) b = some b')
    (hok : RecordOK (.ns nm cls ttl host)) (G : Set Nat)
    (hG : GoodOccs b.buf b.occs G) (halign : b.pos = b.buf.length)
    (hfits : b'.buf.length ≤ 16384) :
    RecordSpecOut (.ns nm cls ttl host) b b' G := by
  obtain ⟨hoknm, httl, hokh⟩ := hok
  unfold Record.toBytes at hrun
  simp only [bind, Option.bind] at hrun
  split at hrun
  · cases hrun
  rename_i bN hrunN
  dsimp only at hrun
  simp only [Record.code, Record.cls, Record.ttl] at hrun
  simp only [Record.name] at hrunN
  split at hrun
  · cases hrun
  rename_i bH hrunH
  injection hrun with hrun
  obtain ⟨hfb, hfp, hfo⟩ := writeFixed_shape bN 2 cls ttl
  have hbl : bH.buf.length = b'.buf.length := by
    rw [← hrun, setU16_buf_len]
  have halignF : (((bN.writeU16 2).writeU16 (RClass.toU16 cls)).writeU32
      ttl).pos = (((bN.writeU16 2).writeU16 (RClass.toU16 cls)).writeU32
      ttl).buf.length := by
    obtain ⟨cN2, hshapeN⟩ := (nameToBytes_shape hrunN halign).1
    have hNa0 := (nameToBytes_shape hrunN halign).2
    rw [hfp, hfb, hNa0]
    simp [Bytes.be2, Bytes.be4]
  have h16b : b.buf.length ≤ 16384 := by
    obtain ⟨cN2, hshapeN⟩ := (nameToBytes_shape hrunN halign).1
    have halignS : ((((bN.writeU16 2).writeU16 (RClass.toU16 cls)).writeU32
        ttl).writeU16 0).pos = ((((bN.writeU16 2).writeU16
        (RClass.toU16 cls)).writeU32 ttl).writeU16 0).buf.length := by
      rw [Bytes.writeU16_pos, Bytes.writeU16_buf, halignF]
      simp [Bytes.be2]
    obtain ⟨cH2, hshapeH⟩ := (nameToBytes_shape hrunH halignS).1
    have h1 := congrArg List.length hshapeN
    have h2 := congrArg List.length hshapeH
    rw [List.length_append] at h1 h2
    rw [Bytes.writeU16_buf, List.length_append, hfb, List.length_append]
      at h2
    omega
  obtain ⟨hNs, hNa, hNp, hNG, hNdec⟩ := record_name_part hoknm hrunN G hG
    halign h16b
  have hGF : GoodOccs (((bN.writeU16 2).writeU16
      (RClass.toU16 cls)).writeU32 ttl).buf
      (((bN.writeU16 2).writeU16 (RClass.toU16 cls)).writeU32 ttl).occs
      (G ∪ {x | b.pos ≤ x ∧ x < bN.pos}) := by
    rw [hfb, hfo]
    exact hNG.extend _
  have hfit16 : bH.buf.length ≤ 16384 := by omega
  obtain ⟨codeH, hPbuf, hPpos, hPocc, hHlen, hHalign, hPG, hPdec⟩ :=
    slot_host_part host hokh (((bN.writeU16 2).writeU16
      (RClass.toU16 cls)).writeU32 ttl) bH hrunH
      (G ∪ {x | b.pos ≤ x ∧ x < bN.pos}) hGF halignF hfit16
  have hlay : b'.buf = bN.buf ++ (Bytes.be2 2 ++ Bytes.be2 (RClass.toU16 cls)
      ++ Bytes.be4 ttl ++ Bytes.be2 codeH.length ++ codeH) := by
    rw [← hrun, hPbuf, hfb]
    simp only [List.append_assoc]
  have hpos' : b'.pos = bH.pos := by
    rw [← hrun]
    exact hPpos
  have hocc' : b'.occs = bH.occs := by
    rw [← hrun]
    exact hPocc
  have hlen' : b'.buf.length = bN.buf.length + 10 + codeH.length := by
    rw [hlay]
    simp [Bytes.be2, Bytes.be4]
    omega
  have halign' : b'.pos = b'.buf.length := by
    rw [hpos', hHalign, hbl]
  have hrdlt : codeH.length < 65536 := by omega
  have hbb : b.buf.length ≤ bN.buf.length := by
    obtain ⟨cN, hcN⟩ := hNs
    rw [hcN]
    simp
  refine ⟨?_, halign', ?_, ?_, ?_⟩
  · obtain ⟨cN, hcN⟩ := hNs
    rw [hlay, hcN, List.append_assoc]
    exact ⟨_, rfl⟩
  · rw [hpos']
    omega
  · rw [hocc']
    have hPG2 : GoodOccs b'.buf bH.occs ((G ∪ {x | b.pos ≤ x ∧ x < bN.pos})
        ∪ {x | (((bN.writeU16 2).writeU16 (RClass.toU16 cls)).writeU32
          ttl).pos ≤ x ∧ x < bH.pos}) := by
      rw [← hrun]
      exact hPG
    refine hPG2.mono ?_ ?_
    · intro x hx
      rcases hx with hx | hx
      · rcases hx with hx | hx
        · exact Or.inl hx
        · obtain ⟨hxa, hxb⟩ := hx
          exact Or.inr ⟨hxa, by omega⟩
      · obtain ⟨hxa, hxb⟩ := hx
        exact Or.inr ⟨by omega, by omega⟩
    · intro x hx
      rcases hx with hx | hx
      · have := hG.1 x hx
        omega
      · obtain ⟨hxa, hxb⟩ := hx
        omega
  · intro T O
    unfold Record.fromBytes
    have hdec := hNdec ((Bytes.be2 2 ++ Bytes.be2 (RClass.toU16 cls)
      ++ Bytes.be4 ttl ++ Bytes.be2 codeH.length ++ codeH) ++ T) O
    rw [show b'.buf ++ T = bN.buf ++ ((Bytes.be2 2
      ++ Bytes.be2 (RClass.toU16 cls) ++ Bytes.be4 ttl
      ++ Bytes.be2 codeH.length ++ codeH) ++ T) from by
      rw [hlay, List.append_assoc]]
    rw [hdec]
    simp only [bind, Except.bind]
    obtain ⟨hr1, hr2, hr3, hr4⟩ := fixed_decode bN.buf (codeH ++ T)
      2 cls ttl codeH.length O (by omega) httl hrdlt
    rw [hNa]
    rw [show bN.buf ++ ((Bytes.be2 2
        ++ Bytes.be2 (RClass.toU16 cls) ++ Bytes.be4 ttl
        ++ Bytes.be2 codeH.length ++ codeH) ++ T)
      = bN.buf ++ Bytes.be2 2
        ++ Bytes.be2 (RClass.toU16 cls) ++ Bytes.be4 ttl
        ++ Bytes.be2 codeH.length ++ (codeH ++ T) from by
      simp only [List.append_assoc]]
    rw [hr1]
    dsimp only
    rw [hr2]
    dsimp only
    rw [RClass.fromU16_toU16R]
    dsimp only
    rw [hr3]
    dsimp only
    rw [hr4]
    dsimp only
    have hhost := hPdec T O
    rw [hrun] at hhost
    rw [show b'.buf ++ T = bN.buf ++ Bytes.be2 2
        ++ Bytes.be2 (RClass.toU16 cls) ++ Bytes.be4 ttl
        ++ Bytes.be2 codeH.length ++ (codeH ++ T) from by
      rw [hlay]
      simp only [List.append_assoc]] at hhost
    rw [show (((bN.writeU16 2).writeU16 (RClass.toU16 cls)).writeU32
        ttl).pos + 2 = bN.buf.length + 10 from by
      rw [hfp, hNa]] at hhost
    rw [hhost]
    dsimp only
    rw [hpos']

theorem record_md_spec (nm : Name) (cls : RClass) (ttl : Nat) (host : Name)
    (b b' : Bytes)
    (hrun : Record.toBytes (.md nm cls ttl host) b = some b')
    (hok : RecordOK (.md nm cls ttl host)) (G : Set Nat)
    (hG : GoodOccs b.buf b.occs G) (halign : b.pos = b.buf.length)
    (hfits : b'.buf.length ≤ 16384) :
    RecordSpecOut (.md nm cls ttl host) b b' G := by
  obtain ⟨hoknm, httl, hokh⟩ := hok
  unfold Record.toBytes at hrun
  simp only [bind, Option.bind] at hrun
  split at hrun
  · cases hrun
  rename_i bN hrunN
  dsimp only at hrun
  simp only [Record.code, Record.cls, Record.ttl] at hrun
  simp only [Record.name] at hrunN
  split at hrun
  · cases hrun
  rename_i bH hrunH
  injection hrun with hrun
  obtain ⟨hfb, hfp, hfo⟩ := writeFixed_shape bN 3 cls ttl
  have hbl : bH.buf.length = b'.buf.length := by
    rw [← hrun, setU16_buf_len]
  have halignF : (((bN.writeU16 3).writeU16 (RClass.toU16 cls)).writeU32
      ttl).pos = (((bN.writeU16 3).writeU16 (RClass.toU16 cls)).writeU32
      ttl).buf.length := by
    obtain ⟨cN2, hshapeN⟩ := (nameToBytes_shape hrunN halign).1
    have hNa0 := (nameToBytes_shape hrunN halign).2
    rw [hfp, hfb, hNa0]
    simp [Bytes.be2, Bytes.be4]
  have h16b : b.buf.length ≤ 16384 := by
    obtain ⟨cN2, hshapeN⟩ := (nameToBytes_shape hrunN halign).1
    have halignS : ((((bN.writeU16 3).writeU16 (RClass.toU16 cls)).writeU32
        ttl).writeU16 0).pos = ((((bN.writeU16 3).writeU16
        (RClass.toU16 cls)).writeU32 ttl).writeU16 0).buf.length := by
      rw [Bytes.writeU16_pos, Bytes.writeU16_buf, halignF]
      simp [Bytes.be2]
    obtain ⟨cH2, hshapeH⟩ := (nameToBytes_shape hrunH halignS).1
    have h1 := congrArg List.length hshapeN
    have h2 := congrArg List.length hshapeH
    rw [List.length_append] at h1 h2
    rw [Bytes.writeU16_buf, List.length_append, hfb, List.length_append]
      at h2
    omega
  obtain ⟨hNs, hNa, hNp, hNG, hNdec⟩ := record_name_part hoknm hrunN G hG
    halign h16b
  have hGF : GoodOccs (((bN.writeU16 3).writeU16
      (RClass.toU16 cls)).writeU32 ttl).buf
      (((bN.writeU16 3).writeU16 (RClass.toU16 cls)).writeU32 ttl).occs
      (G ∪ {x | b.pos ≤ x ∧ x < bN.pos}) := by
    rw [hfb, hfo]
    exact hNG.extend _
  have hfit16 : bH.buf.length ≤ 16384 := by omega
  obtain ⟨codeH, hPbuf, hPpos, hPocc, hHlen, hHalign, hPG, hPdec⟩ :=
    slot_host_part host hokh (((bN.writeU16 3).writeU16
      (RClass.toU16 cls)).writeU32 ttl) bH hrunH
      (G ∪ {x | b.pos ≤ x ∧ x < bN.pos}) hGF halignF hfit16
  have hlay : b'.buf = bN.buf ++ (Bytes.be2 3 ++ Bytes.be2 (RClass.toU16 cls)
      ++ Bytes.be4 ttl ++ Bytes.be2 codeH.length ++ codeH) := by
    rw [← hrun, hPbuf, hfb]
    simp only [List.append_assoc]
  have hpos' : b'.pos = bH.pos := by
    rw [← hrun]
    exact hPpos
  have hocc' : b'.occs = bH.occs := by
    rw [← hrun]
    exact hPocc
  have hlen' : b'.buf.length = bN.buf.length + 10 + codeH.length := by
    rw [hlay]
    simp [Bytes.be2, Bytes.be4]
    omega
  have halign' : b'.pos = b'.buf.length := by
    rw [hpos', hHalign, hbl]
  have hrdlt : codeH.length < 65536 := by omega
  have hbb : b.buf.length ≤ bN.buf.length := by
    obtain ⟨cN, hcN⟩ := hNs
    rw [hcN]
    simp
  refine ⟨?_, halign', ?_, ?_, ?_⟩
  · obtain ⟨cN, hcN⟩ := hNs
    rw [hlay, hcN, List.append_assoc]
    exact ⟨_, rfl⟩
  · rw [hpos']
    omega
  · rw [hocc']
    have hPG2 : GoodOccs b'.buf bH.occs ((G ∪ {x | b.pos ≤ x ∧ x < bN.pos})
        ∪ {x | (((bN.writeU16 3).writeU16 (RClass.toU16 cls)).writeU32
          ttl).pos ≤ x ∧ x < bH.pos}) := by
      rw [← hrun]
      exact hPG
    refine hPG2.mono ?_ ?_
    · intro x hx
      rcases hx with hx | hx
      · rcases hx with hx | hx
        · exact Or.inl hx
        · obtain ⟨hxa, hxb⟩ := hx
          exact Or.inr ⟨hxa, by omega⟩
      · obtain ⟨hxa, hxb⟩ := hx
        exact Or.inr ⟨by omega, by omega⟩
    · intro x hx
      rcases hx with hx | hx
      · have := hG.1 x hx
        omega
      · obtain ⟨hxa, hxb⟩ := hx
        omega
  · intro T O
    unfold Record.fromBytes
    have hdec := hNdec ((Bytes.be2 3 ++ Bytes.be2 (RClass.toU16 cls)
      ++ Bytes.be4 ttl ++ Bytes.be2 codeH.length ++ codeH) ++ T) O
    rw [show b'.buf ++ T = bN.buf ++ ((Bytes.be2 3
      ++ Bytes.be2 (RClass.toU16 cls) ++ Bytes.be4 ttl
      ++ Bytes.be2 codeH.length ++ codeH) ++ T) from by
      rw [hlay, List.append_assoc]]
    rw [hdec]
    simp only [bind, Except.bind]
    obtain ⟨hr1, hr2, hr3, hr4⟩ := fixed_decode bN.buf (codeH ++ T)
      3 cls ttl codeH.length O (by omega) httl hrdlt
    rw [hNa]
    rw [show bN.buf ++ ((Bytes.be2 3
        ++ Bytes.be2 (RClass.toU16 cls) ++ Bytes.be4 ttl
        ++ Bytes.be2 codeH.length ++ codeH) ++ T)
      = bN.buf ++ Bytes.be2 3
        ++ Bytes.be2 (RClass.toU16 cls) ++ Bytes.be4 ttl
        ++ Bytes.be2 codeH.length ++ (codeH ++ T) from by
      simp only [List.append_assoc]]
    rw [hr1]
    dsimp only
    rw [hr2]
    dsimp only
    rw [RClass.fromU16_toU16R]
    dsimp only
    rw [hr3]
    dsimp only
    rw [hr4]
    dsimp only
    have hhost := hPdec T O
    rw [hrun] at hhost
    rw [show b'.buf ++ T = bN.buf ++ Bytes.be2 3
        ++ Bytes.be2 (RClass.toU16 cls) ++ Bytes.be4 ttl
        ++ Bytes.be2 codeH.length ++ (codeH ++ T) from by
      rw [hlay]
      simp only [List.append_assoc]] at hhost
    rw [show (((bN.writeU16 3).writeU16 (RClass.toU16 cls)).writeU32
        ttl).pos + 2 = bN.buf.length + 10 from by
      rw [hfp, hNa]] at hhost
    rw [hhost]
    dsimp only
    rw [hpos']

theorem record_mf_spec (nm : Name) (cls : RClass) (ttl : Nat) (host : Name)
    (b b' : Bytes)
    (hrun : Record.toBytes (.mf nm cls ttl host) b = some b')
    (hok : RecordOK (.mf nm cls ttl host)) (G : Set Nat)
    (hG : GoodOccs b.buf b.occs G) (halign : b.pos = b.buf.length)
    (hfits : b'.buf.length ≤ 16384) :
    RecordSpecOut (.mf nm cls ttl host) b b' G := by
  obtain ⟨hoknm, httl, hokh⟩ := hok
  unfold Record.toBytes at hrun
  simp only [bind, Option.bind] at hrun
  split at hrun
  · cases hrun
  rename_i bN hrunN
  dsimp only at hrun
  simp only [Record.code, Record.cls, Record.ttl] at hrun
  simp only [Record.name] at hrunN
  split at hrun
  · cases hrun
  rename_i bH hrunH
  injection hrun with hrun
  obtain ⟨hfb, hfp, hfo⟩ := writeFixed_shape bN 4 cls ttl
  have hbl : bH.buf.length = b'.buf.length := by
    rw [← hrun, setU16_buf_len]
  have halignF : (((bN.writeU16 4).writeU16 (RClass.toU16 cls)).writeU32
      ttl).pos = (((bN.writeU16 4).writeU16 (RClass.toU16 cls)).writeU32
      ttl).buf.length := by
    obtain ⟨cN2, hshapeN⟩ := (nameToBytes_shape hrunN halign).1
    have hNa0 := (nameToBytes_shape hrunN halign).2
    rw [hfp, hfb, hNa0]
    simp [Bytes.be2, Bytes.be4]
  have h16b : b.buf.length ≤ 16384 := by
    obtain ⟨cN2, hshapeN⟩ := (nameToBytes_shape hrunN halign).1
    have halignS : ((((bN.writeU16 4).writeU16 (RClass.toU16 cls)).writeU32
        ttl).writeU16 0).pos = ((((bN.writeU16 4).writeU16
        (RClass.toU16 cls)).writeU32 ttl).writeU16 0).buf.length := by
      rw [Bytes.writeU16_pos, Bytes.writeU16_buf, halignF]
      simp [Bytes.be2]
    obtain ⟨cH2, hshapeH⟩ := (nameToBytes_shape hrunH halignS).1
    have h1 := congrArg List.length hshapeN
    have h2 := congrArg List.length hshapeH
    rw [List.length_append] at h1 h2
    rw [Bytes.writeU16_buf, List.length_append, hfb, List.length_append]
      at h2
    omega
  obtain ⟨hNs, hNa, hNp, hNG, hNdec⟩ := record_name_part hoknm hrunN G hG
    halign h16b
  have hGF : GoodOccs (((bN.writeU16 4).writeU16
      (RClass.toU16 cls)).writeU32 ttl).buf
      (((bN.writeU16 4).writeU16 (RClass.toU16 cls)).writeU32 ttl).occs
      (G ∪ {x | b.pos ≤ x ∧ x < bN.pos}) := by
    rw [hfb, hfo]
    exact hNG.extend _
  have hfit16 : bH.buf.length ≤ 16384 := by omega
  obtain ⟨codeH, hPbuf, hPpos, hPocc, hHlen, hHalign, hPG, hPdec⟩ :=
    slot_host_part host hokh (((bN.writeU16 4).writeU16
      (RClass.toU16 cls)).writeU32 ttl) bH hrunH
      (G ∪ {x | b.pos ≤ x ∧ x < bN.pos}) hGF halignF hfit16
  have hlay : b'.buf = bN.buf ++ (Bytes.be2 4 ++ Bytes.be2 (RClass.toU16 cls)
      ++ Bytes.be4 ttl ++ Bytes.be2 codeH.length ++ codeH) := by
    rw [← hrun, hPbuf, hfb]
    simp only [List.append_assoc]
  have hpos' : b'.pos = bH.pos := by
    rw [← hrun]
    exact hPpos
  have hocc' : b'.occs = bH.occs := by
    rw [← hrun]
    exact hPocc
  have hlen' : b'.buf.length = bN.buf.length + 10 + codeH.length := by
    rw [hlay]
    simp [Bytes.be2, Bytes.be4]
    omega
  have halign' : b'.pos = b'.buf.length := by
    rw [hpos', hHalign, hbl]
  have hrdlt : codeH.length < 65536 := by omega
  have hbb : b.buf.length ≤ bN.buf.length := by
    obtain ⟨cN, hcN⟩ := hNs
    rw [hcN]
    simp
  refine ⟨?_, halign', ?_, ?_, ?_⟩
  · obtain ⟨cN, hcN⟩ := hNs
    rw [hlay, hcN, List.append_assoc]
    exact ⟨_, rfl⟩
  · rw [hpos']
    omega
  · rw [hocc']
    have hPG2 : GoodOccs b'.buf bH.occs ((G ∪ {x | b.pos ≤ x ∧ x < bN.pos})
        ∪ {x | (((bN.writeU16 4).writeU16 (RClass.toU16 cls)).writeU32
          ttl).pos ≤ x ∧ x < bH.pos}) := by
      rw [← hrun]
      exact hPG
    refine hPG2.mono ?_ ?_
    · intro x hx
      rcases hx with hx | hx
      · rcases hx with hx | hx
        · exact Or.inl hx
        · obtain ⟨hxa, hxb⟩ := hx
          exact Or.inr ⟨hxa, by omega⟩
      · obtain ⟨hxa, hxb⟩ := hx
        exact Or.inr ⟨by omega, by omega⟩
    · intro x hx
      rcases hx with hx | hx
      · have := hG.1 x hx
        omega
      · obtain ⟨hxa, hxb⟩ := hx
        omega
  · intro T O
    unfold Record.fromBytes
    have hdec := hNdec ((Bytes.be2 4 ++ Bytes.be2 (RClass.toU16 cls)
      ++ Bytes.be4 ttl ++ Bytes.be2 codeH.length ++ codeH) ++ T) O
    rw [show b'.buf ++ T = bN.buf ++ ((Bytes.be2 4
      ++ Bytes.be2 (RClass.toU16 cls) ++ Bytes.be4 ttl
      ++ Bytes.be2 codeH.length ++ codeH) ++ T) from by
      rw [hlay, List.append_assoc]]
    rw [hdec]
    simp only [bind, Except.bind]
    obtain ⟨hr1, hr2, hr3, hr4⟩ := fixed_decode bN.buf (codeH ++ T)
      4 cls ttl codeH.length O (by omega) httl hrdlt
    rw [hNa]
    rw [show bN.buf ++ ((Bytes.be2 4
        ++ Bytes.be2 (RClass.toU16 cls) ++ Bytes.be4 ttl
        ++ Bytes.be2 codeH.length ++ codeH) ++ T)
      = bN.buf ++ Bytes.be2 4
        ++ Bytes.be2 (RClass.toU16 cls) ++ Bytes.be4 ttl
        ++ Bytes.be2 codeH.length ++ (codeH ++ T) from by
      simp only [List.append_assoc]]
    rw [hr1]
    dsimp only
    rw [hr2]
    dsimp only
    rw [RClass.fromU16_toU16R]
    dsimp only
    rw [hr3]
    dsimp only
    rw [hr4]
    dsimp only
    have hhost := hPdec T O
    rw [hrun] at hhost
    rw [show b'.buf ++ T = bN.buf ++ Bytes.be2 4
        ++ Bytes.be2 (RClass.toU16 cls) ++ Bytes.be4 ttl
        ++ Bytes.be2 codeH.length ++ (codeH ++ T) from by
      rw [hlay]
      simp only [List.append_assoc]] at hhost
    rw [show (((bN.writeU16 4).writeU16 (RClass.toU16 cls)).writeU32
        ttl).pos + 2 = bN.buf.length + 10 from by
      rw [hfp, hNa]] at hhost
    rw [hhost]
    dsimp only
    rw [hpos']

theorem record_cname_spec (nm : Name) (cls : RClass) (ttl : Nat) (host : Name)
    (b b' : Bytes)
    (hrun : Record.toBytes (.cname nm cls ttl host) b = some b')
    (hok : RecordOK (.cname nm cls ttl host)) (G : Set Nat)
    (hG : GoodOccs b.buf b.occs G) (halign : b.pos = b.buf.length)
    (hfits : b'.buf.length ≤ 16384) :
    RecordSpecOut (.cname nm cls ttl host) b b' G := by
  obtain ⟨hoknm, httl, hokh⟩ := hok
  unfold Record.toBytes at hrun
  simp only [bind, Option.bind] at hrun
  split at hrun
  · cases hrun
  rename_i bN hrunN
  dsimp only at hrun
  simp only [Record.code, Record.cls, Record.ttl] at hrun
  simp only [Record.name] at hrunN
  split at hrun
  · cases hrun
  rename_i bH hrunH
  injection hrun with hrun
  obtain ⟨hfb, hfp, hfo⟩ := writeFixed_shape bN 5 cls ttl
  have hbl : bH.buf.length = b'.buf.length := by
    rw [← hrun, setU16_buf_len]
  have halignF : (((bN.writeU16 5).writeU16 (RClass.toU16 cls)).writeU32
      ttl).pos = (((bN.writeU16 5).writeU16 (RClass.toU16 cls)).writeU32
      ttl).buf.length := by
    obtain ⟨cN2, hshapeN⟩ := (nameToBytes_shape hrunN halign).1
    have hNa0 := (nameToBytes_shape hrunN halign).2
    rw [hfp, hfb, hNa0]
    simp [Bytes.be2, Bytes.be4]
  have h16b : b.buf.length ≤ 16384 := by
    obtain ⟨cN2, hshapeN⟩ := (nameToBytes_shape hrunN halign).1
    have halignS : ((((bN.writeU16 5).writeU16 (RClass.toU16 cls)).writeU32
        ttl).writeU16 0).pos = ((((bN.writeU16 5).writeU16
        (RClass.toU16 cls)).writeU32 ttl).writeU16 0).buf.length := by
      rw [Bytes.writeU16_pos, Bytes.writeU16_buf, halignF]
      simp [Bytes.be2]
    obtain ⟨cH2, hshapeH⟩ := (nameToBytes_shape hrunH halignS).1
    have h1 := congrArg List.length hshapeN
    have h2 := congrArg List.length hshapeH
    rw [List.length_append] at h1 h2
    rw [Bytes.writeU16_buf, List.length_append, hfb, List.length_append]
      at h2
    omega
  obtain ⟨hNs, hNa, hNp, hNG, hNdec⟩ := record_name_part hoknm hrunN G hG
    halign h16b
  have hGF : GoodOccs (((bN.writeU16 5).writeU16
      (RClass.toU16 cls)).writeU32 ttl).buf
      (((bN.writeU16 5).writeU16 (RClass.toU16 cls)).writeU32 ttl).occs
      (G ∪ {x | b.pos ≤ x ∧ x < bN.pos}) := by
    rw [hfb, hfo]
    exact hNG.extend _
  have hfit16 : bH.buf.length ≤ 16384 := by omega
  obtain ⟨codeH, hPbuf, hPpos, hPocc, hHlen, hHalign, hPG, hPdec⟩ :=
    slot_host_part host hokh (((bN.writeU16 5).writeU16
      (RClass.toU16 cls)).writeU32 ttl) bH hrunH
      (G ∪ {x | b.pos ≤ x ∧ x < bN.pos}) hGF halignF hfit16
  have hlay : b'.buf = bN.buf ++ (Bytes.be2 5 ++ Bytes.be2 (RClass.toU16 cls)
      ++ Bytes.be4 ttl ++ Bytes.be2 codeH.length ++ codeH) := by
    rw [← hrun, hPbuf, hfb]
    simp only [List.append_assoc]
  have hpos' : b'.pos = bH.pos := by
    rw [← hrun]
    exact hPpos
  have hocc' : b'.occs = bH.occs := by
    rw [← hrun]
    exact hPocc
  have hlen' : b'.buf.length = bN.buf.length + 10 + codeH.length := by
    rw [hlay]
    simp [Bytes.be2, Bytes.be4]
    omega
  have halign' : b'.pos = b'.buf.length := by
    rw [hpos', hHalign, hbl]
  have hrdlt : codeH.length < 65536 := by omega
  have hbb : b.buf.length ≤ bN.buf.length := by
    obtain ⟨cN, hcN⟩ := hNs
    rw [hcN]
    simp
  refine ⟨?_, halign', ?_, ?_, ?_⟩
  · obtain ⟨cN, hcN⟩ := hNs
    rw [hlay, hcN, List.append_assoc]
    exact ⟨_, rfl⟩
  · rw [hpos']
    omega
  · rw [hocc']
    have hPG2 : GoodOccs b'.buf bH.occs ((G ∪ {x | b.pos ≤ x ∧ x < bN.pos})
        ∪ {x | (((bN.writeU16 5).writeU16 (RClass.toU16 cls)).writeU32
          ttl).pos ≤ x ∧ x < bH.pos}) := by
      rw [← hrun]
      exact hPG
    refine hPG2.mono ?_ ?_
    · intro x hx
      rcases hx with hx | hx
      · rcases hx with hx | hx
        · exact Or.inl hx
        · obtain ⟨hxa, hxb⟩ := hx
          exact Or.inr ⟨hxa, by omega⟩
      · obtain ⟨hxa, hxb⟩ := hx
        exact Or.inr ⟨by omega, by omega⟩
    · intro x hx
      rcases hx with hx | hx
      · have := hG.1 x hx
        omega
      · obtain ⟨hxa, hxb⟩ := hx
        omega
  · intro T O
    unfold Record.fromBytes
    have hdec := hNdec ((Bytes.be2 5 ++ Bytes.be2 (RClass.toU16 cls)
      ++ Bytes.be4 ttl ++ Bytes.be2 codeH.length ++ codeH) ++ T) O
    rw [show b'.buf ++ T = bN.buf ++ ((Bytes.be2 5
      ++ Bytes.be2 (RClass.toU16 cls) ++ Bytes.be4 ttl
      ++ Bytes.be2 codeH.length ++ codeH) ++ T) from by
      rw [hlay, List.append_assoc]]
    rw [hdec]
    simp only [bind, Except.bind]
    obtain ⟨hr1, hr2, hr3, hr4⟩ := fixed_decode bN.buf (codeH ++ T)
      5 cls ttl codeH.length O (by omega) httl hrdlt
    rw [hNa]
    rw [show bN.buf ++ ((Bytes.be2 5
        ++ Bytes.be2 (RClass.toU16 cls) ++ Bytes.be4 ttl
        ++ Bytes.be2 codeH.length ++ codeH) ++ T)
      = bN.buf ++ Bytes.be2 5
        ++ Bytes.be2 (RClass.toU16 cls) ++ Bytes.be4 ttl
        ++ Bytes.be2 codeH.length ++ (codeH ++ T) from by
      simp only [List.append_assoc]]
    rw [hr1]
    dsimp only
    rw [hr2]
    dsimp only
    rw [RClass.fromU16_toU16R]
    dsimp only
    rw [hr3]
    dsimp only
    rw [hr4]
    dsimp only
    have hhost := hPdec T O
    rw [hrun] at hhost
    rw [show b'.buf ++ T = bN.buf ++ Bytes.be2 5
        ++ Bytes.be2 (RClass.toU16 cls) ++ Bytes.be4 ttl
        ++ Bytes.be2 codeH.length ++ (codeH ++ T) from by
      rw [hlay]
      simp only [List.append_assoc]] at hhost
    rw [show (((bN.writeU16 5).writeU16 (RClass.toU16 cls)).writeU32
        ttl).pos + 2 = bN.buf.length + 10 from by
      rw [hfp, hNa]] at hhost
    rw [hhost]
    dsimp only
    rw [hpos']

theorem record_mb_spec (nm : Name) (cls : RClass) (ttl : Nat) (host : Name)
    (b b' : Bytes)
    (hrun : Record.toBytes (.mb nm cls ttl host) b = some b')
    (hok : RecordOK (.mb nm cls ttl host)) (G : Set Nat)
    (hG : GoodOccs b.buf b.occs G) (halign : b.pos = b.buf.length)
    (hfits : b'.buf.length ≤ 16384) :
    RecordSpecOut (.mb nm cls ttl host) b b' G := by
  obtain ⟨hoknm, httl, hokh⟩ := hok
  unfold Record.toBytes at hrun
  simp only [bind, Option.bind] at hrun
  split at hrun
  · cases hrun
  rename_i bN hrunN
  dsimp only at hrun
  simp only [Record.code, Record.cls, Record.ttl] at hrun
  simp only [Record.name] at hrunN
  split at hrun
  · cases hrun
  rename_i bH hrunH
  injection hrun with hrun
  obtain ⟨hfb, hfp, hfo⟩ := writeFixed_shape bN 7 cls ttl
  have hbl : bH.buf.length = b'.buf.length := by
    rw [← hrun, setU16_buf_len]
  have halignF : (((bN.writeU16 7).writeU16 (RClass.toU16 cls)).writeU32
      ttl).pos = (((bN.writeU16 7).writeU16 (RClass.toU16 cls)).writeU32
      ttl).buf.length := by
    obtain ⟨cN2, hshapeN⟩ := (nameToBytes_shape hrunN halign).1
    have hNa0 := (nameToBytes_shape hrunN halign).2
    rw [hfp, hfb, hNa0]
    simp [Bytes.be2, Bytes.be4]
  have h16b : b.buf.length ≤ 16384 := by
    obtain ⟨cN2, hshapeN⟩ := (nameToBytes_shape hrunN halign).1
    have halignS : ((((bN.writeU16 7).writeU16 (RClass.toU16 cls)).writeU32
        ttl).writeU16 0).pos = ((((bN.writeU16 7).writeU16
        (RClass.toU16 cls)).writeU32 ttl).writeU16 0).buf.length := by
      rw [Bytes.writeU16_pos, Bytes.writeU16_buf, halignF]
      simp [Bytes.be2]
    obtain ⟨cH2, hshapeH⟩ := (nameToBytes_shape hrunH halignS).1
    have h1 := congrArg List.length hshapeN
    have h2 := congrArg List.length hshapeH
    rw [List.length_append] at h1 h2
    rw [Bytes.writeU16_buf, List.length_append, hfb, List.length_append]
      at h2
    omega
  obtain ⟨hNs, hNa, hNp, hNG, hNdec⟩ := record_name_part hoknm hrunN G hG
    halign h16b
  have hGF : GoodOccs (((bN.writeU16 7).writeU16
      (RClass.toU16 cls)).writeU32 ttl).buf
      (((bN.writeU16 7).writeU16 (RClass.toU16 cls)).writeU32 ttl).occs
      (G ∪ {x | b.pos ≤ x ∧ x < bN.pos}) := by
    rw [hfb, hfo]
    exact hNG.extend _
  have hfit16 : bH.buf.length ≤ 16384 := by omega
  obtain ⟨codeH, hPbuf, hPpos, hPocc, hHlen, hHalign, hPG, hPdec⟩ :=
    slot_host_part host hokh (((bN.writeU16 7).writeU16
      (RClass.toU16 cls)).writeU32 ttl) bH hrunH
      (G ∪ {x | b.pos ≤ x ∧ x < bN.pos}) hGF halignF hfit16
  have hlay : b'.buf = bN.buf ++ (Bytes.be2 7 ++ Bytes.be2 (RClass.toU16 cls)
      ++ Bytes.be4 ttl ++ Bytes.be2 codeH.length ++ codeH) := by
    rw [← hrun, hPbuf, hfb]
    simp only [List.append_assoc]
  have hpos' : b'.pos = bH.pos := by
    rw [← hrun]
    exact hPpos
  have hocc' : b'.occs = bH.occs := by
    rw [← hrun]
    exact hPocc
  have hlen' : b'.buf.length = bN.buf.length + 10 + codeH.length := by
    rw [hlay]
    simp [Bytes.be2, Bytes.be4]
    omega
  have halign' : b'.pos = b'.buf.length := by
    rw [hpos', hHalign, hbl]
  have hrdlt : codeH.length < 65536 := by omega
  have hbb : b.buf.length ≤ bN.buf.length := by
    obtain ⟨cN, hcN⟩ := hNs
    rw [hcN]
    simp
  refine ⟨?_, halign', ?_, ?_, ?_⟩
  · obtain ⟨cN, hcN⟩ := hNs
    rw [hlay, hcN, List.append_assoc]
    exact ⟨_, rfl⟩
  · rw [hpos']
    omega
  · rw [hocc']
    have hPG2 : GoodOccs b'.buf bH.occs ((G ∪ {x | b.pos ≤ x ∧ x < bN.pos})
        ∪ {x | (((bN.writeU16 7).writeU16 (RClass.toU16 cls)).writeU32
          ttl).pos ≤ x ∧ x < bH.pos}) := by
      rw [← hrun]
      exact hPG
    refine hPG2.mono ?_ ?_
    · intro x hx
      rcases hx with hx | hx
      · rcases hx with hx | hx
        · exact Or.inl hx
        · obtain ⟨hxa, hxb⟩ := hx
          exact Or.inr ⟨hxa, by omega⟩
      · obtain ⟨hxa, hxb⟩ := hx
        exact Or.inr ⟨by omega, by omega⟩
    · intro x hx
      rcases hx with hx | hx
      · have := hG.1 x hx
        omega
      · obtain ⟨hxa, hxb⟩ := hx
        omega
  · intro T O
    unfold Record.fromBytes
    have hdec := hNdec ((Bytes.be2 7 ++ Bytes.be2 (RClass.toU16 cls)
      ++ Bytes.be4 ttl ++ Bytes.be2 codeH.length ++ codeH) ++ T) O
    rw [show b'.buf ++ T = bN.buf ++ ((Bytes.be2 7
      ++ Bytes.be2 (RClass.toU16 cls) ++ Bytes.be4 ttl
      ++ Bytes.be2 codeH.length ++ codeH) ++ T) from by
      rw [hlay, List.append_assoc]]
    rw [hdec]
    simp only [bind, Except.bind]
    obtain ⟨hr1, hr2, hr3, hr4⟩ := fixed_decode bN.buf (codeH ++ T)
      7 cls ttl codeH.length O (by omega) httl hrdlt
    rw [hNa]
    rw [show bN.buf ++ ((Bytes.be2 7
        ++ Bytes.be2 (RClass.toU16 cls) ++ Bytes.be4 ttl
        ++ Bytes.be2 codeH.length ++ codeH) ++ T)
      = bN.buf ++ Bytes.be2 7
        ++ Bytes.be2 (RClass.toU16 cls) ++ Bytes.be4 ttl
        ++ Bytes.be2 codeH.length ++ (codeH ++ T) from by
      simp only [List.append_assoc]]
    rw [hr1]
    dsimp only
    rw [hr2]
    dsimp only
    rw [RClass.fromU16_toU16R]
    dsimp only
    rw [hr3]
    dsimp only
    rw [hr4]
    dsimp only
    have hhost := hPdec T O
    rw [hrun] at hhost
    rw [show b'.buf ++ T = bN.buf ++ Bytes.be2 7
        ++ Bytes.be2 (RClass.toU16 cls) ++ Bytes.be4 ttl
        ++ Bytes.be2 codeH.length ++ (codeH ++ T) from by
      rw [hlay]
      simp only [List.append_assoc]] at hhost
    rw [show (((bN.writeU16 7).writeU16 (RClass.toU16 cls)).writeU32
        ttl).pos + 2 = bN.buf.length + 10 from by
      rw [hfp, hNa]] at hhost
    rw [hhost]
    dsimp only
    rw [hpos']

theorem record_mg_spec (nm : Name) (cls : RClass) (ttl : Nat) (host : Name)
    (b b' : Bytes)
    (hrun : Record.toBytes (.mg nm cls ttl host) b = some b')
    (hok : RecordOK (.mg nm cls ttl host)) (G : Set Nat)
    (hG : GoodOccs b.buf b.occs G) (halign : b.pos = b.buf.length)
    (hfits : b'.buf.length ≤ 16384) :
    RecordSpecOut (.mg nm cls ttl host) b b' G := by
  obtain ⟨hoknm, httl, hokh⟩ := hok
  unfold Record.toBytes at hrun
  simp only [bind, Option.bind] at hrun
  split at hrun
  · cases hrun
  rename_i bN hrunN
  dsimp only at hrun
  simp only [Record.code, Record.cls, Record.ttl] at hrun
  simp only [Record.name] at hrunN
  split at hrun
  · cases hrun
  rename_i bH hrunH
  injection hrun with hrun
  obtain ⟨hfb, hfp, hfo⟩ := writeFixed_shape bN 8 cls ttl
  have hbl : bH.buf.length = b'.buf.length := by
    rw [← hrun, setU16_buf_len]
  have halignF : (((bN.writeU16 8).writeU16 (RClass.toU16 cls)).writeU32
      ttl).pos = (((bN.writeU16 8).writeU16 (RClass.toU16 cls)).writeU32
      ttl).buf.length := by
    obtain ⟨cN2, hshapeN⟩ := (nameToBytes_shape hrunN halign).1
    have hNa0 := (nameToBytes_shape hrunN halign).2
    rw [hfp, hfb, hNa0]
    simp [Bytes.be2, Bytes.be4]
  have h16b : b.buf.length ≤ 16384 := by
    obtain ⟨cN2, hshapeN⟩ := (nameToBytes_shape hrunN halign).1
    have halignS : ((((bN.writeU16 8).writeU16 (RClass.toU16 cls)).writeU32
        ttl).writeU16 0).pos = ((((bN.writeU16 8).writeU16
        (RClass.toU16 cls)).writeU32 ttl).writeU16 0).buf.length := by
      rw [Bytes.writeU16_pos, Bytes.writeU16_buf, halignF]
      simp [Bytes.be2]
    obtain ⟨cH2, hshapeH⟩ := (nameToBytes_shape hrunH halignS).1
    have h1 := congrArg List.length hshapeN
    have h2 := congrArg List.length hshapeH
    rw [List.length_append] at h1 h2
    rw [Bytes.writeU16_buf, List.length_append, hfb, List.length_append]
      at h2
    omega
  obtain ⟨hNs, hNa, hNp, hNG, hNdec⟩ := record_name_part hoknm hrunN G hG
    halign h16b
  have hGF : GoodOccs (((bN.writeU16 8).writeU16
      (RClass.toU16 cls)).writeU32 ttl).buf
      (((bN.writeU16 8).writeU16 (RClass.toU16 cls)).writeU32 ttl).occs
      (G ∪ {x | b.pos ≤ x ∧ x < bN.pos}) := by
    rw [hfb, hfo]
    exact hNG.extend _
  have hfit16 : bH.buf.length ≤ 16384 := by omega
  obtain ⟨codeH, hPbuf, hPpos, hPocc, hHlen, hHalign, hPG, hPdec⟩ :=
    slot_host_part host hokh (((bN.writeU16 8).writeU16
      (RClass.toU16 cls)).writeU32 ttl) bH hrunH
      (G ∪ {x | b.pos ≤ x ∧ x < bN.pos}) hGF halignF hfit16
  have hlay : b'.buf = bN.buf ++ (Bytes.be2 8 ++ Bytes.be2 (RClass.toU16 cls)
      ++ Bytes.be4 ttl ++ Bytes.be2 codeH.length ++ codeH) := by
    rw [← hrun, hPbuf, hfb]
    simp only [List.append_assoc]
  have hpos' : b'.pos = bH.pos := by
    rw [← hrun]
    exact hPpos
  have hocc' : b'.occs = bH.occs := by
    rw [← hrun]
    exact hPocc
  have hlen' : b'.buf.length = bN.buf.length + 10 + codeH.length := by
    rw [hlay]
    simp [Bytes.be2, Bytes.be4]
    omega
  have halign' : b'.pos = b'.buf.length := by
    rw [hpos', hHalign, hbl]
  have hrdlt : codeH.length < 65536 := by omega
  have hbb : b.buf.length ≤ bN.buf.length := by
    obtain ⟨cN, hcN⟩ := hNs
    rw [hcN]
    simp
  refine ⟨?_, halign', ?_, ?_, ?_⟩
  · obtain ⟨cN, hcN⟩ := hNs
    rw [hlay, hcN, List.append_assoc]
    exact ⟨_, rfl⟩
  · rw [hpos']
    omega
  · rw [hocc']
    have hPG2 : GoodOccs b'.buf bH.occs ((G ∪ {x | b.pos ≤ x ∧ x < bN.pos})
        ∪ {x | (((bN.writeU16 8).writeU16 (RClass.toU16 cls)).writeU32
          ttl).pos ≤ x ∧ x < bH.pos}) := by
      rw [← hrun]
      exact hPG
    refine hPG2.mono ?_ ?_
    · intro x hx
      rcases hx with hx | hx
      · rcases hx with hx | hx
        · exact Or.inl hx
        · obtain ⟨hxa, hxb⟩ := hx
          exact Or.inr ⟨hxa, by omega⟩
      · obtain ⟨hxa, hxb⟩ := hx
        exact Or.inr ⟨by omega, by omega⟩
    · intro x hx
      rcases hx with hx | hx
      · have := hG.1 x hx
        omega
      · obtain ⟨hxa, hxb⟩ := hx
        omega
  · intro T O
    unfold Record.fromBytes
    have hdec := hNdec ((Bytes.be2 8 ++ Bytes.be2 (RClass.toU16 cls)
      ++ Bytes.be4 ttl ++ Bytes.be2 codeH.length ++ codeH) ++ T) O
    rw [show b'.buf ++ T = bN.buf ++ ((Bytes.be2 8
      ++ Bytes.be2 (RClass.toU16 cls) ++ Bytes.be4 ttl
      ++ Bytes.be2 codeH.length ++ codeH) ++ T) from by
      rw [hlay, List.append_assoc]]
    rw [hdec]
    simp only [bind, Except.bind]
    obtain ⟨hr1, hr2, hr3, hr4⟩ := fixed_decode bN.buf (codeH ++ T)
      8 cls ttl codeH.length O (by omega) httl hrdlt
    rw [hNa]
    rw [show bN.buf ++ ((Bytes.be2 8
        ++ Bytes.be2 (RClass.toU16 cls) ++ Bytes.be4 ttl
        ++ Bytes.be2 codeH.length ++ codeH) ++ T)
      = bN.buf ++ Bytes.be2 8
        ++ Bytes.be2 (RClass.toU16 cls) ++ Bytes.be4 ttl
        ++ Bytes.be2 codeH.length ++ (codeH ++ T) from by
      simp only [List.append_assoc]]
    rw [hr1]
    dsimp only
    rw [hr2]
    dsimp only
    rw [RClass.fromU16_toU16R]
    dsimp only
    rw [hr3]
    dsimp only
    rw [hr4]
    dsimp only
    have hhost := hPdec T O
    rw [hrun] at hhost
    rw [show b'.buf ++ T = bN.buf ++ Bytes.be2 8
        ++ Bytes.be2 (RClass.toU16 cls) ++ Bytes.be4 ttl
        ++ Bytes.be2 codeH.length ++ (codeH ++ T) from by
      rw [hlay]
      simp only [List.append_assoc]] at hhost
    rw [show (((bN.writeU16 8).writeU16 (RClass.toU16 cls)).writeU32
        ttl).pos + 2 = bN.buf.length + 10 from by
      rw [hfp, hNa]] at hhost
    rw [hhost]
    dsimp only
    rw [hpos']

theorem record_mr_spec (nm : Name) (cls : RClass) (ttl : Nat) (host : Name)
    (b b' : Bytes)
    (hrun : Record.toBytes (.mr nm cls ttl host) b = some b')
    (hok : RecordOK (.mr nm cls ttl host)) (G : Set Nat)
    (hG : GoodOccs b.buf b.occs G) (halign : b.pos = b.buf.length)
    (hfits : b'.buf.length ≤ 16384) :
    RecordSpecOut (.mr nm cls ttl host) b b' G := by
  obtain ⟨hoknm, httl, hokh⟩ := hok
  unfold Record.toBytes at hrun
  simp only [bind, Option.bind] at hrun
  split at hrun
  · cases hrun
  rename_i bN hrunN
  dsimp only at hrun
  simp only [Record.code, Record.cls, Record.ttl] at hrun
  simp only [Record.name] at hrunN
  split at hrun
  · cases hrun
  rename_i bH hrunH
  injection hrun with hrun
  obtain ⟨hfb, hfp, hfo⟩ := writeFixed_shape bN 9 cls ttl
  have hbl : bH.buf.length = b'.buf.length := by
    rw [← hrun, setU16_buf_len]
  have halignF : (((bN.writeU16 9).writeU16 (RClass.toU16 cls)).writeU32
      ttl).pos = (((bN.writeU16 9).writeU16 (RClass.toU16 cls)).writeU32
      ttl).buf.length := by
    obtain ⟨cN2, hshapeN⟩ := (nameToBytes_shape hrunN halign).1
    have hNa0 := (nameToBytes_shape hrunN halign).2
    rw [hfp, hfb, hNa0]
    simp [Bytes.be2, Bytes.be4]
  have h16b : b.buf.length ≤ 16384 := by
    obtain ⟨cN2, hshapeN⟩ := (nameToBytes_shape hrunN halign).1
    have halignS : ((((bN.writeU16 9).writeU16 (RClass.toU16 cls)).writeU32
        ttl).writeU16 0).pos = ((((bN.writeU16 9).writeU16
        (RClass.toU16 cls)).writeU32 ttl).writeU16 0).buf.length := by
      rw [Bytes.writeU16_pos, Bytes.writeU16_buf, halignF]
      simp [Bytes.be2]
    obtain ⟨cH2, hshapeH⟩ := (nameToBytes_shape hrunH halignS).1
    have h1 := congrArg List.length hshapeN
    have h2 := congrArg List.length hshapeH
    rw [List.length_append] at h1 h2
    rw [Bytes.writeU16_buf, List.length_append, hfb, List.length_append]
      at h2
    omega
  obtain ⟨hNs, hNa, hNp, hNG, hNdec⟩ := record_name_part hoknm hrunN G hG
    halign h16b
  have hGF : GoodOccs (((bN.writeU16 9).writeU16
      (RClass.toU16 cls)).writeU32 ttl).buf
      (((bN.writeU16 9).writeU16 (RClass.toU16 cls)).writeU32 ttl).occs
      (G ∪ {x | b.pos ≤ x ∧ x < bN.pos}) := by
    rw [hfb, hfo]
    exact hNG.extend _
  have hfit16 : bH.buf.length ≤ 16384 := by omega
  obtain ⟨codeH, hPbuf, hPpos, hPocc, hHlen, hHalign, hPG, hPdec⟩ :=
    slot_host_part host hokh (((bN.writeU16 9).writeU16
      (RClass.toU16 cls)).writeU32 ttl) bH hrunH
      (G ∪ {x | b.pos ≤ x ∧ x < bN.pos}) hGF halignF hfit16
  have hlay : b'.buf = bN.buf ++ (Bytes.be2 9 ++ Bytes.be2 (RClass.toU16 cls)
      ++ Bytes.be4 ttl ++ Bytes.be2 codeH.length ++ codeH) := by
    rw [← hrun, hPbuf, hfb]
    simp only [List.append_assoc]
  have hpos' : b'.pos = bH.pos := by
    rw [← hrun]
    exact hPpos
  have hocc' : b'.occs = bH.occs := by
    rw [← hrun]
    exact hPocc
  have hlen' : b'.buf.length = bN.buf.length + 10 + codeH.length := by
    rw [hlay]
    simp [Bytes.be2, Bytes.be4]
    omega
  have halign' : b'.pos = b'.buf.length := by
    rw [hpos', hHalign, hbl]
  have hrdlt : codeH.length < 65536 := by omega
  have hbb : b.buf.length ≤ bN.buf.length := by
    obtain ⟨cN, hcN⟩ := hNs
    rw [hcN]
    simp
  refine ⟨?_, halign', ?_, ?_, ?_⟩
  · obtain ⟨cN, hcN⟩ := hNs
    rw [hlay, hcN, List.append_assoc]
    exact ⟨_, rfl⟩
  · rw [hpos']
    omega
  · rw [hocc']
    have hPG2 : GoodOccs b'.buf bH.occs ((G ∪ {x | b.pos ≤ x ∧ x < bN.pos})
        ∪ {x | (((bN.writeU16 9).writeU16 (RClass.toU16 cls)).writeU32
          ttl).pos ≤ x ∧ x < bH.pos}) := by
      rw [← hrun]
      exact hPG
    refine hPG2.mono ?_ ?_
    · intro x hx
      rcases hx with hx | hx
      · rcases hx with hx | hx
        · exact Or.inl hx
        · obtain ⟨hxa, hxb⟩ := hx
          exact Or.inr ⟨hxa, by omega⟩
      · obtain ⟨hxa, hxb⟩ := hx
        exact Or.inr ⟨by omega, by omega⟩
    · intro x hx
      rcases hx with hx | hx
      · have := hG.1 x hx
        omega
      · obtain ⟨hxa, hxb⟩ := hx
        omega
  · intro T O
    unfold Record.fromBytes
    have hdec := hNdec ((Bytes.be2 9 ++ Bytes.be2 (RClass.toU16 cls)
      ++ Bytes.be4 ttl ++ Bytes.be2 codeH.length ++ codeH) ++ T) O
    rw [show b'.buf ++ T = bN.buf ++ ((Bytes.be2 9
      ++ Bytes.be2 (RClass.toU16 cls) ++ Bytes.be4 ttl
      ++ Bytes.be2 codeH.length ++ codeH) ++ T) from by
      rw [hlay, List.append_assoc]]
    rw [hdec]
    simp only [bind, Except.bind]
    obtain ⟨hr1, hr2, hr3, hr4⟩ := fixed_decode bN.buf (codeH ++ T)
      9 cls ttl codeH.length O (by omega) httl hrdlt
    rw [hNa]
    rw [show bN.buf ++ ((Bytes.be2 9
        ++ Bytes.be2 (RClass.toU16 cls) ++ Bytes.be4 ttl
        ++ Bytes.be2 codeH.length ++ codeH) ++ T)
      = bN.buf ++ Bytes.be2 9
        ++ Bytes.be2 (RClass.toU16 cls) ++ Bytes.be4 ttl
        ++ Bytes.be2 codeH.length ++ (codeH ++ T) from by
      simp only [List.append_assoc]]
    rw [hr1]
    dsimp only
    rw [hr2]
    dsimp only
    rw [RClass.fromU16_toU16R]
    dsimp only
    rw [hr3]
    dsimp only
    rw [hr4]
    dsimp only
    have hhost := hPdec T O
    rw [hrun] at hhost
    rw [show b'.buf ++ T = bN.buf ++ Bytes.be2 9
        ++ Bytes.be2 (RClass.toU16 cls) ++ Bytes.be4 ttl
        ++ Bytes.be2 codeH.length ++ (codeH ++ T) from by
      rw [hlay]
      simp only [List.append_assoc]] at hhost
    rw [show (((bN.writeU16 9).writeU16 (RClass.toU16 cls)).writeU32
        ttl).pos + 2 = bN.buf.length + 10 from by
      rw [hfp, hNa]] at hhost
    rw [hhost]
    dsimp only
    rw [hpos']

theorem record_ptr_spec (nm : Name) (cls : RClass) (ttl : Nat) (host : Name)
    (b b' : Bytes)
    (hrun : Record.toBytes (.ptr nm cls ttl host) b = some b')
    (hok : RecordOK (.ptr nm cls ttl host)) (G : Set Nat)
    (hG : GoodOccs b.buf b.occs G) (halign : b.pos = b.buf.length)
    (hfits : b'.buf.length ≤ 16384) :
    RecordSpecOut (.ptr nm cls ttl host) b b' G := by
  obtain ⟨hoknm, httl, hokh⟩ := hok
  unfold Record.toBytes at hrun
  simp only [bind, Option.bind] at hrun
  split at hrun
  · cases hrun
  rename_i bN hrunN
  dsimp only at hrun
  simp only [Record.code, Record.cls, Record.ttl] at hrun
  simp only [Record.name] at hrunN
  split at hrun
  · cases hrun
  rename_i bH hrunH
  injection hrun with hrun
  obtain ⟨hfb, hfp, hfo⟩ := writeFixed_shape bN 12 cls ttl
  have hbl : bH.buf.length = b'.buf.length := by
    rw [← hrun, setU16_buf_len]
  have halignF : (((bN.writeU16 12).writeU16 (RClass.toU16 cls)).writeU32
      ttl).pos = (((bN.writeU16 12).writeU16 (RClass.toU16 cls)).writeU32
      ttl).buf.length := by
    obtain ⟨cN2, hshapeN⟩ := (nameToBytes_shape hrunN halign).1
    have hNa0 := (nameToBytes_shape hrunN halign).2
    rw [hfp, hfb, hNa0]
    simp [Bytes.be2, Bytes.be4]
  have h16b : b.buf.length ≤ 16384 := by
    obtain ⟨cN2, hshapeN⟩ := (nameToBytes_shape hrunN halign).1
    have halignS : ((((bN.writeU16 12).writeU16 (RClass.toU16 cls)).writeU32
        ttl).writeU16 0).pos = ((((bN.writeU16 12).writeU16
        (RClass.toU16 cls)).writeU32 ttl).writeU16 0).buf.length := by
      rw [Bytes.writeU16_pos, Bytes.writeU16_buf, halignF]
      simp [Bytes.be2]
    obtain ⟨cH2, hshapeH⟩ := (nameToBytes_shape hrunH halignS).1
    have h1 := congrArg List.length hshapeN
    have h2 := congrArg List.length hshapeH
    rw [List.length_append] at h1 h2
    rw [Bytes.writeU16_buf, List.length_append, hfb, List.length_append]
      at h2
    omega
  obtain ⟨hNs, hNa, hNp, hNG, hNdec⟩ := record_name_part hoknm hrunN G hG
    halign h16b
  have hGF : GoodOccs (((bN.writeU16 12).writeU16
      (RClass.toU16 cls)).writeU32 ttl).buf
      (((bN.writeU16 12).writeU16 (RClass.toU16 cls)).writeU32 ttl).occs
      (G ∪ {x | b.pos ≤ x ∧ x < bN.pos}) := by
    rw [hfb, hfo]
    exact hNG.extend _
  have hfit16 : bH.buf.length ≤ 16384 := by omega
  obtain ⟨codeH, hPbuf, hPpos, hPocc, hHlen, hHalign, hPG, hPdec⟩ :=
    slot_host_part host hokh (((bN.writeU16 12).writeU16
      (RClass.toU16 cls)).writeU32 ttl) bH hrunH
      (G ∪ {x | b.pos ≤ x ∧ x < bN.pos}) hGF halignF hfit16
  have hlay : b'.buf = bN.buf ++ (Bytes.be2 12 ++ Bytes.be2 (RClass.toU16 cls)
      ++ Bytes.be4 ttl ++ Bytes.be2 codeH.length ++ codeH) := by
    rw [← hrun, hPbuf, hfb]
    simp only [List.append_assoc]
  have hpos' : b'.pos = bH.pos := by
    rw [← hrun]
    exact hPpos
  have hocc' : b'.occs = bH.occs := by
    rw [← hrun]
    exact hPocc
  have hlen' : b'.buf.length = bN.buf.length + 10 + codeH.length := by
    rw [hlay]
    simp [Bytes.be2, Bytes.be4]
    omega
  have halign' : b'.pos = b'.buf.length := by
    rw [hpos', hHalign, hbl]
  have hrdlt : codeH.length < 65536 := by omega
  have hbb : b.buf.length ≤ bN.buf.length := by
    obtain ⟨cN, hcN⟩ := hNs
    rw [hcN]
    simp
  refine ⟨?_, halign', ?_, ?_, ?_⟩
  · obtain ⟨cN, hcN⟩ := hNs
    rw [hlay, hcN, List.append_assoc]
    exact ⟨_, rfl⟩
  · rw [hpos']
    omega
  · rw [hocc']
    have hPG2 : GoodOccs b'.buf bH.occs ((G ∪ {x | b.pos ≤ x ∧ x < bN.pos})
        ∪ {x | (((bN.writeU16 12).writeU16 (RClass.toU16 cls)).writeU32
          ttl).pos ≤ x ∧ x < bH.pos}) := by
      rw [← hrun]
      exact hPG
    refine hPG2.mono ?_ ?_
    · intro x hx
      rcases hx with hx | hx
      · rcases hx with hx | hx
        · exact Or.inl hx
        · obtain ⟨hxa, hxb⟩ := hx
          exact Or.inr ⟨hxa, by omega⟩
      · obtain ⟨hxa, hxb⟩ := hx
        exact Or.inr ⟨by omega, by omega⟩
    · intro x hx
      rcases hx with hx | hx
      · have := hG.1 x hx
        omega
      · obtain ⟨hxa, hxb⟩ := hx
        omega
  · intro T O
    unfold Record.fromBytes
    have hdec := hNdec ((Bytes.be2 12 ++ Bytes.be2 (RClass.toU16 cls)
      ++ Bytes.be4 ttl ++ Bytes.be2 codeH.length ++ codeH) ++ T) O
    rw [show b'.buf ++ T = bN.buf ++ ((Bytes.be2 12
      ++ Bytes.be2 (RClass.toU16 cls) ++ Bytes.be4 ttl
      ++ Bytes.be2 codeH.length ++ codeH) ++ T) from by
      rw [hlay, List.append_assoc]]
    rw [hdec]
    simp only [bind, Except.bind]
    obtain ⟨hr1, hr2, hr3, hr4⟩ := fixed_decode bN.buf (codeH ++ T)
      12 cls ttl codeH.length O (by omega) httl hrdlt
    rw [hNa]
    rw [show bN.buf ++ ((Bytes.be2 12
        ++ Bytes.be2 (RClass.toU16 cls) ++ Bytes.be4 ttl
        ++ Bytes.be2 codeH.length ++ codeH) ++ T)
      = bN.buf ++ Bytes.be2 12
        ++ Bytes.be2 (RClass.toU16 cls) ++ Bytes.be4 ttl
        ++ Bytes.be2 codeH.length ++ (codeH ++ T) from by
      simp only [List.append_assoc]]
    rw [hr1]
    dsimp only
    rw [hr2]
    dsimp only
    rw [RClass.fromU16_toU16R]
    dsimp only
    rw [hr3]
    dsimp only
    rw [hr4]
    dsimp only
    have hhost := hPdec T O
    rw [hrun] at hhost
    rw [show b'.buf ++ T = bN.buf ++ Bytes.be2 12
        ++ Bytes.be2 (RClass.toU16 cls) ++ Bytes.be4 ttl
        ++ Bytes.be2 codeH.length ++ (codeH ++ T) from by
      rw [hlay]
      simp only [List.append_assoc]] at hhost
    rw [show (((bN.writeU16 12).writeU16 (RClass.toU16 cls)).writeU32
        ttl).pos + 2 = bN.buf.length + 10 from by
      rw [hfp, hNa]] at hhost
    rw [hhost]
    dsimp only
    rw [hpos']

theorem record_null_spec (nm : Name) (cls : RClass) (ttl : Nat)
    (data : List Nat) (b b' : Bytes)
    (hrun : Record.toBytes (.null nm cls ttl data) b = some b')
    (hok : RecordOK (.null nm cls ttl data)) (G : Set Nat)
    (hG : GoodOccs b.buf b.occs G) (halign : b.pos = b.buf.length)
    (hfits : b'.buf.length ≤ 16384) :
    RecordSpecOut (.null nm cls ttl data) b b' G := by
  obtain ⟨hoknm, httl, hdl⟩ := hok
  have hmod : data.length % 65536 = data.length := Nat.mod_eq_of_lt hdl
  unfold Record.toBytes at hrun
  simp only [bind, Option.bind] at hrun
  split at hrun
  · cases hrun
  rename_i bN hrunN
  dsimp only at hrun
  injection hrun with hrun
  simp only [Record.code, Record.cls, Record.ttl] at hrun
  simp only [Record.name] at hrunN
  rw [hmod] at hrun
  obtain ⟨hNs, hNa, hNp, hNG, hNdec⟩ := record_name_part hoknm hrunN G hG
    halign (by
      obtain ⟨cN, hcN⟩ := (nameToBytes_shape hrunN halign).1
      have : b'.buf.length = bN.buf.length + 10 + data.length := by
        rw [← hrun, Bytes.writeAll_buf, Bytes.writeU16_buf]
        obtain ⟨hfb, hfp, hfo⟩ := writeFixed_shape bN 10 cls ttl
        rw [hfb]
        simp [Bytes.be2, Bytes.be4]
        omega
      have hbb : b.buf.length ≤ bN.buf.length := by
        rw [hcN]
        simp
      omega)
  obtain ⟨hfb, hfp, hfo⟩ := writeFixed_shape bN 10 cls ttl
  have hlay : b'.buf = bN.buf ++ (Bytes.be2 10
      ++ Bytes.be2 (RClass.toU16 cls) ++ Bytes.be4 ttl
      ++ Bytes.be2 data.length ++ data) := by
    rw [← hrun, Bytes.writeAll_buf, Bytes.writeU16_buf, hfb]
    simp only [List.append_assoc]
  have hpos' : b'.pos = bN.pos + 10 + data.length := by
    rw [← hrun, Bytes.writeAll_pos, Bytes.writeU16_pos, hfp]
  have hoccs' : b'.occs = bN.occs := by
    rw [← hrun, Bytes.writeAll_occs, Bytes.writeU16_occs, hfo]
  have hlaylen : b'.buf.length = bN.buf.length + 10 + data.length := by
    rw [hlay]
    simp [Bytes.be2, Bytes.be4]
    omega
  refine ⟨?_, ?_, ?_, ?_, ?_⟩
  · obtain ⟨cN, hcN⟩ := hNs
    rw [hlay, hcN, List.append_assoc]
    exact ⟨_, rfl⟩
  · rw [hpos', hlaylen, hNa]
  · omega
  · rw [hlay, hoccs']
    refine (hNG.extend _).mono ?_ ?_
    · intro x hx
      rcases hx with hx | hx
      · exact Or.inl hx
      · obtain ⟨hxa, hxb⟩ := hx
        exact Or.inr ⟨hxa, by omega⟩
    · intro x hx
      rw [← hlay, hlaylen]
      rcases hx with hx | hx
      · have := hG.1 x hx
        have hbb : b.buf.length ≤ bN.buf.length := by
          obtain ⟨cN, hcN⟩ := hNs
          rw [hcN]
          simp
        omega
      · obtain ⟨hxa, hxb⟩ := hx
        rw [hpos', hNa] at hxb
        omega
  · intro T O
    unfold Record.fromBytes
    have hdec := hNdec ((Bytes.be2 10 ++ Bytes.be2 (RClass.toU16 cls)
      ++ Bytes.be4 ttl ++ Bytes.be2 data.length ++ data) ++ T) O
    rw [show b'.buf ++ T = bN.buf ++ ((Bytes.be2 10
      ++ Bytes.be2 (RClass.toU16 cls) ++ Bytes.be4 ttl
      ++ Bytes.be2 data.length ++ data) ++ T) from by
      rw [hlay, List.append_assoc]]
    rw [hdec]
    simp only [bind, Except.bind]
    obtain ⟨hr1, hr2, hr3, hr4⟩ := fixed_decode bN.buf (data ++ T)
      10 cls ttl data.length O (by omega) httl hdl
    rw [hNa]
    rw [show bN.buf ++ ((Bytes.be2 10 ++ Bytes.be2 (RClass.toU16 cls)
        ++ Bytes.be4 ttl ++ Bytes.be2 data.length ++ data) ++ T)
      = bN.buf ++ Bytes.be2 10 ++ Bytes.be2 (RClass.toU16 cls)
        ++ Bytes.be4 ttl ++ Bytes.be2 data.length ++ (data ++ T) from by
      simp only [List.append_assoc]]
    rw [hr1]
    dsimp only
    rw [hr2]
    dsimp only
    rw [RClass.fromU16_toU16R]
    dsimp only
    rw [hr3]
    dsimp only
    rw [hr4]
    dsimp only
    rw [← List.append_assoc]
    have hr5 := Bytes.readExact_eq (bN.buf ++ Bytes.be2 10
        ++ Bytes.be2 (RClass.toU16 cls) ++ Bytes.be4 ttl
        ++ Bytes.be2 data.length) data T O
    rw [show (bN.buf ++ Bytes.be2 10 ++ Bytes.be2 (RClass.toU16 cls)
        ++ Bytes.be4 ttl ++ Bytes.be2 data.length).length
      = bN.buf.length + 10 from by simp [Bytes.be2, Bytes.be4]] at hr5
    rw [hr5]
    dsimp only
    rw [hpos', hNa]

theorem record_aaaa_spec (nm : Name) (cls : RClass) (ttl : Nat)
    (addr16 : List Nat) (b b' : Bytes)
    (hrun : Record.toBytes (.aaaa nm cls ttl addr16) b = some b')
    (hok : RecordOK (.aaaa nm cls ttl addr16)) (G : Set Nat)
    (hG : GoodOccs b.buf b.occs G) (halign : b.pos = b.buf.length)
    (hfits : b'.buf.length ≤ 16384) :
    RecordSpecOut (.aaaa nm cls ttl addr16) b b' G := by
  obtain ⟨hoknm, httl, hlen16⟩ := hok
  unfold Record.toBytes at hrun
  simp only [bind, Option.bind] at hrun
  split at hrun
  · cases hrun
  rename_i bN hrunN
  dsimp only at hrun
  injection hrun with hrun
  simp only [Record.code, Record.cls, Record.ttl] at hrun
  simp only [Record.name] at hrunN
  obtain ⟨hNs, hNa, hNp, hNG, hNdec⟩ := record_name_part hoknm hrunN G hG
    halign (by
      obtain ⟨cN, hcN⟩ := (nameToBytes_shape hrunN halign).1
      have : b'.buf.length = bN.buf.length + 26 := by
        rw [← hrun, Bytes.writeAll_buf, Bytes.writeU16_buf]
        obtain ⟨hfb, hfp, hfo⟩ := writeFixed_shape bN 28 cls ttl
        rw [hfb]
        simp [Bytes.be2, Bytes.be4, hlen16]
      have hbb : b.buf.length ≤ bN.buf.length := by
        rw [hcN]
        simp
      omega)
  obtain ⟨hfb, hfp, hfo⟩ := writeFixed_shape bN 28 cls ttl
  have hlay : b'.buf = bN.buf ++ (Bytes.be2 28
      ++ Bytes.be2 (RClass.toU16 cls) ++ Bytes.be4 ttl
      ++ Bytes.be2 16 ++ addr16) := by
    rw [← hrun, Bytes.writeAll_buf, Bytes.writeU16_buf, hfb]
    simp only [List.append_assoc]
  have hpos' : b'.pos = bN.pos + 26 := by
    rw [← hrun, Bytes.writeAll_pos, Bytes.writeU16_pos, hfp, hlen16]
  have hoccs' : b'.occs = bN.occs := by
    rw [← hrun, Bytes.writeAll_occs, Bytes.writeU16_occs, hfo]
  have hlaylen : b'.buf.length = bN.buf.length + 26 := by
    rw [hlay]
    simp [Bytes.be2, Bytes.be4, hlen16]
  refine ⟨?_, ?_, ?_, ?_, ?_⟩
  · obtain ⟨cN, hcN⟩ := hNs
    rw [hlay, hcN, List.append_assoc]
    exact ⟨_, rfl⟩
  · rw [hpos', hlaylen, hNa]
  · omega
  · rw [hlay, hoccs']
    refine (hNG.extend _).mono ?_ ?_
    · intro x hx
      rcases hx with hx | hx
      · exact Or.inl hx
      · obtain ⟨hxa, hxb⟩ := hx
        exact Or.inr ⟨hxa, by omega⟩
    · intro x hx
      rw [← hlay, hlaylen]
      rcases hx with hx | hx
      · have := hG.1 x hx
        have hbb : b.buf.length ≤ bN.buf.length := by
          obtain ⟨cN, hcN⟩ := hNs
          rw [hcN]
          simp
        omega
      · obtain ⟨hxa, hxb⟩ := hx
        rw [hpos', hNa] at hxb
        omega
  · intro T O
    unfold Record.fromBytes
    have hdec := hNdec ((Bytes.be2 28 ++ Bytes.be2 (RClass.toU16 cls)
      ++ Bytes.be4 ttl ++ Bytes.be2 16 ++ addr16) ++ T) O
    rw [show b'.buf ++ T = bN.buf ++ ((Bytes.be2 28
      ++ Bytes.be2 (RClass.toU16 cls) ++ Bytes.be4 ttl
      ++ Bytes.be2 16 ++ addr16) ++ T) from by
      rw [hlay, List.append_assoc]]
    rw [hdec]
    simp only [bind, Except.bind]
    obtain ⟨hr1, hr2, hr3, hr4⟩ := fixed_decode bN.buf (addr16 ++ T)
      28 cls ttl 16 O (by omega) httl (by omega)
    rw [hNa]
    rw [show bN.buf ++ ((Bytes.be2 28 ++ Bytes.be2 (RClass.toU16 cls)
        ++ Bytes.be4 ttl ++ Bytes.be2 16 ++ addr16) ++ T)
      = bN.buf ++ Bytes.be2 28 ++ Bytes.be2 (RClass.toU16 cls)
        ++ Bytes.be4 ttl ++ Bytes.be2 16 ++ (addr16 ++ T) from by
      simp only [List.append_assoc]]
    rw [hr1]
    dsimp only
    rw [hr2]
    dsimp only
    rw [RClass.fromU16_toU16R]
    dsimp only
    rw [hr3]
    dsimp only
    rw [hr4]
    dsimp only
    rw [← List.append_assoc]
    have hr5 := Bytes.readExact_eq (bN.buf ++ Bytes.be2 28
        ++ Bytes.be2 (RClass.toU16 cls) ++ Bytes.be4 ttl
        ++ Bytes.be2 16) addr16 T O
    rw [show (bN.buf ++ Bytes.be2 28 ++ Bytes.be2 (RClass.toU16 cls)
        ++ Bytes.be4 ttl ++ Bytes.be2 16).length
      = bN.buf.length + 10 from by simp [Bytes.be2, Bytes.be4],
      hlen16] at hr5
    rw [hr5]
    dsimp only
    rw [hpos', hNa]

theorem record_wks_spec (nm : Name) (cls : RClass) (ttl addr protocol : Nat)
    (data : List Nat) (b b' : Bytes)
    (hrun : Record.toBytes (.wks nm cls ttl addr protocol data) b = some b')
    (hok : RecordOK (.wks nm cls ttl addr protocol data)) (G : Set Nat)
    (hG : GoodOccs b.buf b.occs G) (halign : b.pos = b.buf.length)
    (hfits : b'.buf.length ≤ 16384) :
    RecordSpecOut (.wks nm cls ttl addr protocol data) b b' G := by
  obtain ⟨hoknm, httl, haddr, hprot, hdl5⟩ := hok
  unfold Record.toBytes at hrun
  simp only [bind, Option.bind] at hrun
  split at hrun
  · cases hrun
  rename_i bN hrunN
  dsimp only at hrun
  injection hrun with hrun
  simp only [Record.code, Record.cls, Record.ttl] at hrun
  simp only [Record.name] at hrunN
  obtain ⟨hfb, hfp, hfo⟩ := writeFixed_shape bN 11 cls ttl
  have hWpos : (((((((bN.writeU16 11).writeU16
      (RClass.toU16 cls)).writeU32 ttl).writeU16 0).writeAll
      (ipv4Octets addr)).write protocol).writeAll data).pos
      = (((bN.writeU16 11).writeU16 (RClass.toU16 cls)).writeU32 ttl).pos
        + 7 + data.length := by
    rw [Bytes.writeAll_pos, Bytes.write_pos, Bytes.writeAll_pos,
      Bytes.writeU16_pos]
    simp [ipv4Octets]
  have hWbuf : (((((((bN.writeU16 11).writeU16
      (RClass.toU16 cls)).writeU32 ttl).writeU16 0).writeAll
      (ipv4Octets addr)).write protocol).writeAll data).buf
      = (bN.buf ++ (Bytes.be2 11 ++ Bytes.be2 (RClass.toU16 cls)
        ++ Bytes.be4 ttl))
        ++ 0 :: 0 :: (ipv4Octets addr ++ protocol :: data) := by
    rw [Bytes.writeAll_buf, Bytes.write_buf, Bytes.writeAll_buf,
      Bytes.writeU16_buf, hfb]
    simp [Bytes.be2, List.append_assoc]
  have hWlen : (((((((bN.writeU16 11).writeU16
      (RClass.toU16 cls)).writeU32 ttl).writeU16 0).writeAll
      (ipv4Octets addr)).write protocol).writeAll data).buf.length
      = bN.buf.length + 15 + data.length := by
    rw [hWbuf]
    simp [Bytes.be2, Bytes.be4, ipv4Octets]
    omega
  have hbl : (((((((bN.writeU16 11).writeU16
      (RClass.toU16 cls)).writeU32 ttl).writeU16 0).writeAll
      (ipv4Octets addr)).write protocol).writeAll data).buf.length
      = b'.buf.length := by
    rw [← hrun, setU16_buf_len]
  have hv : ((((((((bN.writeU16 11).writeU16
      (RClass.toU16 cls)).writeU32 ttl).writeU16 0).writeAll
      (ipv4Octets addr)).write protocol).writeAll data).pos
      - ((((bN.writeU16 11).writeU16 (RClass.toU16 cls)).writeU32
        ttl).pos + 2)) % 65536 = data.length + 5 := by
    rw [hWpos, show (((bN.writeU16 11).writeU16
      (RClass.toU16 cls)).writeU32 ttl).pos + 7 + data.length
      - ((((bN.writeU16 11).writeU16 (RClass.toU16 cls)).writeU32
        ttl).pos + 2) = data.length + 5 from by omega]
    exact Nat.mod_eq_of_lt hdl5
  obtain ⟨hNs, hNa, hNp, hNG, hNdec⟩ := record_name_part hoknm hrunN G hG
    halign (by
      obtain ⟨cN, hcN⟩ := (nameToBytes_shape hrunN halign).1
      have hcl := congrArg List.length hcN
      rw [List.length_append] at hcl
      omega)
  have hposA : (((bN.writeU16 11).writeU16 (RClass.toU16 cls)).writeU32
      ttl).pos = (bN.buf ++ (Bytes.be2 11 ++ Bytes.be2 (RClass.toU16 cls)
        ++ Bytes.be4 ttl)).length := by
    rw [hfp, hNa]
    simp [Bytes.be2, Bytes.be4]
  have hlay : b'.buf = bN.buf ++ (Bytes.be2 11
      ++ Bytes.be2 (RClass.toU16 cls) ++ Bytes.be4 ttl
      ++ Bytes.be2 (data.length + 5)
      ++ (ipv4Octets addr ++ protocol :: data)) := by
    have h0 := setU16_patch (bN.buf ++ (Bytes.be2 11
      ++ Bytes.be2 (RClass.toU16 cls) ++ Bytes.be4 ttl))
      (ipv4Octets addr ++ protocol :: data) 0 0 (data.length + 5)
      (((((((bN.writeU16 11).writeU16 (RClass.toU16 cls)).writeU32
        ttl).writeU16 0).writeAll (ipv4Octets addr)).write
        protocol).writeAll data).pos
      (((((((bN.writeU16 11).writeU16 (RClass.toU16 cls)).writeU32
        ttl).writeU16 0).writeAll (ipv4Octets addr)).write
        protocol).writeAll data).occs
    have h2 := congrArg Bytes.buf h0
    rw [setU16_buf] at h2
    dsimp only at h2
    rw [← hrun, setU16_buf, hv, hWbuf, hposA, h2]
    simp [Bytes.be2, List.append_assoc]
  have hpos' : b'.pos = bN.pos + 15 + data.length := by
    rw [← hrun, setU16_pos, hWpos, hfp]
  have hoccs' : b'.occs = bN.occs := by
    rw [← hrun, setU16_occs, Bytes.writeAll_occs, Bytes.write_occs,
      Bytes.writeAll_occs, Bytes.writeU16_occs, hfo]
  have hlaylen : b'.buf.length = bN.buf.length + 15 + data.length := by
    rw [← hbl, hWlen]
  refine ⟨?_, ?_, ?_, ?_, ?_⟩
  · obtain ⟨cN, hcN⟩ := hNs
    rw [hlay, hcN, List.append_assoc]
    exact ⟨_, rfl⟩
  · rw [hpos', hlaylen, hNa]
  · omega
  · rw [hlay, hoccs']
    refine (hNG.extend _).mono ?_ ?_
    · intro x hx
      rcases hx with hx | hx
      · exact Or.inl hx
      · obtain ⟨hxa, hxb⟩ := hx
        exact Or.inr ⟨hxa, by omega⟩
    · intro x hx
      rw [← hlay, hlaylen]
      rcases hx with hx | hx
      · have := hG.1 x hx
        have hbb : b.buf.length ≤ bN.buf.length := by
          obtain ⟨cN, hcN⟩ := hNs
          rw [hcN]
          simp
        omega
      · obtain ⟨hxa, hxb⟩ := hx
        rw [hpos', hNa] at hxb
        omega
  · intro T O
    unfold Record.fromBytes
    have hdec := hNdec ((Bytes.be2 11 ++ Bytes.be2 (RClass.toU16 cls)
      ++ Bytes.be4 ttl ++ Bytes.be2 (data.length + 5)
      ++ (ipv4Octets addr ++ protocol :: data)) ++ T) O
    rw [show b'.buf ++ T = bN.buf ++ ((Bytes.be2 11
      ++ Bytes.be2 (RClass.toU16 cls) ++ Bytes.be4 ttl
      ++ Bytes.be2 (data.length + 5)
      ++ (ipv4Octets addr ++ protocol :: data)) ++ T) from by
      rw [hlay, List.append_assoc]]
    rw [hdec]
    simp only [bind, Except.bind]
    obtain ⟨hr1, hr2, hr3, hr4⟩ := fixed_decode bN.buf
      ((ipv4Octets addr ++ protocol :: data) ++ T)
      11 cls ttl (data.length + 5) O (by omega) httl hdl5
    rw [hNa]
    rw [show bN.buf ++ ((Bytes.be2 11 ++ Bytes.be2 (RClass.toU16 cls)
        ++ Bytes.be4 ttl ++ Bytes.be2 (data.length + 5)
        ++ (ipv4Octets addr ++ protocol :: data)) ++ T)
      = bN.buf ++ Bytes.be2 11 ++ Bytes.be2 (RClass.toU16 cls)
        ++ Bytes.be4 ttl ++ Bytes.be2 (data.length + 5)
        ++ ((ipv4Octets addr ++ protocol :: data) ++ T) from by
      simp only [List.append_assoc]]
    rw [hr1]
    dsimp only
    rw [hr2]
    dsimp only
    rw [RClass.fromU16_toU16R]
    dsimp only
    rw [hr3]
    dsimp only
    rw [hr4]
    dsimp only
    have hib : ipv4Octets addr = Bytes.be4 addr := rfl
    rw [show (bN.buf ++ Bytes.be2 11 ++ Bytes.be2 (RClass.toU16 cls)
        ++ Bytes.be4 ttl ++ Bytes.be2 (data.length + 5))
        ++ ((ipv4Octets addr ++ protocol :: data) ++ T)
      = bN.buf ++ Bytes.be2 11 ++ Bytes.be2 (RClass.toU16 cls)
        ++ Bytes.be4 ttl ++ Bytes.be2 (data.length + 5)
        ++ Bytes.be4 addr ++ (protocol :: (data ++ T)) from by
      rw [hib]
      simp only [List.append_assoc, List.cons_append, List.nil_append]]
    have hr5 := Bytes.be4_readU32 addr haddr (bN.buf ++ Bytes.be2 11
        ++ Bytes.be2 (RClass.toU16 cls) ++ Bytes.be4 ttl
        ++ Bytes.be2 (data.length + 5)) (protocol :: (data ++ T)) O
    rw [show (bN.buf ++ Bytes.be2 11 ++ Bytes.be2 (RClass.toU16 cls)
        ++ Bytes.be4 ttl ++ Bytes.be2 (data.length + 5)).length
      = bN.buf.length + 10 from by simp [Bytes.be2, Bytes.be4]] at hr5
    rw [hr5]
    dsimp only
    have hr6 := Bytes.read_eq (bN.buf ++ Bytes.be2 11
        ++ Bytes.be2 (RClass.toU16 cls) ++ Bytes.be4 ttl
        ++ Bytes.be2 (data.length + 5) ++ Bytes.be4 addr)
      (data ++ T) protocol O
    rw [show (bN.buf ++ Bytes.be2 11 ++ Bytes.be2 (RClass.toU16 cls)
        ++ Bytes.be4 ttl ++ Bytes.be2 (data.length + 5)
        ++ Bytes.be4 addr).length = bN.buf.length + 10 + 4 from by
      simp [Bytes.be2, Bytes.be4]] at hr6
    rw [hr6]
    dsimp only
    rw [if_neg (show ¬(data.length + 5 < 5) from by omega)]
    rw [show data.length + 5 - 5 = data.length from by omega]
    rw [show (bN.buf ++ Bytes.be2 11 ++ Bytes.be2 (RClass.toU16 cls)
        ++ Bytes.be4 ttl ++ Bytes.be2 (data.length + 5)
        ++ Bytes.be4 addr) ++ protocol :: (data ++ T)
      = bN.buf ++ Bytes.be2 11 ++ Bytes.be2 (RClass.toU16 cls)
        ++ Bytes.be4 ttl ++ Bytes.be2 (data.length + 5)
        ++ Bytes.be4 addr ++ [protocol] ++ data ++ T from by
      simp only [List.append_assoc, List.cons_append]
      rfl]
    have hr7 := Bytes.readExact_eq (bN.buf ++ Bytes.be2 11
        ++ Bytes.be2 (RClass.toU16 cls) ++ Bytes.be4 ttl
        ++ Bytes.be2 (data.length + 5) ++ Bytes.be4 addr ++ [protocol])
      data T O
    rw [show (bN.buf ++ Bytes.be2 11 ++ Bytes.be2 (RClass.toU16 cls)
        ++ Bytes.be4 ttl ++ Bytes.be2 (data.length + 5) ++ Bytes.be4 addr
        ++ [protocol]).length = bN.buf.length + 10 + 4 + 1 from by
      simp [Bytes.be2, Bytes.be4]] at hr7
    rw [hr7]
    dsimp only
    rw [hpos', hNa]

theorem record_hinfo_spec (nm : Name) (cls : RClass) (ttl : Nat)
    (cpu os : List Nat) (b b' : Bytes)
    (hrun : Record.toBytes (.hinfo nm cls ttl cpu os) b = some b')
    (hok : RecordOK (.hinfo nm cls ttl cpu os)) (G : Set Nat)
    (hG : GoodOccs b.buf b.occs G) (halign : b.pos = b.buf.length)
    (hfits : b'.buf.length ≤ 16384) :
    RecordSpecOut (.hinfo nm cls ttl cpu os) b b' G := by
  obtain ⟨hoknm, httl, hcl, hol, hutfc, hutfo⟩ := hok
  have hmodc : cpu.length % 256 = cpu.length := Nat.mod_eq_of_lt hcl
  have hmodo : os.length % 256 = os.length := Nat.mod_eq_of_lt hol
  unfold Record.toBytes at hrun
  simp only [bind, Option.bind] at hrun
  split at hrun
  · cases hrun
  rename_i bN hrunN
  dsimp only at hrun
  injection hrun with hrun
  simp only [Record.code, Record.cls, Record.ttl] at hrun
  simp only [Record.name] at hrunN
  rw [hmodc, hmodo] at hrun
  obtain ⟨hfb, hfp, hfo⟩ := writeFixed_shape bN 13 cls ttl
  have hWpos : ((((((((bN.writeU16 13).writeU16
      (RClass.toU16 cls)).writeU32 ttl).writeU16 0).write
      cpu.length).writeAll cpu).write os.length).writeAll os).pos
      = (((bN.writeU16 13).writeU16 (RClass.toU16 cls)).writeU32 ttl).pos
        + 4 + cpu.length + os.length := by
    rw [Bytes.writeAll_pos, Bytes.write_pos, Bytes.writeAll_pos,
      Bytes.write_pos, Bytes.writeU16_pos]
    omega
  have hWbuf : ((((((((bN.writeU16 13).writeU16
      (RClass.toU16 cls)).writeU32 ttl).writeU16 0).write
      cpu.length).writeAll cpu).write os.length).writeAll os).buf
      = (bN.buf ++ (Bytes.be2 13 ++ Bytes.be2 (RClass.toU16 cls)
        ++ Bytes.be4 ttl))
        ++ 0 :: 0 :: (cpu.length :: (cpu ++ os.length :: os)) := by
    rw [Bytes.writeAll_buf, Bytes.write_buf, Bytes.writeAll_buf,
      Bytes.write_buf, Bytes.writeU16_buf, hfb]
    simp [Bytes.be2, List.append_assoc]
  have hWlen : ((((((((bN.writeU16 13).writeU16
      (RClass.toU16 cls)).writeU32 ttl).writeU16 0).write
      cpu.length).writeAll cpu).write os.length).writeAll os).buf.length
      = bN.buf.length + 12 + cpu.length + os.length := by
    rw [hWbuf]
    simp [Bytes.be2, Bytes.be4]
    omega
  have hbl : ((((((((bN.writeU16 13).writeU16
      (RClass.toU16 cls)).writeU32 ttl).writeU16 0).write
      cpu.length).writeAll cpu).write os.length).writeAll os).buf.length
      = b'.buf.length := by
    rw [← hrun, setU16_buf_len]
  have hv : (((((((((bN.writeU16 13).writeU16
      (RClass.toU16 cls)).writeU32 ttl).writeU16 0).write
      cpu.length).writeAll cpu).write os.length).writeAll os).pos
      - ((((bN.writeU16 13).writeU16 (RClass.toU16 cls)).writeU32
        ttl).pos + 2)) % 65536 = cpu.length + os.length + 2 := by
    rw [hWpos, show (((bN.writeU16 13).writeU16
      (RClass.toU16 cls)).writeU32 ttl).pos + 4 + cpu.length + os.length
      - ((((bN.writeU16 13).writeU16 (RClass.toU16 cls)).writeU32
        ttl).pos + 2) = cpu.length + os.length + 2 from by omega]
    exact Nat.mod_eq_of_lt (by omega)
  obtain ⟨hNs, hNa, hNp, hNG, hNdec⟩ := record_name_part hoknm hrunN G hG
    halign (by
      obtain ⟨cN, hcN⟩ := (nameToBytes_shape hrunN halign).1
      have hcle := congrArg List.length hcN
      rw [List.length_append] at hcle
      omega)
  have hposA : (((bN.writeU16 13).writeU16 (RClass.toU16 cls)).writeU32
      ttl).pos = (bN.buf ++ (Bytes.be2 13 ++ Bytes.be2 (RClass.toU16 cls)
        ++ Bytes.be4 ttl)).length := by
    rw [hfp, hNa]
    simp [Bytes.be2, Bytes.be4]
  have hlay : b'.buf = bN.buf ++ (Bytes.be2 13
      ++ Bytes.be2 (RClass.toU16 cls) ++ Bytes.be4 ttl
      ++ Bytes.be2 (cpu.length + os.length + 2)
      ++ (cpu.length :: (cpu ++ os.length :: os))) := by
    have h0 := setU16_patch (bN.buf ++ (Bytes.be2 13
      ++ Bytes.be2 (RClass.toU16 cls) ++ Bytes.be4 ttl))
      (cpu.length :: (cpu ++ os.length :: os)) 0 0
      (cpu.length + os.length + 2)
      (((((((((bN.writeU16 13).writeU16 (RClass.toU16 cls)).writeU32
        ttl).writeU16 0).write cpu.length).writeAll cpu).write
        os.length).writeAll os)).pos
      (((((((((bN.writeU16 13).writeU16 (RClass.toU16 cls)).writeU32
        ttl).writeU16 0).write cpu.length).writeAll cpu).write
        os.length).writeAll os)).occs
    have h2 := congrArg Bytes.buf h0
    rw [setU16_buf] at h2
    dsimp only at h2
    rw [← hrun, setU16_buf, hv, hWbuf, hposA, h2]
    simp [Bytes.be2, List.append_assoc]
  have hpos' : b'.pos = bN.pos + 12 + cpu.length + os.length := by
    rw [← hrun, setU16_pos, hWpos, hfp]
  have hoccs' : b'.occs = bN.occs := by
    rw [← hrun, setU16_occs, Bytes.writeAll_occs, Bytes.write_occs,
      Bytes.writeAll_occs, Bytes.write_occs, Bytes.writeU16_occs, hfo]
  have hlaylen : b'.buf.length = bN.buf.length + 12 + cpu.length
      + os.length := by
    rw [← hbl, hWlen]
  refine ⟨?_, ?_, ?_, ?_, ?_⟩
  · obtain ⟨cN, hcN⟩ := hNs
    rw [hlay, hcN, List.append_assoc]
    exact ⟨_, rfl⟩
  · rw [hpos', hlaylen, hNa]
  · omega
  · rw [hlay, hoccs']
    refine (hNG.extend _).mono ?_ ?_
    · intro x hx
      rcases hx with hx | hx
      · exact Or.inl hx
      · obtain ⟨hxa, hxb⟩ := hx
        exact Or.inr ⟨hxa, by omega⟩
    · intro x hx
      rw [← hlay, hlaylen]
      rcases hx with hx | hx
      · have := hG.1 x hx
        have hbb : b.buf.length ≤ bN.buf.length := by
          obtain ⟨cN, hcN⟩ := hNs
          rw [hcN]
          simp
        omega
      · obtain ⟨hxa, hxb⟩ := hx
        rw [hpos', hNa] at hxb
        omega
  · intro T O
    unfold Record.fromBytes
    have hdec := hNdec ((Bytes.be2 13 ++ Bytes.be2 (RClass.toU16 cls)
      ++ Bytes.be4 ttl ++ Bytes.be2 (cpu.length + os.length + 2)
      ++ (cpu.length :: (cpu ++ os.length :: os))) ++ T) O
    rw [show b'.buf ++ T = bN.buf ++ ((Bytes.be2 13
      ++ Bytes.be2 (RClass.toU16 cls) ++ Bytes.be4 ttl
      ++ Bytes.be2 (cpu.length + os.length + 2)
      ++ (cpu.length :: (cpu ++ os.length :: os))) ++ T) from by
      rw [hlay, List.append_assoc]]
    rw [hdec]
    simp only [bind, Except.bind]
    obtain ⟨hr1, hr2, hr3, hr4⟩ := fixed_decode bN.buf
      ((cpu.length :: (cpu ++ os.length :: os)) ++ T)
      13 cls ttl (cpu.length + os.length + 2) O (by omega) httl (by omega)
    rw [hNa]
    rw [show bN.buf ++ ((Bytes.be2 13 ++ Bytes.be2 (RClass.toU16 cls)
        ++ Bytes.be4 ttl ++ Bytes.be2 (cpu.length + os.length + 2)
        ++ (cpu.length :: (cpu ++ os.length :: os))) ++ T)
      = bN.buf ++ Bytes.be2 13 ++ Bytes.be2 (RClass.toU16 cls)
        ++ Bytes.be4 ttl ++ Bytes.be2 (cpu.length + os.length + 2)
        ++ ((cpu.length :: (cpu ++ os.length :: os)) ++ T) from by
      simp only [List.append_assoc]]
    rw [hr1]
    dsimp only
    rw [hr2]
    dsimp only
    rw [RClass.fromU16_toU16R]
    dsimp only
    rw [hr3]
    dsimp only
    rw [hr4]
    dsimp only
    rw [show (bN.buf ++ Bytes.be2 13 ++ Bytes.be2 (RClass.toU16 cls)
        ++ Bytes.be4 ttl ++ Bytes.be2 (cpu.length + os.length + 2))
        ++ ((cpu.length :: (cpu ++ os.length :: os)) ++ T)
      = (bN.buf ++ Bytes.be2 13 ++ Bytes.be2 (RClass.toU16 cls)
        ++ Bytes.be4 ttl ++ Bytes.be2 (cpu.length + os.length + 2))
        ++ cpu.length :: ((cpu ++ os.length :: os) ++ T) from by
      simp only [List.append_assoc, List.cons_append, List.nil_append]]
    have hr5 := Bytes.read_eq (bN.buf ++ Bytes.be2 13
        ++ Bytes.be2 (RClass.toU16 cls) ++ Bytes.be4 ttl
        ++ Bytes.be2 (cpu.length + os.length + 2))
      ((cpu ++ os.length :: os) ++ T) cpu.length O
    rw [show (bN.buf ++ Bytes.be2 13 ++ Bytes.be2 (RClass.toU16 cls)
        ++ Bytes.be4 ttl
        ++ Bytes.be2 (cpu.length + os.length + 2)).length
      = bN.buf.length + 10 from by simp [Bytes.be2, Bytes.be4]] at hr5
    rw [hr5]
    dsimp only
    rw [show (bN.buf ++ Bytes.be2 13 ++ Bytes.be2 (RClass.toU16 cls)
        ++ Bytes.be4 ttl ++ Bytes.be2 (cpu.length + os.length + 2))
        ++ cpu.length :: ((cpu ++ os.length :: os) ++ T)
      = ((bN.buf ++ Bytes.be2 13 ++ Bytes.be2 (RClass.toU16 cls)
        ++ Bytes.be4 ttl ++ Bytes.be2 (cpu.length + os.length + 2)
        ++ [cpu.length]) ++ cpu) ++ (os.length :: (os ++ T)) from by
      simp only [List.append_assoc, List.cons_append, List.nil_append]]
    have hr6 := Bytes.readExact_eq (bN.buf ++ Bytes.be2 13
        ++ Bytes.be2 (RClass.toU16 cls) ++ Bytes.be4 ttl
        ++ Bytes.be2 (cpu.length + os.length + 2) ++ [cpu.length])
      cpu (os.length :: (os ++ T)) O
    rw [show (bN.buf ++ Bytes.be2 13 ++ Bytes.be2 (RClass.toU16 cls)
        ++ Bytes.be4 ttl ++ Bytes.be2 (cpu.length + os.length + 2)
        ++ [cpu.length]).length = bN.buf.length + 10 + 1 from by
      simp [Bytes.be2, Bytes.be4]] at hr6
    rw [hr6]
    dsimp only
    rw [if_pos hutfc]
    have hr7 := Bytes.read_eq ((bN.buf ++ Bytes.be2 13
        ++ Bytes.be2 (RClass.toU16 cls) ++ Bytes.be4 ttl
        ++ Bytes.be2 (cpu.length + os.length + 2) ++ [cpu.length]) ++ cpu)
      (os ++ T) os.length O
    rw [show ((bN.buf ++ Bytes.be2 13 ++ Bytes.be2 (RClass.toU16 cls)
        ++ Bytes.be4 ttl ++ Bytes.be2 (cpu.length + os.length + 2)
        ++ [cpu.length]) ++ cpu).length
      = bN.buf.length + 10 + 1 + cpu.length from by
      simp [Bytes.be2, Bytes.be4]
      omega] at hr7
    rw [hr7]
    dsimp only
    rw [show ((bN.buf ++ Bytes.be2 13 ++ Bytes.be2 (RClass.toU16 cls)
        ++ Bytes.be4 ttl ++ Bytes.be2 (cpu.length + os.length + 2)
        ++ [cpu.length]) ++ cpu) ++ os.length :: (os ++ T)
      = ((((bN.buf ++ Bytes.be2 13 ++ Bytes.be2 (RClass.toU16 cls)
        ++ Bytes.be4 ttl ++ Bytes.be2 (cpu.length + os.length + 2)
        ++ [cpu.length]) ++ cpu) ++ [os.length]) ++ os) ++ T from by
      simp only [List.append_assoc, List.cons_append, List.nil_append]]
    have hr8 := Bytes.readExact_eq (((bN.buf ++ Bytes.be2 13
        ++ Bytes.be2 (RClass.toU16 cls) ++ Bytes.be4 ttl
        ++ Bytes.be2 (cpu.length + os.length + 2) ++ [cpu.length]) ++ cpu)
        ++ [os.length]) os T O
    rw [show (((bN.buf ++ Bytes.be2 13 ++ Bytes.be2 (RClass.toU16 cls)
        ++ Bytes.be4 ttl ++ Bytes.be2 (cpu.length + os.length + 2)
        ++ [cpu.length]) ++ cpu) ++ [os.length]).length
      = bN.buf.length + 10 + 1 + cpu.length + 1 from by
      simp [Bytes.be2, Bytes.be4]
      omega] at hr8
    rw [hr8]
    dsimp only
    rw [if_pos hutfo]
    rw [show b'.pos = bN.buf.length + 10 + 1 + cpu.length + 1 + os.length
      from by
      rw [hpos', hNa]
      omega]

theorem record_mx_spec (nm : Name) (cls : RClass) (ttl priority : Nat)
    (host : Name) (b b' : Bytes)
    (hrun : Record.toBytes (.mx nm cls ttl priority host) b = some b')
    (hok : RecordOK (.mx nm cls ttl priority host)) (G : Set Nat)
    (hG : GoodOccs b.buf b.occs G) (halign : b.pos = b.buf.length)
    (hfits : b'.buf.length ≤ 16384) :
    RecordSpecOut (.mx nm cls ttl priority host) b b' G := by
  obtain ⟨hoknm, httl, hpr, hokh⟩ := hok
  unfold Record.toBytes at hrun
  simp only [bind, Option.bind] at hrun
  split at hrun
  · cases hrun
  rename_i bN hrunN
  dsimp only at hrun
  simp only [Record.code, Record.cls, Record.ttl] at hrun
  simp only [Record.name] at hrunN
  split at hrun
  · cases hrun
  rename_i bH hrunH
  injection hrun with hrun
  obtain ⟨hfb, hfp, hfo⟩ := writeFixed_shape bN 15 cls ttl
  have hbl : bH.buf.length = b'.buf.length := by
    rw [← hrun, setU16_buf_len]
  have halignF : (((bN.writeU16 15).writeU16 (RClass.toU16 cls)).writeU32
      ttl).pos = (((bN.writeU16 15).writeU16 (RClass.toU16 cls)).writeU32
      ttl).buf.length := by
    have hNa0 := (nameToBytes_shape hrunN halign).2
    rw [hfp, hfb, hNa0]
    simp [Bytes.be2, Bytes.be4]
  have hSpos : (((((bN.writeU16 15).writeU16
      (RClass.toU16 cls)).writeU32 ttl).writeU16 0).writeU16 priority).pos
      = (((bN.writeU16 15).writeU16 (RClass.toU16 cls)).writeU32 ttl).pos
        + 4 := by
    rw [Bytes.writeU16_pos, Bytes.writeU16_pos]
  have hSbuf : (((((bN.writeU16 15).writeU16
      (RClass.toU16 cls)).writeU32 ttl).writeU16 0).writeU16 priority).buf
      = (((bN.writeU16 15).writeU16 (RClass.toU16 cls)).writeU32 ttl).buf
        ++ 0 :: 0 :: Bytes.be2 priority := by
    rw [Bytes.writeU16_buf, Bytes.writeU16_buf, List.append_assoc]
    rfl
  have hSocc : (((((bN.writeU16 15).writeU16
      (RClass.toU16 cls)).writeU32 ttl).writeU16 0).writeU16
      priority).occs = (((bN.writeU16 15).writeU16
      (RClass.toU16 cls)).writeU32 ttl).occs := by
    rw [Bytes.writeU16_occs, Bytes.writeU16_occs]
  have hSalign : (((((bN.writeU16 15).writeU16
      (RClass.toU16 cls)).writeU32 ttl).writeU16 0).writeU16 priority).pos
      = (((((bN.writeU16 15).writeU16 (RClass.toU16 cls)).writeU32
        ttl).writeU16 0).writeU16 priority).buf.length := by
    rw [hSpos, hSbuf, halignF]
    simp [Bytes.be2]
  have h16b : b.buf.length ≤ 16384 := by
    obtain ⟨cN2, hshapeN⟩ := (nameToBytes_shape hrunN halign).1
    obtain ⟨cH2, hshapeH⟩ := (nameToBytes_shape hrunH hSalign).1
    have h1 := congrArg List.length hshapeN
    have h2 := congrArg List.length hshapeH
    rw [List.length_append] at h1 h2
    rw [hSbuf, List.length_append, hfb, List.length_append] at h2
    omega
  obtain ⟨hNs, hNa, hNp, hNG, hNdec⟩ := record_name_part hoknm hrunN G hG
    halign h16b
  have hGS : GoodOccs (((((bN.writeU16 15).writeU16
      (RClass.toU16 cls)).writeU32 ttl).writeU16 0).writeU16
      priority).buf (((((bN.writeU16 15).writeU16
      (RClass.toU16 cls)).writeU32 ttl).writeU16 0).writeU16
      priority).occs (G ∪ {x | b.pos ≤ x ∧ x < bN.pos}) := by
    rw [hSbuf, hSocc, hfo, hfb, List.append_assoc]
    exact (hNG.extend _)
  have hfit16 : bH.buf.length ≤ 16384 := by omega
  have hS16 : (((((bN.writeU16 15).writeU16
      (RClass.toU16 cls)).writeU32 ttl).writeU16 0).writeU16
      priority).buf.length ≤ 16384 := by
    obtain ⟨cH2, hshapeH⟩ := (nameToBytes_shape hrunH hSalign).1
    have h2 := congrArg List.length hshapeH
    rw [List.length_append] at h2
    omega
  obtain ⟨bH2, hrun2, ⟨codeH, hcodeH⟩, halignH, hposH, hGH, RH, hRH, hspH⟩ :=
    nameToBytes_spec host hokh _ (G ∪ {x | b.pos ≤ x ∧ x < bN.pos}) hGS
      hSalign hS16
  rw [hrunH] at hrun2
  injection hrun2 with hrun2
  subst hrun2
  have hlenH : bH.pos = (((bN.writeU16 15).writeU16
      (RClass.toU16 cls)).writeU32 ttl).pos + 4 + codeH.length := by
    rw [halignH, hcodeH, List.length_append, ← hSalign, hSpos]
  have hrd2 : codeH.length + 2 < 65536 := by
    have h2 := congrArg List.length hcodeH
    rw [List.length_append] at h2
    omega
  have hv : (bH.pos - ((((bN.writeU16 15).writeU16
      (RClass.toU16 cls)).writeU32 ttl).pos + 2)) % 65536
      = codeH.length + 2 := by
    rw [hlenH, show (((bN.writeU16 15).writeU16
      (RClass.toU16 cls)).writeU32 ttl).pos + 4 + codeH.length
      - ((((bN.writeU16 15).writeU16 (RClass.toU16 cls)).writeU32
        ttl).pos + 2) = codeH.length + 2 from by omega]
    exact Nat.mod_eq_of_lt hrd2
  have hposA : (((bN.writeU16 15).writeU16 (RClass.toU16 cls)).writeU32
      ttl).pos = (bN.buf ++ (Bytes.be2 15 ++ Bytes.be2 (RClass.toU16 cls)
        ++ Bytes.be4 ttl)).length := by
    rw [hfp, hNa]
    simp [Bytes.be2, Bytes.be4]
  have hbHbuf : bH.buf = (bN.buf ++ (Bytes.be2 15
      ++ Bytes.be2 (RClass.toU16 cls) ++ Bytes.be4 ttl))
      ++ 0 :: 0 :: (Bytes.be2 priority ++ codeH) := by
    rw [hcodeH, hSbuf, hfb]
    simp [List.append_assoc]
  have hlay : b'.buf = bN.buf ++ (Bytes.be2 15
      ++ Bytes.be2 (RClass.toU16 cls) ++ Bytes.be4 ttl
      ++ Bytes.be2 (codeH.length + 2)
      ++ (Bytes.be2 priority ++ codeH)) := by
    have h0 := setU16_patch (bN.buf ++ (Bytes.be2 15
      ++ Bytes.be2 (RClass.toU16 cls) ++ Bytes.be4 ttl))
      (Bytes.be2 priority ++ codeH) 0 0 (codeH.length + 2) bH.pos bH.occs
    have h2 := congrArg Bytes.buf h0
    rw [setU16_buf] at h2
    dsimp only at h2
    rw [← hrun, setU16_buf, hv, hbHbuf, hposA, h2]
    simp [Bytes.be2, List.append_assoc]
  have hpos' : b'.pos = bH.pos := by
    rw [← hrun]
    exact setU16_pos _ _ _
  have hocc' : b'.occs = bH.occs := by
    rw [← hrun]
    exact setU16_occs _ _ _
  have hlaylen : b'.buf.length = bN.buf.length + 12 + codeH.length := by
    rw [hlay]
    simp [Bytes.be2, Bytes.be4]
    omega
  have halign' : b'.pos = b'.buf.length := by
    rw [hpos', halignH, hbl]
  have hqG : ∀ q2, q2 < (((bN.writeU16 15).writeU16
      (RClass.toU16 cls)).writeU32 ttl).pos + 2 →
      bN.buf.length + 8 ≤ q2 →
      q2 ∉ (G ∪ {x | b.pos ≤ x ∧ x < bN.pos})
        ∪ {x | (((((bN.writeU16 15).writeU16 (RClass.toU16 cls)).writeU32
            ttl).writeU16 0).writeU16 priority).pos ≤ x ∧ x < bH.pos} := by
    intro q2 hq2 hq2b hc
    rcases hc with hc | hc
    · rcases hc with hc | hc
      · have := hG.1 q2 hc
        have hbb : b.buf.length ≤ bN.buf.length := by
          obtain ⟨cN, hcN⟩ := hNs
          rw [hcN]
          simp
        omega
      · obtain ⟨hca, hcb⟩ := hc
        rw [hNa] at hcb
        omega
    · obtain ⟨hca, hcb⟩ := hc
      rw [hSpos, hfp, hNa] at hca
      omega
  have hfpN : (((bN.writeU16 15).writeU16 (RClass.toU16 cls)).writeU32
      ttl).pos = bN.buf.length + 8 := by
    rw [hfp, hNa]
  refine ⟨?_, halign', ?_, ?_, ?_⟩
  · obtain ⟨cN, hcN⟩ := hNs
    rw [hlay, hcN, List.append_assoc]
    exact ⟨_, rfl⟩
  · rw [hpos']
    omega
  · rw [hocc']
    have hg1 : GoodOccs ((bH.buf.set (((bN.writeU16 15).writeU16
        (RClass.toU16 cls)).writeU32 ttl).pos
        (((bH.pos - ((((bN.writeU16 15).writeU16
          (RClass.toU16 cls)).writeU32 ttl).pos + 2)) % 65536) / 256
          % 256)).set ((((bN.writeU16 15).writeU16
        (RClass.toU16 cls)).writeU32 ttl).pos + 1)
        ((bH.pos - ((((bN.writeU16 15).writeU16
          (RClass.toU16 cls)).writeU32 ttl).pos + 2)) % 65536 % 256))
        bH.occs ((G ∪ {x | b.pos ≤ x ∧ x < bN.pos})
        ∪ {x | (((((bN.writeU16 15).writeU16 (RClass.toU16 cls)).writeU32
            ttl).writeU16 0).writeU16 priority).pos ≤ x ∧ x < bH.pos})
        := by
      refine GoodOccs.patchOcc ?_ _ _ ?_
      · refine GoodOccs.patchOcc hGH _ _ ?_
        exact hqG _ (by omega) (by omega)
      · exact hqG _ (by omega) (by omega)
    have hg2 : GoodOccs b'.buf bH.occs ((G ∪ {x | b.pos ≤ x ∧ x < bN.pos})
        ∪ {x | (((((bN.writeU16 15).writeU16 (RClass.toU16 cls)).writeU32
            ttl).writeU16 0).writeU16 priority).pos ≤ x ∧ x < bH.pos})
        := by
      rw [← hrun, setU16_buf]
      exact hg1
    refine hg2.mono ?_ ?_
    · intro x hx
      rcases hx with hx | hx
      · rcases hx with hx | hx
        · exact Or.inl hx
        · obtain ⟨hxa, hxb⟩ := hx
          exact Or.inr ⟨hxa, by omega⟩
      · obtain ⟨hxa, hxb⟩ := hx
        rw [hSpos] at hxa
        exact Or.inr ⟨by omega, by omega⟩
    · intro x hx
      rcases hx with hx | hx
      · have := hG.1 x hx
        have hbb : b.buf.length ≤ bN.buf.length := by
          obtain ⟨cN, hcN⟩ := hNs
          rw [hcN]
          simp
        omega
      · obtain ⟨hxa, hxb⟩ := hx
        omega
  · intro T O
    unfold Record.fromBytes
    have hdec := hNdec ((Bytes.be2 15 ++ Bytes.be2 (RClass.toU16 cls)
      ++ Bytes.be4 ttl ++ Bytes.be2 (codeH.length + 2)
      ++ (Bytes.be2 priority ++ codeH)) ++ T) O
    rw [show b'.buf ++ T = bN.buf ++ ((Bytes.be2 15
      ++ Bytes.be2 (RClass.toU16 cls) ++ Bytes.be4 ttl
      ++ Bytes.be2 (codeH.length + 2)
      ++ (Bytes.be2 priority ++ codeH)) ++ T) from by
      rw [hlay, List.append_assoc]]
    rw [hdec]
    simp only [bind, Except.bind]
    obtain ⟨hr1, hr2, hr3, hr4⟩ := fixed_decode bN.buf
      ((Bytes.be2 priority ++ codeH) ++ T)
      15 cls ttl (codeH.length + 2) O (by omega) httl hrd2
    rw [hNa]
    rw [show bN.buf ++ ((Bytes.be2 15 ++ Bytes.be2 (RClass.toU16 cls)
        ++ Bytes.be4 ttl ++ Bytes.be2 (codeH.length + 2)
        ++ (Bytes.be2 priority ++ codeH)) ++ T)
      = bN.buf ++ Bytes.be2 15 ++ Bytes.be2 (RClass.toU16 cls)
        ++ Bytes.be4 ttl ++ Bytes.be2 (codeH.length + 2)
        ++ ((Bytes.be2 priority ++ codeH) ++ T) from by
      simp only [List.append_assoc]]
    rw [hr1]
    dsimp only
    rw [hr2]
    dsimp only
    rw [RClass.fromU16_toU16R]
    dsimp only
    rw [hr3]
    dsimp only
    rw [hr4]
    dsimp only
    rw [show (bN.buf ++ Bytes.be2 15 ++ Bytes.be2 (RClass.toU16 cls)
        ++ Bytes.be4 ttl ++ Bytes.be2 (codeH.length + 2))
        ++ ((Bytes.be2 priority ++ codeH) ++ T)
      = (bN.buf ++ Bytes.be2 15 ++ Bytes.be2 (RClass.toU16 cls)
        ++ Bytes.be4 ttl ++ Bytes.be2 (codeH.length + 2))
        ++ Bytes.be2 priority ++ (codeH ++ T) from by
      simp only [List.append_assoc]]
    have hr5 := Bytes.be2_readU16 priority hpr (bN.buf ++ Bytes.be2 15
        ++ Bytes.be2 (RClass.toU16 cls) ++ Bytes.be4 ttl
        ++ Bytes.be2 (codeH.length + 2)) (codeH ++ T) O
    rw [show (bN.buf ++ Bytes.be2 15 ++ Bytes.be2 (RClass.toU16 cls)
        ++ Bytes.be4 ttl ++ Bytes.be2 (codeH.length + 2)).length
      = bN.buf.length + 10 from by simp [Bytes.be2, Bytes.be4]] at hr5
    rw [hr5]
    dsimp only
    have hsp := hspH (((((bN.writeU16 15).writeU16
        (RClass.toU16 cls)).writeU32 ttl).writeU16 0).writeU16
        priority).pos (le_of_eq hSalign.symm)
    have hq1 : (((bN.writeU16 15).writeU16 (RClass.toU16 cls)).writeU32
        ttl).pos ∉ RH := fun hc =>
      hqG ((((bN.writeU16 15).writeU16 (RClass.toU16 cls)).writeU32
        ttl).pos) (by omega) (by omega) (hRH _ hc)
    have hq2 : (((bN.writeU16 15).writeU16 (RClass.toU16 cls)).writeU32
        ttl).pos + 1 ∉ RH := fun hc =>
      hqG ((((bN.writeU16 15).writeU16 (RClass.toU16 cls)).writeU32
        ttl).pos + 1) (by omega) (by omega) (hRH _ hc)
    have hsp2 := (hsp.patchByte (((bN.writeU16 15).writeU16
        (RClass.toU16 cls)).writeU32 ttl).pos
        (((bH.pos - ((((bN.writeU16 15).writeU16
          (RClass.toU16 cls)).writeU32 ttl).pos + 2)) % 65536) / 256
          % 256) hq1).patchByte ((((bN.writeU16 15).writeU16
        (RClass.toU16 cls)).writeU32 ttl).pos + 1)
        ((bH.pos - ((((bN.writeU16 15).writeU16
          (RClass.toU16 cls)).writeU32 ttl).pos + 2)) % 65536 % 256) hq2
    have hsp3 := hsp2.append T
    rw [show ((bH.buf.set (((bN.writeU16 15).writeU16
        (RClass.toU16 cls)).writeU32 ttl).pos
        (((bH.pos - ((((bN.writeU16 15).writeU16
          (RClass.toU16 cls)).writeU32 ttl).pos + 2)) % 65536) / 256
          % 256)).set ((((bN.writeU16 15).writeU16
        (RClass.toU16 cls)).writeU32 ttl).pos + 1)
        ((bH.pos - ((((bN.writeU16 15).writeU16
          (RClass.toU16 cls)).writeU32 ttl).pos + 2)) % 65536 % 256)) ++ T
      = b'.buf ++ T from by rw [← hrun, setU16_buf]] at hsp3
    have hhost := spine_fromBytes hsp3 hokh.1 O
    rw [show b'.buf ++ T = (bN.buf ++ Bytes.be2 15
        ++ Bytes.be2 (RClass.toU16 cls) ++ Bytes.be4 ttl
        ++ Bytes.be2 (codeH.length + 2)) ++ Bytes.be2 priority
        ++ (codeH ++ T) from by
      rw [hlay]
      simp only [List.append_assoc]] at hhost
    rw [show (((((bN.writeU16 15).writeU16
        (RClass.toU16 cls)).writeU32 ttl).writeU16 0).writeU16
        priority).pos = bN.buf.length + 10 + 2 from by
      rw [hSpos, hfp, hNa]] at hhost
    rw [hhost]
    dsimp only
    rw [hpos']

theorem record_minfo_spec (nm : Name) (cls : RClass) (ttl : Nat)
    (rM eM : Name) (b b' : Bytes)
    (hrun : Record.toBytes (.minfo nm cls ttl rM eM) b = some b')
    (hok : RecordOK (.minfo nm cls ttl rM eM)) (G : Set Nat)
    (hG : GoodOccs b.buf b.occs G) (halign : b.pos = b.buf.length)
    (hfits : b'.buf.length ≤ 16384) :
    RecordSpecOut (.minfo nm cls ttl rM eM) b b' G := by
  obtain ⟨hoknm, httl, hokr, hoke⟩ := hok
  unfold Record.toBytes at hrun
  simp only [bind, Option.bind] at hrun
  split at hrun
  · cases hrun
  rename_i bN hrunN
  dsimp only at hrun
  simp only [Record.code, Record.cls, Record.ttl] at hrun
  simp only [Record.name] at hrunN
  split at hrun
  · cases hrun
  rename_i bH1 hrunH1
  simp only [bind, Option.bind] at hrun
  split at hrun
  · cases hrun
  rename_i bH2 hrunH2
  injection hrun with hrun
  obtain ⟨hfb, hfp, hfo⟩ := writeFixed_shape bN 14 cls ttl
  have hbl : bH2.buf.length = b'.buf.length := by
    rw [← hrun, setU16_buf_len]
  have halignF : (((bN.writeU16 14).writeU16 (RClass.toU16 cls)).writeU32
      ttl).pos = (((bN.writeU16 14).writeU16 (RClass.toU16 cls)).writeU32
      ttl).buf.length := by
    have hNa0 := (nameToBytes_shape hrunN halign).2
    rw [hfp, hfb, hNa0]
    simp [Bytes.be2, Bytes.be4]
  have hSalign : ((((bN.writeU16 14).writeU16
      (RClass.toU16 cls)).writeU32 ttl).writeU16 0).pos
      = ((((bN.writeU16 14).writeU16 (RClass.toU16 cls)).writeU32
        ttl).writeU16 0).buf.length := by
    rw [Bytes.writeU16_pos, Bytes.writeU16_buf, halignF]
    simp [Bytes.be2]
  have halignH1 := (nameToBytes_shape hrunH1 hSalign).2
  have halignH2 := (nameToBytes_shape hrunH2 halignH1).2
  have h16b : b.buf.length ≤ 16384 := by
    obtain ⟨cN2, hshapeN⟩ := (nameToBytes_shape hrunN halign).1
    obtain ⟨cH2, hshapeH⟩ := (nameToBytes_shape hrunH1 hSalign).1
    obtain ⟨cH3, hshapeH2⟩ := (nameToBytes_shape hrunH2 halignH1).1
    have h1 := congrArg List.length hshapeN
    have h2 := congrArg List.length hshapeH
    have h3 := congrArg List.length hshapeH2
    rw [List.length_append] at h1 h2 h3
    rw [Bytes.writeU16_buf, List.length_append, hfb, List.length_append]
      at h2
    omega
  obtain ⟨hNs, hNa, hNp, hNG, hNdec⟩ := record_name_part hoknm hrunN G hG
    halign h16b
  have hGS : GoodOccs ((((bN.writeU16 14).writeU16
      (RClass.toU16 cls)).writeU32 ttl).writeU16 0).buf
      ((((bN.writeU16 14).writeU16 (RClass.toU16 cls)).writeU32
        ttl).writeU16 0).occs (G ∪ {x | b.pos ≤ x ∧ x < bN.pos}) := by
    rw [Bytes.writeU16_buf, Bytes.writeU16_occs, hfo, hfb,
      List.append_assoc]
    exact hNG.extend _
  have h216 : bH2.buf.length ≤ 16384 := by omega
  have hS16 : ((((bN.writeU16 14).writeU16 (RClass.toU16 cls)).writeU32
      ttl).writeU16 0).buf.length ≤ 16384 := by
    obtain ⟨cH2, hshapeH⟩ := (nameToBytes_shape hrunH1 hSalign).1
    obtain ⟨cH3, hshapeH2⟩ := (nameToBytes_shape hrunH2 halignH1).1
    have h2 := congrArg List.length hshapeH
    have h3 := congrArg List.length hshapeH2
    rw [List.length_append] at h2 h3
    omega
  obtain ⟨bX1, hrun21, ⟨code1, hcode1⟩, halignH1b, hposH1, hGH1, R1, hR1,
    hspH1⟩ := nameToBytes_spec rM hokr _
      (G ∪ {x | b.pos ≤ x ∧ x < bN.pos}) hGS hSalign hS16
  rw [hrunH1] at hrun21
  injection hrun21 with hrun21
  subst hrun21
  have h116 : bH1.buf.length ≤ 16384 := by
    obtain ⟨cH3, hshapeH2⟩ := (nameToBytes_shape hrunH2 halignH1).1
    have h3 := congrArg List.length hshapeH2
    rw [List.length_append] at h3
    omega
  obtain ⟨bX2, hrun22, ⟨code2, hcode2⟩, halignH2b, hposH2, hGH2, R2, hR2,
    hspH2⟩ := nameToBytes_spec eM hoke bH1
      ((G ∪ {x | b.pos ≤ x ∧ x < bN.pos})
        ∪ {x | ((((bN.writeU16 14).writeU16 (RClass.toU16 cls)).writeU32
          ttl).writeU16 0).pos ≤ x ∧ x < bH1.pos}) hGH1 halignH1 h116
  rw [hrunH2] at hrun22
  injection hrun22 with hrun22
  subst hrun22
  have hfpN : (((bN.writeU16 14).writeU16 (RClass.toU16 cls)).writeU32
      ttl).pos = bN.buf.length + 8 := by
    rw [hfp, hNa]
  have hSposN : ((((bN.writeU16 14).writeU16 (RClass.toU16 cls)).writeU32
      ttl).writeU16 0).pos = bN.buf.length + 10 := by
    rw [Bytes.writeU16_pos, hfpN]
  have hlen1 : bH1.pos = bN.buf.length + 10 + code1.length := by
    rw [halignH1, hcode1, List.length_append, ← hSalign, hSposN]
  have hlen2 : bH2.pos = bN.buf.length + 10 + code1.length
      + code2.length := by
    rw [halignH2, hcode2, List.length_append, ← halignH1, hlen1]
  have hrd2 : code1.length + code2.length < 65536 := by
    have h2 := congrArg List.length hcode2
    rw [List.length_append] at h2
    omega
  have hv : (bH2.pos - ((((bN.writeU16 14).writeU16
      (RClass.toU16 cls)).writeU32 ttl).pos + 2)) % 65536
      = code1.length + code2.length := by
    rw [hlen2, hfpN, show bN.buf.length + 10 + code1.length + code2.length
      - (bN.buf.length + 8 + 2) = code1.length + code2.length from by
      omega]
    exact Nat.mod_eq_of_lt hrd2
  have hposA : (((bN.writeU16 14).writeU16 (RClass.toU16 cls)).writeU32
      ttl).pos = (bN.buf ++ (Bytes.be2 14 ++ Bytes.be2 (RClass.toU16 cls)
        ++ Bytes.be4 ttl)).length := by
    rw [hfpN]
    simp [Bytes.be2, Bytes.be4]
  have hbHbuf : bH2.buf = (bN.buf ++ (Bytes.be2 14
      ++ Bytes.be2 (RClass.toU16 cls) ++ Bytes.be4 ttl))
      ++ 0 :: 0 :: (code1 ++ code2) := by
    rw [hcode2, hcode1, Bytes.writeU16_buf, hfb]
    simp [Bytes.be2, List.append_assoc]
  have hlay : b'.buf = bN.buf ++ (Bytes.be2 14
      ++ Bytes.be2 (RClass.toU16 cls) ++ Bytes.be4 ttl
      ++ Bytes.be2 (code1.length + code2.length)
      ++ (code1 ++ code2)) := by
    have h0 := setU16_patch (bN.buf ++ (Bytes.be2 14
      ++ Bytes.be2 (RClass.toU16 cls) ++ Bytes.be4 ttl))
      (code1 ++ code2) 0 0 (code1.length + code2.length) bH2.pos bH2.occs
    have h2 := congrArg Bytes.buf h0
    rw [setU16_buf] at h2
    dsimp only at h2
    rw [← hrun, setU16_buf, hv, hbHbuf, hposA, h2]
    simp [Bytes.be2, List.append_assoc]
  have hpos' : b'.pos = bH2.pos := by
    rw [← hrun]
    exact setU16_pos _ _ _
  have hocc' : b'.occs = bH2.occs := by
    rw [← hrun]
    exact setU16_occs _ _ _
  have hlaylen : b'.buf.length = bN.buf.length + 10 + code1.length
      + code2.length := by
    rw [← hbl, halignH2.symm.trans hlen2]
  have halign' : b'.pos = b'.buf.length := by
    rw [hpos', halignH2, hbl]
  have hqG : ∀ q2, q2 < bN.buf.length + 10 → bN.buf.length + 8 ≤ q2 →
      q2 ∉ ((G ∪ {x | b.pos ≤ x ∧ x < bN.pos})
        ∪ {x | ((((bN.writeU16 14).writeU16 (RClass.toU16 cls)).writeU32
          ttl).writeU16 0).pos ≤ x ∧ x < bH1.pos})
        ∪ {x | bH1.pos ≤ x ∧ x < bH2.pos} := by
    intro q2 hq2 hq2b hc
    have hb1 : bN.buf.length + 10 ≤ bH1.pos := by omega
    rcases hc with hc | hc
    · rcases hc with hc | hc
      · rcases hc with hc | hc
        · have := hG.1 q2 hc
          have hbb : b.buf.length ≤ bN.buf.length := by
            obtain ⟨cN, hcN⟩ := hNs
            rw [hcN]
            simp
          omega
        · obtain ⟨hca, hcb⟩ := hc
          rw [hNa] at hcb
          omega
      · obtain ⟨hca, hcb⟩ := hc
        rw [hSposN] at hca
        omega
    · obtain ⟨hca, hcb⟩ := hc
      omega
  refine ⟨?_, halign', ?_, ?_, ?_⟩
  · obtain ⟨cN, hcN⟩ := hNs
    rw [hlay, hcN, List.append_assoc]
    exact ⟨_, rfl⟩
  · rw [hpos']
    omega
  · rw [hocc']
    have hg1 : GoodOccs ((bH2.buf.set (((bN.writeU16 14).writeU16
        (RClass.toU16 cls)).writeU32 ttl).pos
        (((bH2.pos - ((((bN.writeU16 14).writeU16
          (RClass.toU16 cls)).writeU32 ttl).pos + 2)) % 65536) / 256
          % 256)).set ((((bN.writeU16 14).writeU16
        (RClass.toU16 cls)).writeU32 ttl).pos + 1)
        ((bH2.pos - ((((bN.writeU16 14).writeU16
          (RClass.toU16 cls)).writeU32 ttl).pos + 2)) % 65536 % 256))
        bH2.occs (((G ∪ {x | b.pos ≤ x ∧ x < bN.pos})
        ∪ {x | ((((bN.writeU16 14).writeU16 (RClass.toU16 cls)).writeU32
          ttl).writeU16 0).pos ≤ x ∧ x < bH1.pos})
        ∪ {x | bH1.pos ≤ x ∧ x < bH2.pos}) := by
      refine GoodOccs.patchOcc ?_ _ _ ?_
      · refine GoodOccs.patchOcc hGH2 _ _ ?_
        exact hqG _ (by omega) (by omega)
      · exact hqG _ (by omega) (by omega)
    have hg2 : GoodOccs b'.buf bH2.occs (((G
        ∪ {x | b.pos ≤ x ∧ x < bN.pos})
        ∪ {x | ((((bN.writeU16 14).writeU16 (RClass.toU16 cls)).writeU32
          ttl).writeU16 0).pos ≤ x ∧ x < bH1.pos})
        ∪ {x | bH1.pos ≤ x ∧ x < bH2.pos}) := by
      rw [← hrun, setU16_buf]
      exact hg1
    refine hg2.mono ?_ ?_
    · intro x hx
      rcases hx with hx | hx
      · rcases hx with hx | hx
        · rcases hx with hx | hx
          · exact Or.inl hx
          · obtain ⟨hxa, hxb⟩ := hx
            exact Or.inr ⟨hxa, by omega⟩
        · obtain ⟨hxa, hxb⟩ := hx
          rw [hSposN] at hxa
          have hb1 : bN.buf.length + 10 ≤ bH1.pos := by omega
          exact Or.inr ⟨by omega, by omega⟩
      · obtain ⟨hxa, hxb⟩ := hx
        have hb1 : bN.buf.length + 10 ≤ bH1.pos := by omega
        exact Or.inr ⟨by omega, by omega⟩
    · intro x hx
      rcases hx with hx | hx
      · have := hG.1 x hx
        have hbb : b.buf.length ≤ bN.buf.length := by
          obtain ⟨cN, hcN⟩ := hNs
          rw [hcN]
          simp
        omega
      · obtain ⟨hxa, hxb⟩ := hx
        omega
  · intro T O
    unfold Record.fromBytes
    have hdec := hNdec ((Bytes.be2 14 ++ Bytes.be2 (RClass.toU16 cls)
      ++ Bytes.be4 ttl ++ Bytes.be2 (code1.length + code2.length)
      ++ (code1 ++ code2)) ++ T) O
    rw [show b'.buf ++ T = bN.buf ++ ((Bytes.be2 14
      ++ Bytes.be2 (RClass.toU16 cls) ++ Bytes.be4 ttl
      ++ Bytes.be2 (code1.length + code2.length)
      ++ (code1 ++ code2)) ++ T) from by
      rw [hlay, List.append_assoc]]
    rw [hdec]
    simp only [bind, Except.bind]
    obtain ⟨hr1, hr2, hr3, hr4⟩ := fixed_decode bN.buf
      ((code1 ++ code2) ++ T)
      14 cls ttl (code1.length + code2.length) O (by omega) httl hrd2
    rw [hNa]
    rw [show bN.buf ++ ((Bytes.be2 14 ++ Bytes.be2 (RClass.toU16 cls)
        ++ Bytes.be4 ttl ++ Bytes.be2 (code1.length + code2.length)
        ++ (code1 ++ code2)) ++ T)
      = bN.buf ++ Bytes.be2 14 ++ Bytes.be2 (RClass.toU16 cls)
        ++ Bytes.be4 ttl ++ Bytes.be2 (code1.length + code2.length)
        ++ ((code1 ++ code2) ++ T) from by
      simp only [List.append_assoc]]
    rw [hr1]
    dsimp only
    rw [hr2]
    dsimp only
    rw [RClass.fromU16_toU16R]
    dsimp only
    rw [hr3]
    dsimp only
    rw [hr4]
    dsimp only
    have hq1 : (((bN.writeU16 14).writeU16 (RClass.toU16 cls)).writeU32
        ttl).pos ∉ R1 := by
      intro hc
      refine hqG ((((bN.writeU16 14).writeU16
        (RClass.toU16 cls)).writeU32 ttl).pos) (by omega) (by omega) ?_
      rcases hR1 _ hc with h | h
      · exact Or.inl (Or.inl h)
      · exact Or.inl (Or.inr h)
    have hq2 : (((bN.writeU16 14).writeU16 (RClass.toU16 cls)).writeU32
        ttl).pos + 1 ∉ R1 := by
      intro hc
      refine hqG ((((bN.writeU16 14).writeU16
        (RClass.toU16 cls)).writeU32 ttl).pos + 1) (by omega)
        (by omega) ?_
      rcases hR1 _ hc with h | h
      · exact Or.inl (Or.inl h)
      · exact Or.inl (Or.inr h)
    have hq3 : (((bN.writeU16 14).writeU16 (RClass.toU16 cls)).writeU32
        ttl).pos ∉ R2 := by
      intro hc
      exact hqG ((((bN.writeU16 14).writeU16
        (RClass.toU16 cls)).writeU32 ttl).pos) (by omega) (by omega)
        (hR2 _ hc)
    have hq4 : (((bN.writeU16 14).writeU16 (RClass.toU16 cls)).writeU32
        ttl).pos + 1 ∉ R2 := by
      intro hc
      exact hqG ((((bN.writeU16 14).writeU16
        (RClass.toU16 cls)).writeU32 ttl).pos + 1) (by omega) (by omega)
        (hR2 _ hc)
    have hsp1 := hspH1 ((((bN.writeU16 14).writeU16
        (RClass.toU16 cls)).writeU32 ttl).writeU16 0).pos
      (le_of_eq hSalign.symm)
    have hsp1a := hsp1.append code2
    rw [← hcode2] at hsp1a
    have hsp1b := ((hsp1a.patchByte _
        (((bH2.pos - ((((bN.writeU16 14).writeU16
          (RClass.toU16 cls)).writeU32 ttl).pos + 2)) % 65536) / 256
          % 256) hq1).patchByte _
        ((bH2.pos - ((((bN.writeU16 14).writeU16
          (RClass.toU16 cls)).writeU32 ttl).pos + 2)) % 65536 % 256)
        hq2).append T
    have hsp2 := hspH2 bH1.pos (le_of_eq halignH1.symm)
    have hsp2b := ((hsp2.patchByte _
        (((bH2.pos - ((((bN.writeU16 14).writeU16
          (RClass.toU16 cls)).writeU32 ttl).pos + 2)) % 65536) / 256
          % 256) hq3).patchByte _
        ((bH2.pos - ((((bN.writeU16 14).writeU16
          (RClass.toU16 cls)).writeU32 ttl).pos + 2)) % 65536 % 256)
        hq4).append T
    rw [show ((bH2.buf.set (((bN.writeU16 14).writeU16
        (RClass.toU16 cls)).writeU32 ttl).pos
        (((bH2.pos - ((((bN.writeU16 14).writeU16
          (RClass.toU16 cls)).writeU32 ttl).pos + 2)) % 65536) / 256
          % 256)).set ((((bN.writeU16 14).writeU16
        (RClass.toU16 cls)).writeU32 ttl).pos + 1)
        ((bH2.pos - ((((bN.writeU16 14).writeU16
          (RClass.toU16 cls)).writeU32 ttl).pos + 2)) % 65536 % 256))
        ++ T = b'.buf ++ T from by rw [← hrun, setU16_buf]] at hsp1b hsp2b
    have hhost1 := spine_fromBytes hsp1b hokr.1 O
    have hhost2 := spine_fromBytes hsp2b hoke.1 O
    rw [show b'.buf ++ T = (bN.buf ++ Bytes.be2 14
        ++ Bytes.be2 (RClass.toU16 cls) ++ Bytes.be4 ttl
        ++ Bytes.be2 (code1.length + code2.length))
        ++ ((code1 ++ code2) ++ T) from by
      rw [hlay]
      simp only [List.append_assoc]] at hhost1 hhost2
    rw [show ((((bN.writeU16 14).writeU16 (RClass.toU16 cls)).writeU32
        ttl).writeU16 0).pos = bN.buf.length + 10 from hSposN] at hhost1
    rw [hhost1]
    dsimp only
    rw [hhost2]
    dsimp only
    rw [hpos']

theorem record_soa_spec (nm : Name) (cls : RClass) (ttl : Nat)
    (origin mailbox : Name) (version refresh retry expire minimum : Nat)
    (b b' : Bytes)
    (hrun : Record.toBytes (.soa nm cls ttl origin mailbox version refresh
      retry expire minimum) b = some b')
    (hok : RecordOK (.soa nm cls ttl origin mailbox version refresh retry
      expire minimum)) (G : Set Nat)
    (hG : GoodOccs b.buf b.occs G) (halign : b.pos = b.buf.length)
    (hfits : b'.buf.length ≤ 16384) :
    RecordSpecOut (.soa nm cls ttl origin mailbox version refresh retry
      expire minimum) b b' G := by
  obtain ⟨hoknm, httl, hokr, hoke, hv1, hv2, hv3, hv4, hv5⟩ := hok
  unfold Record.toBytes at hrun
  simp only [bind, Option.bind] at hrun
  split at hrun
  · cases hrun
  rename_i bN hrunN
  dsimp only at hrun
  simp only [Record.code, Record.cls, Record.ttl] at hrun
  simp only [Record.name] at hrunN
  split at hrun
  · cases hrun
  rename_i bH1 hrunH1
  simp only [bind, Option.bind] at hrun
  split at hrun
  · cases hrun
  rename_i bH2 hrunH2
  injection hrun with hrun
  obtain ⟨hfb, hfp, hfo⟩ := writeFixed_shape bN 6 cls ttl
  have hDpos : ((((((bH2.writeU32 version).writeU32 refresh).writeU32
      retry).writeU32 expire).writeU32 minimum)).pos = bH2.pos + 20 := by
    rw [Bytes.writeU32_pos, Bytes.writeU32_pos, Bytes.writeU32_pos,
      Bytes.writeU32_pos, Bytes.writeU32_pos]
  have hDocc : ((((((bH2.writeU32 version).writeU32 refresh).writeU32
      retry).writeU32 expire).writeU32 minimum)).occs = bH2.occs := by
    rw [Bytes.writeU32_occs, Bytes.writeU32_occs, Bytes.writeU32_occs,
      Bytes.writeU32_occs, Bytes.writeU32_occs]
  have hDbuf2 : ((((((bH2.writeU32 version).writeU32 refresh).writeU32
      retry).writeU32 expire).writeU32 minimum)).buf
      = bH2.buf ++ (Bytes.be4 version ++ (Bytes.be4 refresh
        ++ (Bytes.be4 retry ++ (Bytes.be4 expire
        ++ Bytes.be4 minimum)))) := by
    rw [Bytes.writeU32_buf, Bytes.writeU32_buf, Bytes.writeU32_buf,
      Bytes.writeU32_buf, Bytes.writeU32_buf]
    simp only [List.append_assoc]
  have hDlen : ((((((bH2.writeU32 version).writeU32 refresh).writeU32
      retry).writeU32 expire).writeU32 minimum)).buf.length
      = bH2.buf.length + 20 := by
    rw [hDbuf2]
    simp [Bytes.be4]
  have hbl : ((((((bH2.writeU32 version).writeU32 refresh).writeU32
      retry).writeU32 expire).writeU32 minimum)).buf.length
      = b'.buf.length := by
    rw [← hrun, setU16_buf_len]
  have halignF : (((bN.writeU16 6).writeU16 (RClass.toU16 cls)).writeU32
      ttl).pos = (((bN.writeU16 6).writeU16 (RClass.toU16 cls)).writeU32
      ttl).buf.length := by
    have hNa0 := (nameToBytes_shape hrunN halign).2
    rw [hfp, hfb, hNa0]
    simp [Bytes.be2, Bytes.be4]
  have hSalign : ((((bN.writeU16 6).writeU16
      (RClass.toU16 cls)).writeU32 ttl).writeU16 0).pos
      = ((((bN.writeU16 6).writeU16 (RClass.toU16 cls)).writeU32
        ttl).writeU16 0).buf.length := by
    rw [Bytes.writeU16_pos, Bytes.writeU16_buf, halignF]
    simp [Bytes.be2]
  have halignH1 := (nameToBytes_shape hrunH1 hSalign).2
  have halignH2 := (nameToBytes_shape hrunH2 halignH1).2
  have h16b : b.buf.length ≤ 16384 := by
    obtain ⟨cN2, hshapeN⟩ := (nameToBytes_shape hrunN halign).1
    obtain ⟨cH2, hshapeH⟩ := (nameToBytes_shape hrunH1 hSalign).1
    obtain ⟨cH3, hshapeH2⟩ := (nameToBytes_shape hrunH2 halignH1).1
    have h1 := congrArg List.length hshapeN
    have h2 := congrArg List.length hshapeH
    have h3 := congrArg List.length hshapeH2
    rw [List.length_append] at h1 h2 h3
    rw [Bytes.writeU16_buf, List.length_append, hfb, List.length_append]
      at h2
    omega
  obtain ⟨hNs, hNa, hNp, hNG, hNdec⟩ := record_name_part hoknm hrunN G hG
    halign h16b
  have hGS : GoodOccs ((((bN.writeU16 6).writeU16
      (RClass.toU16 cls)).writeU32 ttl).writeU16 0).buf
      ((((bN.writeU16 6).writeU16 (RClass.toU16 cls)).writeU32
        ttl).writeU16 0).occs (G ∪ {x | b.pos ≤ x ∧ x < bN.pos}) := by
    rw [Bytes.writeU16_buf, Bytes.writeU16_occs, hfo, hfb,
      List.append_assoc]
    exact hNG.extend _
  have h216 : bH2.buf.length ≤ 16384 := by omega
  have hS16 : ((((bN.writeU16 6).writeU16 (RClass.toU16 cls)).writeU32
      ttl).writeU16 0).buf.length ≤ 16384 := by
    obtain ⟨cH2, hshapeH⟩ := (nameToBytes_shape hrunH1 hSalign).1
    obtain ⟨cH3, hshapeH2⟩ := (nameToBytes_shape hrunH2 halignH1).1
    have h2 := congrArg List.length hshapeH
    have h3 := congrArg List.length hshapeH2
    rw [List.length_append] at h2 h3
    omega
  obtain ⟨bX1, hrun21, ⟨code1, hcode1⟩, halignH1b, hposH1, hGH1, R1, hR1,
    hspH1⟩ := nameToBytes_spec origin hokr _
      (G ∪ {x | b.pos ≤ x ∧ x < bN.pos}) hGS hSalign hS16
  rw [hrunH1] at hrun21
  injection hrun21 with hrun21
  subst hrun21
  have h116 : bH1.buf.length ≤ 16384 := by
    obtain ⟨cH3, hshapeH2⟩ := (nameToBytes_shape hrunH2 halignH1).1
    have h3 := congrArg List.length hshapeH2
    rw [List.length_append] at h3
    omega
  obtain ⟨bX2, hrun22, ⟨code2, hcode2⟩, halignH2b, hposH2, hGH2, R2, hR2,
    hspH2⟩ := nameToBytes_spec mailbox hoke bH1
      ((G ∪ {x | b.pos ≤ x ∧ x < bN.pos})
        ∪ {x | ((((bN.writeU16 6).writeU16 (RClass.toU16 cls)).writeU32
          ttl).writeU16 0).pos ≤ x ∧ x < bH1.pos}) hGH1 halignH1 h116
  rw [hrunH2] at hrun22
  injection hrun22 with hrun22
  subst hrun22
  have hfpN : (((bN.writeU16 6).writeU16 (RClass.toU16 cls)).writeU32
      ttl).pos = bN.buf.length + 8 := by
    rw [hfp, hNa]
  have hSposN : ((((bN.writeU16 6).writeU16 (RClass.toU16 cls)).writeU32
      ttl).writeU16 0).pos = bN.buf.length + 10 := by
    rw [Bytes.writeU16_pos, hfpN]
  have hlen1 : bH1.pos = bN.buf.length + 10 + code1.length := by
    rw [halignH1, hcode1, List.length_append, ← hSalign, hSposN]
  have hlen2 : bH2.pos = bN.buf.length + 10 + code1.length
      + code2.length := by
    rw [halignH2, hcode2, List.length_append, ← halignH1, hlen1]
  have hrd2 : code1.length + code2.length + 20 < 65536 := by
    omega
  have hv : (((((((bH2.writeU32 version).writeU32 refresh).writeU32
      retry).writeU32 expire).writeU32 minimum)).pos
      - ((((bN.writeU16 6).writeU16 (RClass.toU16 cls)).writeU32
        ttl).pos + 2)) % 65536
      = code1.length + code2.length + 20 := by
    rw [hDpos, hlen2, hfpN, show bN.buf.length + 10 + code1.length
      + code2.length + 20 - (bN.buf.length + 8 + 2)
      = code1.length + code2.length + 20 from by omega]
    exact Nat.mod_eq_of_lt hrd2
  have hposA : (((bN.writeU16 6).writeU16 (RClass.toU16 cls)).writeU32
      ttl).pos = (bN.buf ++ (Bytes.be2 6 ++ Bytes.be2 (RClass.toU16 cls)
        ++ Bytes.be4 ttl)).length := by
    rw [hfpN]
    simp [Bytes.be2, Bytes.be4]
  have hDbufP : ((((((bH2.writeU32 version).writeU32 refresh).writeU32
      retry).writeU32 expire).writeU32 minimum)).buf
      = (bN.buf ++ (Bytes.be2 6 ++ Bytes.be2 (RClass.toU16 cls)
        ++ Bytes.be4 ttl))
      ++ 0 :: 0 :: (code1 ++ code2 ++ Bytes.be4 version
        ++ Bytes.be4 refresh ++ Bytes.be4 retry ++ Bytes.be4 expire
        ++ Bytes.be4 minimum) := by
    rw [hDbuf2, hcode2, hcode1, Bytes.writeU16_buf, hfb]
    simp [Bytes.be2, List.append_assoc]
  have hlay : b'.buf = bN.buf ++ (Bytes.be2 6
      ++ Bytes.be2 (RClass.toU16 cls) ++ Bytes.be4 ttl
      ++ Bytes.be2 (code1.length + code2.length + 20)
      ++ (code1 ++ code2 ++ Bytes.be4 version ++ Bytes.be4 refresh
        ++ Bytes.be4 retry ++ Bytes.be4 expire
        ++ Bytes.be4 minimum)) := by
    have h0 := setU16_patch (bN.buf ++ (Bytes.be2 6
      ++ Bytes.be2 (RClass.toU16 cls) ++ Bytes.be4 ttl))
      (code1 ++ code2 ++ Bytes.be4 version ++ Bytes.be4 refresh
        ++ Bytes.be4 retry ++ Bytes.be4 expire ++ Bytes.be4 minimum)
      0 0 (code1.length + code2.length + 20)
      ((((((bH2.writeU32 version).writeU32 refresh).writeU32
        retry).writeU32 expire).writeU32 minimum)).pos
      ((((((bH2.writeU32 version).writeU32 refresh).writeU32
        retry).writeU32 expire).writeU32 minimum)).occs
    have h2 := congrArg Bytes.buf h0
    rw [setU16_buf] at h2
    dsimp only at h2
    rw [← hrun, setU16_buf, hv, hDbufP, hposA, h2]
    simp [Bytes.be2, List.append_assoc]
  have hpos' : b'.pos = bH2.pos + 20 := by
    rw [← hrun, setU16_pos, hDpos]
  have hocc' : b'.occs = bH2.occs := by
    rw [← hrun, setU16_occs, hDocc]
  have hlaylen : b'.buf.length = bN.buf.length + 10 + code1.length
      + code2.length + 20 := by
    rw [← hbl, hDlen, ← halignH2, hlen2]
  have halign' : b'.pos = b'.buf.length := by
    rw [hpos', hlen2, hlaylen]
  have hqG : ∀ q2, q2 < bN.buf.length + 10 → bN.buf.length + 8 ≤ q2 →
      q2 ∉ ((G ∪ {x | b.pos ≤ x ∧ x < bN.pos})
        ∪ {x | ((((bN.writeU16 6).writeU16 (RClass.toU16 cls)).writeU32
          ttl).writeU16 0).pos ≤ x ∧ x < bH1.pos})
        ∪ {x | bH1.pos ≤ x ∧ x < bH2.pos} := by
    intro q2 hq2 hq2b hc
    have hb1 : bN.buf.length + 10 ≤ bH1.pos := by omega
    rcases hc with hc | hc
    · rcases hc with hc | hc
      · rcases hc with hc | hc
        · have := hG.1 q2 hc
          have hbb : b.buf.length ≤ bN.buf.length := by
            obtain ⟨cN, hcN⟩ := hNs
            rw [hcN]
            simp
          omega
        · obtain ⟨hca, hcb⟩ := hc
          rw [hNa] at hcb
          omega
      · obtain ⟨hca, hcb⟩ := hc
        rw [hSposN] at hca
        omega
    · obtain ⟨hca, hcb⟩ := hc
      omega
  refine ⟨?_, halign', ?_, ?_, ?_⟩
  · obtain ⟨cN, hcN⟩ := hNs
    rw [hlay, hcN, List.append_assoc]
    exact ⟨_, rfl⟩
  · rw [hpos']
    omega
  · rw [hocc']
    have hGD : GoodOccs ((((((bH2.writeU32 version).writeU32
        refresh).writeU32 retry).writeU32 expire).writeU32 minimum)).buf
        bH2.occs (((G ∪ {x | b.pos ≤ x ∧ x < bN.pos})
        ∪ {x | ((((bN.writeU16 6).writeU16 (RClass.toU16 cls)).writeU32
          ttl).writeU16 0).pos ≤ x ∧ x < bH1.pos})
        ∪ {x | bH1.pos ≤ x ∧ x < bH2.pos}) := by
      rw [hDbuf2]
      exact hGH2.extend _
    have hg1 : GoodOccs ((((((((bH2.writeU32 version).writeU32
        refresh).writeU32 retry).writeU32 expire).writeU32
        minimum)).buf.set (((bN.writeU16 6).writeU16
        (RClass.toU16 cls)).writeU32 ttl).pos
        ((((((((bH2.writeU32 version).writeU32 refresh).writeU32
          retry).writeU32 expire).writeU32 minimum)).pos
          - ((((bN.writeU16 6).writeU16 (RClass.toU16 cls)).writeU32
            ttl).pos + 2)) % 65536 / 256 % 256)).set
        ((((bN.writeU16 6).writeU16 (RClass.toU16 cls)).writeU32
          ttl).pos + 1)
        ((((((((bH2.writeU32 version).writeU32 refresh).writeU32
          retry).writeU32 expire).writeU32 minimum)).pos
          - ((((bN.writeU16 6).writeU16 (RClass.toU16 cls)).writeU32
            ttl).pos + 2)) % 65536 % 256))
        bH2.occs (((G ∪ {x | b.pos ≤ x ∧ x < bN.pos})
        ∪ {x | ((((bN.writeU16 6).writeU16 (RClass.toU16 cls)).writeU32
          ttl).writeU16 0).pos ≤ x ∧ x < bH1.pos})
        ∪ {x | bH1.pos ≤ x ∧ x < bH2.pos}) := by
      refine GoodOccs.patchOcc ?_ _ _ ?_
      · refine GoodOccs.patchOcc hGD _ _ ?_
        exact hqG _ (by omega) (by omega)
      · exact hqG _ (by omega) (by omega)
    have hg2 : GoodOccs b'.buf bH2.occs (((G
        ∪ {x | b.pos ≤ x ∧ x < bN.pos})
        ∪ {x | ((((bN.writeU16 6).writeU16 (RClass.toU16 cls)).writeU32
          ttl).writeU16 0).pos ≤ x ∧ x < bH1.pos})
        ∪ {x | bH1.pos ≤ x ∧ x < bH2.pos}) := by
      rw [← hrun, setU16_buf]
      exact hg1
    refine hg2.mono ?_ ?_
    · intro x hx
      rcases hx with hx | hx
      · rcases hx with hx | hx
        · rcases hx with hx | hx
          · exact Or.inl hx
          · obtain ⟨hxa, hxb⟩ := hx
            exact Or.inr ⟨hxa, by omega⟩
        · obtain ⟨hxa, hxb⟩ := hx
          rw [hSposN] at hxa
          have hb1 : bN.buf.length + 10 ≤ bH1.pos := by omega
          exact Or.inr ⟨by omega, by omega⟩
      · obtain ⟨hxa, hxb⟩ := hx
        have hb1 : bN.buf.length + 10 ≤ bH1.pos := by omega
        exact Or.inr ⟨by omega, by omega⟩
    · intro x hx
      rcases hx with hx | hx
      · have := hG.1 x hx
        have hbb : b.buf.length ≤ bN.buf.length := by
          obtain ⟨cN, hcN⟩ := hNs
          rw [hcN]
          simp
        omega
      · obtain ⟨hxa, hxb⟩ := hx
        omega
  · intro T O
    unfold Record.fromBytes
    have hdec := hNdec ((Bytes.be2 6 ++ Bytes.be2 (RClass.toU16 cls)
      ++ Bytes.be4 ttl ++ Bytes.be2 (code1.length + code2.length + 20)
      ++ (code1 ++ code2 ++ Bytes.be4 version ++ Bytes.be4 refresh
        ++ Bytes.be4 retry ++ Bytes.be4 expire ++ Bytes.be4 minimum))
      ++ T) O
    rw [show b'.buf ++ T = bN.buf ++ ((Bytes.be2 6
      ++ Bytes.be2 (RClass.toU16 cls) ++ Bytes.be4 ttl
      ++ Bytes.be2 (code1.length + code2.length + 20)
      ++ (code1 ++ code2 ++ Bytes.be4 version ++ Bytes.be4 refresh
        ++ Bytes.be4 retry ++ Bytes.be4 expire ++ Bytes.be4 minimum))
      ++ T) from by
      rw [hlay, List.append_assoc]]
    rw [hdec]
    simp only [bind, Except.bind]
    obtain ⟨hr1, hr2, hr3, hr4⟩ := fixed_decode bN.buf
      ((code1 ++ code2 ++ Bytes.be4 version ++ Bytes.be4 refresh
        ++ Bytes.be4 retry ++ Bytes.be4 expire ++ Bytes.be4 minimum) ++ T)
      6 cls ttl (code1.length + code2.length + 20) O (by omega) httl hrd2
    rw [hNa]
    rw [show bN.buf ++ ((Bytes.be2 6 ++ Bytes.be2 (RClass.toU16 cls)
        ++ Bytes.be4 ttl ++ Bytes.be2 (code1.length + code2.length + 20)
        ++ (code1 ++ code2 ++ Bytes.be4 version ++ Bytes.be4 refresh
          ++ Bytes.be4 retry ++ Bytes.be4 expire ++ Bytes.be4 minimum))
        ++ T)
      = bN.buf ++ Bytes.be2 6 ++ Bytes.be2 (RClass.toU16 cls)
        ++ Bytes.be4 ttl ++ Bytes.be2 (code1.length + code2.length + 20)
        ++ ((code1 ++ code2 ++ Bytes.be4 version ++ Bytes.be4 refresh
          ++ Bytes.be4 retry ++ Bytes.be4 expire ++ Bytes.be4 minimum)
          ++ T) from by
      simp only [List.append_assoc]]
    rw [hr1]
    dsimp only
    rw [hr2]
    dsimp only
    rw [RClass.fromU16_toU16R]
    dsimp only
    rw [hr3]
    dsimp only
    rw [hr4]
    dsimp only
    have hq1 : (((bN.writeU16 6).writeU16 (RClass.toU16 cls)).writeU32
        ttl).pos ∉ R1 := by
      intro hc
      refine hqG ((((bN.writeU16 6).writeU16
        (RClass.toU16 cls)).writeU32 ttl).pos) (by omega) (by omega) ?_
      rcases hR1 _ hc with h | h
      · exact Or.inl (Or.inl h)
      · exact Or.inl (Or.inr h)
    have hq2 : (((bN.writeU16 6).writeU16 (RClass.toU16 cls)).writeU32
        ttl).pos + 1 ∉ R1 := by
      intro hc
      refine hqG ((((bN.writeU16 6).writeU16
        (RClass.toU16 cls)).writeU32 ttl).pos + 1) (by omega)
        (by omega) ?_
      rcases hR1 _ hc with h | h
      · exact Or.inl (Or.inl h)
      · exact Or.inl (Or.inr h)
    have hq3 : (((bN.writeU16 6).writeU16 (RClass.toU16 cls)).writeU32
        ttl).pos ∉ R2 := by
      intro hc
      exact hqG ((((bN.writeU16 6).writeU16
        (RClass.toU16 cls)).writeU32 ttl).pos) (by omega) (by omega)
        (hR2 _ hc)
    have hq4 : (((bN.writeU16 6).writeU16 (RClass.toU16 cls)).writeU32
        ttl).pos + 1 ∉ R2 := by
      intro hc
      exact hqG ((((bN.writeU16 6).writeU16
        (RClass.toU16 cls)).writeU32 ttl).pos + 1) (by omega) (by omega)
        (hR2 _ hc)
    have hsp1 := hspH1 ((((bN.writeU16 6).writeU16
        (RClass.toU16 cls)).writeU32 ttl).writeU16 0).pos
      (le_of_eq hSalign.symm)
    have hsp1a := (hsp1.append code2).append (Bytes.be4 version
      ++ (Bytes.be4 refresh ++ (Bytes.be4 retry ++ (Bytes.be4 expire
      ++ Bytes.be4 minimum))))
    rw [← hcode2, ← hDbuf2] at hsp1a
    have hbufeq := congrArg Bytes.buf hrun
    rw [setU16_buf] at hbufeq
    have hsp1b := (hsp1a.patchByte _
        ((((((((bH2.writeU32 version).writeU32 refresh).writeU32
          retry).writeU32 expire).writeU32 minimum)).pos
          - ((((bN.writeU16 6).writeU16 (RClass.toU16 cls)).writeU32
            ttl).pos + 2)) % 65536 / 256 % 256) hq1).patchByte _
        ((((((((bH2.writeU32 version).writeU32 refresh).writeU32
          retry).writeU32 expire).writeU32 minimum)).pos
          - ((((bN.writeU16 6).writeU16 (RClass.toU16 cls)).writeU32
            ttl).pos + 2)) % 65536 % 256) hq2
    rw [hbufeq] at hsp1b
    have hsp1c := hsp1b.append T
    have hsp2 := hspH2 bH1.pos (le_of_eq halignH1.symm)
    have hsp2a := hsp2.append (Bytes.be4 version
      ++ (Bytes.be4 refresh ++ (Bytes.be4 retry ++ (Bytes.be4 expire
      ++ Bytes.be4 minimum))))
    rw [← hDbuf2] at hsp2a
    have hsp2b := (hsp2a.patchByte _
        ((((((((bH2.writeU32 version).writeU32 refresh).writeU32
          retry).writeU32 expire).writeU32 minimum)).pos
          - ((((bN.writeU16 6).writeU16 (RClass.toU16 cls)).writeU32
            ttl).pos + 2)) % 65536 / 256 % 256) hq3).patchByte _
        ((((((((bH2.writeU32 version).writeU32 refresh).writeU32
          retry).writeU32 expire).writeU32 minimum)).pos
          - ((((bN.writeU16 6).writeU16 (RClass.toU16 cls)).writeU32
            ttl).pos + 2)) % 65536 % 256) hq4
    rw [hbufeq] at hsp2b
    have hsp2c := hsp2b.append T
    have hhost1 := spine_fromBytes hsp1c hokr.1 O
    have hhost2 := spine_fromBytes hsp2c hoke.1 O
    rw [show b'.buf ++ T = (bN.buf ++ Bytes.be2 6
        ++ Bytes.be2 (RClass.toU16 cls) ++ Bytes.be4 ttl
        ++ Bytes.be2 (code1.length + code2.length + 20))
        ++ ((code1 ++ code2 ++ Bytes.be4 version ++ Bytes.be4 refresh
          ++ Bytes.be4 retry ++ Bytes.be4 expire ++ Bytes.be4 minimum)
          ++ T) from by
      rw [hlay]
      simp only [List.append_assoc]] at hhost1 hhost2
    rw [show ((((bN.writeU16 6).writeU16 (RClass.toU16 cls)).writeU32
        ttl).writeU16 0).pos = bN.buf.length + 10 from hSposN] at hhost1
    rw [hhost1]
    dsimp only
    rw [hhost2]
    dsimp only
    rw [show (bN.buf ++ Bytes.be2 6 ++ Bytes.be2 (RClass.toU16 cls)
        ++ Bytes.be4 ttl ++ Bytes.be2 (code1.length + code2.length + 20))
        ++ ((code1 ++ code2 ++ Bytes.be4 version ++ Bytes.be4 refresh
          ++ Bytes.be4 retry ++ Bytes.be4 expire ++ Bytes.be4 minimum)
          ++ T)
      = (bN.buf ++ Bytes.be2 6 ++ Bytes.be2 (RClass.toU16 cls)
        ++ Bytes.be4 ttl ++ Bytes.be2 (code1.length + code2.length + 20)
        ++ code1 ++ code2) ++ Bytes.be4 version ++ (Bytes.be4 refresh
        ++ (Bytes.be4 retry ++ (Bytes.be4 expire ++ (Bytes.be4 minimum
        ++ T)))) from by
      simp only [List.append_assoc]]
    have hrA := Bytes.be4_readU32 version hv1 (bN.buf ++ Bytes.be2 6
        ++ Bytes.be2 (RClass.toU16 cls) ++ Bytes.be4 ttl
        ++ Bytes.be2 (code1.length + code2.length + 20) ++ code1 ++ code2)
      (Bytes.be4 refresh ++ (Bytes.be4 retry ++ (Bytes.be4 expire
        ++ (Bytes.be4 minimum ++ T)))) O
    rw [show (bN.buf ++ Bytes.be2 6 ++ Bytes.be2 (RClass.toU16 cls)
        ++ Bytes.be4 ttl ++ Bytes.be2 (code1.length + code2.length + 20)
        ++ code1 ++ code2).length = bH2.pos from by
      rw [hlen2]
      simp [Bytes.be2, Bytes.be4]
      omega] at hrA
    rw [hrA]
    dsimp only
    rw [show (bN.buf ++ Bytes.be2 6 ++ Bytes.be2 (RClass.toU16 cls)
        ++ Bytes.be4 ttl ++ Bytes.be2 (code1.length + code2.length + 20)
        ++ code1 ++ code2) ++ Bytes.be4 version ++ (Bytes.be4 refresh
        ++ (Bytes.be4 retry ++ (Bytes.be4 expire ++ (Bytes.be4 minimum
        ++ T))))
      = (bN.buf ++ Bytes.be2 6 ++ Bytes.be2 (RClass.toU16 cls)
        ++ Bytes.be4 ttl ++ Bytes.be2 (code1.length + code2.length + 20)
        ++ code1 ++ code2 ++ Bytes.be4 version) ++ Bytes.be4 refresh
        ++ (Bytes.be4 retry ++ (Bytes.be4 expire ++ (Bytes.be4 minimum
        ++ T))) from by
      simp only [List.append_assoc]]
    have hrB := Bytes.be4_readU32 refresh hv2 (bN.buf ++ Bytes.be2 6
        ++ Bytes.be2 (RClass.toU16 cls) ++ Bytes.be4 ttl
        ++ Bytes.be2 (code1.length + code2.length + 20) ++ code1 ++ code2
        ++ Bytes.be4 version)
      (Bytes.be4 retry ++ (Bytes.be4 expire ++ (Bytes.be4 minimum ++ T)))
      O
    rw [show (bN.buf ++ Bytes.be2 6 ++ Bytes.be2 (RClass.toU16 cls)
        ++ Bytes.be4 ttl ++ Bytes.be2 (code1.length + code2.length + 20)
        ++ code1 ++ code2 ++ Bytes.be4 version).length = bH2.pos + 4
      from by
      rw [hlen2]
      simp [Bytes.be2, Bytes.be4]
      omega] at hrB
    rw [hrB]
    dsimp only
    rw [show (bN.buf ++ Bytes.be2 6 ++ Bytes.be2 (RClass.toU16 cls)
        ++ Bytes.be4 ttl ++ Bytes.be2 (code1.length + code2.length + 20)
        ++ code1 ++ code2 ++ Bytes.be4 version) ++ Bytes.be4 refresh
        ++ (Bytes.be4 retry ++ (Bytes.be4 expire ++ (Bytes.be4 minimum
        ++ T)))
      = (bN.buf ++ Bytes.be2 6 ++ Bytes.be2 (RClass.toU16 cls)
        ++ Bytes.be4 ttl ++ Bytes.be2 (code1.length + code2.length + 20)
        ++ code1 ++ code2 ++ Bytes.be4 version ++ Bytes.be4 refresh)
        ++ Bytes.be4 retry ++ (Bytes.be4 expire ++ (Bytes.be4 minimum
        ++ T)) from by
      simp only [List.append_assoc]]
    have hrC := Bytes.be4_readU32 retry hv3 (bN.buf ++ Bytes.be2 6
        ++ Bytes.be2 (RClass.toU16 cls) ++ Bytes.be4 ttl
        ++ Bytes.be2 (code1.length + code2.length + 20) ++ code1 ++ code2
        ++ Bytes.be4 version ++ Bytes.be4 refresh)
      (Bytes.be4 expire ++ (Bytes.be4 minimum ++ T)) O
    rw [show (bN.buf ++ Bytes.be2 6 ++ Bytes.be2 (RClass.toU16 cls)
        ++ Bytes.be4 ttl ++ Bytes.be2 (code1.length + code2.length + 20)
        ++ code1 ++ code2 ++ Bytes.be4 version
        ++ Bytes.be4 refresh).length = bH2.pos + 4 + 4 from by
      rw [hlen2]
      simp [Bytes.be2, Bytes.be4]
      omega] at hrC
    rw [hrC]
    dsimp only
    rw [show (bN.buf ++ Bytes.be2 6 ++ Bytes.be2 (RClass.toU16 cls)
        ++ Bytes.be4 ttl ++ Bytes.be2 (code1.length + code2.length + 20)
        ++ code1 ++ code2 ++ Bytes.be4 version ++ Bytes.be4 refresh)
        ++ Bytes.be4 retry ++ (Bytes.be4 expire ++ (Bytes.be4 minimum
        ++ T))
      = (bN.buf ++ Bytes.be2 6 ++ Bytes.be2 (RClass.toU16 cls)
        ++ Bytes.be4 ttl ++ Bytes.be2 (code1.length + code2.length + 20)
        ++ code1 ++ code2 ++ Bytes.be4 version ++ Bytes.be4 refresh
        ++ Bytes.be4 retry) ++ Bytes.be4 expire ++ (Bytes.be4 minimum
        ++ T) from by
      simp only [List.append_assoc]]
    have hrD := Bytes.be4_readU32 expire hv4 (bN.buf ++ Bytes.be2 6
        ++ Bytes.be2 (RClass.toU16 cls) ++ Bytes.be4 ttl
        ++ Bytes.be2 (code1.length + code2.length + 20) ++ code1 ++ code2
        ++ Bytes.be4 version ++ Bytes.be4 refresh ++ Bytes.be4 retry)
      (Bytes.be4 minimum ++ T) O
    rw [show (bN.buf ++ Bytes.be2 6 ++ Bytes.be2 (RClass.toU16 cls)
        ++ Bytes.be4 ttl ++ Bytes.be2 (code1.length + code2.length + 20)
        ++ code1 ++ code2 ++ Bytes.be4 version ++ Bytes.be4 refresh
        ++ Bytes.be4 retry).length = bH2.pos + 4 + 4 + 4 from by
      rw [hlen2]
      simp [Bytes.be2, Bytes.be4]
      omega] at hrD
    rw [hrD]
    dsimp only
    rw [show (bN.buf ++ Bytes.be2 6 ++ Bytes.be2 (RClass.toU16 cls)
        ++ Bytes.be4 ttl ++ Bytes.be2 (code1.length + code2.length + 20)
        ++ code1 ++ code2 ++ Bytes.be4 version ++ Bytes.be4 refresh
        ++ Bytes.be4 retry) ++ Bytes.be4 expire ++ (Bytes.be4 minimum
        ++ T)
      = (bN.buf ++ Bytes.be2 6 ++ Bytes.be2 (RClass.toU16 cls)
        ++ Bytes.be4 ttl ++ Bytes.be2 (code1.length + code2.length + 20)
        ++ code1 ++ code2 ++ Bytes.be4 version ++ Bytes.be4 refresh
        ++ Bytes.be4 retry ++ Bytes.be4 expire) ++ Bytes.be4 minimum
        ++ T from by
      simp only [List.append_assoc]]
    have hrE := Bytes.be4_readU32 minimum hv5 (bN.buf ++ Bytes.be2 6
        ++ Bytes.be2 (RClass.toU16 cls) ++ Bytes.be4 ttl
        ++ Bytes.be2 (code1.length + code2.length + 20) ++ code1 ++ code2
        ++ Bytes.be4 version ++ Bytes.be4 refresh ++ Bytes.be4 retry
        ++ Bytes.be4 expire) T O
    rw [show (bN.buf ++ Bytes.be2 6 ++ Bytes.be2 (RClass.toU16 cls)
        ++ Bytes.be4 ttl ++ Bytes.be2 (code1.length + code2.length + 20)
        ++ code1 ++ code2 ++ Bytes.be4 version ++ Bytes.be4 refresh
        ++ Bytes.be4 retry ++ Bytes.be4 expire).length
      = bH2.pos + 4 + 4 + 4 + 4 from by
      rw [hlen2]
      simp [Bytes.be2, Bytes.be4]
      omega] at hrE
    rw [hrE]
    dsimp only
    rw [show b'.pos = bH2.pos + 4 + 4 + 4 + 4 + 4 from by rw [hpos']]

/-- The rdata bytes the TXT encoder produces for a list of chunks: each
chunk is prefixed by its length byte (`len as u8`). -/
def txtWire : List (List Nat) → List Nat
  | [] => []
  | c :: cs => (c.length % 256) :: (c ++ txtWire cs)

theorem txtWire_length (cs : List (List Nat)) :
    (txtWire cs).length = cs.length + cs.join.length := by
  induction cs with
  | nil => rfl
  | cons c cs ih =>
    simp [txtWire, ih]
    omega

theorem txtFold_shape (cs : List (List Nat)) (S : Bytes) :
    cs.foldl (fun acc chunk => (acc.write (chunk.length % 256)).writeAll
      chunk) S = ⟨S.buf ++ txtWire cs, S.pos + (txtWire cs).length,
        S.occs⟩ := by
  induction cs generalizing S with
  | nil =>
    cases S
    simp [txtWire]
  | cons c cs ih =>
    rw [List.foldl_cons, ih]
    rw [Bytes.mk.injEq]
    refine ⟨?_, ?_, ?_⟩
    · rw [Bytes.writeAll_buf, Bytes.write_buf]
      simp [txtWire, List.append_assoc]
    · rw [Bytes.writeAll_pos, Bytes.write_pos]
      simp [txtWire]
      omega
    · rw [Bytes.writeAll_occs, Bytes.write_occs]

theorem chunks255_join : ∀ (n : Nat) (l : List Nat), l.length ≤ n →
    (chunks255 l).join = l := by
  intro n
  induction n with
  | zero =>
    intro l hl
    have hnil : l = [] := List.length_eq_zero.mp (Nat.le_zero.mp hl)
    subst hnil
    rw [chunks255]
    rfl
  | succ n ih =>
    intro l hl
    rw [chunks255]
    by_cases h : l.isEmpty
    · rw [if_pos h]
      have hnil : l = [] := List.isEmpty_iff.mp h
      rw [hnil]
      rfl
    · rw [if_neg h]
      have hne : l ≠ [] := fun hc => h (by rw [hc]; rfl)
      have hpos : 0 < l.length := List.length_pos.mpr hne
      rw [show (List.take 255 l :: chunks255 (List.drop 255 l)).join
        = List.take 255 l ++ (chunks255 (List.drop 255 l)).join from rfl,
        ih (l.drop 255) (by
          rw [List.length_drop]
          omega), List.take_append_drop]

theorem chunks255_lt : ∀ (n : Nat) (l : List Nat), l.length ≤ n →
    ∀ c ∈ chunks255 l, c.length < 256 := by
  intro n
  induction n with
  | zero =>
    intro l hl c hc
    have hnil : l = [] := List.length_eq_zero.mp (Nat.le_zero.mp hl)
    subst hnil
    rw [chunks255] at hc
    simp at hc
  | succ n ih =>
    intro l hl c hc
    rw [chunks255] at hc
    by_cases h : l.isEmpty
    · rw [if_pos h] at hc
      simp at hc
    · rw [if_neg h] at hc
      have hne : l ≠ [] := fun hc2 => h (by rw [hc2]; rfl)
      have hpos : 0 < l.length := List.length_pos.mpr hne
      rcases List.mem_cons.mp hc with hc | hc
      · subst hc
        rw [List.length_take]
        omega
      · exact ih (l.drop 255) (by
          rw [List.length_drop]
          omega) c hc

/-- The character-string loop of the TXT decoder consumes exactly the
encoder's output and returns the joined chunks. -/
theorem txtLoop_spec : ∀ (cs : List (List Nat)) (fuel : Nat)
    (P T : List Nat) (O : List (List Nat × Nat)) (rc rdLen : Nat),
    (∀ c ∈ cs, c.length < 256) →
    rc + (txtWire cs).length = rdLen → rdLen < 65536 →
    cs.length + 1 ≤ fuel →
    txtLoop fuel ⟨P ++ txtWire cs ++ T, P.length, O⟩ rc rdLen
      = .ok (cs.join, ⟨P ++ txtWire cs ++ T,
          P.length + (txtWire cs).length, O⟩) := by
  intro cs
  induction cs with
  | nil =>
    intro fuel P T O rc rdLen hlt hrc hrd hfuel
    cases fuel with
    | zero => omega
    | succ f =>
      simp only [txtWire, List.length_nil, Nat.add_zero] at hrc ⊢
      subst hrc
      simp [txtLoop]
  | cons c cs ih =>
    intro fuel P T O rc rdLen hlt hrc hrd hfuel
    cases fuel with
    | zero => omega
    | succ f =>
      have hclt : c.length < 256 := hlt c (List.mem_cons_self _ _)
      have hmodc : c.length % 256 = c.length := Nat.mod_eq_of_lt hclt
      have hWlen : (txtWire (c :: cs)).length
          = 1 + c.length + (txtWire cs).length := by
        simp [txtWire]
        omega
      simp only [txtLoop]
      rw [if_pos (show rc < rdLen from by omega)]
      rw [show (c :: cs).join = c ++ cs.join from rfl]
      rw [show P.length + (txtWire (c :: cs)).length
        = P.length + 1 + c.length + (txtWire cs).length from by
        rw [hWlen]
        omega]
      rw [show P ++ txtWire (c :: cs) ++ T
        = P ++ (c.length % 256) :: ((c ++ txtWire cs) ++ T) from by
        simp [txtWire, List.append_assoc]]
      rw [Bytes.read_eq P ((c ++ txtWire cs) ++ T) (c.length % 256) O]
      dsimp only
      rw [hmodc]
      rw [show P ++ c.length :: ((c ++ txtWire cs) ++ T)
        = (P ++ [c.length]) ++ c ++ (txtWire cs ++ T) from by
        simp [List.append_assoc]]
      have hre := Bytes.readExact_eq (P ++ [c.length]) c
        (txtWire cs ++ T) O
      rw [show (P ++ [c.length]).length = P.length + 1 from by simp]
        at hre
      rw [hre]
      dsimp only
      rw [Nat.mod_eq_of_lt (show rc + c.length + 1 < 65536 from by
        omega)]
      rw [show (P ++ [c.length]) ++ c ++ (txtWire cs ++ T)
        = ((P ++ [c.length]) ++ c) ++ txtWire cs ++ T from by
        simp [List.append_assoc]]
      have hih := ih f ((P ++ [c.length]) ++ c) T O (rc + c.length + 1)
        rdLen (fun x hx => hlt x (List.mem_cons_of_mem _ hx))
        (by omega) hrd (by
          simp only [List.length_cons] at hfuel
          omega)
      rw [show ((P ++ [c.length]) ++ c).length = P.length + 1 + c.length
        from by
        simp
        omega] at hih
      rw [hih]
      simp only [Except.map]

theorem record_txt_spec (nm : Name) (cls : RClass) (ttl : Nat)
    (content : List Nat) (b b' : Bytes)
    (hrun : Record.toBytes (.txt nm cls ttl content) b = some b')
    (hok : RecordOK (.txt nm cls ttl content)) (G : Set Nat)
    (hG : GoodOccs b.buf b.occs G) (halign : b.pos = b.buf.length)
    (hfits : b'.buf.length ≤ 16384) :
    RecordSpecOut (.txt nm cls ttl content) b b' G := by
  obtain ⟨hoknm, httl, hutf, hbound⟩ := hok
  have hWrd : (txtWire (chunks255 content)).length < 65536 := by
    rw [txtWire_length, chunks255_join content.length content le_rfl]
    omega
  have hcsle : (chunks255 content).length
      ≤ (txtWire (chunks255 content)).length := by
    rw [txtWire_length]
    omega
  unfold Record.toBytes at hrun
  simp only [bind, Option.bind] at hrun
  split at hrun
  · cases hrun
  rename_i bN hrunN
  dsimp only at hrun
  injection hrun with hrun
  simp only [Record.code, Record.cls, Record.ttl] at hrun
  simp only [Record.name] at hrunN
  rw [txtFold_shape] at hrun
  dsimp only at hrun
  obtain ⟨hfb, hfp, hfo⟩ := writeFixed_shape bN 16 cls ttl
  have hSbuflen : ((((bN.writeU16 16).writeU16 (RClass.toU16 cls)).writeU32
      ttl).writeU16 0).buf.length = bN.buf.length + 10 := by
    rw [Bytes.writeU16_buf, List.length_append, hfb, List.length_append]
    simp [Bytes.be2, Bytes.be4]
  have hbl : ((((bN.writeU16 16).writeU16 (RClass.toU16 cls)).writeU32
      ttl).writeU16 0).buf.length + (txtWire (chunks255 content)).length
      = b'.buf.length := by
    rw [← hrun, setU16_buf_len]
    simp
  have h16b : b.buf.length ≤ 16384 := by
    obtain ⟨cN, hcN⟩ := (nameToBytes_shape hrunN halign).1
    have hcl := congrArg List.length hcN
    rw [List.length_append] at hcl
    omega
  obtain ⟨hNs, hNa, hNp, hNG, hNdec⟩ := record_name_part hoknm hrunN G hG
    halign h16b
  have hSpos : ((((bN.writeU16 16).writeU16 (RClass.toU16 cls)).writeU32
      ttl).writeU16 0).pos = bN.buf.length + 10 := by
    rw [Bytes.writeU16_pos, hfp, hNa]
  have hfpN : (((bN.writeU16 16).writeU16 (RClass.toU16 cls)).writeU32
      ttl).pos = bN.buf.length + 8 := by
    rw [hfp, hNa]
  have hv : (((((bN.writeU16 16).writeU16 (RClass.toU16 cls)).writeU32
      ttl).writeU16 0).pos + (txtWire (chunks255 content)).length
      - ((((bN.writeU16 16).writeU16 (RClass.toU16 cls)).writeU32
        ttl).pos + 2)) % 65536
      = (txtWire (chunks255 content)).length := by
    rw [hSpos, hfpN, show bN.buf.length + 10
      + (txtWire (chunks255 content)).length - (bN.buf.length + 8 + 2)
      = (txtWire (chunks255 content)).length from by omega]
    exact Nat.mod_eq_of_lt hWrd
  have hposA : (((bN.writeU16 16).writeU16 (RClass.toU16 cls)).writeU32
      ttl).pos = (bN.buf ++ (Bytes.be2 16 ++ Bytes.be2 (RClass.toU16 cls)
        ++ Bytes.be4 ttl)).length := by
    rw [hfpN]
    simp [Bytes.be2, Bytes.be4]
  have hSWbuf : ((((bN.writeU16 16).writeU16 (RClass.toU16 cls)).writeU32
      ttl).writeU16 0).buf ++ txtWire (chunks255 content)
      = (bN.buf ++ (Bytes.be2 16 ++ Bytes.be2 (RClass.toU16 cls)
        ++ Bytes.be4 ttl))
        ++ 0 :: 0 :: txtWire (chunks255 content) := by
    rw [Bytes.writeU16_buf, hfb]
    simp [Bytes.be2, List.append_assoc]
  have hlay : b'.buf = bN.buf ++ (Bytes.be2 16
      ++ Bytes.be2 (RClass.toU16 cls) ++ Bytes.be4 ttl
      ++ Bytes.be2 (txtWire (chunks255 content)).length
      ++ txtWire (chunks255 content)) := by
    have h0 := setU16_patch (bN.buf ++ (Bytes.be2 16
      ++ Bytes.be2 (RClass.toU16 cls) ++ Bytes.be4 ttl))
      (txtWire (chunks255 content)) 0 0
      (txtWire (chunks255 content)).length
      (((((bN.writeU16 16).writeU16 (RClass.toU16 cls)).writeU32
        ttl).writeU16 0).pos + (txtWire (chunks255 content)).length)
      ((((bN.writeU16 16).writeU16 (RClass.toU16 cls)).writeU32
        ttl).writeU16 0).occs
    have h2 := congrArg Bytes.buf h0
    rw [setU16_buf] at h2
    dsimp only at h2
    rw [← hrun, setU16_buf]
    dsimp only
    rw [hv, hSWbuf, hposA, h2]
    simp [Bytes.be2, List.append_assoc]
  have hpos' : b'.pos = bN.pos + 10
      + (txtWire (chunks255 content)).length := by
    rw [← hrun, setU16_pos]
    dsimp only
    rw [Bytes.writeU16_pos, hfp]
  have hoccs' : b'.occs = bN.occs := by
    rw [← hrun, setU16_occs]
    dsimp only
    rw [Bytes.writeU16_occs, hfo]
  have hlaylen : b'.buf.length = bN.buf.length + 10
      + (txtWire (chunks255 content)).length := by
    rw [← hbl, hSbuflen]
  refine ⟨?_, ?_, ?_, ?_, ?_⟩
  · obtain ⟨cN, hcN⟩ := hNs
    rw [hlay, hcN, List.append_assoc]
    exact ⟨_, rfl⟩
  · rw [hpos', hlaylen, hNa]
  · omega
  · rw [hlay, hoccs']
    refine (hNG.extend _).mono ?_ ?_
    · intro x hx
      rcases hx with hx | hx
      · exact Or.inl hx
      · obtain ⟨hxa, hxb⟩ := hx
        exact Or.inr ⟨hxa, by omega⟩
    · intro x hx
      rw [← hlay, hlaylen]
      rcases hx with hx | hx
      · have := hG.1 x hx
        have hbb : b.buf.length ≤ bN.buf.length := by
          obtain ⟨cN, hcN⟩ := hNs
          rw [hcN]
          simp
        omega
      · obtain ⟨hxa, hxb⟩ := hx
        rw [hpos', hNa] at hxb
        omega
  · intro T O
    unfold Record.fromBytes
    have hdec := hNdec ((Bytes.be2 16 ++ Bytes.be2 (RClass.toU16 cls)
      ++ Bytes.be4 ttl ++ Bytes.be2 (txtWire (chunks255 content)).length
      ++ txtWire (chunks255 content)) ++ T) O
    rw [show b'.buf ++ T = bN.buf ++ ((Bytes.be2 16
      ++ Bytes.be2 (RClass.toU16 cls) ++ Bytes.be4 ttl
      ++ Bytes.be2 (txtWire (chunks255 content)).length
      ++ txtWire (chunks255 content)) ++ T) from by
      rw [hlay, List.append_assoc]]
    rw [hdec]
    simp only [bind, Except.bind]
    obtain ⟨hr1, hr2, hr3, hr4⟩ := fixed_decode bN.buf
      (txtWire (chunks255 content) ++ T)
      16 cls ttl (txtWire (chunks255 content)).length O (by omega) httl
      hWrd
    rw [hNa]
    rw [show bN.buf ++ ((Bytes.be2 16 ++ Bytes.be2 (RClass.toU16 cls)
        ++ Bytes.be4 ttl ++ Bytes.be2 (txtWire (chunks255 content)).length
        ++ txtWire (chunks255 content)) ++ T)
      = bN.buf ++ Bytes.be2 16 ++ Bytes.be2 (RClass.toU16 cls)
        ++ Bytes.be4 ttl ++ Bytes.be2 (txtWire (chunks255 content)).length
        ++ (txtWire (chunks255 content) ++ T) from by
      simp only [List.append_assoc]]
    rw [hr1]
    dsimp only
    rw [hr2]
    dsimp only
    rw [RClass.fromU16_toU16R]
    dsimp only
    rw [hr3]
    dsimp only
    rw [hr4]
    dsimp only
    rw [show (bN.buf ++ Bytes.be2 16 ++ Bytes.be2 (RClass.toU16 cls)
        ++ Bytes.be4 ttl ++ Bytes.be2 (txtWire (chunks255 content)).length)
        ++ (txtWire (chunks255 content) ++ T)
      = (bN.buf ++ Bytes.be2 16 ++ Bytes.be2 (RClass.toU16 cls)
        ++ Bytes.be4 ttl ++ Bytes.be2 (txtWire (chunks255 content)).length)
        ++ txtWire (chunks255 content) ++ T from by
      simp only [List.append_assoc]]
    have hloop := txtLoop_spec (chunks255 content)
      (((bN.buf ++ Bytes.be2 16 ++ Bytes.be2 (RClass.toU16 cls)
        ++ Bytes.be4 ttl ++ Bytes.be2 (txtWire (chunks255 content)).length)
        ++ txtWire (chunks255 content) ++ T).length + 2)
      (bN.buf ++ Bytes.be2 16 ++ Bytes.be2 (RClass.toU16 cls)
        ++ Bytes.be4 ttl ++ Bytes.be2 (txtWire (chunks255 content)).length)
      T O 0 (txtWire (chunks255 content)).length
      (chunks255_lt content.length content le_rfl)
      (by omega) hWrd
      (by
        simp only [List.length_append]
        omega)
    rw [show (bN.buf ++ Bytes.be2 16 ++ Bytes.be2 (RClass.toU16 cls)
        ++ Bytes.be4 ttl
        ++ Bytes.be2 (txtWire (chunks255 content)).length).length
      = bN.buf.length + 10 from by simp [Bytes.be2, Bytes.be4]] at hloop
    rw [chunks255_join content.length content le_rfl] at hloop
    rw [hloop]
    dsimp only
    rw [if_pos hutf]
    rw [show b'.pos = bN.buf.length + 10
      + (txtWire (chunks255 content)).length from by rw [hpos', hNa]]

/-- Every supported record kind: a successful `Record::to_bytes` appends
exactly the bytes that `Record::from_bytes` reads back to the same
record. -/
theorem recordToBytes_spec (r : Record) (b b' : Bytes)
    (hrun : Record.toBytes r b = some b') (hok : RecordOK r) (G : Set Nat)
    (hG : GoodOccs b.buf b.occs G) (halign : b.pos = b.buf.length)
    (hfits : b'.buf.length ≤ 16384) : RecordSpecOut r b b' G := by
  cases r with
  | a nm cls ttl addr =>
    exact record_a_spec nm cls ttl addr b b' hrun hok G hG halign hfits
  | ns nm cls ttl host =>
    exact record_ns_spec nm cls ttl host b b' hrun hok G hG halign hfits
  | md nm cls ttl host =>
    exact record_md_spec nm cls ttl host b b' hrun hok G hG halign hfits
  | mf nm cls ttl host =>
    exact record_mf_spec nm cls ttl host b b' hrun hok G hG halign hfits
  | cname nm cls ttl host =>
    exact record_cname_spec nm cls ttl host b b' hrun hok G hG halign
      hfits
  | soa nm cls ttl origin mailbox version refresh retry expire minimum =>
    exact record_soa_spec nm cls ttl origin mailbox version refresh retry
      expire minimum b b' hrun hok G hG halign hfits
  | mb nm cls ttl host =>
    exact record_mb_spec nm cls ttl host b b' hrun hok G hG halign hfits
  | mg nm cls ttl host =>
    exact record_mg_spec nm cls ttl host b b' hrun hok G hG halign hfits
  | mr nm cls ttl host =>
    exact record_mr_spec nm cls ttl host b b' hrun hok G hG halign hfits
  | null nm cls ttl data =>
    exact record_null_spec nm cls ttl data b b' hrun hok G hG halign
      hfits
  | wks nm cls ttl addr protocol data =>
    exact record_wks_spec nm cls ttl addr protocol data b b' hrun hok G
      hG halign hfits
  | ptr nm cls ttl host =>
    exact record_ptr_spec nm cls ttl host b b' hrun hok G hG halign hfits
  | hinfo nm cls ttl cpu os =>
    exact record_hinfo_spec nm cls ttl cpu os b b' hrun hok G hG halign
      hfits
  | minfo nm cls ttl rM eM =>
    exact record_minfo_spec nm cls ttl rM eM b b' hrun hok G hG halign
      hfits
  | mx nm cls ttl priority host =>
    exact record_mx_spec nm cls ttl priority host b b' hrun hok G hG
      halign hfits
  | txt nm cls ttl content =>
    exact record_txt_spec nm cls ttl content b b' hrun hok G hG halign
      hfits
  | aaaa nm cls ttl addr16 =>
    exact record_aaaa_spec nm cls ttl addr16 b b' hrun hok G hG halign
      hfits

/-- Weak shape of an encode step: cursor aligned to the buffer end before
and after, and the buffer only grows. -/
def GA (b b' : Bytes) : Prop :=
  b.pos = b.buf.length ∧ b'.pos = b'.buf.length ∧
  b.buf.length ≤ b'.buf.length

theorem GA.trans {a b c : Bytes} (h1 : GA a b) (h2 : GA b c) : GA a c :=
  ⟨h1.1, h2.2.1, le_trans h1.2.2 h2.2.2⟩

theorem GA_write (b : Bytes) (x : Nat) (h : b.pos = b.buf.length) :
    GA b (b.write x) := by
  refine ⟨h, ?_, ?_⟩
  · rw [Bytes.write_pos, Bytes.write_buf, h]
    simp
  · rw [Bytes.write_buf]
    simp

theorem GA_writeAll (b : Bytes) (l : List Nat)
    (h : b.pos = b.buf.length) : GA b (b.writeAll l) := by
  refine ⟨h, ?_, ?_⟩
  · rw [Bytes.writeAll_pos, Bytes.writeAll_buf, h]
    simp
  · rw [Bytes.writeAll_buf]
    simp

theorem GA_writeU16 (b : Bytes) (v : Nat) (h : b.pos = b.buf.length) :
    GA b (b.writeU16 v) := by
  refine ⟨h, ?_, ?_⟩
  · rw [Bytes.writeU16_pos, Bytes.writeU16_buf, h]
    simp [Bytes.be2]
  · rw [Bytes.writeU16_buf]
    simp

theorem GA_writeU32 (b : Bytes) (v : Nat) (h : b.pos = b.buf.length) :
    GA b (b.writeU32 v) := by
  refine ⟨h, ?_, ?_⟩
  · rw [Bytes.writeU32_pos, Bytes.writeU32_buf, h]
    simp [Bytes.be4]
  · rw [Bytes.writeU32_buf]
    simp

theorem GA_setU16 (b : Bytes) (q v : Nat) (h : b.pos = b.buf.length) :
    GA b (b.setU16 q v) := by
  refine ⟨h, ?_, ?_⟩
  · rw [setU16_pos, setU16_buf_len, h]
  · rw [setU16_buf_len]

theorem GA_name {n : Name} {b b' : Bytes}
    (hrun : Name.toBytes n b = some b') (h : b.pos = b.buf.length) :
    GA b b' := by
  obtain ⟨⟨c, hc⟩, ha⟩ := nameToBytes_shape hrun h
  refine ⟨h, ha, ?_⟩
  rw [hc]
  simp

theorem GA_txtFold (cs : List (List Nat)) (S : Bytes)
    (h : S.pos = S.buf.length) :
    GA S (cs.foldl (fun acc chunk => (acc.write (chunk.length % 256)).writeAll
      chunk) S) := by
  rw [txtFold_shape]
  refine ⟨h, ?_, ?_⟩
  · show S.pos + (txtWire cs).length = (S.buf ++ txtWire cs).length
    rw [h]
    simp
  · show S.buf.length ≤ (S.buf ++ txtWire cs).length
    simp

theorem GA_fixed (bN : Bytes) (x y z : Nat) (h : bN.pos = bN.buf.length) :
    GA bN (((bN.writeU16 x).writeU16 y).writeU32 z) := by
  have g1 := GA_writeU16 bN x h
  have g2 := GA_writeU16 (bN.writeU16 x) y g1.2.1
  have g3 := GA_writeU32 ((bN.writeU16 x).writeU16 y) z g2.2.1
  exact (g1.trans g2).trans g3

/-- Weak shape of `Record::to_bytes`: a successful encode leaves the
cursor at the end of a buffer that only grew. -/
theorem recordToBytes_GA (r : Record) (b b' : Bytes)
    (hrun : Record.toBytes r b = some b')
    (halign : b.pos = b.buf.length) : GA b b' := by
  unfold Record.toBytes at hrun
  simp only [bind, Option.bind] at hrun
  split at hrun
  · cases hrun
  rename_i bN hrunN
  have g1 : GA b bN := GA_name hrunN halign
  cases r with
  | a nm cls ttl addr =>
    dsimp only at hrun
    injection hrun with hrun
    simp only [Record.code, Record.cls, Record.ttl] at hrun
    rw [← hrun]
    have g2 := g1.trans (GA_fixed bN 1 (RClass.toU16 cls) ttl g1.2.1)
    have g3 := g2.trans (GA_writeU16 _ 4 g2.2.1)
    exact g3.trans (GA_writeAll _ (ipv4Octets addr) g3.2.1)
  | ns nm cls ttl host =>
    dsimp only at hrun
    simp only [Record.code, Record.cls, Record.ttl] at hrun
    split at hrun
    · cases hrun
    rename_i bH hrunH
    injection hrun with hrun
    rw [← hrun]
    have g2 := g1.trans (GA_fixed bN 2 (RClass.toU16 cls) ttl g1.2.1)
    have g3 := g2.trans (GA_writeU16 _ 0 g2.2.1)
    have g4 := g3.trans (GA_name hrunH g3.2.1)
    exact g4.trans (GA_setU16 _ _ _ g4.2.1)
  | md nm cls ttl host =>
    dsimp only at hrun
    simp only [Record.code, Record.cls, Record.ttl] at hrun
    split at hrun
    · cases hrun
    rename_i bH hrunH
    injection hrun with hrun
    rw [← hrun]
    have g2 := g1.trans (GA_fixed bN 3 (RClass.toU16 cls) ttl g1.2.1)
    have g3 := g2.trans (GA_writeU16 _ 0 g2.2.1)
    have g4 := g3.trans (GA_name hrunH g3.2.1)
    exact g4.trans (GA_setU16 _ _ _ g4.2.1)
  | mf nm cls ttl host =>
    dsimp only at hrun
    simp only [Record.code, Record.cls, Record.ttl] at hrun
    split at hrun
    · cases hrun
    rename_i bH hrunH
    injection hrun with hrun
    rw [← hrun]
    have g2 := g1.trans (GA_fixed bN 4 (RClass.toU16 cls) ttl g1.2.1)
    have g3 := g2.trans (GA_writeU16 _ 0 g2.2.1)
    have g4 := g3.trans (GA_name hrunH g3.2.1)
    exact g4.trans (GA_setU16 _ _ _ g4.2.1)
  | cname nm cls ttl host =>
    dsimp only at hrun
    simp only [Record.code, Record.cls, Record.ttl] at hrun
    split at hrun
    · cases hrun
    rename_i bH hrunH
    injection hrun with hrun
    rw [← hrun]
    have g2 := g1.trans (GA_fixed bN 5 (RClass.toU16 cls) ttl g1.2.1)
    have g3 := g2.trans (GA_writeU16 _ 0 g2.2.1)
    have g4 := g3.trans (GA_name hrunH g3.2.1)
    exact g4.trans (GA_setU16 _ _ _ g4.2.1)
  | soa nm cls ttl origin mailbox version refresh retry expire minimum =>
    dsimp only at hrun
    simp only [Record.code, Record.cls, Record.ttl] at hrun
    split at hrun
    · cases hrun
    rename_i bH1 hrunH1
    simp only [bind, Option.bind] at hrun
    split at hrun
    · cases hrun
    rename_i bH2 hrunH2
    injection hrun with hrun
    rw [← hrun]
    have g2 := g1.trans (GA_fixed bN 6 (RClass.toU16 cls) ttl g1.2.1)
    have g3 := g2.trans (GA_writeU16 _ 0 g2.2.1)
    have g4 := g3.trans (GA_name hrunH1 g3.2.1)
    have g5 := g4.trans (GA_name hrunH2 g4.2.1)
    have g6 := g5.trans (GA_writeU32 _ version g5.2.1)
    have g7 := g6.trans (GA_writeU32 _ refresh g6.2.1)
    have g8 := g7.trans (GA_writeU32 _ retry g7.2.1)
    have g9 := g8.trans (GA_writeU32 _ expire g8.2.1)
    have g10 := g9.trans (GA_writeU32 _ minimum g9.2.1)
    exact g10.trans (GA_setU16 _ _ _ g10.2.1)
  | mb nm cls ttl host =>
    dsimp only at hrun
    simp only [Record.code, Record.cls, Record.ttl] at hrun
    split at hrun
    · cases hrun
    rename_i bH hrunH
    injection hrun with hrun
    rw [← hrun]
    have g2 := g1.trans (GA_fixed bN 7 (RClass.toU16 cls) ttl g1.2.1)
    have g3 := g2.trans (GA_writeU16 _ 0 g2.2.1)
    have g4 := g3.trans (GA_name hrunH g3.2.1)
    exact g4.trans (GA_setU16 _ _ _ g4.2.1)
  | mg nm cls ttl host =>
    dsimp only at hrun
    simp only [Record.code, Record.cls, Record.ttl] at hrun
    split at hrun
    · cases hrun
    rename_i bH hrunH
    injection hrun with hrun
    rw [← hrun]
    have g2 := g1.trans (GA_fixed bN 8 (RClass.toU16 cls) ttl g1.2.1)
    have g3 := g2.trans (GA_writeU16 _ 0 g2.2.1)
    have g4 := g3.trans (GA_name hrunH g3.2.1)
    exact g4.trans (GA_setU16 _ _ _ g4.2.1)
  | mr nm cls ttl host =>
    dsimp only at hrun
    simp only [Record.code, Record.cls, Record.ttl] at hrun
    split at hrun
    · cases hrun
    rename_i bH hrunH
    injection hrun with hrun
    rw [← hrun]
    have g2 := g1.trans (GA_fixed bN 9 (RClass.toU16 cls) ttl g1.2.1)
    have g3 := g2.trans (GA_writeU16 _ 0 g2.2.1)
    have g4 := g3.trans (GA_name hrunH g3.2.1)
    exact g4.trans (GA_setU16 _ _ _ g4.2.1)
  | null nm cls ttl data =>
    dsimp only at hrun
    injection hrun with hrun
    simp only [Record.code, Record.cls, Record.ttl] at hrun
    rw [← hrun]
    have g2 := g1.trans (GA_fixed bN 10 (RClass.toU16 cls) ttl g1.2.1)
    have g3 := g2.trans (GA_writeU16 _ (data.length % 65536) g2.2.1)
    exact g3.trans (GA_writeAll _ data g3.2.1)
  | wks nm cls ttl addr protocol data =>
    dsimp only at hrun
    injection hrun with hrun
    simp only [Record.code, Record.cls, Record.ttl] at hrun
    rw [← hrun]
    have g2 := g1.trans (GA_fixed bN 11 (RClass.toU16 cls) ttl g1.2.1)
    have g3 := g2.trans (GA_writeU16 _ 0 g2.2.1)
    have g4 := g3.trans (GA_writeAll _ (ipv4Octets addr) g3.2.1)
    have g5 := g4.trans (GA_write _ protocol g4.2.1)
    have g6 := g5.trans (GA_writeAll _ data g5.2.1)
    exact g6.trans (GA_setU16 _ _ _ g6.2.1)
  | ptr nm cls ttl host =>
    dsimp only at hrun
    simp only [Record.code, Record.cls, Record.ttl] at hrun
    split at hrun
    · cases hrun
    rename_i bH hrunH
    injection hrun with hrun
    rw [← hrun]
    have g2 := g1.trans (GA_fixed bN 12 (RClass.toU16 cls) ttl g1.2.1)
    have g3 := g2.trans (GA_writeU16 _ 0 g2.2.1)
    have g4 := g3.trans (GA_name hrunH g3.2.1)
    exact g4.trans (GA_setU16 _ _ _ g4.2.1)
  | hinfo nm cls ttl cpu os =>
    dsimp only at hrun
    injection hrun with hrun
    simp only [Record.code, Record.cls, Record.ttl] at hrun
    rw [← hrun]
    have g2 := g1.trans (GA_fixed bN 13 (RClass.toU16 cls) ttl g1.2.1)
    have g3 := g2.trans (GA_writeU16 _ 0 g2.2.1)
    have g4 := g3.trans (GA_write _ (cpu.length % 256) g3.2.1)
    have g5 := g4.trans (GA_writeAll _ cpu g4.2.1)
    have g6 := g5.trans (GA_write _ (os.length % 256) g5.2.1)
    have g7 := g6.trans (GA_writeAll _ os g6.2.1)
    exact g7.trans (GA_setU16 _ _ _ g7.2.1)
  | minfo nm cls ttl rM eM =>
    dsimp only at hrun
    simp only [Record.code, Record.cls, Record.ttl] at hrun
    split at hrun
    · cases hrun
    rename_i bH1 hrunH1
    simp only [bind, Option.bind] at hrun
    split at hrun
    · cases hrun
    rename_i bH2 hrunH2
    injection hrun with hrun
    rw [← hrun]
    have g2 := g1.trans (GA_fixed bN 14 (RClass.toU16 cls) ttl g1.2.1)
    have g3 := g2.trans (GA_writeU16 _ 0 g2.2.1)
    have g4 := g3.trans (GA_name hrunH1 g3.2.1)
    have g5 := g4.trans (GA_name hrunH2 g4.2.1)
    exact g5.trans (GA_setU16 _ _ _ g5.2.1)
  | mx nm cls ttl priority host =>
    dsimp only at hrun
    simp only [Record.code, Record.cls, Record.ttl] at hrun
    split at hrun
    · cases hrun
    rename_i bH hrunH
    injection hrun with hrun
    rw [← hrun]
    have g2 := g1.trans (GA_fixed bN 15 (RClass.toU16 cls) ttl g1.2.1)
    have g3 := g2.trans (GA_writeU16 _ 0 g2.2.1)
    have g4 := g3.trans (GA_writeU16 _ priority g3.2.1)
    have g5 := g4.trans (GA_name hrunH g4.2.1)
    exact g5.trans (GA_setU16 _ _ _ g5.2.1)
  | txt nm cls ttl content =>
    dsimp only at hrun
    injection hrun with hrun
    simp only [Record.code, Record.cls, Record.ttl] at hrun
    rw [← hrun]
    have g2 := g1.trans (GA_fixed bN 16 (RClass.toU16 cls) ttl g1.2.1)
    have g3 := g2.trans (GA_writeU16 _ 0 g2.2.1)
    have g4 := g3.trans (GA_txtFold (chunks255 content) _ g3.2.1)
    exact g4.trans (GA_setU16 _ _ _ g4.2.1)
  | aaaa nm cls ttl addr16 =>
    dsimp only at hrun
    injection hrun with hrun
    simp only [Record.code, Record.cls, Record.ttl] at hrun
    rw [← hrun]
    have g2 := g1.trans (GA_fixed bN 28 (RClass.toU16 cls) ttl g1.2.1)
    have g3 := g2.trans (GA_writeU16 _ 16 g2.2.1)
    exact g3.trans (GA_writeAll _ addr16 g3.2.1)

/-- Weak shape of `Question::to_bytes`. -/
theorem questionToBytes_GA (q : Question) (b b' : Bytes)
    (hrun : Question.toBytes q b = some b')
    (halign : b.pos = b.buf.length) : GA b b' := by
  unfold Question.toBytes at hrun
  simp only [bind, Option.bind] at hrun
  split at hrun
  · cases hrun
  rename_i bN hrunN
  injection hrun with hrun
  rw [← hrun]
  have g1 : GA b bN := GA_name hrunN halign
  have g2 := g1.trans (GA_writeU16 _ (QuestionType.toU16 q.qType)
    g1.2.1)
  exact g2.trans (GA_writeU16 _ (QuestionClass.toU16 q.qClass) g2.2.1)

/-- Weak shape of `encode_all`. -/
theorem encodeAll_GA {α : Type} (enc : α → Bytes → Option Bytes) :
    ∀ (xs : List α) (b bF : Bytes),
    (∀ x b0 b1, x ∈ xs → enc x b0 = some b1 → b0.pos = b0.buf.length
      → GA b0 b1) →
    encodeAll enc xs b = some bF → b.pos = b.buf.length → GA b bF := by
  intro xs
  induction xs with
  | nil =>
    intro b bF hstep hrun hal
    unfold encodeAll at hrun
    injection hrun with hrun
    rw [← hrun]
    exact ⟨hal, hal, le_rfl⟩
  | cons x rest ih =>
    intro b bF hstep hrun hal
    unfold encodeAll at hrun
    simp only [bind, Option.bind] at hrun
    split at hrun
    · cases hrun
    rename_i b1 hrun1
    have g1 := hstep x b b1 (List.mem_cons_self _ _) hrun1 hal
    exact g1.trans (ih b1 bF
      (fun y b0 b1' hy => hstep y b0 b1' (List.mem_cons_of_mem _ hy))
      hrun g1.2.1)

/-- The conclusion bundle of one encoded item, shared by questions and
records. -/
def ItemSpecOut {α : Type} (dec : Bytes → Except DecErr (α × Bytes))
    (x : α) (b b' : Bytes) (G : Set Nat) : Prop :=
  (∃ code, b'.buf = b.buf ++ code) ∧ b'.pos = b'.buf.length ∧
  b.pos < b'.pos ∧
  GoodOccs b'.buf b'.occs (G ∪ {y | b.pos ≤ y ∧ y < b'.pos}) ∧
  ∀ T O, dec ⟨b'.buf ++ T, b.pos, O⟩ = .ok (x, ⟨b'.buf ++ T, b'.pos, O⟩)

/-- A whole encoded section round-trips through `decode_n`. -/
theorem encodeAll_spec {α : Type} (enc : α → Bytes → Option Bytes)
    (dec : Bytes → Except DecErr (α × Bytes)) :
    ∀ (xs : List α) (b bF : Bytes) (G : Set Nat),
    encodeAll enc xs b = some bF →
    (∀ x b0 b1, x ∈ xs → enc x b0 = some b1 → b0.pos = b0.buf.length
      → GA b0 b1) →
    (∀ x b0 b1 G0, x ∈ xs → enc x b0 = some b1 →
      GoodOccs b0.buf b0.occs G0 → b0.pos = b0.buf.length →
      b1.buf.length ≤ 16384 → ItemSpecOut dec x b0 b1 G0) →
    GoodOccs b.buf b.occs G → b.pos = b.buf.length →
    bF.buf.length ≤ 16384 →
    (∃ code, bF.buf = b.buf ++ code) ∧ bF.pos = bF.buf.length ∧
    b.pos ≤ bF.pos ∧
    GoodOccs bF.buf bF.occs (G ∪ {y | b.pos ≤ y ∧ y < bF.pos}) ∧
    ∀ T O, decodeN dec xs.length ⟨bF.buf ++ T, b.pos, O⟩
      = .ok (xs, ⟨bF.buf ++ T, bF.pos, O⟩) := by
  intro xs
  induction xs with
  | nil =>
    intro b bF G hrun hga hitem hG hal hfit
    unfold encodeAll at hrun
    injection hrun with hrun
    subst hrun
    refine ⟨⟨[], by simp⟩, hal, le_rfl, ?_, ?_⟩
    · refine hG.mono ?_ ?_
      · intro x hx
        exact Or.inl hx
      · intro x hx
        rcases hx with hx | hx
        · exact hG.1 x hx
        · obtain ⟨hxa, hxb⟩ := hx
          omega
    · intro T O
      simp [decodeN]
  | cons x rest ih =>
    intro b bF G hrun hga hitem hG hal hfit
    unfold encodeAll at hrun
    simp only [bind, Option.bind] at hrun
    split at hrun
    · cases hrun
    rename_i b1 hrun1
    have grest : GA b1 bF := encodeAll_GA enc rest b1 bF
      (fun y b0 b1' hy => hga y b0 b1' (List.mem_cons_of_mem _ hy))
      hrun (hga x b b1 (List.mem_cons_self _ _) hrun1 hal).2.1
    have hfit1 : b1.buf.length ≤ 16384 := le_trans grest.2.2 hfit
    have hsp1 := hitem x b b1 G (List.mem_cons_self _ _) hrun1 hG hal
      hfit1
    obtain ⟨⟨c1, hc1⟩, hal1, hlt1, hG1, hdec1⟩ := hsp1
    obtain ⟨⟨c2, hc2⟩, halF, hleF, hGF, hdecF⟩ := ih b1 bF
      (G ∪ {y | b.pos ≤ y ∧ y < b1.pos}) hrun
      (fun y b0 b1' hy => hga y b0 b1' (List.mem_cons_of_mem _ hy))
      (fun y b0 b1' G0 hy => hitem y b0 b1' G0
        (List.mem_cons_of_mem _ hy))
      hG1 hal1 hfit
    refine ⟨⟨c1 ++ c2, by rw [hc2, hc1, List.append_assoc]⟩, halF,
      by omega, ?_, ?_⟩
    · refine hGF.mono ?_ ?_
      · intro y hy
        rcases hy with hy | hy
        · rcases hy with hy | hy
          · exact Or.inl hy
          · obtain ⟨hya, hyb⟩ := hy
            have : b1.pos ≤ bF.pos := hleF
            exact Or.inr ⟨hya, by omega⟩
        · obtain ⟨hya, hyb⟩ := hy
          exact Or.inr ⟨by omega, hyb⟩
      · intro y hy
        refine hGF.1 y ?_
        rcases hy with hy | hy
        · exact Or.inl (Or.inl hy)
        · obtain ⟨hya, hyb⟩ := hy
          by_cases hc : y < b1.pos
          · exact Or.inl (Or.inr ⟨hya, hc⟩)
          · exact Or.inr ⟨by omega, hyb⟩
    · intro T O
      rw [show (x :: rest).length = rest.length + 1 from rfl]
      simp only [decodeN, bind, Except.bind]
      rw [show bF.buf ++ T = b1.buf ++ (c2 ++ T) from by
        rw [hc2, List.append_assoc]]
      rw [hdec1 (c2 ++ T) O]
      dsimp only
      rw [show b1.buf ++ (c2 ++ T) = bF.buf ++ T from by
        rw [hc2, List.append_assoc]]
      rw [hdecF T O]

/-- `Question::to_bytes` in result-as-hypothesis form. -/
theorem questionItem_spec (q : Question) (b b1 : Bytes) (G : Set Nat)
    (hok : NameOK q.name) (hrun : Question.toBytes q b = some b1)
    (hG : GoodOccs b.buf b.occs G) (halign : b.pos = b.buf.length)
    (hfits : b1.buf.length ≤ 16384) :
    ItemSpecOut Question.fromBytes q b b1 G := by
  have h16 : b.buf.length ≤ 16384 :=
    le_trans (questionToBytes_GA q b b1 hrun halign).2.2 hfits
  obtain ⟨b2, hrun2, hshape, hal2, hpos2, hG2, hdec2⟩ :=
    questionToBytes_spec q hok b G hG halign h16
  rw [hrun] at hrun2
  injection hrun2 with hrun2
  subst hrun2
  exact ⟨hshape, hal2, hpos2, hG2, hdec2⟩

/-- The twelve bytes `Header::to_bytes` appends. -/
def headerWire (h : Header) : List Nat :=
  Bytes.be2 h.id
    ++ ((boolBit h.isResponse <<< 7) ||| (OperationCode.toU8 h.opCode <<< 3)
      ||| (boolBit h.isAuthority <<< 2) ||| (boolBit h.isTruncated <<< 1)
      ||| boolBit h.recursionDesired)
    :: ((boolBit h.recursionAvailable <<< 7)
      ||| ResponseCode.toU8 h.respCode)
    :: (Bytes.be2 h.questionCount ++ Bytes.be2 h.answerCount
      ++ Bytes.be2 h.authorityCount ++ Bytes.be2 h.additionalCount)

theorem headerWire_length (h : Header) : (headerWire h).length = 12 := by
  simp [headerWire, Bytes.be2]

theorem headerToBytes_shape (h : Header) (b : Bytes) :
    (Header.toBytes h b).buf = b.buf ++ headerWire h ∧
    (Header.toBytes h b).pos = b.pos + 12 ∧
    (Header.toBytes h b).occs = b.occs := by
  refine ⟨?_, ?_, ?_⟩
  · unfold Header.toBytes
    rw [Bytes.writeU16_buf, Bytes.writeU16_buf, Bytes.writeU16_buf,
      Bytes.writeU16_buf, Bytes.write_buf, Bytes.write_buf,
      Bytes.writeU16_buf]
    simp [headerWire, List.append_assoc]
  · unfold Header.toBytes
    rw [Bytes.writeU16_pos, Bytes.writeU16_pos, Bytes.writeU16_pos,
      Bytes.writeU16_pos, Bytes.write_pos, Bytes.write_pos,
      Bytes.writeU16_pos]
  · unfold Header.toBytes
    rw [Bytes.writeU16_occs, Bytes.writeU16_occs, Bytes.writeU16_occs,
      Bytes.writeU16_occs, Bytes.write_occs, Bytes.write_occs,
      Bytes.writeU16_occs]

theorem codes1_bits (r a t d : Bool) (op : OperationCode) :
    ((((boolBit r <<< 7) ||| (OperationCode.toU8 op <<< 3)
        ||| (boolBit a <<< 2) ||| (boolBit t <<< 1) ||| boolBit d)
        >>> 7 &&& 1) == 1) = r ∧
    OperationCode.fromU8 ((((boolBit r <<< 7)
        ||| (OperationCode.toU8 op <<< 3) ||| (boolBit a <<< 2)
        ||| (boolBit t <<< 1) ||| boolBit d) &&& (15 <<< 3)) >>> 3)
      = some op ∧
    ((((boolBit r <<< 7) ||| (OperationCode.toU8 op <<< 3)
        ||| (boolBit a <<< 2) ||| (boolBit t <<< 1) ||| boolBit d)
        >>> 2 &&& 1) == 1) = a ∧
    ((((boolBit r <<< 7) ||| (OperationCode.toU8 op <<< 3)
        ||| (boolBit a <<< 2) ||| (boolBit t <<< 1) ||| boolBit d)
        >>> 1 &&& 1) == 1) = t ∧
    ((((boolBit r <<< 7) ||| (OperationCode.toU8 op <<< 3)
        ||| (boolBit a <<< 2) ||| (boolBit t <<< 1) ||| boolBit d)
        &&& 1) == 1) = d := by
  cases r <;> cases a <;> cases t <;> cases d <;> cases op <;> decide

theorem codes2_bits (ra : Bool) (rc : ResponseCode) :
    ((((boolBit ra <<< 7) ||| ResponseCode.toU8 rc) >>> 7 &&& 1) == 1)
      = ra ∧
    ResponseCode.fromU8 (((boolBit ra <<< 7) ||| ResponseCode.toU8 rc)
      &&& 15) = some rc := by
  cases ra <;> cases rc <;> decide

/-- `Header::from_bytes` reads back exactly what `Header::to_bytes`
wrote. -/
theorem header_decode (h : Header) (P T : List Nat)
    (O : List (List Nat × Nat)) (hid : h.id < 65536)
    (hqc : h.questionCount < 65536) (hac : h.answerCount < 65536)
    (hauc : h.authorityCount < 65536)
    (hadc : h.additionalCount < 65536) :
    Header.fromBytes ⟨P ++ headerWire h ++ T, P.length, O⟩
      = .ok (h, ⟨P ++ headerWire h ++ T, P.length + 12, O⟩) := by
  unfold Header.fromBytes
  rw [show P ++ headerWire h ++ T
    = P ++ Bytes.be2 h.id ++ (((boolBit h.isResponse <<< 7)
      ||| (OperationCode.toU8 h.opCode <<< 3)
      ||| (boolBit h.isAuthority <<< 2) ||| (boolBit h.isTruncated <<< 1)
      ||| boolBit h.recursionDesired)
      :: ((boolBit h.recursionAvailable <<< 7)
        ||| ResponseCode.toU8 h.respCode)
      :: (Bytes.be2 h.questionCount ++ (Bytes.be2 h.answerCount
        ++ (Bytes.be2 h.authorityCount
        ++ (Bytes.be2 h.additionalCount ++ T))))) from by
    simp only [headerWire, List.append_assoc, List.cons_append]]
  have hr1 := Bytes.be2_readU16 h.id hid P
    (((boolBit h.isResponse <<< 7) ||| (OperationCode.toU8 h.opCode <<< 3)
      ||| (boolBit h.isAuthority <<< 2) ||| (boolBit h.isTruncated <<< 1)
      ||| boolBit h.recursionDesired)
      :: ((boolBit h.recursionAvailable <<< 7)
        ||| ResponseCode.toU8 h.respCode)
      :: (Bytes.be2 h.questionCount ++ (Bytes.be2 h.answerCount
        ++ (Bytes.be2 h.authorityCount
        ++ (Bytes.be2 h.additionalCount ++ T))))) O
  rw [hr1]
  dsimp only
  have hr2 := Bytes.read_eq (P ++ Bytes.be2 h.id)
    (((boolBit h.recursionAvailable <<< 7)
        ||| ResponseCode.toU8 h.respCode)
      :: (Bytes.be2 h.questionCount ++ (Bytes.be2 h.answerCount
        ++ (Bytes.be2 h.authorityCount
        ++ (Bytes.be2 h.additionalCount ++ T)))))
    ((boolBit h.isResponse <<< 7) ||| (OperationCode.toU8 h.opCode <<< 3)
      ||| (boolBit h.isAuthority <<< 2) ||| (boolBit h.isTruncated <<< 1)
      ||| boolBit h.recursionDesired) O
  rw [show (P ++ Bytes.be2 h.id).length = P.length + 2 from by
    simp [Bytes.be2]] at hr2
  rw [hr2]
  dsimp only
  obtain ⟨hc1, hc2, hc3, hc4, hc5⟩ := codes1_bits h.isResponse
    h.isAuthority h.isTruncated h.recursionDesired h.opCode
  rw [hc2]
  dsimp only
  have hr3 := Bytes.read_eq ((P ++ Bytes.be2 h.id)
      ++ [(boolBit h.isResponse <<< 7)
        ||| (OperationCode.toU8 h.opCode <<< 3)
        ||| (boolBit h.isAuthority <<< 2) ||| (boolBit h.isTruncated <<< 1)
        ||| boolBit h.recursionDesired])
    (Bytes.be2 h.questionCount ++ (Bytes.be2 h.answerCount
      ++ (Bytes.be2 h.authorityCount
      ++ (Bytes.be2 h.additionalCount ++ T))))
    ((boolBit h.recursionAvailable <<< 7)
      ||| ResponseCode.toU8 h.respCode) O
  rw [show ((P ++ Bytes.be2 h.id)
      ++ [(boolBit h.isResponse <<< 7)
        ||| (OperationCode.toU8 h.opCode <<< 3)
        ||| (boolBit h.isAuthority <<< 2) ||| (boolBit h.isTruncated <<< 1)
        ||| boolBit h.recursionDesired]).length = P.length + 2 + 1 from by
    simp [Bytes.be2]] at hr3
  rw [show (P ++ Bytes.be2 h.id)
      ++ ((boolBit h.isResponse <<< 7)
        ||| (OperationCode.toU8 h.opCode <<< 3)
        ||| (boolBit h.isAuthority <<< 2) ||| (boolBit h.isTruncated <<< 1)
        ||| boolBit h.recursionDesired)
      :: ((boolBit h.recursionAvailable <<< 7)
        ||| ResponseCode.toU8 h.respCode)
      :: (Bytes.be2 h.questionCount ++ (Bytes.be2 h.answerCount
        ++ (Bytes.be2 h.authorityCount
        ++ (Bytes.be2 h.additionalCount ++ T))))
    = ((P ++ Bytes.be2 h.id)
      ++ [(boolBit h.isResponse <<< 7)
        ||| (OperationCode.toU8 h.opCode <<< 3)
        ||| (boolBit h.isAuthority <<< 2) ||| (boolBit h.isTruncated <<< 1)
        ||| boolBit h.recursionDesired])
      ++ ((boolBit h.recursionAvailable <<< 7)
        ||| ResponseCode.toU8 h.respCode)
      :: (Bytes.be2 h.questionCount ++ (Bytes.be2 h.answerCount
        ++ (Bytes.be2 h.authorityCount
        ++ (Bytes.be2 h.additionalCount ++ T)))) from by
    simp only [List.append_assoc, List.cons_append, List.nil_append]]
  rw [hr3]
  dsimp only
  obtain ⟨hd1, hd2⟩ := codes2_bits h.recursionAvailable h.respCode
  rw [hd2]
  dsimp only
  rw [show ((P ++ Bytes.be2 h.id)
      ++ [(boolBit h.isResponse <<< 7)
        ||| (OperationCode.toU8 h.opCode <<< 3)
        ||| (boolBit h.isAuthority <<< 2) ||| (boolBit h.isTruncated <<< 1)
        ||| boolBit h.recursionDesired])
      ++ ((boolBit h.recursionAvailable <<< 7)
        ||| ResponseCode.toU8 h.respCode)
      :: (Bytes.be2 h.questionCount ++ (Bytes.be2 h.answerCount
        ++ (Bytes.be2 h.authorityCount
        ++ (Bytes.be2 h.additionalCount ++ T))))
    = (((P ++ Bytes.be2 h.id)
      ++ [(boolBit h.isResponse <<< 7)
        ||| (OperationCode.toU8 h.opCode <<< 3)
        ||| (boolBit h.isAuthority <<< 2) ||| (boolBit h.isTruncated <<< 1)
        ||| boolBit h.recursionDesired])
      ++ [(boolBit h.recursionAvailable <<< 7)
        ||| ResponseCode.toU8 h.respCode])
      ++ Bytes.be2 h.questionCount ++ (Bytes.be2 h.answerCount
        ++ (Bytes.be2 h.authorityCount
        ++ (Bytes.be2 h.additionalCount ++ T))) from by
    simp only [List.append_assoc, List.cons_append, List.nil_append]]
  have hr4 := Bytes.be2_readU16 h.questionCount hqc
    (((P ++ Bytes.be2 h.id)
      ++ [(boolBit h.isResponse <<< 7)
        ||| (OperationCode.toU8 h.opCode <<< 3)
        ||| (boolBit h.isAuthority <<< 2) ||| (boolBit h.isTruncated <<< 1)
        ||| boolBit h.recursionDesired])
      ++ [(boolBit h.recursionAvailable <<< 7)
        ||| ResponseCode.toU8 h.respCode])
    (Bytes.be2 h.answerCount ++ (Bytes.be2 h.authorityCount
      ++ (Bytes.be2 h.additionalCount ++ T))) O
  rw [show (((P ++ Bytes.be2 h.id)
      ++ [(boolBit h.isResponse <<< 7)
        ||| (OperationCode.toU8 h.opCode <<< 3)
        ||| (boolBit h.isAuthority <<< 2) ||| (boolBit h.isTruncated <<< 1)
        ||| boolBit h.recursionDesired])
      ++ [(boolBit h.recursionAvailable <<< 7)
        ||| ResponseCode.toU8 h.respCode]).length
    = P.length + 2 + 1 + 1 from by simp [Bytes.be2]] at hr4
  rw [hr4]
  dsimp only
  rw [← List.append_assoc]
  have hr5 := Bytes.be2_readU16 h.answerCount hac
    ((((P ++ Bytes.be2 h.id)
      ++ [(boolBit h.isResponse <<< 7)
        ||| (OperationCode.toU8 h.opCode <<< 3)
        ||| (boolBit h.isAuthority <<< 2) ||| (boolBit h.isTruncated <<< 1)
        ||| boolBit h.recursionDesired])
      ++ [(boolBit h.recursionAvailable <<< 7)
        ||| ResponseCode.toU8 h.respCode])
      ++ Bytes.be2 h.questionCount)
    (Bytes.be2 h.authorityCount ++ (Bytes.be2 h.additionalCount ++ T)) O
  rw [show ((((P ++ Bytes.be2 h.id)
      ++ [(boolBit h.isResponse <<< 7)
        ||| (OperationCode.toU8 h.opCode <<< 3)
        ||| (boolBit h.isAuthority <<< 2) ||| (boolBit h.isTruncated <<< 1)
        ||| boolBit h.recursionDesired])
      ++ [(boolBit h.recursionAvailable <<< 7)
        ||| ResponseCode.toU8 h.respCode])
      ++ Bytes.be2 h.questionCount).length
    = P.length + 2 + 1 + 1 + 2 from by simp [Bytes.be2]] at hr5
  rw [hr5]
  dsimp only
  rw [← List.append_assoc]
  have hr6 := Bytes.be2_readU16 h.authorityCount hauc
    (((((P ++ Bytes.be2 h.id)
      ++ [(boolBit h.isResponse <<< 7)
        ||| (OperationCode.toU8 h.opCode <<< 3)
        ||| (boolBit h.isAuthority <<< 2) ||| (boolBit h.isTruncated <<< 1)
        ||| boolBit h.recursionDesired])
      ++ [(boolBit h.recursionAvailable <<< 7)
        ||| ResponseCode.toU8 h.respCode])
      ++ Bytes.be2 h.questionCount)
      ++ Bytes.be2 h.answerCount)
    (Bytes.be2 h.additionalCount ++ T) O
  rw [show (((((P ++ Bytes.be2 h.id)
      ++ [(boolBit h.isResponse <<< 7)
        ||| (OperationCode.toU8 h.opCode <<< 3)
        ||| (boolBit h.isAuthority <<< 2) ||| (boolBit h.isTruncated <<< 1)
        ||| boolBit h.recursionDesired])
      ++ [(boolBit h.recursionAvailable <<< 7)
        ||| ResponseCode.toU8 h.respCode])
      ++ Bytes.be2 h.questionCount)
      ++ Bytes.be2 h.answerCount).length
    = P.length + 2 + 1 + 1 + 2 + 2 from by simp [Bytes.be2]] at hr6
  rw [hr6]
  dsimp only
  rw [← List.append_assoc]
  have hr7 := Bytes.be2_readU16 h.additionalCount hadc
    ((((((P ++ Bytes.be2 h.id)
      ++ [(boolBit h.isResponse <<< 7)
        ||| (OperationCode.toU8 h.opCode <<< 3)
        ||| (boolBit h.isAuthority <<< 2) ||| (boolBit h.isTruncated <<< 1)
        ||| boolBit h.recursionDesired])
      ++ [(boolBit h.recursionAvailable <<< 7)
        ||| ResponseCode.toU8 h.respCode])
      ++ Bytes.be2 h.questionCount)
      ++ Bytes.be2 h.answerCount)
      ++ Bytes.be2 h.authorityCount) T O
  rw [show ((((((P ++ Bytes.be2 h.id)
      ++ [(boolBit h.isResponse <<< 7)
        ||| (OperationCode.toU8 h.opCode <<< 3)
        ||| (boolBit h.isAuthority <<< 2) ||| (boolBit h.isTruncated <<< 1)
        ||| boolBit h.recursionDesired])
      ++ [(boolBit h.recursionAvailable <<< 7)
        ||| ResponseCode.toU8 h.respCode])
      ++ Bytes.be2 h.questionCount)
      ++ Bytes.be2 h.answerCount)
      ++ Bytes.be2 h.authorityCount).length
    = P.length + 2 + 1 + 1 + 2 + 2 + 2 from by simp [Bytes.be2]] at hr7
  rw [hr7]
  dsimp only
  rw [hc1, hc3, hc4, hc5, hd1]

/-- A message the encoder can emit faithfully: the header counts equal
the section lengths (and fit in `u16`), every owner and host name is
well formed, and every record payload is in range. -/
def ValidMessage (m : Message) : Prop :=
  m.header.id < 65536 ∧
  m.header.questionCount = m.questions.length ∧
  m.header.answerCount = m.answerRecords.length ∧
  m.header.authorityCount = m.authorityRecords.length ∧
  m.header.additionalCount = m.additionalRecords.length ∧
  m.questions.length < 65536 ∧ m.answerRecords.length < 65536 ∧
  m.authorityRecords.length < 65536 ∧
  m.additionalRecords.length < 65536 ∧
  (∀ q ∈ m.questions, NameOK q.name) ∧
  (∀ r ∈ m.answerRecords, RecordOK r) ∧
  (∀ r ∈ m.authorityRecords, RecordOK r) ∧
  (∀ r ∈ m.additionalRecords, RecordOK r)

/-- The whole-message round trip, given that the encoded form stays
within 16384 bytes (so that every stored compression offset fits the
14-bit pointer format). -/
theorem messageRoundTrip (m : Message) (bF : Bytes)
    (hvalid : ValidMessage m)
    (hrun : Message.toBytes m Bytes.new = some bF)
    (hfits : bF.buf.length ≤ 16384) :
    Message.fromBytes (Bytes.fromBuf bF.buf)
      = .ok (m, ⟨bF.buf, bF.buf.length, []⟩) := by
  obtain ⟨hid, hqc, hac, hauc, hadc, hql, hal2, hul, hdl2, hokq, hokA,
    hokU, hokD⟩ := hvalid
  unfold Message.toBytes at hrun
  dsimp only at hrun
  simp only [bind, Option.bind] at hrun
  split at hrun
  · cases hrun
  rename_i b1 hrunQ
  simp only [bind, Option.bind] at hrun
  split at hrun
  · cases hrun
  rename_i b2 hrunA
  simp only [bind, Option.bind] at hrun
  split at hrun
  · cases hrun
  rename_i b3 hrunU
  have hb0buf : (Header.toBytes m.header Bytes.new).buf
      = headerWire m.header := by
    rw [(headerToBytes_shape m.header Bytes.new).1]
    rfl
  have hb0pos : (Header.toBytes m.header Bytes.new).pos = 12 := by
    rw [(headerToBytes_shape m.header Bytes.new).2.1]
    rfl
  have hb0occ : (Header.toBytes m.header Bytes.new).occs = [] := by
    rw [(headerToBytes_shape m.header Bytes.new).2.2]
    rfl
  have halign0 : (Header.toBytes m.header Bytes.new).pos
      = (Header.toBytes m.header Bytes.new).buf.length := by
    rw [hb0pos, hb0buf, headerWire_length]
  have hG0 : GoodOccs (Header.toBytes m.header Bytes.new).buf
      (Header.toBytes m.header Bytes.new).occs (∅ : Set Nat) := by
    rw [hb0occ]
    exact ⟨fun x hx => hx.elim, fun ko hko =>
      absurd hko (List.not_mem_nil ko)⟩
  have gQ := encodeAll_GA Question.toBytes m.questions _ b1
    (fun q b0' b1' hq hr hal0 => questionToBytes_GA q b0' b1' hr hal0)
    hrunQ halign0
  have gA := encodeAll_GA Record.toBytes m.answerRecords b1 b2
    (fun r b0' b1' hr hrunr hal0 => recordToBytes_GA r b0' b1' hrunr
      hal0) hrunA gQ.2.1
  have gU := encodeAll_GA Record.toBytes m.authorityRecords b2 b3
    (fun r b0' b1' hr hrunr hal0 => recordToBytes_GA r b0' b1' hrunr
      hal0) hrunU gA.2.1
  have gD := encodeAll_GA Record.toBytes m.additionalRecords b3 bF
    (fun r b0' b1' hr hrunr hal0 => recordToBytes_GA r b0' b1' hrunr
      hal0) hrun gU.2.1
  have hfit1 : b1.buf.length ≤ 16384 := by
    have := gA.2.2
    have := gU.2.2
    have := gD.2.2
    omega
  have hfit2 : b2.buf.length ≤ 16384 := by
    have := gU.2.2
    have := gD.2.2
    omega
  have hfit3 : b3.buf.length ≤ 16384 := by
    have := gD.2.2
    omega
  obtain ⟨⟨cQ, hPQ⟩, hal1, hle1, hG1, hdec1⟩ :=
    encodeAll_spec Question.toBytes Question.fromBytes m.questions _ b1
      (∅ : Set Nat) hrunQ
      (fun q b0' b1' hq hr hal0 => questionToBytes_GA q b0' b1' hr hal0)
      (fun q b0' b1' G0 hq hr hG' hal0 hf =>
        questionItem_spec q b0' b1' G0 (hokq q hq) hr hG' hal0 hf)
      hG0 halign0 hfit1
  obtain ⟨⟨cA, hPA⟩, halA, hleA, hGA2, hdec2⟩ :=
    encodeAll_spec Record.toBytes Record.fromBytes m.answerRecords b1 b2
      _ hrunA
      (fun r b0' b1' hr hrunr hal0 => recordToBytes_GA r b0' b1' hrunr
        hal0)
      (fun r b0' b1' G0 hr hrunr hG' hal0 hf =>
        recordToBytes_spec r b0' b1' hrunr (hokA r hr) G0 hG' hal0 hf)
      hG1 hal1 hfit2
  obtain ⟨⟨cU, hPU⟩, halU, hleU, hGU2, hdec3⟩ :=
    encodeAll_spec Record.toBytes Record.fromBytes m.authorityRecords b2
      b3 _ hrunU
      (fun r b0' b1' hr hrunr hal0 => recordToBytes_GA r b0' b1' hrunr
        hal0)
      (fun r b0' b1' G0 hr hrunr hG' hal0 hf =>
        recordToBytes_spec r b0' b1' hrunr (hokU r hr) G0 hG' hal0 hf)
      hGA2 halA hfit3
  obtain ⟨⟨cD, hPD⟩, halF, hleD, hGD2, hdec4⟩ :=
    encodeAll_spec Record.toBytes Record.fromBytes m.additionalRecords
      b3 bF _ hrun
      (fun r b0' b1' hr hrunr hal0 => recordToBytes_GA r b0' b1' hrunr
        hal0)
      (fun r b0' b1' G0 hr hrunr hG' hal0 hf =>
        recordToBytes_spec r b0' b1' hrunr (hokD r hr) G0 hG' hal0 hf)
      hGU2 halU hfits
  have hbF : bF.buf = headerWire m.header
      ++ (cQ ++ (cA ++ (cU ++ cD))) := by
    rw [hPD, hPU, hPA, hPQ, hb0buf]
    simp only [List.append_assoc]
  have hhdr := header_decode m.header [] (cQ ++ (cA ++ (cU ++ cD))) []
    hid (by omega) (by omega) (by omega) (by omega)
  simp only [List.nil_append, List.length_nil, Nat.zero_add] at hhdr
  have hdec1i := hdec1 (cA ++ (cU ++ cD)) []
  rw [show b1.buf ++ (cA ++ (cU ++ cD)) = bF.buf from by
    rw [hPD, hPU, hPA]
    simp only [List.append_assoc]] at hdec1i
  rw [hb0pos] at hdec1i
  have hdec2i := hdec2 (cU ++ cD) []
  rw [show b2.buf ++ (cU ++ cD) = bF.buf from by
    rw [hPD, hPU]
    simp only [List.append_assoc]] at hdec2i
  have hdec3i := hdec3 cD []
  rw [show b3.buf ++ cD = bF.buf from by rw [hPD]] at hdec3i
  have hdec4i := hdec4 [] []
  rw [List.append_nil] at hdec4i
  unfold Message.fromBytes
  simp only [bind, Except.bind]
  rw [show Bytes.fromBuf bF.buf = ⟨bF.buf, 0, []⟩ from rfl]
  rw [show (⟨bF.buf, 0, []⟩ : Bytes) = ⟨headerWire m.header
    ++ (cQ ++ (cA ++ (cU ++ cD))), 0, []⟩ from by rw [hbF]]
  rw [hhdr]
  dsimp only
  rw [show headerWire m.header ++ (cQ ++ (cA ++ (cU ++ cD))) = bF.buf
    from hbF.symm]
  rw [hqc, hdec1i]
  dsimp only
  rw [hac, hdec2i]
  dsimp only
  rw [hauc, hdec3i]
  dsimp only
  rw [hadc, hdec4i]
  dsimp only
  rw [halF]


/-! ## Claim C1: the whole-message round trip -/

/-- C1 (amended with the 16384-byte bound): for a message whose header
counts equal its section lengths and whose questions and records carry
well-formed names and in-range payloads, decoding the bytes produced by
`Message::to_bytes` on a fresh buffer yields the original message, as
long as the encoded form stays within 16384 bytes, the range a 14-bit
compression pointer can address. -/
theorem claim_c1 (m : Message) (bF : Bytes) (hvalid : ValidMessage m)
    (hrun : Message.toBytes m Bytes.new = some bF)
    (hfits : bF.buf.length ≤ 16384) :
    Message.fromBytes (Bytes.fromBuf bF.buf)
      = .ok (m, ⟨bF.buf, bF.buf.length, []⟩) :=
  messageRoundTrip m bF hvalid hrun hfits

/-- Witness for C1 at a concrete message: one question and one answer
(an A record) for the name `a.`; the answer owner name is emitted as a
compression pointer `[192, 12]` back to the question name, and decoding
the 35-byte encoding returns the message. -/
theorem claim_c1_witness :
    Message.fromBytes (Bytes.fromBuf [0, 7, 1, 0, 0, 1, 0, 1, 0, 0, 0, 0,
        1, 97, 0, 0, 1, 0, 1, 192, 12, 0, 1, 0, 1, 0, 0, 1, 44, 0, 4, 1,
        2, 3, 4])
      = .ok (⟨⟨7, false, .query, false, false, true, false, .success, 1,
          1, 0, 0⟩, [⟨⟨[[97], []]⟩, .a, .inn⟩],
          [.a ⟨[[97], []]⟩ .inn 300 16909060], [], []⟩,
        ⟨[0, 7, 1, 0, 0, 1, 0, 1, 0, 0, 0, 0, 1, 97, 0, 0, 1, 0, 1, 192,
          12, 0, 1, 0, 1, 0, 0, 1, 44, 0, 4, 1, 2, 3, 4], 35, []⟩) := by
  have hrun : Message.toBytes
      ⟨⟨7, false, .query, false, false, true, false, .success, 1, 1, 0,
        0⟩, [⟨⟨[[97], []]⟩, .a, .inn⟩],
        [.a ⟨[[97], []]⟩ .inn 300 16909060], [], []⟩ Bytes.new
      = some ⟨[0, 7, 1, 0, 0, 1, 0, 1, 0, 0, 0, 0, 1, 97, 0, 0, 1, 0, 1,
          192, 12, 0, 1, 0, 1, 0, 0, 1, 44, 0, 4, 1, 2, 3, 4], 35,
          [([97, 46], 12)]⟩ := by
    simp [Message.toBytes, Header.toBytes, encodeAll, Question.toBytes,
      Record.toBytes, Name.toBytes, Name.toBytesLoop, Name.fromLabels,
      Name.isRoot, labelsWireLen, nameText, Bytes.findFirstOcc,
      Bytes.setFirstOcc, Label.toBytes, Bytes.write, Bytes.writeAll,
      Bytes.writeU16, Bytes.writeU32, Bytes.new, Record.name,
      Record.code, Record.cls, Record.ttl, RClass.toU16,
      QuestionType.toU16, QuestionClass.toU16, OperationCode.toU8,
      ResponseCode.toU8, boolBit, ipv4Octets]
  exact claim_c1
    ⟨⟨7, false, .query, false, false, true, false, .success, 1, 1, 0, 0⟩,
      [⟨⟨[[97], []]⟩, .a, .inn⟩], [.a ⟨[[97], []]⟩ .inn 300 16909060],
      [], []⟩
    ⟨[0, 7, 1, 0, 0, 1, 0, 1, 0, 0, 0, 0, 1, 97, 0, 0, 1, 0, 1, 192, 12,
      0, 1, 0, 1, 0, 0, 1, 44, 0, 4, 1, 2, 3, 4], 35, [([97, 46], 12)]⟩
    ⟨by decide, rfl, rfl, rfl, rfl, by decide, by decide, by decide,
      by decide,
      by
        intro q hq
        rw [List.mem_singleton] at hq
        subst hq
        exact ⟨by decide, by decide⟩,
      by
        intro r hr
        rw [List.mem_singleton] at hr
        subst hr
        exact ⟨⟨by decide, by decide⟩, by decide, by decide⟩,
      by
        intro r hr
        exact absurd hr (List.not_mem_nil r),
      by
        intro r hr
        exact absurd hr (List.not_mem_nil r)⟩
    hrun (by decide)

/-! The counterexample to the unbounded round-trip claim: a valid message
whose encoding exceeds 16384 bytes. The encoder records the owner name of
the second record at offset 17025 in the compression map and encodes the
third record's identical name as the pointer `49152 ||| 17025 % 65536 =
49793`, whose bytes are `[194, 129]`; the decoder masks the pointer to 14
bits, `49793 &&& 16383 = 641`, lands inside the first record's data, reads
the byte 200 there as another pointer with a non-decreasing target, and
fails with a format error. -/

/-- The 17000-byte rdata of the first record of the counterexample. -/
def cxBig : List Nat := List.replicate 17000 200

/-- Owner name `a.` of the first counterexample record. -/
def cxNmA : Name := ⟨[[97], []]⟩

/-- Owner name `b.` of the second and third counterexample records. -/
def cxNmB : Name := ⟨[[98], []]⟩

/-- Header of the counterexample message: three answer records. -/
def cxHdr : Header :=
  ⟨0, false, .query, false, false, false, false, .success, 0, 3, 0, 0⟩

/-- The counterexample message. -/
def cxMsg : Message :=
  ⟨cxHdr, [], [.null cxNmA .inn 0 cxBig, .null cxNmB .inn 0 [],
    .null cxNmB .inn 0 []], [], []⟩

/-- The 12 header bytes of the counterexample encoding. -/
def cxH12 : List Nat := [0, 0, 0, 0, 0, 0, 0, 3, 0, 0, 0, 0]

/-- Header plus the first record up to its rdata (25 bytes). -/
def cxC25 : List Nat := [0, 0, 0, 0, 0, 0, 0, 3, 0, 0, 0, 0, 1, 97, 0,
  0, 10, 0, 1, 0, 0, 0, 0, 66, 104]

/-- The wire form of the second counterexample record. -/
def cxR2 : List Nat := [1, 98, 0, 0, 10, 0, 1, 0, 0, 0, 0, 0, 0]

/-- The wire form of the third counterexample record, whose owner name is
the compression pointer `[194, 129]`. -/
def cxR3 : List Nat := [194, 129, 0, 10, 0, 1, 0, 0, 0, 0, 0, 0]

/-- The full 17050-byte counterexample encoding. -/
def cxBuf : List Nat := cxC25 ++ (cxBig ++ (cxR2 ++ cxR3))

/-- The occurrence map after encoding the counterexample message. -/
def cxOcc : List (List Nat × Nat) := [([98, 46], 17025), ([97, 46], 12)]

/-- The encoder state after encoding the counterexample message. -/
def cxBF : Bytes := ⟨cxBuf, 17050, cxOcc⟩

theorem cxBig_length : cxBig.length = 17000 := by
  rw [show cxBig = List.replicate 17000 200 from rfl,
    List.length_replicate]

/-- `Bytes::write_all` as a single structure equation. -/
theorem writeAll_mk (b : Bytes) (l : List Nat) :
    b.writeAll l = ⟨b.buf ++ l, b.pos + l.length, b.occs⟩ := by
  calc b.writeAll l
      = ⟨(b.writeAll l).buf, (b.writeAll l).pos, (b.writeAll l).occs⟩ :=
        rfl
    _ = ⟨b.buf ++ l, b.pos + l.length, b.occs⟩ := by
        rw [Bytes.writeAll_buf, Bytes.writeAll_pos, Bytes.writeAll_occs]

/-- Encoding the name `a.` against an empty occurrence map writes the
labels and records the occurrence at the start position. -/
theorem cx_nameA (B : List Nat) (p : Nat) :
    Name.toBytes cxNmA ⟨B, p, []⟩
      = some ⟨B ++ [1, 97, 0], p + 3, [([97, 46], p)]⟩ := by
  unfold cxNmA Name.toBytes
  unfold Name.toBytesLoop
  simp only [Name.fromLabels, Name.isRoot, labelsWireLen, nameText,
    Bytes.findFirstOcc, Bytes.setFirstOcc, Label.toBytes, Bytes.write,
    Bytes.writeAll]
  norm_num
  unfold Name.toBytesLoop
  simp [Name.fromLabels, Name.isRoot, labelsWireLen, nameText,
    Bytes.findFirstOcc, Bytes.setFirstOcc, Label.toBytes, Bytes.write,
    Bytes.writeAll, List.append_assoc]

/-- Encoding the name `b.` when only `a.` has occurred writes the labels
and records the occurrence. -/
theorem cx_nameB_fresh (B : List Nat) (p : Nat) :
    Name.toBytes cxNmB ⟨B, p, [([97, 46], 12)]⟩
      = some ⟨B ++ [1, 98, 0], p + 3, [([98, 46], p), ([97, 46], 12)]⟩ := by
  unfold cxNmB Name.toBytes
  unfold Name.toBytesLoop
  simp only [Name.fromLabels, Name.isRoot, labelsWireLen, nameText,
    Bytes.findFirstOcc, Bytes.setFirstOcc, Label.toBytes, Bytes.write,
    Bytes.writeAll]
  norm_num
  unfold Name.toBytesLoop
  simp [Name.fromLabels, Name.isRoot, labelsWireLen, nameText,
    Bytes.findFirstOcc, Bytes.setFirstOcc, Label.toBytes, Bytes.write,
    Bytes.writeAll, List.append_assoc]
  rw [show (List.lookup ([98, 46] : List Nat) [([97, 46], 12)])
    = (none : Option Nat) from by decide]

/-- Encoding the name `b.` once it occurs at 17025 emits the truncated
compression pointer bytes `[194, 129]`. -/
theorem cx_nameB_ptr (B : List Nat) (p : Nat) :
    Name.toBytes cxNmB ⟨B, p, cxOcc⟩
      = some ⟨B ++ [194, 129], p + 2, cxOcc⟩ := by
  unfold cxNmB cxOcc Name.toBytes
  unfold Name.toBytesLoop
  simp [Name.fromLabels, Name.isRoot, labelsWireLen, nameText,
    Bytes.findFirstOcc, Bytes.writeU16, Bytes.writeAll, Bytes.write]

/-- Encoding the first counterexample record. -/
theorem cx_rec1 :
    Record.toBytes (.null cxNmA .inn 0 cxBig) ⟨cxH12, 12, []⟩
      = some ⟨cxC25 ++ cxBig, 17025, [([97, 46], 12)]⟩ := by
  unfold Record.toBytes
  simp only [Record.name, Record.code, Record.cls, Record.ttl, bind,
    Option.bind]
  rw [cx_nameA]
  simp [Bytes.writeU16, Bytes.writeU32, writeAll_mk, RClass.toU16,
    cxBig_length, cxH12, cxC25, List.append_assoc]

/-- Encoding the second counterexample record. -/
theorem cx_rec2 :
    Record.toBytes (.null cxNmB .inn 0 [])
        ⟨cxC25 ++ cxBig, 17025, [([97, 46], 12)]⟩
      = some ⟨(cxC25 ++ cxBig) ++ cxR2, 17038, cxOcc⟩ := by
  unfold Record.toBytes
  simp only [Record.name, Record.code, Record.cls, Record.ttl, bind,
    Option.bind]
  rw [cx_nameB_fresh]
  simp [Bytes.writeU16, Bytes.writeU32, writeAll_mk, RClass.toU16,
    cxR2, cxOcc, List.append_assoc]

/-- Encoding the third counterexample record: its owner name becomes the
truncated pointer. -/
theorem cx_rec3 :
    Record.toBytes (.null cxNmB .inn 0 [])
        ⟨(cxC25 ++ cxBig) ++ cxR2, 17038, cxOcc⟩
      = some ⟨((cxC25 ++ cxBig) ++ cxR2) ++ cxR3, 17050, cxOcc⟩ := by
  unfold Record.toBytes
  simp only [Record.name, Record.code, Record.cls, Record.ttl, bind,
    Option.bind]
  rw [cx_nameB_ptr]
  simp [Bytes.writeU16, Bytes.writeU32, writeAll_mk, RClass.toU16,
    cxR3, List.append_assoc]

/-- The counterexample message encodes to `cxBF`. -/
theorem cx_encode : Message.toBytes cxMsg Bytes.new = some cxBF := by
  unfold cxMsg Message.toBytes
  simp only [bind, Option.bind]
  rw [show Header.toBytes cxHdr Bytes.new = ⟨cxH12, 12, []⟩ from rfl]
  rw [show encodeAll Question.toBytes [] (⟨cxH12, 12, []⟩ : Bytes)
    = some ⟨cxH12, 12, []⟩ from rfl]
  unfold encodeAll
  simp only [bind, Option.bind]
  rw [cx_rec1]
  unfold encodeAll
  simp only [bind, Option.bind]
  rw [cx_rec2]
  unfold encodeAll
  simp only [bind, Option.bind]
  rw [cx_rec3]
  unfold encodeAll
  unfold cxBF cxBuf
  simp [List.append_assoc]

theorem get_replicate (a : Nat) :
    ∀ n i, i < n → (List.replicate n a).get? i = some a := by
  intro n
  induction n with
  | zero => intro i h; omega
  | succ m ih =>
    intro i h
    cases i with
    | zero => rfl
    | succ j => exact ih j (by omega)

/-- `Bytes::read_u32` from four indexed bytes. -/
theorem readU32_get {B : List Nat} {p x y z w : Nat}
    {O : List (List Nat × Nat)} (hx : B.get? p = some x)
    (hy : B.get? (p + 1) = some y) (hz : B.get? (p + 2) = some z)
    (hw : B.get? (p + 3) = some w) :
    Bytes.readU32 ⟨B, p, O⟩
      = some (((x * 256 + y) * 256 + z) * 256 + w, ⟨B, p + 4, O⟩) := by
  unfold Bytes.readU32
  have h4 : (B.drop p).take 4 = [x, y, z, w] := by
    rw [drop_eq_cons_of_get hx, drop_eq_cons_of_get hy,
      drop_eq_cons_of_get hz, drop_eq_cons_of_get hw]
    rfl
  rw [readExact_get h4 rfl]

theorem cxC25_length : cxC25.length = 25 := rfl

theorem cxPre_length : (cxC25 ++ cxBig).length = 17025 := by
  rw [List.length_append, cxC25_length, cxBig_length]

theorem cxBuf_length : cxBuf.length = 17050 := by
  rw [show cxBuf = cxC25 ++ (cxBig ++ (cxR2 ++ cxR3)) from rfl]
  simp only [List.length_append, cxC25_length, cxBig_length]
  rfl

theorem cx_split : cxBuf = (cxC25 ++ cxBig) ++ (cxR2 ++ cxR3) := by
  rw [show cxBuf = cxC25 ++ (cxBig ++ (cxR2 ++ cxR3)) from rfl,
    List.append_assoc]

/-- Indexing the counterexample buffer past the first record. -/
theorem cx_get_hi (k v : Nat) (h : (cxR2 ++ cxR3).get? k = some v) :
    cxBuf.get? (17025 + k) = some v := by
  rw [cx_split, List.get?_append_right (by rw [cxPre_length]; omega),
    cxPre_length, show 17025 + k - 17025 = k from by omega]
  exact h

/-- Indexing the counterexample buffer inside the header and first
record. -/
theorem cx_get_lo (k v : Nat) (h : cxC25.get? k = some v) :
    cxBuf.get? k = some v := by
  rw [show cxBuf = cxC25 ++ (cxBig ++ (cxR2 ++ cxR3)) from rfl,
    List.get?_append (get_lt_length h)]
  exact h

theorem cx_get_641 : cxBuf.get? 641 = some 200 := by
  rw [show cxBuf = cxC25 ++ (cxBig ++ (cxR2 ++ cxR3)) from rfl,
    List.get?_append_right (by rw [cxC25_length]; omega),
    cxC25_length, show (641 - 25 : Nat) = 616 from by omega,
    List.get?_append (by rw [cxBig_length]; omega),
    show cxBig = List.replicate 17000 200 from rfl]
  exact get_replicate 200 17000 616 (by omega)

theorem cx_get_642 : cxBuf.get? 642 = some 200 := by
  rw [show cxBuf = cxC25 ++ (cxBig ++ (cxR2 ++ cxR3)) from rfl,
    List.get?_append_right (by rw [cxC25_length]; omega),
    cxC25_length, show (642 - 25 : Nat) = 617 from by omega,
    List.get?_append (by rw [cxBig_length]; omega),
    show cxBig = List.replicate 17000 200 from rfl]
  exact get_replicate 200 17000 617 (by omega)

/-- Decoding the third record's owner name fails: the truncated pointer
target 641 holds the byte 200, which reads as a pointer whose target
2248 is not below the bound 641. -/
theorem cx_name3_err :
    Name.fromBytes ⟨cxBuf, 17038, []⟩ = .error .fmt := by
  have g38 : cxBuf.get? 17038 = some 194 := by
    have h := cx_get_hi 13 194 rfl
    simpa using h
  have g39 : cxBuf.get? 17039 = some 129 := by
    have h := cx_get_hi 14 129 rfl
    simpa using h
  have hu : Bytes.readU16 ⟨cxBuf, 17038, []⟩
      = some (49793, ⟨cxBuf, 17040, []⟩) := by
    have h := @readU16_get cxBuf 17038 194 129 [] g38 g39
    simpa using h
  have hu2 : Bytes.readU16 ⟨cxBuf, 641, []⟩
      = some (51400, ⟨cxBuf, 643, []⟩) := by
    have h := @readU16_get cxBuf 641 200 200 [] cx_get_641 cx_get_642
    simpa using h
  have hloop : Name.fromBytesLoop 2 ⟨cxBuf, 17038, []⟩ [] none 17038
      = .error .fmt := by
    rw [show (2 : Nat) = 1 + 1 from rfl]
    unfold Name.fromBytesLoop
    rw [peek_get g38]
    dsimp only
    rw [if_pos (by decide)]
    rw [hu]
    dsimp only
    rw [if_neg (by decide)]
    rw [show (49793 &&& 16383 : Nat) = 641 from by decide]
    rw [show (1 : Nat) = 0 + 1 from rfl]
    unfold Name.fromBytesLoop
    rw [peek_get cx_get_641]
    dsimp only
    rw [if_pos (by decide)]
    rw [hu2]
    dsimp only
    rw [if_pos (by decide)]
  have hfuel : Name.loopFuel ⟨cxBuf, 17038, []⟩ = 2 + 290549027 := by
    unfold Name.loopFuel
    dsimp only
    rw [cxBuf_length]
  unfold Name.fromBytes
  dsimp only
  rw [hfuel]
  exact fromBytesLoop_mono 290549027 2 ⟨cxBuf, 17038, []⟩ [] none 17038
    (.error .fmt) (by simp) hloop

/-- Decoding the first record's owner name. -/
theorem cx_name1 :
    Name.fromBytes ⟨cxBuf, 12, []⟩
      = .ok (⟨[[97], []]⟩, ⟨cxBuf, 15, []⟩) := by
  have hr := @SpineR.root cxC25 14 12 (by decide)
  have hl := @SpineR.label cxC25 [97] [[]] 12 12 _ _ (by decide)
    (by decide) (by decide) (by decide) (by decide) hr
  have hfull := hl.append (cxBig ++ (cxR2 ++ cxR3))
  have h := spine_fromBytes hfull (by decide)
    ([] : List (List Nat × Nat))
  rw [show cxBuf = cxC25 ++ (cxBig ++ (cxR2 ++ cxR3)) from rfl]
  simpa using h

/-- Decoding the second record's owner name. -/
theorem cx_name2 :
    Name.fromBytes ⟨cxBuf, 17025, []⟩
      = .ok (⟨[[98], []]⟩, ⟨cxBuf, 17028, []⟩) := by
  have g0 : cxBuf.get? 17025 = some 1 := by
    simpa using cx_get_hi 0 1 rfl
  have g2 : cxBuf.get? 17027 = some 0 := by
    simpa using cx_get_hi 2 0 rfl
  have hdrop : cxBuf.drop 17025 = cxR2 ++ cxR3 := by
    rw [cx_split, show (17025 : Nat) = (cxC25 ++ cxBig).length from
      cxPre_length.symm]
    exact List.drop_left _ _
  have hc2 : (cxBuf.drop 17026).take 1 = [98] := by
    rw [show cxBuf.drop 17026 = (cxBuf.drop 17025).drop 1 from
      (List.drop_drop 1 17025 cxBuf).symm, hdrop]
    decide
  have hrest := @SpineR.root cxBuf 17027 17025 g2
  have hl := @SpineR.label cxBuf [98] [[]] 17025 17025 _ _ (by decide)
    (by decide) (by decide) g0 hc2 hrest
  have h := spine_fromBytes hl (by decide) ([] : List (List Nat × Nat))
  simpa using h

/-- Decoding the first counterexample record. -/
theorem cx_rdec1 :
    Record.fromBytes ⟨cxBuf, 12, []⟩
      = .ok (.null cxNmA .inn 0 cxBig, ⟨cxBuf, 17025, []⟩) := by
  have hu1 : Bytes.readU16 ⟨cxBuf, 15, []⟩
      = some (10, ⟨cxBuf, 17, []⟩) := by
    have h := @readU16_get cxBuf 15 0 10 [] (cx_get_lo 15 0 rfl)
      (show cxBuf.get? (15 + 1) = some 10 from cx_get_lo 16 10 rfl)
    simpa using h
  have hu2 : Bytes.readU16 ⟨cxBuf, 17, []⟩
      = some (1, ⟨cxBuf, 19, []⟩) := by
    have h := @readU16_get cxBuf 17 0 1 [] (cx_get_lo 17 0 rfl)
      (show cxBuf.get? (17 + 1) = some 1 from cx_get_lo 18 1 rfl)
    simpa using h
  have hu3 : Bytes.readU32 ⟨cxBuf, 19, []⟩
      = some (0, ⟨cxBuf, 23, []⟩) := by
    have h := @readU32_get cxBuf 19 0 0 0 0 [] (cx_get_lo 19 0 rfl)
      (show cxBuf.get? (19 + 1) = some 0 from cx_get_lo 20 0 rfl)
      (show cxBuf.get? (19 + 2) = some 0 from cx_get_lo 21 0 rfl)
      (show cxBuf.get? (19 + 3) = some 0 from cx_get_lo 22 0 rfl)
    simpa using h
  have hu4 : Bytes.readU16 ⟨cxBuf, 23, []⟩
      = some (17000, ⟨cxBuf, 25, []⟩) := by
    have h := @readU16_get cxBuf 23 66 104 [] (cx_get_lo 23 66 rfl)
      (show cxBuf.get? (23 + 1) = some 104 from cx_get_lo 24 104 rfl)
    simpa using h
  have hdrop25 : cxBuf.drop 25 = cxBig ++ (cxR2 ++ cxR3) := by
    rw [show cxBuf = cxC25 ++ (cxBig ++ (cxR2 ++ cxR3)) from rfl,
      show (25 : Nat) = cxC25.length from rfl]
    exact List.drop_left _ _
  have hre : Bytes.readExact ⟨cxBuf, 25, []⟩ 17000
      = some (cxBig, ⟨cxBuf, 17025, []⟩) := by
    have htake : (cxBuf.drop 25).take 17000 = cxBig := by
      rw [hdrop25,
        show (17000 : Nat) = cxBig.length from cxBig_length.symm]
      exact List.take_left _ _
    have h := @readExact_get cxBuf 25 17000 cxBig [] htake cxBig_length
    simpa using h
  unfold Record.fromBytes
  simp only [bind, Except.bind]
  rw [cx_name1]
  dsimp only
  rw [hu1]
  dsimp only
  rw [hu2]
  dsimp only
  rw [show RClass.fromU16 1 = some RClass.inn from rfl]
  dsimp only
  rw [hu3]
  dsimp only
  rw [hu4]
  dsimp only
  rw [hre]
  rfl

/-- Decoding the second counterexample record. -/
theorem cx_rdec2 :
    Record.fromBytes ⟨cxBuf, 17025, []⟩
      = .ok (.null cxNmB .inn 0 [], ⟨cxBuf, 17038, []⟩) := by
  have hu1 : Bytes.readU16 ⟨cxBuf, 17028, []⟩
      = some (10, ⟨cxBuf, 17030, []⟩) := by
    have h := @readU16_get cxBuf 17028 0 10 []
      (show cxBuf.get? 17028 = some 0 from cx_get_hi 3 0 rfl)
      (show cxBuf.get? (17028 + 1) = some 10 from cx_get_hi 4 10 rfl)
    simpa using h
  have hu2 : Bytes.readU16 ⟨cxBuf, 17030, []⟩
      = some (1, ⟨cxBuf, 17032, []⟩) := by
    have h := @readU16_get cxBuf 17030 0 1 []
      (show cxBuf.get? 17030 = some 0 from cx_get_hi 5 0 rfl)
      (show cxBuf.get? (17030 + 1) = some 1 from cx_get_hi 6 1 rfl)
    simpa using h
  have hu3 : Bytes.readU32 ⟨cxBuf, 17032, []⟩
      = some (0, ⟨cxBuf, 17036, []⟩) := by
    have h := @readU32_get cxBuf 17032 0 0 0 0 []
      (show cxBuf.get? 17032 = some 0 from cx_get_hi 7 0 rfl)
      (show cxBuf.get? (17032 + 1) = some 0 from cx_get_hi 8 0 rfl)
      (show cxBuf.get? (17032 + 2) = some 0 from cx_get_hi 9 0 rfl)
      (show cxBuf.get? (17032 + 3) = some 0 from cx_get_hi 10 0 rfl)
    simpa using h
  have hu4 : Bytes.readU16 ⟨cxBuf, 17036, []⟩
      = some (0, ⟨cxBuf, 17038, []⟩) := by
    have h := @readU16_get cxBuf 17036 0 0 []
      (show cxBuf.get? 17036 = some 0 from cx_get_hi 11 0 rfl)
      (show cxBuf.get? (17036 + 1) = some 0 from cx_get_hi 12 0 rfl)
    simpa using h
  have hre : Bytes.readExact ⟨cxBuf, 17038, []⟩ 0
      = some ([], ⟨cxBuf, 17038, []⟩) := by
    have h := @readExact_get cxBuf 17038 0 [] [] rfl rfl
    simpa using h
  unfold Record.fromBytes
  simp only [bind, Except.bind]
  rw [cx_name2]
  dsimp only
  rw [hu1]
  dsimp only
  rw [hu2]
  dsimp only
  rw [show RClass.fromU16 1 = some RClass.inn from rfl]
  dsimp only
  rw [hu3]
  dsimp only
  rw [hu4]
  dsimp only
  rw [hre]
  rfl

/-- Decoding the third counterexample record fails on its owner name. -/
theorem cx_rdec3 :
    Record.fromBytes ⟨cxBuf, 17038, []⟩ = .error .fmt := by
  unfold Record.fromBytes
  simp only [bind, Except.bind]
  rw [cx_name3_err]

/-- Decoding the counterexample encoding fails with a format error. -/
theorem cx_decode :
    Message.fromBytes (Bytes.fromBuf cxBuf) = .error .fmt := by
  have hhdr2 : Header.fromBytes ⟨cxBuf, 0, []⟩
      = .ok (cxHdr, ⟨cxBuf, 12, []⟩) := by
    rw [show cxBuf = [] ++ headerWire cxHdr
      ++ ([1, 97, 0, 0, 10, 0, 1, 0, 0, 0, 0, 66, 104]
        ++ (cxBig ++ (cxR2 ++ cxR3))) from by
      rw [show headerWire cxHdr = cxH12 from rfl]
      rfl]
    have h := header_decode cxHdr []
      ([1, 97, 0, 0, 10, 0, 1, 0, 0, 0, 0, 66, 104]
        ++ (cxBig ++ (cxR2 ++ cxR3))) []
      (by decide) (by decide) (by decide) (by decide) (by decide)
    simpa using h
  have hd3 : decodeN Record.fromBytes 3 ⟨cxBuf, 12, []⟩
      = .error .fmt := by
    rw [show (3 : Nat) = 2 + 1 from rfl]
    unfold decodeN
    simp only [bind, Except.bind]
    rw [cx_rdec1]
    dsimp only
    rw [show (2 : Nat) = 1 + 1 from rfl]
    unfold decodeN
    simp only [bind, Except.bind]
    rw [cx_rdec2]
    dsimp only
    rw [show (1 : Nat) = 0 + 1 from rfl]
    unfold decodeN
    simp only [bind, Except.bind]
    rw [cx_rdec3]
  unfold Message.fromBytes
  simp only [bind, Except.bind]
  rw [show Bytes.fromBuf cxBuf = ⟨cxBuf, 0, []⟩ from rfl]
  rw [hhdr2]
  dsimp only
  rw [show cxHdr.questionCount = 0 from rfl]
  rw [show decodeN Question.fromBytes 0 (⟨cxBuf, 12, []⟩ : Bytes)
    = .ok ([], ⟨cxBuf, 12, []⟩) from rfl]
  dsimp only
  rw [show cxHdr.answerCount = 3 from rfl]
  rw [hd3]

/-- C1, counterexample to the unbounded claim: the counterexample message
is valid (header counts match the sections, names are well formed, all
payloads in range), encodes successfully to 17050 bytes, yet decoding the
encoding fails with a format error instead of returning the message: the
third record's owner name was written as a compression pointer to offset
17025, which does not fit in the pointer's 14 bits. -/
theorem claim_c1_counterexample :
    ValidMessage cxMsg ∧
    Message.toBytes cxMsg Bytes.new = some cxBF ∧
    16384 < cxBF.buf.length ∧
    Message.fromBytes (Bytes.fromBuf cxBF.buf) = .error .fmt := by
  refine ⟨?_, cx_encode, ?_, cx_decode⟩
  · refine ⟨by decide, rfl, rfl, rfl, rfl, by decide, by decide,
      by decide, by decide, ?_, ?_, ?_, ?_⟩
    · intro q hq
      exact absurd hq (List.not_mem_nil q)
    · intro r hr
      simp only [cxMsg, List.mem_cons, List.not_mem_nil, or_false] at hr
      rcases hr with h | h | h
      · subst h
        exact ⟨⟨by decide, by decide⟩, by decide,
          by rw [cxBig_length]; omega⟩
      · subst h
        exact ⟨⟨by decide, by decide⟩, by decide, by decide⟩
      · subst h
        exact ⟨⟨by decide, by decide⟩, by decide, by decide⟩
    · intro r hr
      exact absurd hr (List.not_mem_nil r)
    · intro r hr
      exact absurd hr (List.not_mem_nil r)
  · rw [show cxBF.buf = cxBuf from rfl, cxBuf_length]
    omega

end Dex
